import Mathlib

/-!
# StateMQ: a shallow embedding of the state engine and of its backends

The engine of `components/statemq/core/StateMQ.cpp` is embedded as pure functions on a
record of its member variables.

* A `const char*` argument is an `Option CStr`: `none` is the null pointer and `some l` is a
  pointer to the NUL-terminated string whose characters before the terminator are `l`.
* A fixed array with a fill count (`rules` and `ruleCount_`, `tasks` and `taskCount_`,
  `knownStates` and `knownStateCount`) is the list of its filled slots; the count is the
  length of the list.
* A state id (`StateMQ::StateId`, a `uint8_t`) is a natural number, reduced modulo 256
  where the code casts.
* The recursive mutex is not represented: every member function is one atomic step.
* A member function that may notify returns an `Effect`: the engine afterwards, the
  notification contexts for which `fire` was set, and the handler invocations made.
* The two platform backends (`platform/esp_idf/StateMQ_ESP.cpp` and the Arduino
  `StateMQ_ESP32.cpp`) are embedded in the same way, as pure functions on records of their
  member variables, the engine they refer to included. What the platform decides during a
  call (whether an allocation succeeds, the handle that a creation returns, the reading of
  the clock, the status of the link) is an argument of the function; the requests made to
  the MQTT client and the invocations of application handlers are returned as a list of
  `ExtCall`. The wrapper `StateMQEsp::taskEnable` is a function of the engine and of the
  task handle array.
* The bytes of an inbound message are a `List Char` that may contain NUL; `cstr` is the C
  string that such a buffer holds.
* The state-change handler of a backend is also run on a sequence of notifications
  (`Notice`, `handleAll`): each notification carries the context handed over by the engine
  together with the client handle, the session flag and the clock reading of that moment.
-/

namespace statemq

/-- The characters of a NUL-terminated C string, terminator excluded. -/
abbrev CStr := List Char

/-- A function pointer or `void*`: `none` is `nullptr`, `some a` an address. -/
abbrev Ptr := Option Nat

/-- The constant `StateMQ::OFFLINE_STATE`. -/
def OFFLINE_STATE : CStr := ['O', 'F', 'F', 'L', 'I', 'N', 'E']

/-- The constant `StateMQ::CONNECTED_STATE`. -/
def CONNECTED_STATE : CStr := ['C', 'O', 'N', 'N', 'E', 'C', 'T', 'E', 'D']

/-- The constant `StateMQ::OFFLINE_ID`. -/
def OFFLINE_ID : Nat := 0

/-- The constant `StateMQ::CONNECTED_ID`. -/
def CONNECTED_ID : Nat := 1

/-- Maximum number of user-defined states. -/
def MAX_KNOWN_STATES : Nat := 32

/-- Maximum number of rules. -/
def MAX_RULES : Nat := 32

/-- Maximum number of scheduled periodic tasks. -/
def MAX_TASKS : Nat := 8

/-- Maximum length of state names, terminator included. -/
def STATE_LEN : Nat := 16

/-- The largest `size_t` of the 32-bit target; `(TaskId)-1` is this value. -/
def SIZE_MAX : Nat := 4294967295

/-- The library function `strcmp`: only the sign of the result is specified. -/
def strcmp : CStr → CStr → Int
  | [], [] => 0
  | [], _ :: _ => -1
  | _ :: _, [] => 1
  | a :: as, b :: bs =>
    if a = b then strcmp as bs else if a.toNat < b.toNat then -1 else 1

/-- The library function `strncmp`: compares at most `n` characters. -/
def strncmp : CStr → CStr → Nat → Int
  | _, _, 0 => 0
  | [], [], _ + 1 => 0
  | [], _ :: _, _ + 1 => -1
  | _ :: _, [], _ + 1 => 1
  | a :: as, b :: bs, n + 1 =>
    if a = b then strncmp as bs n else if a.toNat < b.toNat then -1 else 1

/-- The cast `(int16_t)i` of a `size_t`. -/
def toInt16 (i : Nat) : Int :=
  if i % 65536 < 32768 then (i % 65536 : Nat) else ((i % 65536 : Nat) : Int) - 65536

/-- The cast `(Nat)n` to `uint8_t`. -/
def toStateId (n : Nat) : Nat := n % 256

/-- Resource hint for scheduled callbacks. -/
inductive Stack where
  | Small
  | Medium
  | Large
  deriving DecidableEq, Repr

/-- A scheduled periodic callback descriptor. -/
structure TaskDef where
  name : Option CStr
  period_ms : Nat
  stack : Stack
  callback : Ptr
  callbackEx : Ptr
  user : Ptr
  enabled : Bool
  deriving DecidableEq, Repr

/-- Maps an incoming topic + payload to a declared state. -/
structure Rule where
  topic : CStr
  message : CStr
  stateId : Nat
  deriving DecidableEq, Repr

/-- The enumeration `StateMQ::StateChangeCause`. -/
inductive StateChangeCause where
  | Unknown
  | RuleMatch
  | Connected
  | Disconn
  deriving DecidableEq, Repr

/-- The notification context `StateMQ::StateChangeCtx`. -/
structure StateChangeCtx where
  prev : Nat
  desired : Nat
  curr : Nat
  cause : StateChangeCause
  ruleIndex : Int
  topic : Option CStr
  payload : Option CStr
  user : Ptr
  deriving DecidableEq, Repr

/-- One invocation of a registered handler. -/
inductive CbCall where
  | cb (fn : Nat) (prev next : Nat)
  | cbEx (fn : Nat) (ctx : StateChangeCtx)
  deriving DecidableEq, Repr

/-- The member variables of `class StateMQ`. -/
structure StateMQ where
  rules : List Rule
  tasks : List TaskDef
  stateId_ : Nat
  lastUserStateId_ : Nat
  knownStates : List CStr
  connected_ : Bool
  stateCb : Ptr
  stateCbEx : Ptr
  stateCbUser : Ptr
  deriving DecidableEq, Repr

/-- What a notifying member function did: the engine afterwards, the contexts for which
`fire` was set, and the handler invocations. -/
structure Effect where
  node : StateMQ
  fired : List StateChangeCtx
  calls : List CbCall
  deriving DecidableEq, Repr

/-- The loop of `isKnownState` and `stateIdForKnown` over `knownStates[i..]`:
the first index whose entry equals `s` on `STATE_LEN` characters. -/
def knownIndex (s : CStr) : List CStr → Nat → Option Nat
  | [], _ => none
  | k :: ks, i => if strncmp k s STATE_LEN = 0 then some i else knownIndex s ks (i + 1)

/-- The member function `StateMQ::isKnownState`. -/
def StateMQ.isKnownState (n : StateMQ) (s : Option CStr) : Bool :=
  match s with
  | none => false
  | some s =>
    if strncmp s OFFLINE_STATE STATE_LEN = 0 then true
    else if strncmp s CONNECTED_STATE STATE_LEN = 0 then true
    else (knownIndex s n.knownStates 0).isSome

/-- The member function `StateMQ::addKnownState`; the stored copy is cut to
`STATE_LEN - 1` characters by `strncpy` and the forced terminator. -/
def StateMQ.addKnownState (n : StateMQ) (s : Option CStr) : StateMQ :=
  match s with
  | none => n
  | some s =>
    if strncmp s OFFLINE_STATE STATE_LEN = 0 then n
    else if strncmp s CONNECTED_STATE STATE_LEN = 0 then n
    else if n.isKnownState (some s) then n
    else if n.knownStates.length ≥ MAX_KNOWN_STATES then n
    else { n with knownStates := n.knownStates ++ [s.take (STATE_LEN - 1)] }

/-- The member function `StateMQ::stateIdForKnown`. -/
def StateMQ.stateIdForKnown (n : StateMQ) (s : Option CStr) : Nat :=
  match s with
  | none => CONNECTED_ID
  | some s =>
    if strncmp s OFFLINE_STATE STATE_LEN = 0 then OFFLINE_ID
    else if strncmp s CONNECTED_STATE STATE_LEN = 0 then CONNECTED_ID
    else
      match knownIndex s n.knownStates 0 with
      | some i => toStateId (2 + i)
      | none => CONNECTED_ID

/-- The member function `StateMQ::stateStrForId`. -/
def StateMQ.stateStrForId (n : StateMQ) (id : Nat) : CStr :=
  if id = OFFLINE_ID then OFFLINE_STATE
  else if id = CONNECTED_ID then CONNECTED_STATE
  else
    match n.knownStates.get? (id - 2) with
    | some k => k
    | none => CONNECTED_STATE

/-- The constructor `StateMQ::StateMQ`. -/
def StateMQ.ctor : StateMQ :=
  { rules := []
    tasks := []
    stateId_ := OFFLINE_ID
    lastUserStateId_ := CONNECTED_ID
    knownStates := []
    connected_ := false
    stateCb := none
    stateCbEx := none
    stateCbUser := none }

/-- The member function `StateMQ::map`: the returned id and the engine afterwards. -/
def StateMQ.map (n : StateMQ) (topic message state : Option CStr) : Nat × StateMQ :=
  match topic, message, state with
  | some t, some m, some st =>
    if n.rules.length ≥ MAX_RULES then (CONNECTED_ID, n)
    else if strncmp st OFFLINE_STATE STATE_LEN = 0 then (OFFLINE_ID, n)
    else if strncmp st CONNECTED_STATE STATE_LEN = 0 then (CONNECTED_ID, n)
    else
      let n1 := n.addKnownState (some st)
      let id := n1.stateIdForKnown (some st)
      (id, { n1 with rules := n1.rules ++ [{ topic := t, message := m, stateId := id }] })
  | _, _, _ => (CONNECTED_ID, n)

/-- The member function `StateMQ::taskEvery`, plain-callback overload. -/
def StateMQ.taskEvery (n : StateMQ) (name : Option CStr) (period_ms : Nat) (stack : Stack)
    (callback : Ptr) (enabled : Bool) : Nat × StateMQ :=
  match callback with
  | none => (SIZE_MAX, n)
  | some f =>
    if n.tasks.length ≥ MAX_TASKS then (SIZE_MAX, n)
    else
      (n.tasks.length,
        { n with tasks := n.tasks ++ [{ name := name, period_ms := period_ms, stack := stack,
                                        callback := some f, callbackEx := none, user := none,
                                        enabled := enabled }] })

/-- The member function `StateMQ::taskEvery`, overload with a context pointer. -/
def StateMQ.taskEveryEx (n : StateMQ) (name : Option CStr) (period_ms : Nat) (stack : Stack)
    (callback : Ptr) (user : Ptr) (enabled : Bool) : Nat × StateMQ :=
  match callback with
  | none => (SIZE_MAX, n)
  | some f =>
    if n.tasks.length ≥ MAX_TASKS then (SIZE_MAX, n)
    else
      (n.tasks.length,
        { n with tasks := n.tasks ++ [{ name := name, period_ms := period_ms, stack := stack,
                                        callback := none, callbackEx := some f, user := user,
                                        enabled := enabled }] })

/-- The member function `StateMQ::taskEnable`. -/
def StateMQ.taskEnable (n : StateMQ) (id : Nat) (enable : Bool) : Bool × StateMQ :=
  if id ≥ n.tasks.length then (false, n)
  else (true, { n with tasks := n.tasks.modify (fun t => { t with enabled := enable }) id })

/-- The member function `StateMQ::taskEnabled`. -/
def StateMQ.taskEnabled (n : StateMQ) (id : Nat) : Bool :=
  match n.tasks.get? id with
  | some t => t.enabled
  | none => false

/-- The member function `StateMQ::state`; the thread-local copy is cut to
`STATE_LEN - 1` characters. -/
def StateMQ.state (n : StateMQ) : CStr :=
  let s :=
    if !n.connected_ then OFFLINE_STATE
    else if n.stateId_ ≥ 2 then
      match n.knownStates.get? (n.stateId_ - 2) with
      | some k => k
      | none => CONNECTED_STATE
    else CONNECTED_STATE
  s.take (STATE_LEN - 1)

/-- The member function `StateMQ::stateName`. -/
def StateMQ.stateName (n : StateMQ) (id : Nat) : CStr :=
  n.stateStrForId id

/-- The member function `StateMQ::stateId`. -/
def StateMQ.stateId (n : StateMQ) : Nat :=
  if !n.connected_ then OFFLINE_ID
  else if n.stateId_ ≥ 2 then n.stateId_
  else CONNECTED_ID

/-- The member function `StateMQ::connected`. -/
def StateMQ.connected (n : StateMQ) : Bool :=
  n.connected_

/-- The member function `StateMQ::onStateChange`, plain `(prev, next)` overload. -/
def StateMQ.onStateChange (n : StateMQ) (cb : Ptr) : StateMQ :=
  { n with stateCb := cb }

/-- The member function `StateMQ::onStateChange`, context overload. -/
def StateMQ.onStateChangeEx (n : StateMQ) (cb : Ptr) (user : Ptr) : StateMQ :=
  { n with stateCbEx := cb, stateCbUser := user }

/-- The member function `StateMQ::ruleCount`. -/
def StateMQ.ruleCount (n : StateMQ) : Nat :=
  n.rules.length

/-- The member function `StateMQ::taskCount`. -/
def StateMQ.taskCount (n : StateMQ) : Nat :=
  n.tasks.length

/-- The tail of `setStateId` once `fire` is set: the context is filled in and the
handlers captured under the lock are invoked, `cb` first and then `cbEx`. -/
def StateMQ.notify (n : StateMQ) (ctx : StateChangeCtx) : Effect :=
  { node := n
    fired := [ctx]
    calls :=
      (match n.stateCb with
        | some f => [CbCall.cb f ctx.prev ctx.curr]
        | none => []) ++
      (match n.stateCbEx with
        | some f => [CbCall.cbEx f ctx]
        | none => []) }

/-- The member function `StateMQ::setStateId`. -/
def StateMQ.setStateId (n : StateMQ) (desiredId : Nat) (userState : Bool)
    (cause : StateChangeCause) (topic payload : Option CStr) (ruleIndex : Int) : Effect :=
  let prev := n.stateId_
  if !n.connected_ then
    if n.stateId_ = OFFLINE_ID then { node := n, fired := [], calls := [] }
    else
      let n1 := { n with stateId_ := OFFLINE_ID }
      n1.notify { prev := prev, desired := desiredId, curr := n1.stateId_, cause := cause,
                  ruleIndex := ruleIndex, topic := topic, payload := payload,
                  user := n1.stateCbUser }
  else
    let applied :=
      if desiredId ≠ OFFLINE_ID ∧ desiredId ≠ CONNECTED_ID then
        (if desiredId - 2 ≥ n.knownStates.length then CONNECTED_ID else desiredId)
      else desiredId
    let n1 :=
      if userState = true ∧ applied ≠ OFFLINE_ID ∧ applied ≠ CONNECTED_ID then
        { n with lastUserStateId_ := applied }
      else n
    if n1.stateId_ = applied then { node := n1, fired := [], calls := [] }
    else
      let n2 := { n1 with stateId_ := applied }
      n2.notify { prev := prev, desired := desiredId, curr := n2.stateId_, cause := cause,
                  ruleIndex := ruleIndex, topic := topic, payload := payload,
                  user := n2.stateCbUser }

/-- The scan of `applyMessage` over `rules[i..]`: target and index of the first rule whose
topic and message both compare equal. -/
def matchRule (topic payload : CStr) : List Rule → Nat → Option (Nat × Nat)
  | [], _ => none
  | r :: rs, i =>
    if strcmp r.topic topic = 0 ∧ strcmp r.message payload = 0 then some (r.stateId, i)
    else matchRule topic payload rs (i + 1)

/-- The member function `StateMQ::applyMessage`: the returned flag and the effect. -/
def StateMQ.applyMessage (n : StateMQ) (topic payload : Option CStr) : Bool × Effect :=
  match topic, payload with
  | some t, some p =>
    match matchRule t p n.rules 0 with
    | some (matched, i) =>
      (true, n.setStateId matched true StateChangeCause.RuleMatch (some t) (some p) (toInt16 i))
    | none => (false, { node := n, fired := [], calls := [] })
  | _, _ => (false, { node := n, fired := [], calls := [] })

/-- The member function `StateMQ::setConnected`. -/
def StateMQ.setConnected (n : StateMQ) (connectedIn : Bool) : Effect :=
  let cause := if connectedIn then StateChangeCause.Connected else StateChangeCause.Disconn
  let n1 := { n with connected_ := connectedIn }
  let target :=
    if !n1.connected_ then OFFLINE_ID
    else if n1.lastUserStateId_ ≥ 2 then n1.lastUserStateId_ else CONNECTED_ID
  n1.setStateId target false cause none none (-1)

/-- One call of the public interface of the engine, with its arguments. -/
inductive Call where
  | map (topic message state : Option CStr)
  | taskEvery (name : Option CStr) (period_ms : Nat) (stack : Stack) (callback : Ptr)
      (enabled : Bool)
  | taskEveryEx (name : Option CStr) (period_ms : Nat) (stack : Stack) (callback : Ptr)
      (user : Ptr) (enabled : Bool)
  | taskEnable (id : Nat) (enable : Bool)
  | onStateChange (cb : Ptr)
  | onStateChangeEx (cb : Ptr) (user : Ptr)
  | applyMessage (topic payload : Option CStr)
  | setConnected (connectedIn : Bool)
  deriving DecidableEq, Repr

/-- The engine after one call of the public interface. -/
def StateMQ.step (n : StateMQ) : Call → StateMQ
  | Call.map t m st => (n.map t m st).2
  | Call.taskEvery nm per stk cb en => (n.taskEvery nm per stk cb en).2
  | Call.taskEveryEx nm per stk cb u en => (n.taskEveryEx nm per stk cb u en).2
  | Call.taskEnable id en => (n.taskEnable id en).2
  | Call.onStateChange cb => n.onStateChange cb
  | Call.onStateChangeEx cb u => n.onStateChangeEx cb u
  | Call.applyMessage t p => (n.applyMessage t p).2.node
  | Call.setConnected c => (n.setConnected c).node

/-- The engine after a sequence of calls, first call first. -/
def StateMQ.exec (n : StateMQ) (cs : List Call) : StateMQ :=
  cs.foldl StateMQ.step n

/-- The engine states that arise from the constructor by calls of the public interface. -/
def Reachable (n : StateMQ) : Prop :=
  ∃ cs : List Call, StateMQ.ctor.exec cs = n

/-- The outcomes of a sequence of `applyMessage` calls, one entry per call. -/
def StateMQ.applyAll (n : StateMQ) : List (Option CStr × Option CStr) → List (Bool × Effect)
  | [] => []
  | (t, p) :: ms => n.applyMessage t p :: (n.applyMessage t p).2.node.applyAll ms

/-- The engine after a sequence of `applyMessage` calls. -/
def StateMQ.afterAll (n : StateMQ) : List (Option CStr × Option CStr) → StateMQ
  | [] => n
  | (t, p) :: ms => (n.applyMessage t p).2.node.afterAll ms

/-- What holds of the member variables between calls of the public interface. -/
structure Inv (n : StateMQ) : Prop where
  known_le : n.knownStates.length ≤ MAX_KNOWN_STATES
  rules_le : n.rules.length ≤ MAX_RULES
  known_le_rules : n.knownStates.length ≤ n.rules.length
  names_short : ∀ k ∈ n.knownStates, k.length ≤ STATE_LEN - 1
  reserved : OFFLINE_STATE ∉ n.knownStates ∧ CONNECTED_STATE ∉ n.knownStates
  rule_ids : ∀ r ∈ n.rules,
    r.stateId = CONNECTED_ID ∨ (2 ≤ r.stateId ∧ r.stateId < 2 + n.knownStates.length)
  offline_iff : n.stateId_ = OFFLINE_ID ↔ n.connected_ = false
  state_id : n.stateId_ = OFFLINE_ID ∨ n.stateId_ = CONNECTED_ID ∨
    (2 ≤ n.stateId_ ∧ n.stateId_ < 2 + n.knownStates.length)
  last_id : n.lastUserStateId_ = CONNECTED_ID ∨
    (2 ≤ n.lastUserStateId_ ∧ n.lastUserStateId_ < 2 + n.knownStates.length)
  restore : n.connected_ = true → 2 ≤ n.stateId_ → n.lastUserStateId_ = n.stateId_

/-- Edge-exactness of one call: the call that took the engine from `before` to `e.node`
fired exactly one notification carrying the two public state ids if they differ, and
fired nothing and invoked no handler if they are the same. -/
def EdgeExact (before : StateMQ) (e : Effect) : Prop :=
  (e.node.stateId ≠ before.stateId →
    ∃ ctx, e.fired = [ctx] ∧ ctx.prev = before.stateId ∧ ctx.curr = e.node.stateId ∧
      ctx.prev ≠ ctx.curr ∧ e.calls = (e.node.notify ctx).calls) ∧
  (e.node.stateId = before.stateId → e.fired = [] ∧ e.calls = [])

/-! ## Engines of the scenarios -/

/-- A topic `"T"`. -/
def topicT : CStr := ['T']

/-- The payload `"run"`. -/
def payloadRun : CStr := ['r', 'u', 'n']

/-- The state name `"RUNNING"`. -/
def nameRunning : CStr := ['R', 'U', 'N', 'N', 'I', 'N', 'G']

/-- The fresh engine on which only `map("T", "run", "RUNNING")` has been called. -/
def runningNode : StateMQ :=
  StateMQ.ctor.exec [Call.map (some topicT) (some payloadRun) (some nameRunning)]

/-- The engine `runningNode` after `setConnected(true)`. -/
def runningNodeUp : StateMQ :=
  runningNode.exec [Call.setConnected true]

/-- The engine `runningNodeUp` after `applyMessage("T", "run")`: connected, in RUNNING. -/
def runningNodeIn : StateMQ :=
  runningNodeUp.exec [Call.applyMessage (some topicT) (some payloadRun)]

/-- The topic `"s"`. -/
def topicS : CStr := ['s']

/-- The payload `"hi"`. -/
def payloadHi : CStr := ['h', 'i']

/-- The payload `"bye"`. -/
def payloadBye : CStr := ['b', 'y', 'e']

/-- The payload `"unknown"`. -/
def payloadUnknown : CStr := ['u', 'n', 'k', 'n', 'o', 'w', 'n']

/-- The state name `"HELLO"`. -/
def nameHello : CStr := ['H', 'E', 'L', 'L', 'O']

/-- The state name `"BYE"`. -/
def nameBye : CStr := ['B', 'Y', 'E']

/-- The call `HELLO = map("s", "hi", "HELLO")` on the fresh engine. -/
def helloMap : Nat × StateMQ :=
  StateMQ.ctor.map (some topicS) (some payloadHi) (some nameHello)

/-- The following call `BYE = map("s", "bye", "BYE")`. -/
def byeMap : Nat × StateMQ :=
  helloMap.2.map (some topicS) (some payloadBye) (some nameBye)

/-- The engine of the end-to-end scenario after `setConnected(true)`. -/
def helloNode : StateMQ :=
  (byeMap.2.setConnected true).node

/-- An engine whose rule table is full: `MAX_RULES` rules declared on a fresh engine. -/
def fullNode : StateMQ :=
  StateMQ.ctor.exec (List.replicate 32 (Call.map (some topicT) (some payloadRun) (some nameRunning)))

/-- An engine with two rules for the pair `("s", "hi")`, connected. -/
def twoRuleNode : StateMQ :=
  StateMQ.ctor.exec
    [Call.map (some topicS) (some payloadHi) (some nameHello),
     Call.map (some topicS) (some payloadHi) (some nameBye),
     Call.setConnected true]

/-! ## The platform wrapper for task enabling -/

/-- A request that the platform wrapper makes to the scheduler for a task handle. -/
inductive SchedOp where
  | resume (handle : Nat)
  | suspend (handle : Nat)
  deriving DecidableEq, Repr

/-- The member function `StateMQEsp::taskEnable` of the ESP-IDF backend on the engine
`core`; `taskHandles` is `none` for a null array and otherwise the `taskHandlesCount`
handles. The result is the returned flag, the engine afterwards and the scheduler
requests made. -/
def StateMQEsp.taskEnable (core : StateMQ) (taskHandles : Option (List Ptr)) (id : Nat)
    (enable : Bool) : Bool × StateMQ × List SchedOp :=
  if id ≥ core.taskCount then (false, core, [])
  else
    match taskHandles with
    | none => (false, core, [])
    | some hs =>
      if id ≥ hs.length then (false, core, [])
      else
        match hs.get? id with
        | some (some h) =>
          (true, (core.taskEnable id enable).2,
            [if enable then SchedOp.resume h else SchedOp.suspend h])
        | _ => (false, (core.taskEnable id enable).2, [])

/-! ## Names for the boundary scenarios -/

/-- A state name of 16 characters, one more than a registry slot holds. -/
def nameLong : CStr :=
  ['A', 'B', 'C', 'D', 'E', 'F', 'G', 'H', 'I', 'J', 'K', 'L', 'M', 'N', 'O', 'P']

/-- The engine on which only `map("T", "run", nameLong)` has been called. -/
def longNode : StateMQ :=
  StateMQ.ctor.exec [Call.map (some topicT) (some payloadRun) (some nameLong)]

/-! ## Declaration order, in the words of the specification -/

/-- Every state name passed to `map` in the calls `cs` has at most 15 characters. -/
def ShortNames (cs : List Call) : Prop :=
  ∀ c ∈ cs, ∀ (t m : Option CStr) (s : CStr), c = Call.map t m (some s) → s.length ≤ 15

/-- Specification wording, "a non-reserved state name passed to a successful map call":
the name that the call `c`, made on the engine `n`, declares. A `map` call is successful
when its arguments are non-null and the rule table has room. -/
def declares (n : StateMQ) : Call → Option CStr
  | Call.map (some _) (some _) (some s) =>
    if n.ruleCount < MAX_RULES ∧ s ≠ OFFLINE_STATE ∧ s ≠ CONNECTED_STATE then some s
    else none
  | _ => none

/-- Specification wording, "the distinct non-reserved state names passed to successful map
calls, in declaration order": the names `acc` declared so far, followed by the names that
the calls `cs`, made one after the other from the engine `n`, declare for the first time.
The `k`-th distinct name is the entry at index `k - 1`. -/
def declaredNames (n : StateMQ) (acc : List CStr) : List Call → List CStr
  | [] => acc
  | c :: cs =>
    declaredNames (n.step c)
      (match declares n c with
        | some s => if s ∈ acc then acc else acc ++ [s]
        | none => acc)
      cs

/-- The notification context of the transition from CONNECTED to HELLO in the end-to-end
scenario. -/
def helloCtx : StateChangeCtx :=
  { prev := CONNECTED_ID, desired := 2, curr := 2, cause := StateChangeCause.RuleMatch,
    ruleIndex := 0, topic := some topicS, payload := some payloadHi, user := none }

/-- Every id of a user state held by the engine (in a rule, as current state or as last
user state) is the id of a registry entry that satisfies `D`. -/
def NamedBy (D : CStr → Prop) (n : StateMQ) : Prop :=
  (∀ r ∈ n.rules, 2 ≤ r.stateId → ∃ e, n.knownStates[r.stateId - 2]? = some e ∧ D e) ∧
  (2 ≤ n.stateId_ → ∃ e, n.knownStates[n.stateId_ - 2]? = some e ∧ D e) ∧
  (2 ≤ n.lastUserStateId_ → ∃ e, n.knownStates[n.lastUserStateId_ - 2]? = some e ∧ D e)

/-- The engine on which the empty string was declared as a state name and entered:
`map("T", "run", "")`, `setConnected(true)`, `applyMessage("T", "run")`. -/
def emptyNameNode : StateMQ :=
  StateMQ.ctor.exec
    [Call.map (some topicT) (some payloadRun) (some []),
     Call.setConnected true,
     Call.applyMessage (some topicT) (some payloadRun)]

/-! ## The engine under the backends -/

/-- An engine with two periodic tasks, the first enabled and the second disabled. -/
def taskNode : StateMQ :=
  StateMQ.ctor.exec
    [Call.taskEvery (some ['b', 'l', 'i', 'n', 'k']) 500 Stack.Small (some 7) true,
     Call.taskEveryEx none 1000 Stack.Large (some 8) (some 9) false]

/-- The handler invocations that one call of the public interface of the engine makes. -/
def StateMQ.stepCalls (n : StateMQ) : Call → List CbCall
  | Call.applyMessage t p => (n.applyMessage t p).2.calls
  | Call.setConnected c => (n.setConnected c).calls
  | _ => []

/-! ## The platform backends: shared parts -/

/-- The helper `clamp_qos` of the ESP-IDF backend; the Arduino backend writes the same two
tests inline. -/
def clamp_qos (q : Int) : Int :=
  if q < 0 then 0 else if q > 2 then 2 else q

/-- The cast `(int8_t)q`. -/
def toInt8 (q : Int) : Int :=
  (q + 128) % 256 - 128

/-- The C string that a character buffer holds: the bytes before the first NUL. -/
def cstr (bytes : List Char) : CStr :=
  bytes.takeWhile (fun c => c != Char.ofNat 0)

/-- The helper `dupstr`: a copy of the string, or null for a null argument and when the
allocation fails; `allocOk` tells whether the allocation succeeds. -/
def dupstr (allocOk : Bool) (s : Option CStr) : Option CStr :=
  match s with
  | none => none
  | some l => if allocOk then some l else none

/-- One filled entry of the QoS override table: `qosTopic[i]` and `qosValue[i]`. -/
structure QosEntry where
  topic : Option CStr
  value : Int
  deriving DecidableEq, Repr

/-- The scan of `qosForTopic` over the override table: the value of the first entry whose
topic is non-null and compares equal. -/
def qosLookup (topic : CStr) : List QosEntry → Option Int
  | [] => none
  | e :: es =>
    match e.topic with
    | some t => if strcmp t topic = 0 then some e.value else qosLookup topic es
    | none => qosLookup topic es

/-- The update scan over the override table: the table with the value of the first entry
whose topic is non-null and compares equal replaced by `(int8_t)q`, or `none` when no
entry compares equal. -/
def qosUpdate (topic : CStr) (q : Int) : List QosEntry → Option (List QosEntry)
  | [] => none
  | e :: es =>
    match e.topic with
    | some t =>
      if strcmp t topic = 0 then some ({ e with value := toInt8 q } :: es)
      else (qosUpdate topic q es).map (fun r => e :: r)
    | none => (qosUpdate topic q es).map (fun r => e :: r)

/-- One filled raw subscription slot (`struct RawSlot`); `topic` and `payload` are the C
strings held by the two character arrays. -/
structure RawSlot where
  topic : CStr
  payload : CStr
  hasNew : Bool
  deriving DecidableEq, Repr

/-- The scan of `rawIndex` over `raw[i..]`: the index of the first slot whose stored topic
is non-empty and compares equal. -/
def rawIndexFrom (topic : CStr) : List RawSlot → Nat → Option Nat
  | [], _ => none
  | r :: rs, i =>
    if r.topic ≠ [] ∧ strcmp r.topic topic = 0 then some i
    else rawIndexFrom topic rs (i + 1)

/-- A call that a backend makes to the MQTT client or to the Wi-Fi driver, or that the
engine makes to a handler of the application. -/
inductive ExtCall where
  | subscribe (topic : CStr) (qos : Int)
  | publish (topic payload : CStr) (qos : Int) (retain : Bool)
  | publishState (topic prevName currName : CStr) (uptime : Nat) (qos : Int)
      (retain : Bool)
  | reconnect
  | wifiDisconnect
  | handler (c : CbCall)
  deriving DecidableEq, Repr

/-- The address of the backend object, the `this` that it registers as handler context;
its value is immaterial. -/
def THIS : Nat := 1

/-- The address of the static member function `on_state_change_trampoline`; its value is
immaterial. -/
def TRAMPOLINE : Nat := 2

/-! ## The ESP-IDF backend -/

/-- The member variables of `class StateMQEsp`. The engine that the backend refers to is
held as `core`; the override arrays with `qosCount` are the list `qos`, the slot array with
`rawCount` is the list `raw`, and `taskHandles` is `none` for a null array and otherwise
the `taskHandlesCount` handles (`taskCtxs`, which runs parallel to it, is left out). -/
structure StateMQEsp where
  core : StateMQ
  wifiSsid : Option CStr
  wifiPass : Option CStr
  brokerUri : Option CStr
  stateTopic : Option CStr
  statePubQos : Int
  statePubEnabled : Bool
  statePubRetain : Bool
  client : Ptr
  wifiHasIp : Bool
  mqttConnected : Bool
  keepAliveSec : Nat
  defaultSubQos : Int
  defaultPubQos : Int
  retainState : Bool
  lwtEnabled : Bool
  willTopic : Option CStr
  willPayload : Option CStr
  willQos : Int
  willRetain : Bool
  qos : List QosEntry
  taskHandles : Option (List Ptr)
  raw : List RawSlot
  lastStatePub : Nat
  hasLastStatePub : Bool
  deriving DecidableEq, Repr

/-- The constant `StateMQEsp::MAX_RAW_SUBS`. -/
def StateMQEsp.MAX_RAW_SUBS : Nat := 16

/-- The constant `StateMQEsp::RAW_TOPIC_LEN`. -/
def StateMQEsp.RAW_TOPIC_LEN : Nat := 96

/-- The constant `StateMQEsp::RAW_PAYLOAD_LEN`. -/
def StateMQEsp.RAW_PAYLOAD_LEN : Nat := 256

/-- The constant `StateMQEsp::MAX_QOS_OVERRIDES`. -/
def StateMQEsp.MAX_QOS_OVERRIDES : Nat := 16

/-- The constructor `StateMQEsp::StateMQEsp(core)` with the member initialisers of the
class. -/
def StateMQEsp.ctor (core : StateMQ) : StateMQEsp :=
  { core := core, wifiSsid := none, wifiPass := none, brokerUri := none,
    stateTopic := none, statePubQos := -1, statePubEnabled := false,
    statePubRetain := true, client := none, wifiHasIp := false, mqttConnected := false,
    keepAliveSec := 30, defaultSubQos := 1, defaultPubQos := 1, retainState := true,
    lwtEnabled := false, willTopic := none, willPayload := none, willQos := 1,
    willRetain := true, qos := [], taskHandles := none, raw := [],
    lastStatePub := OFFLINE_ID, hasLastStatePub := false }

/-- The member function `StateMQEsp::setKeepAliveSeconds`. -/
def StateMQEsp.setKeepAliveSeconds (s : StateMQEsp) (sec : Nat) : StateMQEsp :=
  { s with keepAliveSec := if sec = 0 then 30 else sec }

/-- The member function `StateMQEsp::setDefaultSubscribeQos`. -/
def StateMQEsp.setDefaultSubscribeQos (s : StateMQEsp) (qos : Int) : StateMQEsp :=
  { s with defaultSubQos := clamp_qos qos }

/-- The member function `StateMQEsp::setDefaultPublishQos`. -/
def StateMQEsp.setDefaultPublishQos (s : StateMQEsp) (qos : Int) : StateMQEsp :=
  { s with defaultPubQos := clamp_qos qos }

/-- The member function `StateMQEsp::freeQosOverrides`. -/
def StateMQEsp.freeQosOverrides (s : StateMQEsp) : StateMQEsp :=
  { s with qos := [] }

/-- The member function `StateMQEsp::qosForTopic`. -/
def StateMQEsp.qosForTopic (s : StateMQEsp) (topic : Option CStr) : Int :=
  match topic with
  | none => s.defaultSubQos
  | some t =>
    match qosLookup t s.qos with
    | some v => v
    | none => s.defaultSubQos

/-- The member function `StateMQEsp::setLastWill`; `allocTopic` and `allocPayload` tell
whether the two copies can be allocated. -/
def StateMQEsp.setLastWill (s : StateMQEsp) (topic payload : Option CStr) (qos : Int)
    (retain : Bool) (allocTopic allocPayload : Bool) : StateMQEsp :=
  match topic, payload with
  | some t, some p =>
    match dupstr allocTopic (some t), dupstr allocPayload (some p) with
    | some wt, some wp =>
      { s with willTopic := some wt, willPayload := some wp,
               willQos := toInt8 (clamp_qos qos), willRetain := retain,
               lwtEnabled := true }
    | _, _ => { s with willTopic := none, willPayload := none, lwtEnabled := false }
  | _, _ => s

/-- The member function `StateMQEsp::clearLastWill`. -/
def StateMQEsp.clearLastWill (s : StateMQEsp) : StateMQEsp :=
  { s with willTopic := none, willPayload := none, lwtEnabled := false }

/-- The member function `StateMQEsp::rawIndex`; `none` is the result `-1`. -/
def StateMQEsp.rawIndex (s : StateMQEsp) (topic : Option CStr) : Option Nat :=
  match topic with
  | none => none
  | some t => rawIndexFrom t s.raw 0

/-- The member function `StateMQEsp::subscribe`: the returned flag, the backend afterwards
and the subscription requested from the client. `allocOk` tells whether the copy of the
topic for a new QoS override can be allocated. -/
def StateMQEsp.subscribe (s : StateMQEsp) (topic : Option CStr) (qos : Int)
    (allocOk : Bool) : Bool × StateMQEsp × List ExtCall :=
  match topic with
  | none => (false, s, [])
  | some t =>
    if t = [] then (false, s, [])
    else
      let q := clamp_qos qos
      let slotted : Option StateMQEsp :=
        match s.rawIndex (some t) with
        | some _ => some s
        | none =>
          if s.raw.length ≥ StateMQEsp.MAX_RAW_SUBS then none
          else
            some { s with raw := s.raw ++ [{ topic := t.take (StateMQEsp.RAW_TOPIC_LEN - 1),
                                             payload := [], hasNew := false }] }
      match slotted with
      | none => (false, s, [])
      | some s1 =>
        let s2 :=
          match qosUpdate t q s1.qos with
          | some tbl => { s1 with qos := tbl }
          | none =>
            if s1.qos.length < StateMQEsp.MAX_QOS_OVERRIDES then
              match dupstr allocOk (some t) with
              | some copy => { s1 with qos := s1.qos ++ [{ topic := some copy,
                                                           value := toInt8 q }] }
              | none => s1
            else s1
        (true, s2,
          if s2.mqttConnected = true ∧ s2.client ≠ none then [ExtCall.subscribe t q]
          else [])

/-- The member function `StateMQEsp::msg`: the string returned (`none` for null) and the
backend afterwards. -/
def StateMQEsp.msg (s : StateMQEsp) (topic : Option CStr) : Option CStr × StateMQEsp :=
  match topic with
  | none => (none, s)
  | some t =>
    if t = [] then (none, s)
    else
      match s.rawIndex (some t) with
      | none => (none, s)
      | some i =>
        match s.raw.get? i with
        | none => (none, s)
        | some slot =>
          if !slot.hasNew then (none, s)
          else
            (some slot.payload,
              { s with raw := s.raw.modify (fun r => { r with hasNew := false }) i })

/-- The member function `StateMQEsp::StatePublishTopic`; `allocOk` tells whether the copy
of the topic can be allocated. -/
def StateMQEsp.StatePublishTopic (s : StateMQEsp) (topic : Option CStr) (qos : Int)
    (enable retain : Bool) (allocOk : Bool) : StateMQEsp :=
  let st := dupstr allocOk (some (match topic with | some t => t | none => []))
  { s with stateTopic := st, statePubQos := qos,
           statePubEnabled := enable && (match st with | some t => t != [] | none => false),
           statePubRetain := retain, hasLastStatePub := false,
           lastStatePub := OFFLINE_ID }

/-- The static member function `StateMQEsp::on_state_change_trampoline`, run on the backend
`s` that `ctx.user` points to; `uptime` is the reading of `uptime_ms()`. The JSON payload
is recorded by its three parts. -/
def StateMQEsp.on_state_change_trampoline (s : StateMQEsp) (ctx : StateChangeCtx)
    (uptime : Nat) : StateMQEsp × List ExtCall :=
  match ctx.user with
  | none => (s, [])
  | some _ =>
    if !s.statePubEnabled then (s, [])
    else
      match s.stateTopic with
      | none => (s, [])
      | some st =>
        if st = [] then (s, [])
        else if s.client = none ∨ s.mqttConnected = false then (s, [])
        else
          let prevId := if s.hasLastStatePub then s.lastStatePub else ctx.prev
          let currId := ctx.curr
          let s1 := { s with lastStatePub := currId, hasLastStatePub := true }
          let q := clamp_qos (if s1.statePubQos < 0 then s1.defaultPubQos
                              else s1.statePubQos)
          (s1, [ExtCall.publishState st (s1.core.stateName prevId)
                  (s1.core.stateName currId) uptime q s1.retainState])

/-- The handler invocations made by the engine, as they reach the backend: an invocation
of the trampoline runs the telemetry code on this backend when its context is `this` (and
does nothing here when the context is null or another object); every other invocation is
a handler of the application and is recorded. -/
def StateMQEsp.deliver (s : StateMQEsp) (uptime : Nat) :
    List CbCall → StateMQEsp × List ExtCall
  | [] => (s, [])
  | CbCall.cbEx fn ctx :: rest =>
    if fn = TRAMPOLINE then
      if ctx.user = some THIS then
        let r := s.on_state_change_trampoline ctx uptime
        let r2 := StateMQEsp.deliver r.1 uptime rest
        (r2.1, r.2 ++ r2.2)
      else StateMQEsp.deliver s uptime rest
    else
      let r2 := StateMQEsp.deliver s uptime rest
      (r2.1, ExtCall.handler (CbCall.cbEx fn ctx) :: r2.2)
  | CbCall.cb fn prev next :: rest =>
    let r2 := StateMQEsp.deliver s uptime rest
    (r2.1, ExtCall.handler (CbCall.cb fn prev next) :: r2.2)

/-- A notifying call on the engine made through the backend: the engine is replaced by the
one after the call and the handler invocations are delivered. -/
def StateMQEsp.withCore (s : StateMQEsp) (e : Effect) (uptime : Nat) :
    StateMQEsp × List ExtCall :=
  StateMQEsp.deliver { s with core := e.node } uptime e.calls

/-- The static helper `topic_seen` over the `seen_n` filled entries of `seen`. -/
def topic_seen (topic : CStr) : List CStr → Bool
  | [] => false
  | x :: xs => if strcmp x topic = 0 then true else topic_seen topic xs

/-- The capacity of the array `seen` of `subscribeAllUnique`. -/
def StateMQEsp.SEEN_LEN : Nat := 64

/-- One of the two loops of `StateMQEsp::subscribeAllUnique`, over the topics `ts` in
order: the filled part of `seen` and the subscriptions requested so far, afterwards. -/
def StateMQEsp.subscribeLoop (s : StateMQEsp) :
    List CStr → List CStr → List ExtCall → List CStr × List ExtCall
  | [], seen, out => (seen, out)
  | t :: ts, seen, out =>
    if t = [] then StateMQEsp.subscribeLoop s ts seen out
    else if topic_seen t seen then StateMQEsp.subscribeLoop s ts seen out
    else
      StateMQEsp.subscribeLoop s ts
        (if seen.length < StateMQEsp.SEEN_LEN then seen ++ [t] else seen)
        (out ++ [ExtCall.subscribe t (s.qosForTopic (some t))])

/-- The member function `StateMQEsp::subscribeAllUnique`: the subscriptions requested from
the client, in order. -/
def StateMQEsp.subscribeAllUnique (s : StateMQEsp) : List ExtCall :=
  match s.client with
  | none => []
  | some _ =>
    let r := StateMQEsp.subscribeLoop s (s.core.rules.map (fun r => r.topic)) [] []
    (StateMQEsp.subscribeLoop s (s.raw.map (fun r => r.topic)) r.1 r.2).2

/-- The member function `StateMQEsp::cleanup`; `allocOk` tells whether the copy of the
empty telemetry topic can be allocated. Requests to the scheduler are not recorded. -/
def StateMQEsp.cleanup (s : StateMQEsp) (disconnect_wifi clear_config : Bool)
    (allocOk : Bool) (uptime : Nat) : StateMQEsp × List ExtCall :=
  let s1 := { s with client := none, wifiHasIp := false, mqttConnected := false }
  let r := s1.withCore (s1.core.setConnected false) uptime
  let s2 := { r.1 with taskHandles := none, wifiSsid := none, wifiPass := none,
                       brokerUri := none }
  let s3 :=
    if clear_config then
      (({ s2 with stateTopic := none, raw := [] }).freeQosOverrides.clearLastWill
        ).StatePublishTopic (some []) (-1) false true allocOk
    else s2
  (s3, r.2 ++ (if disconnect_wifi then [ExtCall.wifiDisconnect] else []))

/-- The member function `StateMQEsp::end`. -/
def StateMQEsp.end_ (s : StateMQEsp) (disconnect_wifi : Bool) (allocOk : Bool)
    (uptime : Nat) : StateMQEsp × List ExtCall :=
  s.cleanup disconnect_wifi true allocOk uptime

/-- What the platform answers during one call of `begin`: whether each of the three string
copies can be allocated, whether the empty telemetry topic can (on the failure path),
whether the handle array can, and for every task in turn the handle of the created task
(`none` when its context or the task could not be created). -/
structure BeginEnv where
  allocSsid : Bool
  allocPass : Bool
  allocUri : Bool
  allocTopic : Bool
  allocHandles : Bool
  created : List Ptr
  deriving DecidableEq, Repr

/-- The member function `StateMQEsp::begin`: the returned flag, the backend afterwards and
the calls made. The Wi-Fi driver calls, which abort the program when they fail, are taken
to succeed and are not recorded. -/
def StateMQEsp.begin (s : StateMQEsp) (wifi_ssid wifi_pass broker_uri : Option CStr)
    (env : BeginEnv) (uptime : Nat) : Bool × StateMQEsp × List ExtCall :=
  let r0 := s.cleanup false false env.allocTopic uptime
  match wifi_ssid, broker_uri with
  | some ssid, some uri =>
    let s1 : StateMQEsp := { r0.1 with
      wifiSsid := dupstr env.allocSsid (some ssid),
      wifiPass := dupstr env.allocPass (some (match wifi_pass with
                                              | some p => p
                                              | none => [])),
      brokerUri := dupstr env.allocUri (some uri) }
    if s1.wifiSsid = none ∨ s1.wifiPass = none ∨ s1.brokerUri = none then
      let r1 := s1.end_ false env.allocTopic uptime
      (false, r1.1, r0.2 ++ r1.2)
    else
      let r2 := s1.withCore (s1.core.setConnected false) uptime
      let s2 : StateMQEsp := { r2.1 with
        core := r2.1.core.onStateChangeEx (some TRAMPOLINE) (some THIS) }
      let s3 : StateMQEsp := { s2 with
        taskHandles :=
          if env.allocHandles then
            some ((List.range s2.core.taskCount).map
              (fun i => match env.created.get? i with
                        | some h => h
                        | none => none))
          else none }
      (true, s3, r0.2 ++ r2.2)
  | _, _ => (false, r0.1, r0.2)

/-- The member function `StateMQEsp::connected`. -/
def StateMQEsp.connected (s : StateMQEsp) : Bool :=
  s.mqttConnected

/-- The member function `StateMQEsp::publish`: the returned flag and the request made;
`sent` tells whether the client accepts the message (`msg_id >= 0`). -/
def StateMQEsp.publish (s : StateMQEsp) (topic payload : Option CStr) (qos : Int)
    (retain : Bool) (sent : Bool) : Bool × List ExtCall :=
  match topic with
  | none => (false, [])
  | some t =>
    if t = [] then (false, [])
    else if s.client = none ∨ s.mqttConnected = false then (false, [])
    else
      let q := clamp_qos (if qos < 0 then s.defaultPubQos else qos)
      (sent, [ExtCall.publish t (match payload with | some p => p | none => []) q retain])

/-- The member function `StateMQEsp::startMqttIfNeeded`; `clientInit` is the handle that
`esp_mqtt_client_init` returns and `startOk` tells whether `esp_mqtt_client_start`
succeeds. -/
def StateMQEsp.startMqttIfNeeded (s : StateMQEsp) (clientInit : Ptr) (startOk : Bool) :
    StateMQEsp :=
  if s.client ≠ none then s
  else if !s.wifiHasIp then s
  else
    match s.brokerUri with
    | none => s
    | some uri =>
      if uri = [] then s
      else
        match clientInit with
        | none => { s with client := none }
        | some c => if startOk then { s with client := some c } else { s with client := none }

/-- The member function `StateMQEsp::onWifiGotIp`. -/
def StateMQEsp.onWifiGotIp (s : StateMQEsp) (clientInit : Ptr) (startOk : Bool) :
    StateMQEsp :=
  ({ s with wifiHasIp := true }).startMqttIfNeeded clientInit startOk

/-- The member function `StateMQEsp::onWifiDisconnected`. -/
def StateMQEsp.onWifiDisconnected (s : StateMQEsp) (uptime : Nat) :
    StateMQEsp × List ExtCall :=
  let s1 := { s with wifiHasIp := false, mqttConnected := false }
  s1.withCore (s1.core.setConnected false) uptime

/-- The member function `StateMQEsp::onMqttConnected`. -/
def StateMQEsp.onMqttConnected (s : StateMQEsp) (uptime : Nat) :
    StateMQEsp × List ExtCall :=
  let s1 := { s with mqttConnected := true }
  let r := s1.withCore (s1.core.setConnected true) uptime
  (r.1, r.2 ++ r.1.subscribeAllUnique)

/-- The member function `StateMQEsp::onMqttDisconnected`. -/
def StateMQEsp.onMqttDisconnected (s : StateMQEsp) (uptime : Nat) :
    StateMQEsp × List ExtCall :=
  let s1 := { s with mqttConnected := false }
  s1.withCore (s1.core.setConnected false) uptime

/-- The member function `StateMQEsp::onMqttData` for the event whose topic bytes are `T`
and whose payload bytes are `P` (`topic_len` and `data_len` are their lengths). -/
def StateMQEsp.onMqttData (s : StateMQEsp) (T P : List Char) (uptime : Nat) :
    StateMQEsp × List ExtCall :=
  if T.length = 0 then (s, [])
  else
    let topic := cstr (T.take (StateMQEsp.RAW_TOPIC_LEN - 1))
    let data := cstr (P.take (StateMQEsp.RAW_PAYLOAD_LEN - 1))
    let r := s.withCore (s.core.applyMessage (some topic) (some data)).2 uptime
    match r.1.rawIndex (some topic) with
    | some i =>
      let store := fun (sl : RawSlot) =>
        { sl with payload := data.take (StateMQEsp.RAW_PAYLOAD_LEN - 1), hasNew := true }
      ({ r.1 with raw := r.1.raw.modify store i }, r.2)
    | none => r

/-- One call of a member function of the ESP-IDF backend, or of the engine by the
application, with its arguments and with what the platform answers during the call. -/
inductive EspCall where
  | setKeepAliveSeconds (sec : Nat)
  | setDefaultSubscribeQos (qos : Int)
  | setDefaultPublishQos (qos : Int)
  | setLastWill (topic payload : Option CStr) (qos : Int) (retain : Bool)
      (allocTopic allocPayload : Bool)
  | clearLastWill
  | subscribe (topic : Option CStr) (qos : Int) (allocOk : Bool)
  | msg (topic : Option CStr)
  | StatePublishTopic (topic : Option CStr) (qos : Int) (enable retain : Bool)
      (allocOk : Bool)
  | begin (wifi_ssid wifi_pass broker_uri : Option CStr) (env : BeginEnv) (uptime : Nat)
  | end_ (disconnect_wifi : Bool) (allocOk : Bool) (uptime : Nat)
  | taskEnable (id : Nat) (enable : Bool)
  | onWifiGotIp (clientInit : Ptr) (startOk : Bool)
  | onWifiDisconnected (uptime : Nat)
  | onMqttConnected (uptime : Nat)
  | onMqttDisconnected (uptime : Nat)
  | onMqttData (T P : List Char) (uptime : Nat)
  | core (c : Call) (uptime : Nat)
  deriving DecidableEq, Repr

/-- The backend after one call. -/
def StateMQEsp.step (s : StateMQEsp) : EspCall → StateMQEsp
  | EspCall.setKeepAliveSeconds sec => s.setKeepAliveSeconds sec
  | EspCall.setDefaultSubscribeQos q => s.setDefaultSubscribeQos q
  | EspCall.setDefaultPublishQos q => s.setDefaultPublishQos q
  | EspCall.setLastWill t p q r a1 a2 => s.setLastWill t p q r a1 a2
  | EspCall.clearLastWill => s.clearLastWill
  | EspCall.subscribe t q a => (s.subscribe t q a).2.1
  | EspCall.msg t => (s.msg t).2
  | EspCall.StatePublishTopic t q e r a => s.StatePublishTopic t q e r a
  | EspCall.begin ssid pass uri env up => (s.begin ssid pass uri env up).2.1
  | EspCall.end_ dw a up => (s.end_ dw a up).1
  | EspCall.taskEnable id en =>
    { s with core := (StateMQEsp.taskEnable s.core s.taskHandles id en).2.1 }
  | EspCall.onWifiGotIp c ok => s.onWifiGotIp c ok
  | EspCall.onWifiDisconnected up => (s.onWifiDisconnected up).1
  | EspCall.onMqttConnected up => (s.onMqttConnected up).1
  | EspCall.onMqttDisconnected up => (s.onMqttDisconnected up).1
  | EspCall.onMqttData T P up => (s.onMqttData T P up).1
  | EspCall.core c up =>
    (StateMQEsp.deliver { s with core := s.core.step c } up (s.core.stepCalls c)).1

/-- The backend after a sequence of calls, first call first. -/
def StateMQEsp.exec (s : StateMQEsp) (cs : List EspCall) : StateMQEsp :=
  cs.foldl StateMQEsp.step s

/-- The backend states that arise from a freshly constructed backend on a freshly
constructed engine by calls of the member functions. -/
def StateMQEsp.Reachable (s : StateMQEsp) : Prop :=
  ∃ cs : List EspCall, (StateMQEsp.ctor StateMQ.ctor).exec cs = s

/-! ## The Arduino backend -/

/-- One node of the list `userTasks` (`struct UserTaskCtx`), without the links. -/
structure UserTaskCtx where
  fn : Ptr
  fnEx : Ptr
  user : Ptr
  period_ms : Nat
  handle : Ptr
  id : Nat
  deriving DecidableEq, Repr

/-- The member variables of `class StateMQEsp32`. The engine that the backend refers to is
held as `core`; the override arrays with `qosCount` are the list `qos`, the slot array with
`rawCount` is the list `raw`, and the linked list `userTasks` is a list, head first. -/
structure StateMQEsp32 where
  core : StateMQ
  mqtt : Ptr
  wifiSsid : Option CStr
  wifiPass : Option CStr
  brokerUri : Option CStr
  stateTopic : Option CStr
  statePubQos : Int
  statePubEnabled : Bool
  lastStatePub : Nat
  hasLastStatePub : Bool
  statePubRetain : Bool
  mqttConnected : Bool
  keepAliveSec : Nat
  defaultSubQos : Int
  reconnectTask : Ptr
  backoffMs : Nat
  nextTryMs : Nat
  printedWifi : Bool
  printedMqtt : Bool
  userTasks : List UserTaskCtx
  raw : List RawSlot
  willTopic : Option CStr
  willPayload : Option CStr
  willQos : Int
  willRetain : Bool
  qos : List QosEntry
  deriving DecidableEq, Repr

/-- The constant `StateMQEsp32::MAX_RAW_SUBS`. -/
def StateMQEsp32.MAX_RAW_SUBS : Nat := 16

/-- The constant `StateMQEsp32::RAW_TOPIC_LEN`. -/
def StateMQEsp32.RAW_TOPIC_LEN : Nat := 64

/-- The constant `StateMQEsp32::RAW_PAYLOAD_LEN`. -/
def StateMQEsp32.RAW_PAYLOAD_LEN : Nat := 128

/-- The constant `StateMQEsp32::MAX_QOS_OVERRIDES`. -/
def StateMQEsp32.MAX_QOS_OVERRIDES : Nat := 16

/-- The number of values of a `uint32_t`. -/
def UINT32_MOD : Nat := 4294967296

/-- The constructor `StateMQEsp32::StateMQEsp32(core)` with the member initialisers of the
class. -/
def StateMQEsp32.ctor (core : StateMQ) : StateMQEsp32 :=
  { core := core, mqtt := none, wifiSsid := none, wifiPass := none, brokerUri := none,
    stateTopic := none, statePubQos := -1, statePubEnabled := false,
    lastStatePub := OFFLINE_ID, hasLastStatePub := false, statePubRetain := true,
    mqttConnected := false, keepAliveSec := 60, defaultSubQos := 0,
    reconnectTask := none, backoffMs := 2000, nextTryMs := 0, printedWifi := false,
    printedMqtt := false, userTasks := [], raw := [], willTopic := none,
    willPayload := none, willQos := 1, willRetain := true, qos := [] }

/-- The member function `StateMQEsp32::setKeepAliveSeconds`. -/
def StateMQEsp32.setKeepAliveSeconds (s : StateMQEsp32) (sec : Nat) : StateMQEsp32 :=
  { s with keepAliveSec := if sec = 0 then 60 else sec }

/-- The member function `StateMQEsp32::setDefaultSubscribeQos`. -/
def StateMQEsp32.setDefaultSubscribeQos (s : StateMQEsp32) (qos : Int) : StateMQEsp32 :=
  { s with defaultSubQos := clamp_qos qos }

/-- The member function `StateMQEsp32::freeQosOverrides`. -/
def StateMQEsp32.freeQosOverrides (s : StateMQEsp32) : StateMQEsp32 :=
  { s with qos := [] }

/-- The member function `StateMQEsp32::setSubscribeQos`; `allocOk` tells whether the copy
of the topic for a new entry can be allocated. -/
def StateMQEsp32.setSubscribeQos (s : StateMQEsp32) (topic : Option CStr) (qos : Int)
    (allocOk : Bool) : StateMQEsp32 :=
  match topic with
  | none => s
  | some t =>
    let q := clamp_qos qos
    match qosUpdate t q s.qos with
    | some tbl => { s with qos := tbl }
    | none =>
      if s.qos.length < StateMQEsp32.MAX_QOS_OVERRIDES then
        match dupstr allocOk (some t) with
        | none => s
        | some copy => { s with qos := s.qos ++ [{ topic := some copy, value := toInt8 q }] }
      else s

/-- The member function `StateMQEsp32::qosForTopic`. -/
def StateMQEsp32.qosForTopic (s : StateMQEsp32) (topic : Option CStr) : Int :=
  match topic with
  | none => s.defaultSubQos
  | some t =>
    match qosLookup t s.qos with
    | some v => v
    | none => s.defaultSubQos

/-- The member function `StateMQEsp32::setLastWill`; `allocTopic` and `allocPayload` tell
whether the two copies can be allocated. -/
def StateMQEsp32.setLastWill (s : StateMQEsp32) (topic payload : Option CStr) (qos : Int)
    (retain : Bool) (allocTopic allocPayload : Bool) : StateMQEsp32 :=
  match topic, payload with
  | some t, some p =>
    match dupstr allocTopic (some t), dupstr allocPayload (some p) with
    | some wt, some wp =>
      { s with willTopic := some wt, willPayload := some wp,
               willQos := toInt8 (clamp_qos qos), willRetain := retain }
    | _, _ => { s with willTopic := none, willPayload := none }
  | _, _ => s

/-- The member function `StateMQEsp32::clearLastWill`. -/
def StateMQEsp32.clearLastWill (s : StateMQEsp32) : StateMQEsp32 :=
  { s with willTopic := none, willPayload := none }

/-- The member function `StateMQEsp32::rawIndex`; `none` is the result `-1`. -/
def StateMQEsp32.rawIndex (s : StateMQEsp32) (topic : Option CStr) : Option Nat :=
  match topic with
  | none => none
  | some t => rawIndexFrom t s.raw 0

/-- The member function `StateMQEsp32::subscribe`: the returned flag, the backend
afterwards and the subscription requested from the client. -/
def StateMQEsp32.subscribe (s : StateMQEsp32) (topic : Option CStr) (qos : Int)
    (allocOk : Bool) : Bool × StateMQEsp32 × List ExtCall :=
  match topic with
  | none => (false, s, [])
  | some t =>
    if t = [] then (false, s, [])
    else
      let q := clamp_qos qos
      let slotted : Option StateMQEsp32 :=
        match s.rawIndex (some t) with
        | some _ => some s
        | none =>
          if s.raw.length ≥ StateMQEsp32.MAX_RAW_SUBS then none
          else
            some { s with raw := s.raw ++ [{ topic := t.take (StateMQEsp32.RAW_TOPIC_LEN - 1),
                                             payload := [], hasNew := false }] }
      match slotted with
      | none => (false, s, [])
      | some s1 =>
        let s2 := s1.setSubscribeQos (some t) q allocOk
        (true, s2,
          if s2.mqtt ≠ none ∧ s2.mqttConnected = true then [ExtCall.subscribe t q] else [])

/-- The member function `StateMQEsp32::msg`: the string returned (`none` for null) and the
backend afterwards. -/
def StateMQEsp32.msg (s : StateMQEsp32) (topic : Option CStr) :
    Option CStr × StateMQEsp32 :=
  match topic with
  | none => (none, s)
  | some t =>
    if t = [] then (none, s)
    else
      match s.rawIndex (some t) with
      | none => (none, s)
      | some i =>
        match s.raw.get? i with
        | none => (none, s)
        | some slot =>
          if !slot.hasNew then (none, s)
          else
            (some slot.payload,
              { s with raw := s.raw.modify (fun r => { r with hasNew := false }) i })

/-- The static member function `StateMQEsp32::on_state_change_trampoline`, run on the
backend `s` that `ctx.user` points to; `uptime` is the reading of `millis()`. The JSON
payload is recorded by its three parts. -/
def StateMQEsp32.on_state_change_trampoline (s : StateMQEsp32) (ctx : StateChangeCtx)
    (uptime : Nat) : StateMQEsp32 × List ExtCall :=
  match ctx.user with
  | none => (s, [])
  | some _ =>
    if !s.statePubEnabled then (s, [])
    else
      match s.stateTopic with
      | none => (s, [])
      | some st =>
        if st = [] then (s, [])
        else if s.mqtt = none ∨ s.mqttConnected = false then (s, [])
        else
          let prevId := if s.hasLastStatePub then s.lastStatePub else ctx.prev
          let currId := ctx.curr
          let s1 := { s with lastStatePub := currId, hasLastStatePub := true }
          let q0 := if s1.statePubQos < 0 then 1 else s1.statePubQos
          let q := if q0 > 2 then 2 else q0
          (s1, [ExtCall.publishState st (s1.core.stateName prevId)
                  (s1.core.stateName currId) uptime q s1.statePubRetain])

/-- The handler invocations made by the engine, as they reach the backend: an invocation
of the trampoline runs the telemetry code on this backend when its context is `this` (and
does nothing here when the context is null or another object); every other invocation is
a handler of the application and is recorded. -/
def StateMQEsp32.deliver (s : StateMQEsp32) (uptime : Nat) :
    List CbCall → StateMQEsp32 × List ExtCall
  | [] => (s, [])
  | CbCall.cbEx fn ctx :: rest =>
    if fn = TRAMPOLINE then
      if ctx.user = some THIS then
        let r := s.on_state_change_trampoline ctx uptime
        let r2 := StateMQEsp32.deliver r.1 uptime rest
        (r2.1, r.2 ++ r2.2)
      else StateMQEsp32.deliver s uptime rest
    else
      let r2 := StateMQEsp32.deliver s uptime rest
      (r2.1, ExtCall.handler (CbCall.cbEx fn ctx) :: r2.2)
  | CbCall.cb fn prev next :: rest =>
    let r2 := StateMQEsp32.deliver s uptime rest
    (r2.1, ExtCall.handler (CbCall.cb fn prev next) :: r2.2)

/-- A notifying call on the engine made through the backend: the engine is replaced by the
one after the call and the handler invocations are delivered. -/
def StateMQEsp32.withCore (s : StateMQEsp32) (e : Effect) (uptime : Nat) :
    StateMQEsp32 × List ExtCall :=
  StateMQEsp32.deliver { s with core := e.node } uptime e.calls

/-- The member function `StateMQEsp32::StatePublishTopic`; `allocOk` tells whether the
copy of the topic can be allocated. -/
def StateMQEsp32.StatePublishTopic (s : StateMQEsp32) (topic : Option CStr) (qos : Int)
    (enable retain : Bool) (allocOk : Bool) : StateMQEsp32 :=
  let st := dupstr allocOk (some (match topic with | some t => t | none => []))
  { s with stateTopic := st, statePubQos := qos,
           statePubEnabled := enable && (match st with | some t => t != [] | none => false),
           statePubRetain := retain, hasLastStatePub := false,
           lastStatePub := OFFLINE_ID,
           core := s.core.onStateChangeEx (some TRAMPOLINE) (some THIS) }

/-- The member function `StateMQEsp32::cleanup`. Requests to the scheduler are not
recorded. -/
def StateMQEsp32.cleanup (s : StateMQEsp32) (disconnect_wifi clear_config : Bool)
    (uptime : Nat) : StateMQEsp32 × List ExtCall :=
  let s1 := { s with reconnectTask := none, userTasks := [], mqtt := none,
                     mqttConnected := false }
  let r := s1.withCore (s1.core.setConnected false) uptime
  let s2 := { r.1 with wifiSsid := none, wifiPass := none, brokerUri := none }
  let s3 :=
    if clear_config then
      { s2.freeQosOverrides with willTopic := none, willPayload := none,
                                 stateTopic := none, statePubEnabled := false,
                                 hasLastStatePub := false, raw := [] }
    else s2
  ({ s3 with backoffMs := 2000, nextTryMs := 0, printedWifi := false,
             printedMqtt := false },
    r.2 ++ (if disconnect_wifi then [ExtCall.wifiDisconnect] else []))

/-- The member function `StateMQEsp32::end`. -/
def StateMQEsp32.end_ (s : StateMQEsp32) (disconnect_wifi : Bool) (uptime : Nat) :
    StateMQEsp32 × List ExtCall :=
  s.cleanup disconnect_wifi true uptime

/-- What the platform answers during one call of `StateMQEsp32::begin`: whether each of
the three string copies can be allocated, whether the Wi-Fi link comes up before the
timeout, the handle that `esp_mqtt_client_init` returns, whether `esp_mqtt_client_start`
succeeds, for every task in turn the handle of the created task (`none` when its context
or the task could not be created), and the handle of the reconnect task. -/
structure BeginEnv32 where
  allocSsid : Bool
  allocPass : Bool
  allocUri : Bool
  wifiUp : Bool
  mqttInit : Ptr
  startOk : Bool
  created : List (Option Ptr)
  reconnectHandle : Ptr
  deriving DecidableEq, Repr

/-- The task creation loop of `StateMQEsp32::begin` over the tasks `ts`, the first of
which has id `i`: every created task is put at the head of `acc`. -/
def StateMQEsp32.createTasks (created : List (Option Ptr)) :
    List TaskDef → Nat → List UserTaskCtx → List UserTaskCtx
  | [], _, acc => acc
  | t :: ts, i, acc =>
    match created.get? i with
    | some (some h) =>
      StateMQEsp32.createTasks created ts (i + 1)
        ({ fn := t.callback, fnEx := t.callbackEx, user := t.user,
           period_ms := t.period_ms, handle := h, id := i } :: acc)
    | _ => StateMQEsp32.createTasks created ts (i + 1) acc

/-- The member function `StateMQEsp32::begin`: the returned flag, the backend afterwards
and the calls made. -/
def StateMQEsp32.begin (s : StateMQEsp32) (wifi_ssid wifi_pass broker_uri : Option CStr)
    (env : BeginEnv32) (uptime : Nat) : Bool × StateMQEsp32 × List ExtCall :=
  let r0 := s.cleanup false false uptime
  match wifi_ssid, broker_uri with
  | some ssid, some uri =>
    let s1 : StateMQEsp32 := { r0.1 with
      wifiSsid := dupstr env.allocSsid (some ssid),
      wifiPass := dupstr env.allocPass (some (match wifi_pass with
                                              | some p => p
                                              | none => [])),
      brokerUri := dupstr env.allocUri (some uri) }
    if s1.wifiSsid = none ∨ s1.wifiPass = none ∨ s1.brokerUri = none then
      let r1 := s1.end_ false uptime
      (false, r1.1, r0.2 ++ r1.2)
    else if !env.wifiUp then
      let r2 := s1.withCore (s1.core.setConnected false) uptime
      (false, r2.1, r0.2 ++ r2.2)
    else
      match env.mqttInit with
      | none => (false, { s1 with mqtt := none }, r0.2)
      | some m =>
        if !env.startOk then (false, { s1 with mqtt := none }, r0.2)
        else
          let s2 : StateMQEsp32 := { s1 with
            mqtt := some m,
            userTasks := StateMQEsp32.createTasks env.created s1.core.tasks 0 [] }
          let s3 : StateMQEsp32 := { s2 with
            reconnectTask := match s2.reconnectTask with
                             | some h => some h
                             | none => env.reconnectHandle }
          (true, s3, r0.2)
  | _, _ => (false, r0.1, r0.2)

/-- The member function `StateMQEsp32::reconnectLoop`, one tick of the supervisor: `now`
is the reading of `millis()` and `wifiConnected` tells whether `WiFi.status()` is
`WL_CONNECTED`. -/
def StateMQEsp32.reconnectLoop (s : StateMQEsp32) (now : Nat) (wifiConnected : Bool) :
    StateMQEsp32 × List ExtCall :=
  if !wifiConnected then ({ s with printedWifi := true, printedMqtt := false }, [])
  else
    let s1 := { s with printedWifi := false }
    if s1.mqtt = none ∨ s1.mqttConnected = true then
      ({ s1 with backoffMs := 2000, nextTryMs := 0, printedMqtt := false }, [])
    else
      let s2 := { s1 with printedMqtt := true }
      if now ≥ s2.nextTryMs then
        ({ s2 with
            nextTryMs := (now + s2.backoffMs) % UINT32_MOD,
            backoffMs := if s2.backoffMs * 2 % UINT32_MOD > 30000 then 30000
                         else s2.backoffMs * 2 % UINT32_MOD },
          [ExtCall.reconnect])
      else (s2, [])

/-- The rule loop of `StateMQEsp32::subscribeAllUnique` over the topics `ts`; `earlier`
are the topics of the rules before them. -/
def StateMQEsp32.ruleLoop (s : StateMQEsp32) : List CStr → List CStr → List ExtCall
  | _, [] => []
  | earlier, t :: ts =>
    (if topic_seen t earlier then []
     else [ExtCall.subscribe t (s.qosForTopic (some t))]) ++
    StateMQEsp32.ruleLoop s (earlier ++ [t]) ts

/-- The raw loop of `StateMQEsp32::subscribeAllUnique` over the slots. -/
def StateMQEsp32.rawLoop (s : StateMQEsp32) : List RawSlot → List ExtCall
  | [] => []
  | r :: rs =>
    (if r.topic ≠ [] then [ExtCall.subscribe r.topic (s.qosForTopic (some r.topic))]
     else []) ++
    StateMQEsp32.rawLoop s rs

/-- The member function `StateMQEsp32::subscribeAllUnique`: the subscriptions requested
from the client, in order. -/
def StateMQEsp32.subscribeAllUnique (s : StateMQEsp32) : List ExtCall :=
  match s.mqtt with
  | none => []
  | some _ =>
    StateMQEsp32.ruleLoop s [] (s.core.rules.map (fun r => r.topic)) ++
    StateMQEsp32.rawLoop s s.raw

/-- The events that `onMqttEvent` distinguishes; `data` carries the topic bytes and the
payload bytes of the message. -/
inductive MqttEvent where
  | connected
  | disconnected
  | data (T P : List Char)
  | other
  deriving DecidableEq, Repr

/-- The member function `StateMQEsp32::onMqttEvent`; `none` is a null event and `now` is
the reading of `millis()`. -/
def StateMQEsp32.onMqttEvent (s : StateMQEsp32) (event : Option MqttEvent) (now : Nat) :
    StateMQEsp32 × List ExtCall :=
  match event with
  | none => (s, [])
  | some MqttEvent.connected =>
    let s1 := { s with mqttConnected := true, printedMqtt := false }
    let r := s1.withCore (s1.core.setConnected true) now
    (r.1, r.2 ++ r.1.subscribeAllUnique)
  | some MqttEvent.disconnected =>
    let s1 := { s with mqttConnected := false }
    let r := s1.withCore (s1.core.setConnected false) now
    ({ r.1 with nextTryMs := (now + r.1.backoffMs) % UINT32_MOD }, r.2)
  | some (MqttEvent.data T P) =>
    if T.length = 0 then (s, [])
    else
      let topic := cstr (T.take (StateMQEsp32.RAW_TOPIC_LEN - 1))
      let data := cstr (P.take (StateMQEsp32.RAW_PAYLOAD_LEN - 1))
      let r := s.withCore (s.core.applyMessage (some topic) (some data)).2 now
      match r.1.rawIndex (some topic) with
      | some i =>
        let store := fun (sl : RawSlot) =>
          { sl with payload := data.take (StateMQEsp32.RAW_PAYLOAD_LEN - 1),
                    hasNew := true }
        ({ r.1 with raw := r.1.raw.modify store i }, r.2)
      | none => r
  | some MqttEvent.other => (s, [])

/-- The member function `StateMQEsp32::publish`: the returned flag and the request made;
`sent` tells whether the client accepts the message. -/
def StateMQEsp32.publish (s : StateMQEsp32) (topic payload : Option CStr) (qos : Int)
    (retain : Bool) (wifiConnected sent : Bool) : Bool × List ExtCall :=
  match topic, payload with
  | some t, some p =>
    if s.mqtt = none ∨ s.mqttConnected = false then (false, [])
    else if !wifiConnected then (false, [])
    else (sent, [ExtCall.publish t p (clamp_qos qos) retain])
  | _, _ => (false, [])

/-- The member function `StateMQEsp32::connected`. -/
def StateMQEsp32.connected (s : StateMQEsp32) (wifiConnected : Bool) : Bool :=
  wifiConnected && s.mqttConnected

/-- The walk of `StateMQEsp32::taskEnable` over the list `userTasks`. -/
def StateMQEsp32.findTask (id : Nat) (enable : Bool) :
    List UserTaskCtx → Bool × List SchedOp
  | [] => (false, [])
  | cur :: rest =>
    match cur.handle with
    | some h =>
      if cur.id = id then (true, [if enable then SchedOp.resume h else SchedOp.suspend h])
      else StateMQEsp32.findTask id enable rest
    | none => StateMQEsp32.findTask id enable rest

/-- The member function `StateMQEsp32::taskEnable`. -/
def StateMQEsp32.taskEnable (s : StateMQEsp32) (id : Nat) (enable : Bool) :
    Bool × StateMQEsp32 × List SchedOp :=
  let s1 := { s with core := (s.core.taskEnable id enable).2 }
  let r := StateMQEsp32.findTask id enable s1.userTasks
  (r.1, s1, r.2)

/-- One call of a member function of the Arduino backend, or of the engine by the
application, with its arguments and with what the platform answers during the call. -/
inductive Esp32Call where
  | setKeepAliveSeconds (sec : Nat)
  | setDefaultSubscribeQos (qos : Int)
  | setSubscribeQos (topic : Option CStr) (qos : Int) (allocOk : Bool)
  | setLastWill (topic payload : Option CStr) (qos : Int) (retain : Bool)
      (allocTopic allocPayload : Bool)
  | clearLastWill
  | subscribe (topic : Option CStr) (qos : Int) (allocOk : Bool)
  | msg (topic : Option CStr)
  | StatePublishTopic (topic : Option CStr) (qos : Int) (enable retain : Bool)
      (allocOk : Bool)
  | begin (wifi_ssid wifi_pass broker_uri : Option CStr) (env : BeginEnv32) (uptime : Nat)
  | end_ (disconnect_wifi : Bool) (uptime : Nat)
  | taskEnable (id : Nat) (enable : Bool)
  | reconnectLoop (now : Nat) (wifiConnected : Bool)
  | onMqttEvent (event : Option MqttEvent) (now : Nat)
  | core (c : Call) (uptime : Nat)
  deriving DecidableEq, Repr

/-- The backend after one call. -/
def StateMQEsp32.step (s : StateMQEsp32) : Esp32Call → StateMQEsp32
  | Esp32Call.setKeepAliveSeconds sec => s.setKeepAliveSeconds sec
  | Esp32Call.setDefaultSubscribeQos q => s.setDefaultSubscribeQos q
  | Esp32Call.setSubscribeQos t q a => s.setSubscribeQos t q a
  | Esp32Call.setLastWill t p q r a1 a2 => s.setLastWill t p q r a1 a2
  | Esp32Call.clearLastWill => s.clearLastWill
  | Esp32Call.subscribe t q a => (s.subscribe t q a).2.1
  | Esp32Call.msg t => (s.msg t).2
  | Esp32Call.StatePublishTopic t q e r a => s.StatePublishTopic t q e r a
  | Esp32Call.begin ssid pass uri env up => (s.begin ssid pass uri env up).2.1
  | Esp32Call.end_ dw up => (s.end_ dw up).1
  | Esp32Call.taskEnable id en => (s.taskEnable id en).2.1
  | Esp32Call.reconnectLoop now w => (s.reconnectLoop now w).1
  | Esp32Call.onMqttEvent ev now => (s.onMqttEvent ev now).1
  | Esp32Call.core c up =>
    (StateMQEsp32.deliver { s with core := s.core.step c } up (s.core.stepCalls c)).1

/-- The backend after a sequence of calls, first call first. -/
def StateMQEsp32.exec (s : StateMQEsp32) (cs : List Esp32Call) : StateMQEsp32 :=
  cs.foldl StateMQEsp32.step s

/-- The backend states that arise from a freshly constructed backend on a freshly
constructed engine by calls of the member functions. -/
def StateMQEsp32.Reachable (s : StateMQEsp32) : Prop :=
  ∃ cs : List Esp32Call, (StateMQEsp32.ctor StateMQ.ctor).exec cs = s

/-- What holds of the QoS override table of a backend between calls: at most 16 entries,
no null topic, no topic twice, every value a QoS level. -/
structure QosInv (tbl : List QosEntry) : Prop where
  room : tbl.length ≤ 16
  topics : ∀ e ∈ tbl, e.topic ≠ none
  distinct : (tbl.map QosEntry.topic).Nodup
  levels : ∀ e ∈ tbl, 0 ≤ e.value ∧ e.value ≤ 2

/-- What holds of the member variables of the Arduino backend between calls. -/
structure Inv32 (s : StateMQEsp32) : Prop where
  engine : Reachable s.core
  qos : QosInv s.qos
  slots : s.raw.length ≤ StateMQEsp32.MAX_RAW_SUBS
  slot_topics : ∀ r ∈ s.raw,
    r.topic ≠ [] ∧ r.topic.length ≤ StateMQEsp32.RAW_TOPIC_LEN - 1
  slot_payloads : ∀ r ∈ s.raw, r.payload.length ≤ StateMQEsp32.RAW_PAYLOAD_LEN - 1
  backoff : 2000 ≤ s.backoffMs ∧ s.backoffMs ≤ 30000
  nextTry : s.nextTryMs < UINT32_MOD
  ticker : s.reconnectTask ≠ none → s.mqtt ≠ none

/-- What holds of the member variables of the ESP-IDF backend between calls. -/
structure InvEsp (s : StateMQEsp) : Prop where
  engine : Reachable s.core
  qos : QosInv s.qos
  slots : s.raw.length ≤ StateMQEsp.MAX_RAW_SUBS
  slot_topics : ∀ r ∈ s.raw,
    r.topic ≠ [] ∧ r.topic.length ≤ StateMQEsp.RAW_TOPIC_LEN - 1
  slot_payloads : ∀ r ∈ s.raw, r.payload.length ≤ StateMQEsp.RAW_PAYLOAD_LEN - 1

/-! ## Backends of the scenarios -/

/-- The topic `"a"`. -/
def topicA : CStr := ['a']

/-- The topic `"b"`. -/
def topicB : CStr := ['b']

/-- The topic `"z"`. -/
def topicZ : CStr := ['z']

/-- Sixteen distinct topics, `"a"` to `"p"`. -/
def sixteenTopics : List CStr :=
  [['a'], ['b'], ['c'], ['d'], ['e'], ['f'], ['g'], ['h'],
   ['i'], ['j'], ['k'], ['l'], ['m'], ['n'], ['o'], ['p']]

/-- The Arduino backend on which only `setSubscribeQos("a", 5)` has been called. -/
def qosNode : StateMQEsp32 :=
  (StateMQEsp32.ctor StateMQ.ctor).exec [Esp32Call.setSubscribeQos (some topicA) 5 true]

/-- The Arduino backend on which `setSubscribeQos(t, 1)` has been called for each of the
sixteen topics. -/
def fullQosNode : StateMQEsp32 :=
  (StateMQEsp32.ctor StateMQ.ctor).exec
    (sixteenTopics.map (fun t => Esp32Call.setSubscribeQos (some t) 1 true))

/-- The ESP-IDF backend on which `subscribe(t, 1)` has been called for each of the sixteen
topics. -/
def fullRawNode : StateMQEsp :=
  (StateMQEsp.ctor StateMQ.ctor).exec
    (sixteenTopics.map (fun t => EspCall.subscribe (some t) 1 true))

/-- The Arduino backend on which `subscribe(t, 1)` has been called for each of the sixteen
topics. -/
def fullRawNode32 : StateMQEsp32 :=
  (StateMQEsp32.ctor StateMQ.ctor).exec
    (sixteenTopics.map (fun t => Esp32Call.subscribe (some t) 1 true))

/-- The bytes `l` are the content of a C string: none of them is NUL. -/
abbrev NulFree (l : List Char) : Prop :=
  Char.ofNat 0 ∉ l

/-- Every topic passed to `subscribe` in the calls `cs` of the ESP-IDF backend has at most
95 characters, the number that a raw slot holds. -/
def ShortTopics (cs : List EspCall) : Prop :=
  ∀ c ∈ cs, ∀ (t : CStr) (q : Int) (a : Bool), c = EspCall.subscribe (some t) q a →
    t.length ≤ StateMQEsp.RAW_TOPIC_LEN - 1

/-- A topic of 96 characters, one more than a raw slot of the ESP-IDF backend holds. -/
def topicLong : CStr := List.replicate 96 't'

/-- A payload of 256 bytes, one more than a raw slot of the ESP-IDF backend holds. -/
def payloadLong : List Char := List.replicate 256 'x'

/-- The ESP-IDF backend on which only `subscribe("a", 1)` has been called. -/
def rawNode : StateMQEsp :=
  (StateMQEsp.ctor StateMQ.ctor).exec [EspCall.subscribe (some topicA) 1 true]

/-- The ESP-IDF backend on which `subscribe(topicLong, 1)` has been called twice. -/
def longTopicNode : StateMQEsp :=
  (StateMQEsp.ctor StateMQ.ctor).exec
    [EspCall.subscribe (some topicLong) 1 true, EspCall.subscribe (some topicLong) 1 true]

/-- Specification wording, "keeping only the first occurrence of each topic": the topics of
`l` in order, each one at its first position only. -/
def firstOccurrences : List CStr → List CStr
  | [] => []
  | t :: ts => t :: (firstOccurrences ts).filter (fun u => u ≠ t)

/-- What the platform answers in the scenarios during `StateMQEsp::begin`: every allocation
succeeds and no task is created. -/
def envOk : BeginEnv :=
  { allocSsid := true, allocPass := true, allocUri := true, allocTopic := true,
    allocHandles := true, created := [] }

/-- What the platform answers in the scenarios during `StateMQEsp32::begin`: every
allocation succeeds, the link comes up and the client with handle 5 starts. -/
def envOk32 : BeginEnv32 :=
  { allocSsid := true, allocPass := true, allocUri := true, wifiUp := true,
    mqttInit := some 5, startOk := true, created := [], reconnectHandle := some 6 }

/-- The calls of the example application before the session: the state topic `"s"` is
mapped twice, `"hi"` to HELLO and `"bye"` to BYE, and is also subscribed raw. -/
def exampleSetup : List Call :=
  [Call.map (some topicS) (some payloadHi) (some nameHello),
   Call.map (some topicS) (some payloadBye) (some nameBye)]

/-- The ESP-IDF backend of the example application once the client exists: the two `map`
calls, `subscribe("s", 1)`, `subscribe("a", 2)`, `begin` and the got-address event. -/
def exampleNode : StateMQEsp :=
  (StateMQEsp.ctor StateMQ.ctor).exec
    ((exampleSetup.map (fun c => EspCall.core c 0)) ++
     [EspCall.subscribe (some topicS) 1 true,
      EspCall.subscribe (some topicA) 2 true,
      EspCall.begin (some topicA) none (some topicB) envOk 0,
      EspCall.onWifiGotIp (some 5) true])

/-- The Arduino backend of the example application once the client exists: the two `map`
calls, `subscribe("s", 1)` and `begin`. -/
def exampleNode32 : StateMQEsp32 :=
  (StateMQEsp32.ctor StateMQ.ctor).exec
    ((exampleSetup.map (fun c => Esp32Call.core c 0)) ++
     [Esp32Call.subscribe (some topicS) 1 true,
      Esp32Call.begin (some topicA) none (some topicB) envOk32 0])

/-- Specification wording, "a tick that attempts a session reconnect (link up, session
down, now >= nextTryMs)": the supervisor task that makes the ticks exists, and with the
link up the session is down and the retry deadline has elapsed at the time `now` of the
tick. -/
abbrev Attempts (s : StateMQEsp32) (now : Nat) : Prop :=
  s.reconnectTask ≠ none ∧ s.mqttConnected = false ∧ s.nextTryMs ≤ now

/-- Specification wording, "consecutive failed attempts": each of the supervisor ticks at
the times `nows`, made one after the other with the link up, attempts a reconnect. -/
def AttemptRun : StateMQEsp32 → List Nat → Prop
  | _, [] => True
  | s, now :: rest => Attempts s now ∧ AttemptRun (s.reconnectLoop now true).1 rest

/-- Specification wording, "the retry intervals": for each of the ticks at the times
`nows`, the value of `backoffMs` that the tick adds to its time. -/
def retryIntervals : StateMQEsp32 → List Nat → List Nat
  | _, [] => []
  | s, now :: rest => s.backoffMs :: retryIntervals (s.reconnectLoop now true).1 rest

/-! ## Notifications of one call -/

/-- The notifications that one call of the public interface fires, in order: only
`applyMessage` and `setConnected` reach `setStateId`. -/
def StateMQ.stepFired (n : StateMQ) : Call → List StateChangeCtx
  | Call.applyMessage t p => (n.applyMessage t p).2.fired
  | Call.setConnected c => (n.setConnected c).fired
  | _ => []

/-! ## Telemetry messages -/

/-- Whether a recorded call is the publication of a telemetry message. -/
def ExtCall.isTelemetry : ExtCall → Bool
  | ExtCall.publishState _ _ _ _ _ _ => true
  | _ => false

/-- One notification as it reaches the state-change handler of a backend: the context that
the engine hands over, the client handle and the session flag of the backend at that moment,
and the reading of the clock. -/
structure Notice where
  ctx : StateChangeCtx
  client : Ptr
  mqttConnected : Bool
  uptime : Nat
  deriving DecidableEq, Repr

/-- Specification wording, "session up" at a notification: the client exists and the
session flag is set. -/
abbrev Notice.up (m : Notice) : Prop :=
  m.client ≠ none ∧ m.mqttConnected = true

/-- The handler of the ESP-IDF backend run on a sequence of notifications, first one first;
between two notifications only the client handle and the session flag change, as the
events of the platform set them. -/
def StateMQEsp.handleAll (s : StateMQEsp) : List Notice → StateMQEsp × List ExtCall
  | [] => (s, [])
  | m :: ms =>
    let r := ({ s with client := m.client, mqttConnected := m.mqttConnected }
      ).on_state_change_trampoline m.ctx m.uptime
    let r2 := StateMQEsp.handleAll r.1 ms
    (r2.1, r.2 ++ r2.2)

/-- The handler of the Arduino backend run on a sequence of notifications, first one
first; between two notifications only the client handle and the session flag change. -/
def StateMQEsp32.handleAll (s : StateMQEsp32) : List Notice → StateMQEsp32 × List ExtCall
  | [] => (s, [])
  | m :: ms =>
    let r := ({ s with mqtt := m.client, mqttConnected := m.mqttConnected }
      ).on_state_change_trampoline m.ctx m.uptime
    let r2 := StateMQEsp32.handleAll r.1 ms
    (r2.1, r.2 ++ r2.2)

/-- Specification wording, the telemetry chain: for the notifications handled with the
session up, in order, the pair of state ids `(prev, curr)` of the payload and the clock
reading; `prev` is the `curr` of the payload before it (`last`), or `ctx.prev` when there
is none, and `curr` is `ctx.curr`. -/
def telemetryChain : Option Nat → List Notice → List (Nat × Nat × Nat)
  | _, [] => []
  | last, m :: ms =>
    if m.client ≠ none ∧ m.mqttConnected = true then
      ((match last with
        | some p => p
        | none => m.ctx.prev), m.ctx.curr, m.uptime) :: telemetryChain (some m.ctx.curr) ms
    else telemetryChain last ms

/-- The notification of the first connection, handled with the session up at 10 ms. -/
def noticeConnected : Notice :=
  { ctx := { prev := 0, desired := 1, curr := 1, cause := StateChangeCause.Connected,
             ruleIndex := -1, topic := none, payload := none, user := some THIS },
    client := some 5, mqttConnected := true, uptime := 10 }

/-- The notification of the rule match that enters HELLO (id 2), handled with the session
up at 20 ms. -/
def noticeHello : Notice :=
  { ctx := { prev := 1, desired := 2, curr := 2, cause := StateChangeCause.RuleMatch,
             ruleIndex := 0, topic := some ['s'], payload := some ['h', 'i'],
             user := some THIS },
    client := some 5, mqttConnected := true, uptime := 20 }

/-- The notification of the loss of the session, handled with the session flag already
clear at 30 ms. -/
def noticeOffline : Notice :=
  { ctx := { prev := 2, desired := 0, curr := 0, cause := StateChangeCause.Disconn,
             ruleIndex := -1, topic := none, payload := none, user := some THIS },
    client := some 5, mqttConnected := false, uptime := 30 }

/-- The notification of the reconnection that restores HELLO, handled with the session up
at 40 ms. -/
def noticeRestored : Notice :=
  { ctx := { prev := 0, desired := 2, curr := 2, cause := StateChangeCause.Connected,
             ruleIndex := -1, topic := none, payload := none, user := some THIS },
    client := some 5, mqttConnected := true, uptime := 40 }

/-! ## Events of the platform -/

/-- Whether a call is one of the five events that the platform reports to the ESP-IDF
backend: got-address, link down, session established, session lost, message arrived. -/
def EspCall.isEvent : EspCall → Bool
  | EspCall.onWifiGotIp _ _ => true
  | EspCall.onWifiDisconnected _ => true
  | EspCall.onMqttConnected _ => true
  | EspCall.onMqttDisconnected _ => true
  | EspCall.onMqttData _ _ _ => true
  | _ => false

/-- Whether a call is the application telling the engine a connectivity of its own:
`core.setConnected(..)` called past the backend. -/
def EspCall.overridesConnectivity : EspCall → Bool
  | EspCall.core (Call.setConnected _) _ => true
  | _ => false

/-! ## Backends of the last scenarios -/

/-- The Arduino backend of the example application after one reconnect attempt (the tick
at 100 ms with the link up) and the session-established event at 200 ms. -/
def flappingNode32 : StateMQEsp32 :=
  exampleNode32.exec
    [Esp32Call.reconnectLoop 100 true, Esp32Call.onMqttEvent (some MqttEvent.connected) 200]

/-- An ESP-IDF backend on which `StatePublishTopic("s", 1, true, false)` was called, with
`retain` false, before `begin` and the got-address event. -/
def retainOffNode : StateMQEsp :=
  (StateMQEsp.ctor StateMQ.ctor).exec
    [EspCall.StatePublishTopic (some topicS) 1 true false true,
     EspCall.begin (some topicA) none (some topicB) envOk 0,
     EspCall.onWifiGotIp (some 5) true]

/-- An Arduino backend on which `StatePublishTopic("s", 1, true, false)` was called, with
`retain` false, before `begin`. -/
def retainOffNode32 : StateMQEsp32 :=
  (StateMQEsp32.ctor StateMQ.ctor).exec
    [Esp32Call.StatePublishTopic (some topicS) 1 true false true,
     Esp32Call.begin (some topicA) none (some topicB) envOk32 0]

/-! ## String comparison -/

theorem strcmp_eq_zero_iff (a b : CStr) : strcmp a b = 0 ↔ a = b := by
  induction a generalizing b with
  | nil => cases b <;> simp [strcmp]
  | cons x xs ih =>
    cases b with
    | nil => simp [strcmp]
    | cons y ys =>
      by_cases hxy : x = y
      · simp [strcmp, hxy, ih]
      · by_cases hlt : x.toNat < y.toNat <;> simp [strcmp, hxy, hlt]

theorem strncmp_eq_zero_iff (a b : CStr) (k : Nat) :
    strncmp a b k = 0 ↔ a.take k = b.take k := by
  induction k generalizing a b with
  | zero => simp [strncmp]
  | succ k ih =>
    cases a with
    | nil => cases b <;> simp [strncmp]
    | cons x xs =>
      cases b with
      | nil => simp [strncmp]
      | cons y ys =>
        by_cases hxy : x = y
        · simp [strncmp, hxy, ih]
        · by_cases hlt : x.toNat < y.toNat <;> simp [strncmp, hxy, hlt]

/-- Against a name shorter than the comparison window, `strncmp` tests equality. -/
theorem strncmp_short_iff (a b : CStr) (k : Nat) (hb : b.length < k) :
    strncmp a b k = 0 ↔ a = b := by
  rw [strncmp_eq_zero_iff]
  constructor
  · intro h
    have hbk : b.take k = b := List.take_of_length_le (Nat.le_of_lt hb)
    rw [hbk] at h
    have hlen : (a.take k).length = b.length := by rw [h]
    rw [List.length_take] at hlen
    have hak : a.length ≤ k := by omega
    rw [List.take_of_length_le hak] at h
    exact h
  · intro h
    rw [h]

theorem strncmp_offline_iff (a : CStr) :
    strncmp a OFFLINE_STATE STATE_LEN = 0 ↔ a = OFFLINE_STATE :=
  strncmp_short_iff a OFFLINE_STATE STATE_LEN (by decide)

theorem strncmp_connected_iff (a : CStr) :
    strncmp a CONNECTED_STATE STATE_LEN = 0 ↔ a = CONNECTED_STATE :=
  strncmp_short_iff a CONNECTED_STATE STATE_LEN (by decide)

/-! ## The rule scan -/

theorem matchRule_none_iff (t p : CStr) (rs : List Rule) (i : Nat) :
    matchRule t p rs i = none ↔ ∀ r ∈ rs, ¬ (r.topic = t ∧ r.message = p) := by
  induction rs generalizing i with
  | nil => simp [matchRule]
  | cons r rs ih =>
    by_cases h : r.topic = t ∧ r.message = p
    · simp [matchRule, strcmp_eq_zero_iff, h]
    · have h2 : ¬ (strcmp r.topic t = 0 ∧ strcmp r.message p = 0) := by
        simpa [strcmp_eq_zero_iff] using h
      simp only [matchRule, if_neg h2, ih, List.mem_cons, forall_eq_or_imp]
      constructor
      · intro hall
        exact ⟨h, hall⟩
      · intro hall
        exact hall.2

/-- The scan returns the target and the index of the lowest matching rule. -/
theorem matchRule_first (t p : CStr) (rs : List Rule) (base i : Nat) (r : Rule)
    (hi : rs[i]? = some r) (hm : r.topic = t ∧ r.message = p)
    (hfirst : ∀ k q, k < i → rs[k]? = some q → ¬ (q.topic = t ∧ q.message = p)) :
    matchRule t p rs base = some (r.stateId, base + i) := by
  induction rs generalizing base i with
  | nil => simp at hi
  | cons q qs ih =>
    cases i with
    | zero =>
      simp at hi
      subst hi
      simp [matchRule, strcmp_eq_zero_iff, hm]
    | succ i =>
      have hq : ¬ (q.topic = t ∧ q.message = p) := hfirst 0 q (Nat.succ_pos i) (by simp)
      have h2 : ¬ (strcmp q.topic t = 0 ∧ strcmp q.message p = 0) := by
        simpa [strcmp_eq_zero_iff] using hq
      simp only [matchRule, if_neg h2]
      have hi2 : qs[i]? = some r := by simpa using hi
      have := ih (base + 1) i hi2 (fun k q2 hk hq2 => hfirst (k + 1) q2 (by omega) (by simpa using hq2))
      rw [this]
      congr 2
      omega

/-- A reported match is a stored rule: its target is the `stateId` of a rule of the table. -/
theorem matchRule_some_mem (t p : CStr) (rs : List Rule) (base : Nat) (id : Nat) (k : Nat)
    (h : matchRule t p rs base = some (id, k)) :
    ∃ r ∈ rs, r.stateId = id ∧ r.topic = t ∧ r.message = p ∧ base ≤ k ∧ k < base + rs.length := by
  induction rs generalizing base with
  | nil => simp [matchRule] at h
  | cons q qs ih =>
    by_cases hq : strcmp q.topic t = 0 ∧ strcmp q.message p = 0
    · simp only [matchRule, if_pos hq, Option.some.injEq, Prod.mk.injEq] at h
      refine ⟨q, List.mem_cons_self _ _, h.1, ?_, ?_, ?_, ?_⟩
      · exact (strcmp_eq_zero_iff _ _).1 hq.1
      · exact (strcmp_eq_zero_iff _ _).1 hq.2
      · omega
      · simp; omega
    · simp only [matchRule, if_neg hq] at h
      obtain ⟨r, hr, h1, h2, h3, h4, h5⟩ := ih (base + 1) h
      refine ⟨r, List.mem_cons_of_mem _ hr, h1, h2, h3, by omega, ?_⟩
      simp
      omega

/-! ## The transition algorithm -/

/-- The transition touches only the current state and the last user state. -/
theorem setStateId_frame (n : StateMQ) (d : Nat) (u : Bool) (c : StateChangeCause)
    (t p : Option CStr) (ri : Int) :
    (n.setStateId d u c t p ri).node.rules = n.rules ∧
    (n.setStateId d u c t p ri).node.tasks = n.tasks ∧
    (n.setStateId d u c t p ri).node.knownStates = n.knownStates ∧
    (n.setStateId d u c t p ri).node.connected_ = n.connected_ ∧
    (n.setStateId d u c t p ri).node.stateCb = n.stateCb ∧
    (n.setStateId d u c t p ri).node.stateCbEx = n.stateCbEx ∧
    (n.setStateId d u c t p ri).node.stateCbUser = n.stateCbUser := by
  unfold StateMQ.setStateId StateMQ.notify
  simp only []
  split_ifs <;> simp

/-- While disconnected the transition forces OFFLINE and keeps the last user state. -/
theorem setStateId_disconnected (n : StateMQ) (d : Nat) (u : Bool) (c : StateChangeCause)
    (t p : Option CStr) (ri : Int) (hc : n.connected_ = false) :
    (n.setStateId d u c t p ri).node.stateId_ = OFFLINE_ID ∧
    (n.setStateId d u c t p ri).node.lastUserStateId_ = n.lastUserStateId_ ∧
    (n.stateId_ = OFFLINE_ID →
      n.setStateId d u c t p ri = { node := n, fired := [], calls := [] }) ∧
    (n.stateId_ ≠ OFFLINE_ID → ∃ ctx, (n.setStateId d u c t p ri).fired = [ctx] ∧
      ctx.prev = n.stateId_ ∧ ctx.curr = OFFLINE_ID) := by
  unfold StateMQ.setStateId StateMQ.notify
  simp only [hc, Bool.not_false, if_true]
  by_cases h : n.stateId_ = OFFLINE_ID <;> simp [h]

/-- While connected a registered or CONNECTED target is entered as requested. -/
theorem setStateId_connected (n : StateMQ) (d : Nat) (u : Bool) (c : StateChangeCause)
    (t p : Option CStr) (ri : Int) (hc : n.connected_ = true)
    (hd : d = CONNECTED_ID ∨ (2 ≤ d ∧ d < 2 + n.knownStates.length)) :
    (n.setStateId d u c t p ri).node.stateId_ = d ∧
    (n.setStateId d u c t p ri).node.lastUserStateId_ =
      (if u = true ∧ 2 ≤ d then d else n.lastUserStateId_) ∧
    (n.stateId_ = d → (n.setStateId d u c t p ri).fired = [] ∧
      (n.setStateId d u c t p ri).calls = []) ∧
    (n.stateId_ ≠ d → ∃ ctx, (n.setStateId d u c t p ri).fired = [ctx] ∧
      ctx.prev = n.stateId_ ∧ ctx.curr = d ∧ ctx.desired = d ∧ ctx.cause = c ∧
      ctx.ruleIndex = ri ∧ ctx.topic = t ∧ ctx.payload = p) := by
  have hres : (d ≠ OFFLINE_ID ∧ d ≠ CONNECTED_ID) ↔ 2 ≤ d := by
    simp only [OFFLINE_ID, CONNECTED_ID]
    omega
  have happ : (if d ≠ OFFLINE_ID ∧ d ≠ CONNECTED_ID then
      (if d - 2 ≥ n.knownStates.length then CONNECTED_ID else d) else d) = d := by
    rcases hd with h | ⟨h1, h2⟩
    · simp [h]
    · have h3 : ¬ (d - 2 ≥ n.knownStates.length) := by omega
      simp [h3]
  unfold StateMQ.setStateId StateMQ.notify
  simp only [hc, happ, Bool.not_true, Bool.false_eq_true, if_false]
  by_cases hu : u = true ∧ 2 ≤ d
  · have hu2 : u = true ∧ d ≠ OFFLINE_ID ∧ d ≠ CONNECTED_ID := ⟨hu.1, hres.2 hu.2⟩
    by_cases hs : n.stateId_ = d <;> simp [hu, hu2, hs]
  · have hu2 : ¬ (u = true ∧ d ≠ OFFLINE_ID ∧ d ≠ CONNECTED_ID) := by
      rintro ⟨h1, h2⟩
      exact hu ⟨h1, hres.1 h2⟩
    by_cases hs : n.stateId_ = d <;> simp [hu, hu2, hs]

/-! ## The state registry -/

theorem knownIndex_bounds (s : CStr) (ks : List CStr) (base i : Nat)
    (h : knownIndex s ks base = some i) : base ≤ i ∧ i < base + ks.length := by
  induction ks generalizing base with
  | nil => simp [knownIndex] at h
  | cons k ks ih =>
    by_cases hk : strncmp k s STATE_LEN = 0
    · simp only [knownIndex, if_pos hk, Option.some.injEq] at h
      simp only [List.length_cons]
      omega
    · simp only [knownIndex, if_neg hk] at h
      have := ih (base + 1) h
      simp only [List.length_cons]
      omega

/-- The copy stored for a name that is not reserved is not a reserved name either. -/
theorem take_ne_reserved (s r : CStr) (hr : r.length < STATE_LEN - 1) (hs : s ≠ r) :
    s.take (STATE_LEN - 1) ≠ r := by
  intro h
  have hlen : (s.take (STATE_LEN - 1)).length = r.length := by rw [h]
  rw [List.length_take] at hlen
  have hle : s.length ≤ STATE_LEN - 1 := by omega
  rw [List.take_of_length_le hle] at h
  exact hs h

/-- The registry after `addKnownState` is the old one, or the old one with the cut copy of
a name that is not reserved appended while there was room. -/
theorem addKnownState_cases (n : StateMQ) (s : CStr) :
    n.addKnownState (some s) = n ∨
    (n.knownStates.length < MAX_KNOWN_STATES ∧ s ≠ OFFLINE_STATE ∧ s ≠ CONNECTED_STATE ∧
      n.addKnownState (some s) =
        { n with knownStates := n.knownStates ++ [s.take (STATE_LEN - 1)] }) := by
  unfold StateMQ.addKnownState
  simp only [strncmp_offline_iff, strncmp_connected_iff]
  by_cases h1 : s = OFFLINE_STATE
  · simp [h1]
  by_cases h2 : s = CONNECTED_STATE
  · simp [h2]
  by_cases h3 : n.isKnownState (some s) = true
  · simp [h1, h2, h3]
  by_cases h4 : n.knownStates.length ≥ MAX_KNOWN_STATES
  · simp [h1, h2, h3, h4]
  · right
    refine ⟨by omega, h1, h2, ?_⟩
    simp [h1, h2, h3, h4]

/-- The id found for a name that is not reserved is CONNECTED or the id of a registry slot. -/
theorem stateIdForKnown_valid (n : StateMQ) (s : CStr) (h1 : s ≠ OFFLINE_STATE)
    (h2 : s ≠ CONNECTED_STATE) (hlen : n.knownStates.length ≤ MAX_KNOWN_STATES) :
    n.stateIdForKnown (some s) = CONNECTED_ID ∨
    (2 ≤ n.stateIdForKnown (some s) ∧ n.stateIdForKnown (some s) < 2 + n.knownStates.length) := by
  unfold StateMQ.stateIdForKnown
  simp only [strncmp_offline_iff, strncmp_connected_iff, if_neg h1, if_neg h2]
  cases hk : knownIndex s n.knownStates 0 with
  | none => left; rfl
  | some i =>
    right
    have hb := knownIndex_bounds s n.knownStates 0 i hk
    simp only [MAX_KNOWN_STATES] at hlen
    simp only [toStateId]
    omega

/-! ## The invariant of the engine -/

theorem inv_ctor : Inv StateMQ.ctor := by
  constructor <;> simp [StateMQ.ctor, MAX_KNOWN_STATES, MAX_RULES, OFFLINE_ID, CONNECTED_ID]

theorem inv_map (n : StateMQ) (t m st : Option CStr) (h : Inv n) : Inv (n.map t m st).2 := by
  unfold StateMQ.map
  cases t with
  | none => exact h
  | some t =>
  cases m with
  | none => exact h
  | some m =>
  cases st with
  | none => exact h
  | some st =>
  simp only [strncmp_offline_iff, strncmp_connected_iff]
  by_cases hfull : n.rules.length ≥ MAX_RULES
  · simpa [hfull] using h
  by_cases h1 : st = OFFLINE_STATE
  · simpa [hfull, h1] using h
  by_cases h2 : st = CONNECTED_STATE
  · simpa [hfull, h1, h2] using h
  simp only [if_neg hfull, if_neg h1, if_neg h2]
  have hroomR : n.rules.length < MAX_RULES := by omega
  simp only [MAX_RULES] at hroomR
  rcases addKnownState_cases n st with he | ⟨hroom, _, _, he⟩
  · rw [he]
    have hid := stateIdForKnown_valid n st h1 h2 h.known_le
    refine
      { known_le := h.known_le
        rules_le := ?_
        known_le_rules := ?_
        names_short := h.names_short
        reserved := h.reserved
        rule_ids := ?_
        offline_iff := h.offline_iff
        state_id := h.state_id
        last_id := h.last_id
        restore := h.restore }
    · simp only [List.length_append, List.length_singleton, MAX_RULES]
      omega
    · have := h.known_le_rules
      simp only [List.length_append, List.length_singleton]
      omega
    · intro r hr
      simp only [List.mem_append, List.mem_singleton] at hr
      rcases hr with hr | hr
      · exact h.rule_ids r hr
      · rw [hr]
        exact hid
  · rw [he]
    have hk := h.known_le
    have hkr := h.known_le_rules
    simp only [MAX_KNOWN_STATES] at hroom hk
    have hlen2 : ({ n with knownStates := n.knownStates ++ [st.take (STATE_LEN - 1)] } :
        StateMQ).knownStates.length ≤ MAX_KNOWN_STATES := by
      simp only [List.length_append, List.length_singleton, MAX_KNOWN_STATES]
      omega
    have hid := stateIdForKnown_valid _ st h1 h2 hlen2
    simp only [List.length_append, List.length_singleton] at hid
    refine
      { known_le := hlen2
        rules_le := ?_
        known_le_rules := ?_
        names_short := ?_
        reserved := ?_
        rule_ids := ?_
        offline_iff := h.offline_iff
        state_id := ?_
        last_id := ?_
        restore := h.restore }
    · simp only [List.length_append, List.length_singleton, MAX_RULES]
      omega
    · simp only [List.length_append, List.length_singleton]
      omega
    · intro k hk2
      simp only [List.mem_append, List.mem_singleton] at hk2
      rcases hk2 with hk2 | hk2
      · exact h.names_short k hk2
      · rw [hk2, List.length_take]
        exact Nat.min_le_left _ _
    · simp only [List.mem_append, List.mem_singleton, not_or]
      exact ⟨⟨h.reserved.1, fun e => take_ne_reserved st OFFLINE_STATE (by decide) h1 e.symm⟩,
        ⟨h.reserved.2, fun e => take_ne_reserved st CONNECTED_STATE (by decide) h2 e.symm⟩⟩
    · intro r hr
      simp only [List.mem_append, List.mem_singleton] at hr
      simp only [List.length_append, List.length_singleton]
      rcases hr with hr | hr
      · rcases h.rule_ids r hr with h3 | h3
        · exact Or.inl h3
        · exact Or.inr ⟨h3.1, by omega⟩
      · rw [hr]
        exact hid
    · simp only [List.length_append, List.length_singleton]
      rcases h.state_id with h3 | h3 | h3
      · exact Or.inl h3
      · exact Or.inr (Or.inl h3)
      · exact Or.inr (Or.inr ⟨h3.1, by omega⟩)
    · simp only [List.length_append, List.length_singleton]
      rcases h.last_id with h3 | h3
      · exact Or.inl h3
      · exact Or.inr ⟨h3.1, by omega⟩

/-- The invariant does not mention the task table or the handler slots. -/
theorem inv_of_core_eq (n n2 : StateMQ) (h : Inv n) (hr : n2.rules = n.rules)
    (hk : n2.knownStates = n.knownStates) (hs : n2.stateId_ = n.stateId_)
    (hl : n2.lastUserStateId_ = n.lastUserStateId_) (hc : n2.connected_ = n.connected_) :
    Inv n2 := by
  constructor
  · rw [hk]; exact h.known_le
  · rw [hr]; exact h.rules_le
  · rw [hk, hr]; exact h.known_le_rules
  · rw [hk]; exact h.names_short
  · rw [hk]; exact h.reserved
  · rw [hk, hr]; exact h.rule_ids
  · rw [hs, hc]; exact h.offline_iff
  · rw [hk, hs]; exact h.state_id
  · rw [hk, hl]; exact h.last_id
  · rw [hs, hl, hc]; exact h.restore

/-- A transition whose target is CONNECTED or a registered id keeps the invariant; the
connectivity flag may have been written just before, so the coupling of the current state
with the flag is not assumed but established. -/
theorem inv_setStateId (n : StateMQ) (d : Nat) (u : Bool) (c : StateChangeCause)
    (t p : Option CStr) (ri : Int)
    (hkl : n.knownStates.length ≤ MAX_KNOWN_STATES) (hrl : n.rules.length ≤ MAX_RULES)
    (hkr : n.knownStates.length ≤ n.rules.length)
    (hns : ∀ k ∈ n.knownStates, k.length ≤ STATE_LEN - 1)
    (hres : OFFLINE_STATE ∉ n.knownStates ∧ CONNECTED_STATE ∉ n.knownStates)
    (hri : ∀ r ∈ n.rules,
      r.stateId = CONNECTED_ID ∨ (2 ≤ r.stateId ∧ r.stateId < 2 + n.knownStates.length))
    (hl : n.lastUserStateId_ = CONNECTED_ID ∨
      (2 ≤ n.lastUserStateId_ ∧ n.lastUserStateId_ < 2 + n.knownStates.length))
    (hd : n.connected_ = true →
      d = CONNECTED_ID ∨ (2 ≤ d ∧ d < 2 + n.knownStates.length))
    (hu : u = true ∨ (2 ≤ d → d = n.lastUserStateId_)) :
    Inv (n.setStateId d u c t p ri).node := by
  obtain ⟨f1, _, f3, f4, _, _, _⟩ := setStateId_frame n d u c t p ri
  cases hc : n.connected_ with
  | false =>
    obtain ⟨g1, g2, _, _⟩ := setStateId_disconnected n d u c t p ri hc
    constructor
    · rw [f3]; exact hkl
    · rw [f1]; exact hrl
    · rw [f3, f1]; exact hkr
    · rw [f3]; exact hns
    · rw [f3]; exact hres
    · rw [f3, f1]; exact hri
    · rw [g1, f4, hc]; simp
    · rw [g1]; exact Or.inl rfl
    · rw [f3, g2]; exact hl
    · rw [f4, hc]; intro hh; cases hh
  | true =>
    have hd := hd hc
    obtain ⟨g1, g2, _, _⟩ := setStateId_connected n d u c t p ri hc hd
    constructor
    · rw [f3]; exact hkl
    · rw [f1]; exact hrl
    · rw [f3, f1]; exact hkr
    · rw [f3]; exact hns
    · rw [f3]; exact hres
    · rw [f3, f1]; exact hri
    · rw [g1, f4, hc]
      simp only [OFFLINE_ID, CONNECTED_ID] at *
      constructor
      · intro h0; omega
      · intro hh; cases hh
    · rw [g1, f3]; exact Or.inr hd
    · rw [f3, g2]
      split_ifs with hif
      · rcases hd with hd | hd
        · exact Or.inl hd
        · exact Or.inr hd
      · exact hl
    · intro _ h2
      rw [g1, g2]
      rw [g1] at h2
      rcases hu with hu | hu
      · simp [hu, h2]
      · split_ifs
        · rfl
        · exact (hu h2).symm

theorem inv_applyMessage (n : StateMQ) (t p : Option CStr) (h : Inv n) :
    Inv (n.applyMessage t p).2.node := by
  unfold StateMQ.applyMessage
  cases t with
  | none => exact h
  | some t =>
  cases p with
  | none => exact h
  | some p =>
  simp only []
  cases hm : matchRule t p n.rules 0 with
  | none => exact h
  | some mk =>
    obtain ⟨id, k⟩ := mk
    obtain ⟨r, hr, hid, _⟩ := matchRule_some_mem t p n.rules 0 id k hm
    simp only []
    exact inv_setStateId n id true _ _ _ _ h.known_le h.rules_le h.known_le_rules
      h.names_short h.reserved h.rule_ids h.last_id (fun _ => hid ▸ h.rule_ids r hr)
      (Or.inl rfl)

theorem inv_setConnected (n : StateMQ) (c : Bool) (h : Inv n) :
    Inv (n.setConnected c).node := by
  unfold StateMQ.setConnected
  simp only []
  apply inv_setStateId
  · exact h.known_le
  · exact h.rules_le
  · exact h.known_le_rules
  · exact h.names_short
  · exact h.reserved
  · exact h.rule_ids
  · exact h.last_id
  · intro hc
    cases c with
    | false => cases hc
    | true =>
      simp only [Bool.not_true, Bool.false_eq_true, if_false]
      rcases h.last_id with hl | hl
      · left
        rw [hl]
        simp [CONNECTED_ID]
      · right
        rw [if_pos hl.1]
        exact hl
  · right
    intro h2
    cases c with
    | false => simp [OFFLINE_ID] at h2
    | true =>
      simp only [Bool.not_true, Bool.false_eq_true, if_false] at h2 ⊢
      split_ifs with h3
      · rfl
      · rw [if_neg h3] at h2
        simp [CONNECTED_ID] at h2

theorem inv_step (n : StateMQ) (c : Call) (h : Inv n) : Inv (n.step c) := by
  cases c with
  | map t m st => exact inv_map n t m st h
  | taskEvery nm per stk cb en =>
    apply inv_of_core_eq n _ h <;>
      (simp only [StateMQ.step, StateMQ.taskEvery]; cases cb <;> simp; split_ifs <;> rfl)
  | taskEveryEx nm per stk cb us en =>
    apply inv_of_core_eq n _ h <;>
      (simp only [StateMQ.step, StateMQ.taskEveryEx]; cases cb <;> simp; split_ifs <;> rfl)
  | taskEnable id en =>
    apply inv_of_core_eq n _ h <;>
      (simp only [StateMQ.step, StateMQ.taskEnable]; split_ifs <;> rfl)
  | onStateChange cb => exact inv_of_core_eq n _ h rfl rfl rfl rfl rfl
  | onStateChangeEx cb us => exact inv_of_core_eq n _ h rfl rfl rfl rfl rfl
  | applyMessage t p => exact inv_applyMessage n t p h
  | setConnected c => exact inv_setConnected n c h

theorem inv_exec (n : StateMQ) (cs : List Call) (h : Inv n) : Inv (n.exec cs) := by
  induction cs generalizing n with
  | nil => exact h
  | cons c cs ih => exact ih (n.step c) (inv_step n c h)

/-- Every engine state that the public interface can produce satisfies the invariant. -/
theorem reachable_inv (n : StateMQ) (h : Reachable n) : Inv n := by
  obtain ⟨cs, rfl⟩ := h
  exact inv_exec _ cs inv_ctor

theorem reachable_step (n : StateMQ) (c : Call) (h : Reachable n) : Reachable (n.step c) := by
  obtain ⟨cs, rfl⟩ := h
  exact ⟨cs ++ [c], by simp [StateMQ.exec, List.foldl_append]⟩

/-! ## Consequences of the invariant -/

/-- Under the invariant the public `stateId()` is the stored current state. -/
theorem stateId_eq_of_inv (n : StateMQ) (h : Inv n) : n.stateId = n.stateId_ := by
  unfold StateMQ.stateId
  cases hc : n.connected_ with
  | false =>
    simp only [Bool.not_false, if_true]
    exact ((h.offline_iff).2 hc).symm
  | true =>
    simp only [Bool.not_true, Bool.false_eq_true, if_false]
    have h0 : n.stateId_ ≠ OFFLINE_ID := fun e => by
      have := (h.offline_iff).1 e
      rw [hc] at this
      cases this
    simp only [OFFLINE_ID, CONNECTED_ID] at *
    split_ifs <;> omega

/-- A transition fires exactly when it changes the stored current state, with the old and
the new value in the context. -/
theorem setStateId_edge (n : StateMQ) (d : Nat) (u : Bool) (c : StateChangeCause)
    (t p : Option CStr) (ri : Int) :
    ((n.setStateId d u c t p ri).node.stateId_ = n.stateId_ →
      (n.setStateId d u c t p ri).fired = [] ∧ (n.setStateId d u c t p ri).calls = []) ∧
    ((n.setStateId d u c t p ri).node.stateId_ ≠ n.stateId_ →
      ∃ ctx, (n.setStateId d u c t p ri).fired = [ctx] ∧ ctx.prev = n.stateId_ ∧
        ctx.curr = (n.setStateId d u c t p ri).node.stateId_ ∧ ctx.desired = d ∧
        ctx.cause = c ∧ ctx.ruleIndex = ri ∧ ctx.topic = t ∧ ctx.payload = p ∧
        (n.setStateId d u c t p ri).calls =
          ((n.setStateId d u c t p ri).node.notify ctx).calls) := by
  unfold StateMQ.setStateId StateMQ.notify
  simp only []
  split_ifs <;> simp_all <;> omega

theorem setStateId_disconnected_node (n : StateMQ) (d : Nat) (u : Bool)
    (c : StateChangeCause) (t p : Option CStr) (ri : Int) (hc : n.connected_ = false) :
    (n.setStateId d u c t p ri).node = { n with stateId_ := OFFLINE_ID } := by
  unfold StateMQ.setStateId StateMQ.notify
  simp only [hc, Bool.not_false, if_true]
  by_cases h : n.stateId_ = OFFLINE_ID
  · simp only [if_pos h]
    cases n
    simp_all
  · simp only [if_neg h]

theorem setStateId_connected_node (n : StateMQ) (d : Nat) (u : Bool) (c : StateChangeCause)
    (t p : Option CStr) (ri : Int) (hc : n.connected_ = true)
    (hd : d = CONNECTED_ID ∨ (2 ≤ d ∧ d < 2 + n.knownStates.length)) :
    (n.setStateId d u c t p ri).node =
      { n with stateId_ := d
               lastUserStateId_ := if u = true ∧ 2 ≤ d then d else n.lastUserStateId_ } := by
  obtain ⟨f1, f2, f3, f4, f5, f6, f7⟩ := setStateId_frame n d u c t p ri
  obtain ⟨g1, g2, _, _⟩ := setStateId_connected n d u c t p ri hc hd
  cases hn : (n.setStateId d u c t p ri).node
  rw [hn] at f1 f2 f3 f4 f5 f6 f7 g1 g2
  simp only at f1 f2 f3 f4 f5 f6 f7 g1 g2
  subst f1 f2 f3 f4 f5 f6 f7 g1
  rw [g2]

theorem setConnected_false_node (n : StateMQ) :
    (n.setConnected false).node = { n with connected_ := false, stateId_ := OFFLINE_ID } := by
  unfold StateMQ.setConnected
  simp only []
  rw [setStateId_disconnected_node _ _ _ _ _ _ _ rfl]

theorem setConnected_true_node (n : StateMQ)
    (hl : n.lastUserStateId_ < 2 ∨ n.lastUserStateId_ < 2 + n.knownStates.length) :
    (n.setConnected true).node =
      { n with connected_ := true
               stateId_ := if 2 ≤ n.lastUserStateId_ then n.lastUserStateId_
                           else CONNECTED_ID } := by
  unfold StateMQ.setConnected
  simp only [Bool.not_true, Bool.false_eq_true, if_false]
  rw [setStateId_connected_node _ _ _ _ _ _ _ rfl]
  · simp
  · by_cases h2 : 2 ≤ n.lastUserStateId_
    · right
      simp only [ge_iff_le, if_pos h2]
      exact ⟨h2, by omega⟩
    · left
      simp only [ge_iff_le, if_neg h2]

/-- A disconnected engine whose stored state is OFFLINE ignores every message. -/
theorem applyMessage_disconnected (n : StateMQ) (t p : Option CStr)
    (hc : n.connected_ = false) (hs : n.stateId_ = OFFLINE_ID) :
    (n.applyMessage t p).2 = { node := n, fired := [], calls := [] } := by
  unfold StateMQ.applyMessage
  cases t with
  | none => rfl
  | some t =>
  cases p with
  | none => rfl
  | some p =>
  simp only []
  cases hm : matchRule t p n.rules 0 with
  | none => rfl
  | some mk =>
    simp only []
    exact (setStateId_disconnected n _ _ _ _ _ _ hc).2.2.1 hs

theorem applyAll_disconnected (n : StateMQ) (ms : List (Option CStr × Option CStr))
    (hc : n.connected_ = false) (hs : n.stateId_ = OFFLINE_ID) :
    ∀ r ∈ n.applyAll ms, r.2 = { node := n, fired := [], calls := [] } := by
  induction ms with
  | nil => simp [StateMQ.applyAll]
  | cons m ms ih =>
    obtain ⟨t, p⟩ := m
    intro r hr
    simp only [StateMQ.applyAll, applyMessage_disconnected n t p hc hs, List.mem_cons] at hr
    rcases hr with hr | hr
    · rw [hr]
      exact applyMessage_disconnected n t p hc hs
    · exact ih r hr

theorem afterAll_disconnected (n : StateMQ) (ms : List (Option CStr × Option CStr))
    (hc : n.connected_ = false) (hs : n.stateId_ = OFFLINE_ID) : n.afterAll ms = n := by
  induction ms with
  | nil => rfl
  | cons m ms ih =>
    obtain ⟨t, p⟩ := m
    simp only [StateMQ.afterAll, applyMessage_disconnected n t p hc hs]
    exact ih

theorem toInt16_small (i : Nat) (h : i < 32768) : toInt16 i = (i : Int) := by
  unfold toInt16
  have h1 : i % 65536 = i := Nat.mod_eq_of_lt (by omega)
  rw [h1, if_pos h]

/-- A transition started from an engine with the stored state of `n0` is edge-exact with
respect to `n0` when both ends satisfy the invariant. -/
theorem edgeExact_setStateId (n0 n : StateMQ) (d : Nat) (u : Bool) (c : StateChangeCause)
    (t p : Option CStr) (ri : Int) (h0 : Inv n0) (hs : n.stateId_ = n0.stateId_)
    (h1 : Inv (n.setStateId d u c t p ri).node) :
    EdgeExact n0 (n.setStateId d u c t p ri) := by
  obtain ⟨e1, e2⟩ := setStateId_edge n d u c t p ri
  unfold EdgeExact
  rw [stateId_eq_of_inv n0 h0, stateId_eq_of_inv _ h1, ← hs]
  constructor
  · intro hne
    obtain ⟨ctx, hf, hp, hcur, _, _, _, _, _, hcalls⟩ := e2 hne
    refine ⟨ctx, hf, hp, hcur, ?_, hcalls⟩
    rw [hp, hcur]
    exact fun e => hne e.symm
  · exact e1

/-! ## The claims -/

/-- Claim C1. Disconnection override: in every engine state with `connected() == false`
that the public interface can produce, after each call of any finite sequence of
`applyMessage` calls `stateId()` is `OFFLINE_ID`, `connected()` is still false, no
notification was fired and no handler was invoked. -/
theorem disconnection_override (n : StateMQ) (hr : Reachable n) (hc : n.connected = false)
    (ms : List (Option CStr × Option CStr)) :
    ∀ r ∈ n.applyAll ms,
      r.2.node.stateId = OFFLINE_ID ∧ r.2.node.connected = false ∧
      r.2.fired = [] ∧ r.2.calls = [] := by
  have hinv := reachable_inv n hr
  have hc2 : n.connected_ = false := hc
  have hs : n.stateId_ = OFFLINE_ID := (hinv.offline_iff).2 hc2
  intro r hmem
  rw [applyAll_disconnected n ms hc2 hs r hmem]
  refine ⟨?_, hc, rfl, rfl⟩
  simp [StateMQ.stateId, hc2]

/-- Witness of `disconnection_override`: the fresh engine with the rule
`("T", "run") -> RUNNING`, fed a matching and a non-matching message. -/
theorem disconnection_override_witness :
    Reachable runningNode ∧ runningNode.connected = false ∧
    ∀ r ∈ runningNode.applyAll
        [(some topicT, some payloadRun), (some topicT, some payloadHi)],
      r.2.node.stateId = OFFLINE_ID ∧ r.2.node.connected = false ∧
      r.2.fired = [] ∧ r.2.calls = [] :=
  ⟨⟨_, rfl⟩, rfl, disconnection_override runningNode ⟨_, rfl⟩ rfl _⟩

/-- A message whose lowest matching rule is `r`, at index `i`, starts the transition to the
target of `r` and returns true. -/
theorem applyMessage_first_match (n : StateMQ) (t p : CStr) (i : Nat) (r : Rule)
    (hi : n.rules[i]? = some r) (hm : r.topic = t ∧ r.message = p)
    (hfirst : ∀ k q, k < i → n.rules[k]? = some q → ¬ (q.topic = t ∧ q.message = p)) :
    n.applyMessage (some t) (some p) =
      (true, n.setStateId r.stateId true StateChangeCause.RuleMatch (some t) (some p)
        (toInt16 i)) := by
  unfold StateMQ.applyMessage
  simp only [matchRule_first t p n.rules 0 i r hi hm hfirst, Nat.zero_add]

/-- Counterexample to claim C2: on the freshly constructed engine on which only
`map("T", "run", "RUNNING")` has been called (it returned 2), `applyMessage("T", "run")`
returns true, and after `setConnected(false)` and `setConnected(true)` the state is
`CONNECTED_ID`, not the id of RUNNING. -/
theorem restoration_fails_on_fresh_engine :
    (StateMQ.ctor.map (some topicT) (some payloadRun) (some nameRunning)).1 = 2 ∧
    runningNode = (StateMQ.ctor.map (some topicT) (some payloadRun) (some nameRunning)).2 ∧
    (runningNode.applyMessage (some topicT) (some payloadRun)).1 = true ∧
    ((((runningNode.applyMessage (some topicT) (some payloadRun)).2.node.setConnected
      false).node.setConnected true).node.stateId = CONNECTED_ID) ∧
    ((((runningNode.applyMessage (some topicT) (some payloadRun)).2.node.setConnected
      false).node.setConnected true).node.stateId ≠
        (StateMQ.ctor.map (some topicT) (some payloadRun) (some nameRunning)).1) := by
  decide

/-- Claim C2, amended. Restoration: in every connected engine state that the public
interface can produce, if the lowest rule matching `(t, p)` targets a user state
(`stateId >= 2`), then `applyMessage(t, p)`, `setConnected(false)`, `setConnected(true)`
leaves `stateId()` equal to that rule's target. -/
theorem restoration_when_connected (n : StateMQ) (hr : Reachable n)
    (hc : n.connected = true) (t p : CStr) (i : Nat) (r : Rule)
    (hi : n.rules[i]? = some r) (hm : r.topic = t ∧ r.message = p)
    (hfirst : ∀ k q, k < i → n.rules[k]? = some q → ¬ (q.topic = t ∧ q.message = p))
    (hu : 2 ≤ r.stateId) :
    (((n.applyMessage (some t) (some p)).2.node.setConnected false).node.setConnected
      true).node.stateId = r.stateId := by
  have hinv := reachable_inv n hr
  have hc2 : n.connected_ = true := hc
  have hvalid : r.stateId = CONNECTED_ID ∨
      (2 ≤ r.stateId ∧ r.stateId < 2 + n.knownStates.length) :=
    hinv.rule_ids r (List.getElem?_mem hi)
  have hlt : r.stateId < 2 + n.knownStates.length := by
    rcases hvalid with h | h
    · simp only [CONNECTED_ID] at h
      omega
    · exact h.2
  rw [applyMessage_first_match n t p i r hi hm hfirst]
  simp only []
  rw [setStateId_connected_node n _ _ _ _ _ _ hc2 hvalid, setConnected_false_node,
    setConnected_true_node]
  · simp [StateMQ.stateId, hu]
  · right
    simp only [hu, and_self, if_true]
    exact hlt

/-- Witness of `restoration_when_connected`: the engine with the one rule
`("T", "run") -> RUNNING` after `setConnected(true)`. -/
theorem restoration_when_connected_witness :
    Reachable runningNodeUp ∧ runningNodeUp.connected = true ∧
    (((runningNodeUp.applyMessage (some topicT) (some payloadRun)).2.node.setConnected
      false).node.setConnected true).node.stateId = 2 :=
  ⟨⟨[Call.map (some topicT) (some payloadRun) (some nameRunning), Call.setConnected true],
      rfl⟩, rfl,
    restoration_when_connected runningNodeUp
      ⟨[Call.map (some topicT) (some payloadRun) (some nameRunning), Call.setConnected true],
        rfl⟩ rfl topicT payloadRun 0
      { topic := topicT, message := payloadRun, stateId := 2 } rfl ⟨rfl, rfl⟩
      (fun k _ hk _ => absurd hk (Nat.not_lt_zero k)) (by decide)⟩

theorem map_lastUser (n : StateMQ) (t m st : Option CStr) :
    (n.map t m st).2.lastUserStateId_ = n.lastUserStateId_ := by
  unfold StateMQ.map
  cases t with
  | none => rfl
  | some t =>
  cases m with
  | none => rfl
  | some m =>
  cases st with
  | none => rfl
  | some st =>
  simp only []
  split_ifs
  · rfl
  · rfl
  · rfl
  · rcases addKnownState_cases n st with he | ⟨_, _, _, he⟩ <;> rw [he]

/-- A call changes the last user state only by entering a user state while connected. -/
theorem step_lastUser (n : StateMQ) (c : Call) (h : Inv n) :
    (n.step c).lastUserStateId_ = n.lastUserStateId_ ∨ 2 ≤ (n.step c).stateId := by
  cases c with
  | map t m st => exact Or.inl (map_lastUser n t m st)
  | taskEvery nm per stk cb en =>
    left
    simp only [StateMQ.step, StateMQ.taskEvery]
    cases cb <;> simp
    split_ifs <;> rfl
  | taskEveryEx nm per stk cb us en =>
    left
    simp only [StateMQ.step, StateMQ.taskEveryEx]
    cases cb <;> simp
    split_ifs <;> rfl
  | taskEnable id en =>
    left
    simp only [StateMQ.step, StateMQ.taskEnable]
    split_ifs <;> rfl
  | onStateChange cb => exact Or.inl rfl
  | onStateChangeEx cb us => exact Or.inl rfl
  | setConnected c =>
    left
    simp only [StateMQ.step]
    cases c with
    | false => rw [setConnected_false_node]
    | true =>
      rw [setConnected_true_node]
      rcases h.last_id with hl | hl
      · left
        simp only [CONNECTED_ID] at hl
        omega
      · exact Or.inr hl.2
  | applyMessage t p =>
    simp only [StateMQ.step]
    unfold StateMQ.applyMessage
    cases t with
    | none => exact Or.inl rfl
    | some t =>
    cases p with
    | none => exact Or.inl rfl
    | some p =>
    simp only []
    cases hm : matchRule t p n.rules 0 with
    | none => exact Or.inl rfl
    | some mk =>
      obtain ⟨id, k⟩ := mk
      obtain ⟨r, hr, hid, _⟩ := matchRule_some_mem t p n.rules 0 id k hm
      have hvalid := h.rule_ids r hr
      rw [hid] at hvalid
      simp only []
      cases hc : n.connected_ with
      | false => exact Or.inl (setStateId_disconnected n _ _ _ _ _ _ hc).2.1
      | true =>
        rw [setStateId_connected_node n _ _ _ _ _ _ hc hvalid]
        by_cases h2 : 2 ≤ id
        · right
          simp [StateMQ.stateId, hc, h2]
        · left
          simp [h2]

/-- While `stateId()` stays below 2 after every call, the last user state stays below 2. -/
theorem exec_lastUser (cs : List Call) (n : StateMQ) (h : Inv n)
    (hl : n.lastUserStateId_ < 2)
    (hall : ∀ k, k ≤ cs.length → (n.exec (cs.take k)).stateId < 2) :
    (n.exec cs).lastUserStateId_ < 2 := by
  induction cs generalizing n with
  | nil => exact hl
  | cons c cs ih =>
    have h1 : (n.step c).stateId < 2 := by
      have := hall 1 (by simp)
      simpa [StateMQ.exec] using this
    have hl2 : (n.step c).lastUserStateId_ < 2 := by
      rcases step_lastUser n c h with hs | hs
      · rw [hs]; exact hl
      · omega
    apply ih (n.step c) (inv_step n c h) hl2
    intro k hk
    have := hall (k + 1) (by simp; omega)
    simpa [StateMQ.exec] using this

/-- Claim C3. The last user state survives a disconnect: (1) in every connected engine
state that the public interface can produce and whose current state is a user state `U`
(`U >= 2`, however it was entered), `setConnected(false)`, then any finite sequence of
`applyMessage` calls, then `setConnected(true)` leaves `stateId() == U`; (2) after any
sequence of calls from construction during which `stateId()` never was a user state,
`setConnected(true)` yields `CONNECTED_ID`. -/
theorem last_user_state_survives :
    (∀ (n : StateMQ) (U : Nat) (ms : List (Option CStr × Option CStr)),
      Reachable n → n.connected = true → n.stateId = U → 2 ≤ U →
      (((n.setConnected false).node.afterAll ms).setConnected true).node.stateId = U) ∧
    (∀ cs : List Call,
      (∀ k, k ≤ cs.length → (StateMQ.ctor.exec (cs.take k)).stateId < 2) →
      ((StateMQ.ctor.exec cs).setConnected true).node.stateId = CONNECTED_ID) := by
  constructor
  · intro n U ms hr hc hU h2
    have hinv := reachable_inv n hr
    have hc2 : n.connected_ = true := hc
    rw [stateId_eq_of_inv n hinv] at hU
    have hlast : n.lastUserStateId_ = U := by
      rw [← hU]
      exact hinv.restore hc2 (by omega)
    have hlt : U < 2 + n.knownStates.length := by
      rcases hinv.last_id with hl | hl
      · simp only [CONNECTED_ID] at hl
        omega
      · rw [hlast] at hl
        exact hl.2
    rw [setConnected_false_node, afterAll_disconnected _ ms rfl rfl, setConnected_true_node]
    · simp [StateMQ.stateId, hlast, h2]
    · right
      simp only [hlast]
      exact hlt
  · intro cs hall
    have hinv := inv_exec StateMQ.ctor cs inv_ctor
    have hl := exec_lastUser cs StateMQ.ctor inv_ctor (by decide) hall
    rw [setConnected_true_node _ (Or.inl hl)]
    have hl2 : ¬ (2 ≤ (StateMQ.ctor.exec cs).lastUserStateId_) := by omega
    simp [StateMQ.stateId, hl2, CONNECTED_ID]

/-- Witness of `last_user_state_survives`: the engine in RUNNING is disconnected, fed two
messages and reconnected; and the fresh engine that got a matching message while
disconnected is connected. -/
theorem last_user_state_survives_witness :
    (Reachable runningNodeIn ∧ runningNodeIn.connected = true ∧ runningNodeIn.stateId = 2 ∧
      (((runningNodeIn.setConnected false).node.afterAll
        [(some topicS, some payloadHi), (some topicT, some payloadRun)]).setConnected
          true).node.stateId = 2) ∧
    ((StateMQ.ctor.exec
        [Call.map (some topicT) (some payloadRun) (some nameRunning),
         Call.applyMessage (some topicT) (some payloadRun)]).setConnected
          true).node.stateId = CONNECTED_ID :=
  ⟨⟨⟨[Call.map (some topicT) (some payloadRun) (some nameRunning), Call.setConnected true,
        Call.applyMessage (some topicT) (some payloadRun)], rfl⟩, rfl, rfl,
      last_user_state_survives.1 runningNodeIn 2 _
        ⟨[Call.map (some topicT) (some payloadRun) (some nameRunning), Call.setConnected true,
          Call.applyMessage (some topicT) (some payloadRun)], rfl⟩ rfl rfl (by decide)⟩,
    last_user_state_survives.2 _ (by
      intro k hk
      have hk2 : k ≤ 2 := hk
      interval_cases k <;> decide)⟩

/-- Claim C4. Rule precedence: in every connected engine state that the public interface can
produce, if rule `i` carries `(topic, payload)` and no rule before it does, then whatever
later rules carry the same pair, `applyMessage(topic, payload)` returns true and leaves
`stateId()` equal to the target of rule `i`, and every notification it fires has
`ruleIndex == i` (the index of no later rule) and `desired == curr ==` the target of
rule `i`. -/
theorem rule_precedence (n : StateMQ) (hr : Reachable n) (hc : n.connected = true)
    (t p : CStr) (i : Nat) (ri : Rule)
    (hi : n.rules[i]? = some ri) (hmi : ri.topic = t ∧ ri.message = p)
    (hfirst : ∀ k q, k < i → n.rules[k]? = some q → ¬ (q.topic = t ∧ q.message = p)) :
    (n.applyMessage (some t) (some p)).1 = true ∧
    (n.applyMessage (some t) (some p)).2.node.stateId = ri.stateId ∧
    ∀ ctx ∈ (n.applyMessage (some t) (some p)).2.fired,
      ctx.ruleIndex = (i : Int) ∧ ctx.desired = ri.stateId ∧ ctx.curr = ri.stateId ∧
      ∀ j : Nat, i < j → ctx.ruleIndex ≠ (j : Int) := by
  have hinv := reachable_inv n hr
  have hc2 : n.connected_ = true := hc
  have hvalid := hinv.rule_ids ri (List.getElem?_mem hi)
  have hinv2 := inv_applyMessage n (some t) (some p) hinv
  have hilt : i < 32768 := by
    have h1 : i < n.rules.length := (List.getElem?_eq_some.1 hi).1
    have h2 := hinv.rules_le
    simp only [MAX_RULES] at h2
    omega
  have hst := stateId_eq_of_inv _ hinv2
  rw [applyMessage_first_match n t p i ri hi hmi hfirst] at hst hinv2 ⊢
  simp only [] at hst hinv2 ⊢
  obtain ⟨g1, _, g3, g4⟩ := setStateId_connected n ri.stateId true StateChangeCause.RuleMatch
    (some t) (some p) (toInt16 i) hc2 hvalid
  refine ⟨trivial, by rw [hst, g1], ?_⟩
  intro ctx hctx
  by_cases hs : n.stateId_ = ri.stateId
  · rw [(g3 hs).1] at hctx
    cases hctx
  · obtain ⟨ctx2, hf, _, hcur, hdes, _, hri, _, _⟩ := g4 hs
    rw [hf, List.mem_singleton] at hctx
    subst hctx
    rw [hri, toInt16_small i hilt]
    refine ⟨rfl, hdes, hcur, ?_⟩
    intro j hij e
    have : i = j := by exact_mod_cast e
    omega

/-- Witness of `rule_precedence`: two rules for `("s", "hi")`, the first to HELLO (id 2),
the second to BYE (id 3). -/
theorem rule_precedence_witness :
    Reachable twoRuleNode ∧ twoRuleNode.connected = true ∧
    twoRuleNode.rules[1]? = some { topic := topicS, message := payloadHi, stateId := 3 } ∧
    (twoRuleNode.applyMessage (some topicS) (some payloadHi)).1 = true ∧
    (twoRuleNode.applyMessage (some topicS) (some payloadHi)).2.node.stateId = 2 ∧
    ∀ ctx ∈ (twoRuleNode.applyMessage (some topicS) (some payloadHi)).2.fired,
      ctx.ruleIndex = ((0 : Nat) : Int) ∧ ctx.desired = 2 ∧ ctx.curr = 2 ∧
      ∀ j : Nat, 0 < j → ctx.ruleIndex ≠ (j : Int) :=
  ⟨⟨_, rfl⟩, rfl, rfl,
    rule_precedence twoRuleNode ⟨_, rfl⟩ rfl topicS payloadHi 0
      { topic := topicS, message := payloadHi, stateId := 2 }
      rfl ⟨rfl, rfl⟩ (fun k _ hk _ => absurd hk (Nat.not_lt_zero k))⟩

/-- Claim C5. For every engine state and non-null topic and payload, `applyMessage` returns
true exactly when some stored rule `i < ruleCount()` has its topic equal to the topic and
its message equal to the payload as whole strings (the condition mentions only the rule
table, not `connected` or the current state); with a null topic or a null payload it
returns false, fires nothing and leaves the engine as it was. -/
theorem applyMessage_true_iff_rule (n : StateMQ) (t p : CStr) (q : Option CStr) :
    ((n.applyMessage (some t) (some p)).1 = true ↔
      ∃ i r, i < n.ruleCount ∧ n.rules[i]? = some r ∧ r.topic = t ∧ r.message = p) ∧
    n.applyMessage none q = (false, { node := n, fired := [], calls := [] }) ∧
    n.applyMessage q none = (false, { node := n, fired := [], calls := [] }) := by
  refine ⟨?_, rfl, ?_⟩
  · unfold StateMQ.applyMessage
    simp only []
    cases hm : matchRule t p n.rules 0 with
    | none =>
      simp only [Bool.false_eq_true, false_iff]
      rintro ⟨i, r, _, hi, ht, hp⟩
      exact (matchRule_none_iff t p n.rules 0).1 hm r (List.getElem?_mem hi) ⟨ht, hp⟩
    | some mk =>
      obtain ⟨id, k⟩ := mk
      obtain ⟨r, hr, _, ht, hp, _, _⟩ := matchRule_some_mem t p n.rules 0 id k hm
      obtain ⟨i, hi⟩ := List.getElem?_of_mem hr
      simp only [true_iff]
      exact ⟨i, r, (List.getElem?_eq_some.1 hi).1, hi, ht, hp⟩
  · cases q <;> rfl

/-- Claim C6. Change notification is edge-exact: in every engine state that the public
interface can produce, a single `applyMessage` (any arguments) or `setConnected` (either
value) fires a notification if and only if `stateId()` after the call differs from
`stateId()` before it; it then fires exactly one, with `ctx.prev` the `stateId()` before,
`ctx.curr` the `stateId()` after and `prev != curr`; a call that leaves `stateId()`
unchanged fires nothing and invokes no handler. -/
theorem notification_edge_exact (n : StateMQ) (hr : Reachable n) :
    (∀ t p : Option CStr, EdgeExact n (n.applyMessage t p).2) ∧
    (∀ c : Bool, EdgeExact n (n.setConnected c)) := by
  have hinv := reachable_inv n hr
  have hnone : EdgeExact n { node := n, fired := [], calls := [] } :=
    ⟨fun h => absurd rfl h, fun _ => ⟨rfl, rfl⟩⟩
  constructor
  · intro t p
    have hinv2 := inv_applyMessage n t p hinv
    unfold StateMQ.applyMessage at hinv2 ⊢
    cases t with
    | none => exact hnone
    | some t =>
    cases p with
    | none => exact hnone
    | some p =>
    simp only [] at hinv2 ⊢
    cases hm : matchRule t p n.rules 0 with
    | none => exact hnone
    | some mk =>
      rw [hm] at hinv2
      exact edgeExact_setStateId n n _ _ _ _ _ _ hinv rfl hinv2
  · intro c
    have hinv2 := inv_setConnected n c hinv
    unfold StateMQ.setConnected at hinv2 ⊢
    exact edgeExact_setStateId n _ _ _ _ _ _ _ hinv rfl hinv2

/-- Witness of `notification_edge_exact`: the connected engine of the end-to-end scenario. -/
theorem notification_edge_exact_witness :
    Reachable helloNode ∧
    (∀ t p : Option CStr, EdgeExact helloNode (helloNode.applyMessage t p).2) ∧
    (∀ c : Bool, EdgeExact helloNode (helloNode.setConnected c)) :=
  ⟨⟨[Call.map (some topicS) (some payloadHi) (some nameHello),
      Call.map (some topicS) (some payloadBye) (some nameBye), Call.setConnected true], rfl⟩,
    notification_edge_exact helloNode
      ⟨[Call.map (some topicS) (some payloadHi) (some nameHello),
        Call.map (some topicS) (some payloadBye) (some nameBye), Call.setConnected true],
        rfl⟩⟩

theorem setStateId_fired_length (n : StateMQ) (d : Nat) (u : Bool) (c : StateChangeCause)
    (t p : Option CStr) (ri : Int) : (n.setStateId d u c t p ri).fired.length ≤ 1 := by
  unfold StateMQ.setStateId StateMQ.notify
  simp only []
  split_ifs <;> simp

/-- Claim C7. Idempotence of connect: in every engine state that the public interface can
produce, for `b` true and for `b` false, the second of two consecutive `setConnected(b)`
calls fires no notification, invokes no handler and leaves the whole engine exactly as the
first call left it; the two calls together fire at most one notification. -/
theorem setConnected_idempotent (n : StateMQ) (hr : Reachable n) (b : Bool) :
    ((n.setConnected b).node.setConnected b).fired = [] ∧
    ((n.setConnected b).node.setConnected b).calls = [] ∧
    ((n.setConnected b).node.setConnected b).node = (n.setConnected b).node ∧
    ((n.setConnected b).fired ++ ((n.setConnected b).node.setConnected b).fired).length
      ≤ 1 := by
  have hinv := reachable_inv n hr
  have hinv1 := inv_setConnected n b hinv
  have hlast : ∀ m : StateMQ, Inv m →
      m.lastUserStateId_ < 2 ∨ m.lastUserStateId_ < 2 + m.knownStates.length := by
    intro m hm
    rcases hm.last_id with hl | hl
    · left
      simp only [CONNECTED_ID] at hl
      omega
    · exact Or.inr hl.2
  have hnode : ((n.setConnected b).node.setConnected b).node = (n.setConnected b).node := by
    cases b with
    | false => rw [setConnected_false_node, setConnected_false_node]
    | true =>
      rw [setConnected_true_node _ (hlast _ hinv1), setConnected_true_node n (hlast n hinv)]
  have hquiet : ((n.setConnected b).node.setConnected b).fired = [] ∧
      ((n.setConnected b).node.setConnected b).calls = [] := by
    have hst : ((n.setConnected b).node.setConnected b).node.stateId_ =
        (n.setConnected b).node.stateId_ := by rw [hnode]
    generalize (n.setConnected b).node = m at hst
    unfold StateMQ.setConnected at hst ⊢
    exact (setStateId_edge _ _ _ _ _ _ _).1 hst
  refine ⟨hquiet.1, hquiet.2, hnode, ?_⟩
  rw [hquiet.1, List.append_nil]
  unfold StateMQ.setConnected
  exact setStateId_fired_length _ _ _ _ _ _ _

/-- Witness of `setConnected_idempotent`: connecting the fresh engine with one rule twice. -/
theorem setConnected_idempotent_witness :
    Reachable runningNode ∧
    ((runningNode.setConnected true).node.setConnected true).fired = [] ∧
    ((runningNode.setConnected true).node.setConnected true).calls = [] ∧
    ((runningNode.setConnected true).node.setConnected true).node =
      (runningNode.setConnected true).node ∧
    ((runningNode.setConnected true).fired ++
      ((runningNode.setConnected true).node.setConnected true).fired).length ≤ 1 :=
  ⟨⟨_, rfl⟩, setConnected_idempotent runningNode ⟨_, rfl⟩ true⟩

/-- Claim C8. End-to-end scenario: on a fresh engine, after `HELLO = map("s","hi","HELLO")`,
`BYE = map("s","bye","BYE")` and `setConnected(true)`: `applyMessage("s","hi")` returns
true and fires exactly one notification, with `prev = CONNECTED_ID`,
`desired = curr = HELLO`, cause `RuleMatch`, `ruleIndex = 0`, topic `"s"` and payload
`"hi"`; then `applyMessage("s","bye")` returns true and fires exactly one notification,
with `prev = HELLO`, `curr = BYE` and `ruleIndex = 1`; then `applyMessage("s","unknown")`
returns false, fires nothing and leaves `stateId() == BYE`. -/
theorem end_to_end_scenario :
    (helloNode.applyMessage (some topicS) (some payloadHi)).1 = true ∧
    (helloNode.applyMessage (some topicS) (some payloadHi)).2.fired =
      [{ prev := CONNECTED_ID, desired := helloMap.1, curr := helloMap.1,
         cause := StateChangeCause.RuleMatch, ruleIndex := 0,
         topic := some topicS, payload := some payloadHi, user := none }] ∧
    ((helloNode.applyMessage (some topicS) (some payloadHi)).2.node.applyMessage
      (some topicS) (some payloadBye)).1 = true ∧
    ((helloNode.applyMessage (some topicS) (some payloadHi)).2.node.applyMessage
      (some topicS) (some payloadBye)).2.fired =
      [{ prev := helloMap.1, desired := byeMap.1, curr := byeMap.1,
         cause := StateChangeCause.RuleMatch, ruleIndex := 1,
         topic := some topicS, payload := some payloadBye, user := none }] ∧
    (((helloNode.applyMessage (some topicS) (some payloadHi)).2.node.applyMessage
      (some topicS) (some payloadBye)).2.node.applyMessage
        (some topicS) (some payloadUnknown)).1 = false ∧
    (((helloNode.applyMessage (some topicS) (some payloadHi)).2.node.applyMessage
      (some topicS) (some payloadBye)).2.node.applyMessage
        (some topicS) (some payloadUnknown)).2.fired = [] ∧
    (((helloNode.applyMessage (some topicS) (some payloadHi)).2.node.applyMessage
      (some topicS) (some payloadBye)).2.node.applyMessage
        (some topicS) (some payloadUnknown)).2.node.stateId = byeMap.1 ∧
    helloMap.1 = 2 ∧ byeMap.1 = 3 := by
  decide

set_option maxRecDepth 100000 in
/-- Counterexample to claim C9: on an engine whose rule table is full (32 rules),
`map("T", "run", "OFFLINE")` returns `CONNECTED_ID`, not `OFFLINE_ID`. -/
theorem map_offline_on_full_table :
    Reachable fullNode ∧ fullNode.ruleCount = MAX_RULES ∧
    (fullNode.map (some topicT) (some payloadRun) (some OFFLINE_STATE)).1 = CONNECTED_ID ∧
    (fullNode.map (some topicT) (some payloadRun) (some OFFLINE_STATE)).1 ≠ OFFLINE_ID := by
  have h : (fullNode.map (some topicT) (some payloadRun) (some OFFLINE_STATE)).1
      = CONNECTED_ID := rfl
  refine ⟨⟨_, rfl⟩, rfl, h, ?_⟩
  rw [h]
  decide

/-- Claim C9, amended. Reserved names short-circuit to their fixed ids while the rule table
has room: for every engine state holding fewer than `MAX_RULES` rules and every non-null
topic and message, `map(topic, message, "OFFLINE")` returns `OFFLINE_ID`; and in every
engine state whatever, `map(topic, message, "CONNECTED")` returns `CONNECTED_ID`. -/
theorem map_reserved_ids (n : StateMQ) (t m : CStr) :
    (n.ruleCount < MAX_RULES →
      (n.map (some t) (some m) (some OFFLINE_STATE)).1 = OFFLINE_ID) ∧
    (n.map (some t) (some m) (some CONNECTED_STATE)).1 = CONNECTED_ID := by
  have ho : strncmp OFFLINE_STATE OFFLINE_STATE STATE_LEN = 0 :=
    (strncmp_offline_iff _).2 rfl
  have hcn : strncmp CONNECTED_STATE CONNECTED_STATE STATE_LEN = 0 :=
    (strncmp_connected_iff _).2 rfl
  have hco : ¬ (strncmp CONNECTED_STATE OFFLINE_STATE STATE_LEN = 0) := by
    rw [strncmp_offline_iff]
    decide
  constructor
  · intro hroom
    have h1 : ¬ (n.rules.length ≥ MAX_RULES) := Nat.not_le.2 hroom
    simp only [StateMQ.map, if_neg h1, if_pos ho]
  · simp only [StateMQ.map, if_neg hco, if_pos hcn]
    split_ifs <;> rfl

/-- Witness of `map_reserved_ids`: the engine holding one rule. -/
theorem map_reserved_ids_witness :
    runningNode.ruleCount < MAX_RULES ∧
    (runningNode.map (some topicT) (some payloadRun) (some OFFLINE_STATE)).1 = OFFLINE_ID ∧
    (runningNode.map (some topicT) (some payloadRun) (some CONNECTED_STATE)).1
      = CONNECTED_ID :=
  ⟨by decide, (map_reserved_ids runningNode topicT payloadRun).1 (by decide),
    (map_reserved_ids runningNode topicT payloadRun).2⟩

/-- Claim C10. Reserved names are never registered: for every engine state and every topic
and message (null or not), `map(topic, message, "OFFLINE")` and
`map(topic, message, "CONNECTED")` leave the state registry and the rule table (indeed the
whole engine) unchanged; and in every engine state that the public interface can produce no
registry entry equals `"OFFLINE"` or `"CONNECTED"`. -/
theorem reserved_never_registered :
    (∀ (n : StateMQ) (t m : Option CStr),
      (n.map t m (some OFFLINE_STATE)).2.knownStates = n.knownStates ∧
      (n.map t m (some OFFLINE_STATE)).2.rules = n.rules ∧
      (n.map t m (some OFFLINE_STATE)).2 = n ∧
      (n.map t m (some CONNECTED_STATE)).2.knownStates = n.knownStates ∧
      (n.map t m (some CONNECTED_STATE)).2.rules = n.rules ∧
      (n.map t m (some CONNECTED_STATE)).2 = n) ∧
    (∀ n : StateMQ, Reachable n →
      OFFLINE_STATE ∉ n.knownStates ∧ CONNECTED_STATE ∉ n.knownStates) := by
  have ho : strncmp OFFLINE_STATE OFFLINE_STATE STATE_LEN = 0 :=
    (strncmp_offline_iff _).2 rfl
  have hcn : strncmp CONNECTED_STATE CONNECTED_STATE STATE_LEN = 0 :=
    (strncmp_connected_iff _).2 rfl
  have hco : ¬ (strncmp CONNECTED_STATE OFFLINE_STATE STATE_LEN = 0) := by
    rw [strncmp_offline_iff]
    decide
  constructor
  · intro n t m
    have h1 : (n.map t m (some OFFLINE_STATE)).2 = n := by
      unfold StateMQ.map
      cases t with
      | none => rfl
      | some t =>
      cases m with
      | none => rfl
      | some m =>
        simp only [if_pos ho]
        split_ifs <;> rfl
    have h2 : (n.map t m (some CONNECTED_STATE)).2 = n := by
      unfold StateMQ.map
      cases t with
      | none => rfl
      | some t =>
      cases m with
      | none => rfl
      | some m =>
        simp only [if_neg hco, if_pos hcn]
        split_ifs <;> rfl
    rw [h1, h2]
    exact ⟨rfl, rfl, rfl, rfl, rfl, rfl⟩
  · intro n hr
    exact (reachable_inv n hr).reserved

/-- Witness of `reserved_never_registered`: the engine with a full rule table. -/
theorem reserved_never_registered_witness :
    Reachable fullNode ∧
    OFFLINE_STATE ∉ fullNode.knownStates ∧ CONNECTED_STATE ∉ fullNode.knownStates :=
  ⟨⟨_, rfl⟩, reserved_never_registered.2 fullNode ⟨_, rfl⟩⟩

/-! ## Lookup in the registry -/

theorem knownIndex_none_iff (s : CStr) (ks : List CStr) (b : Nat) :
    knownIndex s ks b = none ↔ ∀ e ∈ ks, strncmp e s STATE_LEN ≠ 0 := by
  induction ks generalizing b with
  | nil => simp [knownIndex]
  | cons k ks ih =>
    by_cases hk : strncmp k s STATE_LEN = 0
    · simp [knownIndex, hk]
    · simp only [knownIndex, if_neg hk, ih, List.mem_cons, forall_eq_or_imp]
      exact ⟨fun h => ⟨hk, h⟩, fun h => h.2⟩

/-- The lookup returns the lowest index whose entry compares equal. -/
theorem knownIndex_of_first (s : CStr) (ks : List CStr) (b i : Nat) (e : CStr)
    (hi : ks[i]? = some e) (he : strncmp e s STATE_LEN = 0)
    (hfirst : ∀ k e2, k < i → ks[k]? = some e2 → strncmp e2 s STATE_LEN ≠ 0) :
    knownIndex s ks b = some (b + i) := by
  induction ks generalizing b i with
  | nil => simp at hi
  | cons q qs ih =>
    cases i with
    | zero =>
      simp at hi
      subst hi
      simp [knownIndex, he]
    | succ i =>
      have hq : strncmp q s STATE_LEN ≠ 0 := hfirst 0 q (Nat.succ_pos i) (by simp)
      simp only [knownIndex, if_neg hq]
      have hi2 : qs[i]? = some e := by simpa using hi
      rw [ih (b + 1) i hi2 (fun k e2 hk he2 => hfirst (k + 1) e2 (by omega) (by simpa using he2))]
      congr 1
      omega

theorem knownIndex_some_first (s : CStr) (ks : List CStr) (b j : Nat)
    (h : knownIndex s ks b = some j) :
    b ≤ j ∧ ∃ e, ks[j - b]? = some e ∧ strncmp e s STATE_LEN = 0 ∧
      ∀ i e2, i < j - b → ks[i]? = some e2 → strncmp e2 s STATE_LEN ≠ 0 := by
  induction ks generalizing b with
  | nil => simp [knownIndex] at h
  | cons q qs ih =>
    by_cases hq : strncmp q s STATE_LEN = 0
    · simp only [knownIndex, if_pos hq, Option.some.injEq] at h
      subst h
      refine ⟨Nat.le_refl _, q, by simp, hq, ?_⟩
      intro i e2 hi
      omega
    · simp only [knownIndex, if_neg hq] at h
      obtain ⟨hb, e, he1, he2, he3⟩ := ih (b + 1) h
      refine ⟨by omega, e, ?_, he2, ?_⟩
      · have : j - b = (j - (b + 1)) + 1 := by omega
        rw [this]
        simpa using he1
      · intro i e2 hi hi2
        cases i with
        | zero =>
          simp at hi2
          subst hi2
          exact hq
        | succ i =>
          exact he3 i e2 (by omega) (by simpa using hi2)

/-- Appending entries to the registry does not change what an earlier lookup found. -/
theorem knownIndex_append (s : CStr) (ks more : List CStr) (j : Nat)
    (h : knownIndex s ks 0 = some j) : knownIndex s (ks ++ more) 0 = some j := by
  obtain ⟨_, e, he1, he2, he3⟩ := knownIndex_some_first s ks 0 j h
  simp only [Nat.sub_zero] at he1 he3
  have hj : j < ks.length := (List.getElem?_eq_some.1 he1).1
  have := knownIndex_of_first s (ks ++ more) 0 j e
    (by rw [List.getElem?_append_left hj]; exact he1) he2
    (fun k e2 hk hk2 => he3 k e2 hk (by
      rw [List.getElem?_append_left (by omega)] at hk2
      exact hk2))
  simpa using this

/-- A name of at most 15 characters compares equal exactly to itself. -/
theorem strncmp_name_iff (e s : CStr) (hs : s.length ≤ STATE_LEN - 1) :
    strncmp e s STATE_LEN = 0 ↔ e = s :=
  strncmp_short_iff e s STATE_LEN (by simp only [STATE_LEN] at hs ⊢; omega)

/-- An entry of at most 15 characters compares equal only to the name it holds. -/
theorem eq_of_strncmp_entry (e s : CStr) (he : e.length ≤ STATE_LEN - 1)
    (h : strncmp e s STATE_LEN = 0) : e = s := by
  have h2 : strncmp s e STATE_LEN = 0 := by
    rw [strncmp_eq_zero_iff] at h ⊢
    exact h.symm
  exact ((strncmp_name_iff s e he).1 h2).symm

/-- For a name of at most 15 characters the lookup finds the first entry equal to it. -/
theorem knownIndex_short (s : CStr) (ks : List CStr) (hs : s.length ≤ STATE_LEN - 1) :
    (s ∉ ks → knownIndex s ks 0 = none) ∧
    (s ∈ ks → ∃ j, knownIndex s ks 0 = some j ∧ ks[j]? = some s ∧
      ∀ i, i < j → ks[i]? ≠ some s) := by
  constructor
  · intro hmem
    rw [knownIndex_none_iff]
    intro e he h0
    exact hmem ((strncmp_name_iff e s hs).1 h0 ▸ he)
  · intro hmem
    cases hk : knownIndex s ks 0 with
    | none =>
      rw [knownIndex_none_iff] at hk
      exact absurd ((strncmp_name_iff s s hs).2 rfl) (hk s hmem)
    | some j =>
      obtain ⟨_, e, he1, he2, he3⟩ := knownIndex_some_first s ks 0 j hk
      simp only [Nat.sub_zero] at he1 he3
      have hes : e = s := (strncmp_name_iff e s hs).1 he2
      refine ⟨j, rfl, hes ▸ he1, ?_⟩
      intro i hi hi2
      exact he3 i s hi hi2 ((strncmp_name_iff s s hs).2 rfl)

/-! ## Successful declarations -/

/-- What a declaration with room in the rule table and a name of at most 15 characters,
not reserved, does in an engine that satisfies the invariant: the name is appended to the
registry unless it is there, the returned id is 2 plus the first index of the name, and
the rule is appended. -/
theorem map_short (n : StateMQ) (hinv : Inv n) (hroom : n.ruleCount < MAX_RULES)
    (t m s : CStr) (hs : s.length ≤ STATE_LEN - 1) (h1 : s ≠ OFFLINE_STATE)
    (h2 : s ≠ CONNECTED_STATE) :
    ∃ j, n.map (some t) (some m) (some s) =
        (2 + j,
          { n with knownStates :=
                     if s ∈ n.knownStates then n.knownStates else n.knownStates ++ [s]
                   rules := n.rules ++ [{ topic := t, message := m, stateId := 2 + j }] }) ∧
      (if s ∈ n.knownStates then n.knownStates else n.knownStates ++ [s])[j]? = some s ∧
      ∀ i, i < j →
        (if s ∈ n.knownStates then n.knownStates else n.knownStates ++ [s])[i]? ≠ some s := by
  have hfull : ¬ (n.rules.length ≥ MAX_RULES) := Nat.not_le.2 hroom
  have ho : ¬ (strncmp s OFFLINE_STATE STATE_LEN = 0) := by
    rw [strncmp_offline_iff]; exact h1
  have hc : ¬ (strncmp s CONNECTED_STATE STATE_LEN = 0) := by
    rw [strncmp_connected_iff]; exact h2
  have hkl := hinv.known_le
  have hkr := hinv.known_le_rules
  have hroom2 : n.rules.length < MAX_RULES := hroom
  simp only [MAX_KNOWN_STATES, MAX_RULES] at hkl hroom2
  by_cases hmem : s ∈ n.knownStates
  · obtain ⟨j, hj, hj1, hj2⟩ := (knownIndex_short s n.knownStates hs).2 hmem
    have hjlt : j < n.knownStates.length := (List.getElem?_eq_some.1 hj1).1
    have hknown : n.isKnownState (some s) = true := by
      simp [StateMQ.isKnownState, ho, hc, hj]
    have hadd : n.addKnownState (some s) = n := by
      simp [StateMQ.addKnownState, ho, hc, hknown]
    have hid : n.stateIdForKnown (some s) = 2 + j := by
      simp only [StateMQ.stateIdForKnown, if_neg ho, if_neg hc, hj, toStateId]
      omega
    refine ⟨j, ?_, ?_, ?_⟩
    · simp only [StateMQ.map, if_neg hfull, if_neg ho, if_neg hc, hadd, hid, if_pos hmem]
    · rw [if_pos hmem]; exact hj1
    · rw [if_pos hmem]; exact hj2
  · have hnone := (knownIndex_short s n.knownStates hs).1 hmem
    have hknown : n.isKnownState (some s) = false := by
      simp [StateMQ.isKnownState, ho, hc, hnone]
    have hlen : ¬ (n.knownStates.length ≥ MAX_KNOWN_STATES) := by
      simp only [MAX_KNOWN_STATES]; omega
    have htake : s.take (STATE_LEN - 1) = s := List.take_of_length_le hs
    have hadd : n.addKnownState (some s) =
        { n with knownStates := n.knownStates ++ [s] } := by
      simp [StateMQ.addKnownState, ho, hc, hknown, hlen, htake]
    have hlast : (n.knownStates ++ [s])[n.knownStates.length]? = some s := by
      simp
    have hidx : knownIndex s (n.knownStates ++ [s]) 0 = some (0 + n.knownStates.length) := by
      apply knownIndex_of_first s _ 0 n.knownStates.length s hlast
        ((strncmp_name_iff s s hs).2 rfl)
      intro k e2 hk hk2
      rw [List.getElem?_append_left hk] at hk2
      exact (knownIndex_none_iff s n.knownStates 0).1 hnone e2 (List.getElem?_mem hk2)
    have hid : ({ n with knownStates := n.knownStates ++ [s] } : StateMQ).stateIdForKnown
        (some s) = 2 + n.knownStates.length := by
      simp only [StateMQ.stateIdForKnown, if_neg ho, if_neg hc, hidx, toStateId]
      omega
    refine ⟨n.knownStates.length, ?_, ?_, ?_⟩
    · simp only [StateMQ.map, if_neg hfull, if_neg ho, if_neg hc, hadd, hid, if_neg hmem]
    · rw [if_neg hmem]; exact hlast
    · rw [if_neg hmem]
      intro i hi hi2
      rw [List.getElem?_append_left hi] at hi2
      exact hmem (List.getElem?_mem hi2)

/-- In an engine that satisfies the invariant `map` returns an id of 2 or more only for a
call with non-null arguments, room in the rule table and a name of at most 15 characters
that is not reserved. -/
theorem map_ge_two (n : StateMQ) (hinv : Inv n) (t m st : Option CStr)
    (h : 2 ≤ (n.map t m st).1) :
    ∃ t2 m2 s, t = some t2 ∧ m = some m2 ∧ st = some s ∧ n.ruleCount < MAX_RULES ∧
      s.length ≤ STATE_LEN - 1 ∧ s ≠ OFFLINE_STATE ∧ s ≠ CONNECTED_STATE := by
  unfold StateMQ.map at h
  cases t with
  | none => simp [CONNECTED_ID] at h
  | some t =>
  cases m with
  | none => simp [CONNECTED_ID] at h
  | some m =>
  cases st with
  | none => simp [CONNECTED_ID] at h
  | some s =>
  simp only [strncmp_offline_iff, strncmp_connected_iff] at h
  by_cases hfull : n.rules.length ≥ MAX_RULES
  · simp [hfull, CONNECTED_ID] at h
  by_cases h1 : s = OFFLINE_STATE
  · simp [hfull, h1, OFFLINE_ID] at h
  by_cases h2 : s = CONNECTED_STATE
  · simp only [if_neg hfull, if_neg h1, if_pos h2, CONNECTED_ID] at h
    omega
  simp only [if_neg hfull, if_neg h1, if_neg h2] at h
  refine ⟨t, m, s, rfl, rfl, rfl, Nat.not_le.1 hfull, ?_, h1, h2⟩
  -- the id came from a registry entry that compares equal to the name
  have hinv1 : Inv (n.map (some t) (some m) (some s)).2 := inv_map n _ _ _ hinv
  have hks : (n.map (some t) (some m) (some s)).2.knownStates =
      (n.addKnownState (some s)).knownStates := by
    simp only [StateMQ.map, strncmp_offline_iff, strncmp_connected_iff, if_neg hfull,
      if_neg h1, if_neg h2]
  have hshort := hinv1.names_short
  rw [hks] at hshort
  unfold StateMQ.stateIdForKnown at h
  simp only [strncmp_offline_iff, strncmp_connected_iff, if_neg h1, if_neg h2] at h
  cases hk : knownIndex s (n.addKnownState (some s)).knownStates 0 with
  | none => simp [hk, CONNECTED_ID] at h
  | some j =>
    obtain ⟨_, e, he1, he2, _⟩ := knownIndex_some_first s _ 0 j hk
    have hel := hshort e (List.getElem?_mem he1)
    have hes := eq_of_strncmp_entry e s hel he2
    rw [← hes]
    exact hel

/-! ## The registry along a run -/

theorem applyMessage_registry (n : StateMQ) (t p : Option CStr) :
    (n.applyMessage t p).2.node.knownStates = n.knownStates := by
  unfold StateMQ.applyMessage
  cases t with
  | none => rfl
  | some t =>
  cases p with
  | none => rfl
  | some p =>
  simp only []
  cases matchRule t p n.rules 0 with
  | none => rfl
  | some mk => exact (setStateId_frame n _ _ _ _ _ _).2.2.1

theorem setConnected_registry (n : StateMQ) (c : Bool) :
    (n.setConnected c).node.knownStates = n.knownStates := by
  unfold StateMQ.setConnected
  exact (setStateId_frame _ _ _ _ _ _ _).2.2.1

/-- Only `map` touches the registry. -/
theorem step_registry_frame (n : StateMQ) (c : Call)
    (h : ∀ t m st, c ≠ Call.map t m st) : (n.step c).knownStates = n.knownStates := by
  cases c with
  | map t m st => exact absurd rfl (h t m st)
  | taskEvery nm per stk cb en =>
    simp only [StateMQ.step, StateMQ.taskEvery]
    cases cb <;> simp
    split_ifs <;> rfl
  | taskEveryEx nm per stk cb us en =>
    simp only [StateMQ.step, StateMQ.taskEveryEx]
    cases cb <;> simp
    split_ifs <;> rfl
  | taskEnable id en =>
    simp only [StateMQ.step, StateMQ.taskEnable]
    split_ifs <;> rfl
  | onStateChange cb => rfl
  | onStateChangeEx cb us => rfl
  | applyMessage t p => exact applyMessage_registry n t p
  | setConnected c => exact setConnected_registry n c

/-- The registry only grows at its end. -/
theorem map_registry_prefix (n : StateMQ) (t m st : Option CStr) :
    ∃ extra, (n.map t m st).2.knownStates = n.knownStates ++ extra := by
  unfold StateMQ.map
  cases t with
  | none => exact ⟨[], by simp⟩
  | some t =>
  cases m with
  | none => exact ⟨[], by simp⟩
  | some m =>
  cases st with
  | none => exact ⟨[], by simp⟩
  | some s =>
  simp only []
  split_ifs
  · exact ⟨[], by simp⟩
  · exact ⟨[], by simp⟩
  · exact ⟨[], by simp⟩
  · rcases addKnownState_cases n s with he | ⟨_, _, _, he⟩
    · exact ⟨[], by rw [he]; simp⟩
    · exact ⟨[s.take (STATE_LEN - 1)], by rw [he]⟩

theorem step_registry_prefix (n : StateMQ) (c : Call) :
    ∃ extra, (n.step c).knownStates = n.knownStates ++ extra := by
  by_cases h : ∃ t m st, c = Call.map t m st
  · obtain ⟨t, m, st, rfl⟩ := h
    exact map_registry_prefix n t m st
  · refine ⟨[], ?_⟩
    rw [List.append_nil]
    exact step_registry_frame n c (fun t m st e => h ⟨t, m, st, e⟩)

theorem exec_registry_prefix (cs : List Call) (n : StateMQ) :
    ∃ extra, (n.exec cs).knownStates = n.knownStates ++ extra := by
  induction cs generalizing n with
  | nil => exact ⟨[], by simp [StateMQ.exec]⟩
  | cons c cs ih =>
    obtain ⟨e1, h1⟩ := step_registry_prefix n c
    obtain ⟨e2, h2⟩ := ih (n.step c)
    refine ⟨e1 ++ e2, ?_⟩
    have : (n.exec (c :: cs)) = (n.step c).exec cs := rfl
    rw [this, h2, h1, List.append_assoc]

/-- A call with a state name of at most 15 characters changes the registry exactly as the
specification says: the name it declares is appended unless it is there. -/
theorem step_registry (n : StateMQ) (c : Call) (hinv : Inv n)
    (hshort : ∀ (t m : Option CStr) (s : CStr), c = Call.map t m (some s) → s.length ≤ 15) :
    (n.step c).knownStates =
      (match declares n c with
        | some s => if s ∈ n.knownStates then n.knownStates else n.knownStates ++ [s]
        | none => n.knownStates) := by
  by_cases h : ∃ t m st, c = Call.map t m st
  · obtain ⟨t, m, st, rfl⟩ := h
    cases t with
    | none => rfl
    | some t =>
    cases m with
    | none => cases st <;> rfl
    | some m =>
    cases st with
    | none => rfl
    | some s =>
    by_cases hd : n.ruleCount < MAX_RULES ∧ s ≠ OFFLINE_STATE ∧ s ≠ CONNECTED_STATE
    · obtain ⟨j, hmap, _, _⟩ := map_short n hinv hd.1 t m s (hshort _ _ s rfl) hd.2.1 hd.2.2
      simp only [StateMQ.step, declares, if_pos hd, hmap]
    · simp only [StateMQ.step, declares, if_neg hd]
      by_cases hfull : n.rules.length ≥ MAX_RULES
      · simp only [StateMQ.map, if_pos hfull]
      by_cases h1 : s = OFFLINE_STATE
      · simp only [StateMQ.map, if_neg hfull, strncmp_offline_iff, if_pos h1]
      by_cases h2 : s = CONNECTED_STATE
      · simp only [StateMQ.map, if_neg hfull, strncmp_offline_iff, if_neg h1,
          strncmp_connected_iff, if_pos h2]
      · exact absurd ⟨Nat.not_le.1 hfull, h1, h2⟩ hd
  · have hframe := step_registry_frame n c (fun t m st e => h ⟨t, m, st, e⟩)
    have hnone : declares n c = none := by
      cases c with
      | map t m st => exact absurd ⟨t, m, st, rfl⟩ h
      | _ => rfl
    rw [hframe, hnone]

theorem shortNames_cons (c : Call) (cs : List Call) (h : ShortNames (c :: cs)) :
    (∀ (t m : Option CStr) (s : CStr), c = Call.map t m (some s) → s.length ≤ 15) ∧
    ShortNames cs :=
  ⟨fun t m s e => h c (List.mem_cons_self _ _) t m s e,
    fun c2 hc2 t m s e => h c2 (List.mem_cons_of_mem _ hc2) t m s e⟩

/-- Refinement: when every name has at most 15 characters, the registry is the list of
declared names of the specification. -/
theorem registry_eq_declared (cs : List Call) (n : StateMQ) (hinv : Inv n)
    (hs : ShortNames cs) : (n.exec cs).knownStates = declaredNames n n.knownStates cs := by
  induction cs generalizing n with
  | nil => rfl
  | cons c cs ih =>
    obtain ⟨hc, hcs⟩ := shortNames_cons c cs hs
    have h1 : (n.exec (c :: cs)) = (n.step c).exec cs := rfl
    rw [h1, ih (n.step c) (inv_step n c hinv) hcs, step_registry n c hinv hc]
    rfl

theorem declaredNames_append (cs cs2 : List Call) (n : StateMQ) (acc : List CStr) :
    declaredNames n acc (cs ++ cs2) = declaredNames (n.exec cs) (declaredNames n acc cs) cs2 := by
  induction cs generalizing n acc with
  | nil => rfl
  | cons c cs ih =>
    show declaredNames (n.step c) _ (cs ++ cs2) = _
    rw [ih]
    rfl

theorem declaredNames_nodup (cs : List Call) (n : StateMQ) (acc : List CStr)
    (h : acc.Nodup) : (declaredNames n acc cs).Nodup := by
  induction cs generalizing n acc with
  | nil => exact h
  | cons c cs ih =>
    simp only [declaredNames]
    apply ih
    cases declares n c with
    | none => exact h
    | some s =>
      simp only []
      split_ifs with hmem
      · exact h
      · rw [← List.concat_eq_append]
        exact List.Nodup.concat hmem h

theorem map_offline_room (n : StateMQ) (t m : CStr) (hroom : n.ruleCount < MAX_RULES) :
    n.map (some t) (some m) (some OFFLINE_STATE) = (OFFLINE_ID, n) := by
  have h1 : ¬ (n.rules.length ≥ MAX_RULES) := Nat.not_le.2 hroom
  simp only [StateMQ.map, if_neg h1, strncmp_offline_iff, if_true]

theorem map_connected_room (n : StateMQ) (t m : CStr) (hroom : n.ruleCount < MAX_RULES) :
    n.map (some t) (some m) (some CONNECTED_STATE) = (CONNECTED_ID, n) := by
  have h1 : ¬ (n.rules.length ≥ MAX_RULES) := Nat.not_le.2 hroom
  have h2 : ¬ (CONNECTED_STATE = OFFLINE_STATE) := by decide
  simp only [StateMQ.map, if_neg h1, strncmp_offline_iff, if_neg h2, strncmp_connected_iff,
    if_true]

/-- The id that a declaration returned for a name stays the id of that name: after any
further calls the registry entry is in place and a declaration of the same name that
finds room returns the same id, adding its rule and nothing else. -/
theorem map_id_stable (n : StateMQ) (hinv : Inv n) (hroom : n.ruleCount < MAX_RULES)
    (t m s : CStr) (hs : s.length ≤ STATE_LEN - 1) (h1 : s ≠ OFFLINE_STATE)
    (h2 : s ≠ CONNECTED_STATE) (cs : List Call) :
    ∃ j, (n.map (some t) (some m) (some s)).1 = 2 + j ∧
      ((n.map (some t) (some m) (some s)).2.exec cs).knownStates[j]? = some s ∧
      ∀ t2 m2 : CStr, ((n.map (some t) (some m) (some s)).2.exec cs).ruleCount < MAX_RULES →
        ((n.map (some t) (some m) (some s)).2.exec cs).map (some t2) (some m2) (some s) =
          (2 + j,
            { ((n.map (some t) (some m) (some s)).2.exec cs) with
              rules := ((n.map (some t) (some m) (some s)).2.exec cs).rules ++
                [{ topic := t2, message := m2, stateId := 2 + j }] }) := by
  obtain ⟨j, hmap, hj, hfirst⟩ := map_short n hinv hroom t m s hs h1 h2
  have hinv1 : Inv (n.map (some t) (some m) (some s)).2 := inv_map n _ _ _ hinv
  have hks : (n.map (some t) (some m) (some s)).2.knownStates =
      (if s ∈ n.knownStates then n.knownStates else n.knownStates ++ [s]) := by rw [hmap]
  rw [← hks] at hj hfirst
  obtain ⟨extra, hext⟩ := exec_registry_prefix cs (n.map (some t) (some m) (some s)).2
  have hjlt : j < (n.map (some t) (some m) (some s)).2.knownStates.length :=
    (List.getElem?_eq_some.1 hj).1
  have hj2 : ((n.map (some t) (some m) (some s)).2.exec cs).knownStates[j]? = some s := by
    rw [hext, List.getElem?_append_left hjlt]
    exact hj
  have hfirst2 : ∀ i, i < j →
      ((n.map (some t) (some m) (some s)).2.exec cs).knownStates[i]? ≠ some s := by
    intro i hi
    rw [hext, List.getElem?_append_left (by omega)]
    exact hfirst i hi
  refine ⟨j, by rw [hmap], hj2, ?_⟩
  intro t2 m2 hroom2
  have hinv2 := inv_exec _ cs hinv1
  obtain ⟨j2, hmap2, hj3, hfirst3⟩ := map_short _ hinv2 hroom2 t2 m2 s hs h1 h2
  have hmem : s ∈ ((n.map (some t) (some m) (some s)).2.exec cs).knownStates :=
    List.getElem?_mem hj2
  rw [if_pos hmem] at hmap2 hj3 hfirst3
  have hjj : j2 = j := by
    rcases Nat.lt_trichotomy j2 j with hlt | heq | hgt
    · exact absurd hj3 (hfirst2 j2 hlt)
    · exact heq
    · exact absurd hj2 (hfirst3 j hgt)
  rw [hmap2, hjj]

theorem stateStrForId_entry (n : StateMQ) (i : Nat) (k : CStr)
    (hk : n.knownStates[i]? = some k) : n.stateStrForId (2 + i) = k := by
  have h0 : ¬ (2 + i = OFFLINE_ID) := by simp only [OFFLINE_ID]; omega
  have h1 : ¬ (2 + i = CONNECTED_ID) := by simp only [CONNECTED_ID]; omega
  have h2 : 2 + i - 2 = i := by omega
  simp only [StateMQ.stateStrForId, if_neg h0, if_neg h1, h2, List.get?_eq_getElem?, hk]

/-! ## The handler slots -/

/-- The handler invocations of a transition are those of `notify` for the context it
fired, with the handlers that were registered before the transition. -/
theorem setStateId_calls (n : StateMQ) (d : Nat) (u : Bool) (c : StateChangeCause)
    (t p : Option CStr) (ri : Int) (ctx : StateChangeCtx)
    (h : (n.setStateId d u c t p ri).fired = [ctx]) :
    (n.setStateId d u c t p ri).calls = (n.notify ctx).calls := by
  obtain ⟨e1, e2⟩ := setStateId_edge n d u c t p ri
  obtain ⟨_, _, _, _, f5, f6, _⟩ := setStateId_frame n d u c t p ri
  by_cases hs : (n.setStateId d u c t p ri).node.stateId_ = n.stateId_
  · rw [(e1 hs).1] at h
    cases h
  · obtain ⟨ctx2, hf, _, _, _, _, _, _, _, hcalls⟩ := e2 hs
    rw [hf] at h
    cases h
    rw [hcalls]
    simp only [StateMQ.notify, f5, f6]

/-! ## The names behind the ids -/

theorem map_frame (n : StateMQ) (t m st : Option CStr) :
    (n.map t m st).2.stateId_ = n.stateId_ ∧
    (n.map t m st).2.lastUserStateId_ = n.lastUserStateId_ ∧
    ((n.map t m st).2.rules = n.rules ∨
      ∃ t2 m2, (n.map t m st).2.rules =
        n.rules ++ [{ topic := t2, message := m2, stateId := (n.map t m st).1 }]) := by
  unfold StateMQ.map
  cases t with
  | none => exact ⟨rfl, rfl, Or.inl rfl⟩
  | some t =>
  cases m with
  | none => exact ⟨rfl, rfl, Or.inl rfl⟩
  | some m =>
  cases st with
  | none => exact ⟨rfl, rfl, Or.inl rfl⟩
  | some s =>
  simp only []
  split_ifs
  · exact ⟨rfl, rfl, Or.inl rfl⟩
  · exact ⟨rfl, rfl, Or.inl rfl⟩
  · exact ⟨rfl, rfl, Or.inl rfl⟩
  · rcases addKnownState_cases n s with he | ⟨_, _, _, he⟩
    · rw [he]
      exact ⟨rfl, rfl, Or.inr ⟨t, m, rfl⟩⟩
    · rw [he]
      exact ⟨rfl, rfl, Or.inr ⟨t, m, rfl⟩⟩

/-- An id that names an entry satisfying `D` still does after the registry has grown and
`D` has been weakened. -/
theorem named_id_lift (D D2 : CStr → Prop) (hD : ∀ s, D s → D2 s) (ks extra : List CStr)
    (id : Nat) (h : 2 ≤ id → ∃ e, ks[id - 2]? = some e ∧ D e) :
    2 ≤ id → ∃ e, (ks ++ extra)[id - 2]? = some e ∧ D2 e := by
  intro h2
  obtain ⟨e, he, hde⟩ := h h2
  refine ⟨e, ?_, hD e hde⟩
  rw [List.getElem?_append_left (List.getElem?_eq_some.1 he).1]
  exact he

theorem namedBy_map (D : CStr → Prop) (n : StateMQ) (t m st : Option CStr) (hinv : Inv n)
    (h : NamedBy D n) :
    NamedBy (fun s => D s ∨ ∃ t2 m2, Call.map t m st = Call.map t2 m2 (some s))
      (n.map t m st).2 := by
  obtain ⟨extra, hext⟩ := map_registry_prefix n t m st
  obtain ⟨f1, f2, f3⟩ := map_frame n t m st
  obtain ⟨hr, hs, hl⟩ := h
  have hold : ∀ r ∈ n.rules, 2 ≤ r.stateId →
      ∃ e, (n.map t m st).2.knownStates[r.stateId - 2]? = some e ∧
        (D e ∨ ∃ t2 m2, Call.map t m st = Call.map t2 m2 (some e)) := by
    intro r hrm
    rw [hext]
    exact named_id_lift D _ (fun s hs => Or.inl hs) _ extra _ (hr r hrm)
  refine ⟨?_, ?_, ?_⟩
  · rcases f3 with f3 | ⟨t2, m2, f3⟩
    · rw [f3]
      exact hold
    · rw [f3]
      intro r hrm
      simp only [List.mem_append, List.mem_singleton] at hrm
      rcases hrm with hrm | hrm
      · exact hold r hrm
      · subst hrm
        intro h2
        simp only [] at h2 ⊢
        obtain ⟨t1, m1, s, rfl, rfl, rfl, hroom, hlen, h1, h2'⟩ :=
          map_ge_two n hinv t m st h2
        obtain ⟨j, hmap, hj, _⟩ := map_short n hinv hroom t1 m1 s hlen h1 h2'
        refine ⟨s, ?_, Or.inr ⟨some t1, some m1, rfl⟩⟩
        rw [hmap]
        simp only [Nat.add_sub_cancel_left]
        exact hj
  · rw [f1, hext]
    exact named_id_lift D _ (fun s hs => Or.inl hs) _ extra _ hs
  · rw [f2, hext]
    exact named_id_lift D _ (fun s hs => Or.inl hs) _ extra _ hl

theorem namedBy_of_core_eq (D : CStr → Prop) (n n2 : StateMQ) (h : NamedBy D n)
    (hr : n2.rules = n.rules) (hk : n2.knownStates = n.knownStates)
    (hs : n2.stateId_ = n.stateId_) (hl : n2.lastUserStateId_ = n.lastUserStateId_) :
    NamedBy D n2 := by
  unfold NamedBy
  rw [hr, hk, hs, hl]
  exact h

theorem namedBy_applyMessage (D : CStr → Prop) (n : StateMQ) (t p : Option CStr)
    (hinv : Inv n) (h : NamedBy D n) : NamedBy D (n.applyMessage t p).2.node := by
  cases hc : n.connected_ with
  | false =>
    rw [applyMessage_disconnected n t p hc ((hinv.offline_iff).2 hc)]
    exact h
  | true =>
    unfold StateMQ.applyMessage
    cases t with
    | none => exact h
    | some t =>
    cases p with
    | none => exact h
    | some p =>
    simp only []
    cases hm : matchRule t p n.rules 0 with
    | none => exact h
    | some mk =>
      obtain ⟨id, k⟩ := mk
      obtain ⟨r, hr, hid, _⟩ := matchRule_some_mem t p n.rules 0 id k hm
      have hvalid := hinv.rule_ids r hr
      rw [hid] at hvalid
      simp only []
      rw [setStateId_connected_node n _ _ _ _ _ _ hc hvalid]
      have hnamed := h.1 r hr
      rw [hid] at hnamed
      refine ⟨h.1, hnamed, ?_⟩
      simp only [true_and]
      split_ifs with h2
      · exact fun _ => hnamed h2
      · exact h.2.2

theorem namedBy_setConnected (D : CStr → Prop) (n : StateMQ) (c : Bool) (hinv : Inv n)
    (h : NamedBy D n) : NamedBy D (n.setConnected c).node := by
  cases c with
  | false =>
    rw [setConnected_false_node]
    refine ⟨h.1, ?_, h.2.2⟩
    intro h2
    simp [OFFLINE_ID] at h2
  | true =>
    have hl : n.lastUserStateId_ < 2 ∨ n.lastUserStateId_ < 2 + n.knownStates.length := by
      rcases hinv.last_id with hl | hl
      · left
        simp only [CONNECTED_ID] at hl
        omega
      · exact Or.inr hl.2
    rw [setConnected_true_node n hl]
    refine ⟨h.1, ?_, h.2.2⟩
    simp only []
    split_ifs with h2
    · exact h.2.2
    · intro h3
      simp [CONNECTED_ID] at h3

theorem namedBy_mono (D D2 : CStr → Prop) (hD : ∀ s, D s → D2 s) (n : StateMQ)
    (h : NamedBy D n) : NamedBy D2 n :=
  ⟨fun r hr h2 => (h.1 r hr h2).imp (fun _ he => ⟨he.1, hD _ he.2⟩),
    fun h2 => (h.2.1 h2).imp (fun _ he => ⟨he.1, hD _ he.2⟩),
    fun h2 => (h.2.2 h2).imp (fun _ he => ⟨he.1, hD _ he.2⟩)⟩

theorem namedBy_step (D : CStr → Prop) (n : StateMQ) (c : Call) (hinv : Inv n)
    (h : NamedBy D n) :
    NamedBy (fun s => D s ∨ ∃ t m, c = Call.map t m (some s)) (n.step c) := by
  have hD : ∀ s, D s → (D s ∨ ∃ t m, c = Call.map t m (some s)) := fun s hs => Or.inl hs
  cases c with
  | map t m st => exact namedBy_map D n t m st hinv h
  | taskEvery nm per stk cb en =>
    apply namedBy_of_core_eq _ n _ (namedBy_mono D _ hD n h) <;>
      (simp only [StateMQ.step, StateMQ.taskEvery]; cases cb <;> simp; split_ifs <;> rfl)
  | taskEveryEx nm per stk cb us en =>
    apply namedBy_of_core_eq _ n _ (namedBy_mono D _ hD n h) <;>
      (simp only [StateMQ.step, StateMQ.taskEveryEx]; cases cb <;> simp; split_ifs <;> rfl)
  | taskEnable id en =>
    apply namedBy_of_core_eq _ n _ (namedBy_mono D _ hD n h) <;>
      (simp only [StateMQ.step, StateMQ.taskEnable]; split_ifs <;> rfl)
  | onStateChange cb => exact namedBy_of_core_eq _ n _ (namedBy_mono D _ hD n h) rfl rfl rfl rfl
  | onStateChangeEx cb us =>
    exact namedBy_of_core_eq _ n _ (namedBy_mono D _ hD n h) rfl rfl rfl rfl
  | applyMessage t p => exact namedBy_mono D _ hD _ (namedBy_applyMessage D n t p hinv h)
  | setConnected c => exact namedBy_mono D _ hD _ (namedBy_setConnected D n c hinv h)

/-- Along a run every user-state id comes to name a state name that was passed to `map`. -/
theorem namedBy_exec (cs : List Call) (D : CStr → Prop) (n : StateMQ) (hinv : Inv n)
    (h : NamedBy D n) :
    NamedBy (fun s => D s ∨ ∃ t m, Call.map t m (some s) ∈ cs) (n.exec cs) := by
  induction cs generalizing n D with
  | nil => exact namedBy_mono D _ (fun s hs => Or.inl hs) n h
  | cons c cs ih =>
    have h1 := namedBy_step D n c hinv h
    have h2 := ih _ (n.step c) (inv_step n c hinv) h1
    refine namedBy_mono _ _ ?_ _ h2
    intro s hs
    rcases hs with (hs | ⟨t, m, hs⟩) | ⟨t, m, hs⟩
    · exact Or.inl hs
    · exact Or.inr ⟨t, m, hs ▸ List.mem_cons_self _ _⟩
    · exact Or.inr ⟨t, m, List.mem_cons_of_mem _ hs⟩

/-! ## The task table along a run -/

theorem map_tasks (n : StateMQ) (t m st : Option CStr) : (n.map t m st).2.tasks = n.tasks := by
  unfold StateMQ.map
  cases t with
  | none => rfl
  | some t =>
  cases m with
  | none => rfl
  | some m =>
  cases st with
  | none => rfl
  | some s =>
  simp only []
  split_ifs
  · rfl
  · rfl
  · rfl
  · rcases addKnownState_cases n s with he | ⟨_, _, _, he⟩ <;> rw [he]

/-- No call takes the task table beyond `MAX_TASKS` descriptors. -/
theorem step_task_count (n : StateMQ) (c : Call) (h : n.tasks.length ≤ MAX_TASKS) :
    (n.step c).tasks.length ≤ MAX_TASKS := by
  cases c with
  | map t m st =>
    simp only [StateMQ.step, map_tasks]
    exact h
  | taskEvery nm per stk cb en =>
    simp only [StateMQ.step, StateMQ.taskEvery]
    cases cb with
    | none => exact h
    | some f =>
      simp only []
      split_ifs with hf
      · exact h
      · simp only [List.length_append, List.length_singleton]
        omega
  | taskEveryEx nm per stk cb us en =>
    simp only [StateMQ.step, StateMQ.taskEveryEx]
    cases cb with
    | none => exact h
    | some f =>
      simp only []
      split_ifs with hf
      · exact h
      · simp only [List.length_append, List.length_singleton]
        omega
  | taskEnable id en =>
    simp only [StateMQ.step, StateMQ.taskEnable]
    split_ifs
    · exact h
    · simp only [List.length_modify]
      exact h
  | onStateChange cb => exact h
  | onStateChangeEx cb us => exact h
  | applyMessage t p =>
    simp only [StateMQ.step]
    unfold StateMQ.applyMessage
    cases t with
    | none => exact h
    | some t =>
    cases p with
    | none => exact h
    | some p =>
    simp only []
    cases matchRule t p n.rules 0 with
    | none => exact h
    | some mk =>
      simp only []
      rw [(setStateId_frame n _ _ _ _ _ _).2.1]
      exact h
  | setConnected c =>
    simp only [StateMQ.step]
    unfold StateMQ.setConnected
    rw [(setStateId_frame _ _ _ _ _ _ _).2.1]
    exact h

theorem reachable_task_count (n : StateMQ) (hr : Reachable n) :
    n.tasks.length ≤ MAX_TASKS := by
  obtain ⟨cs, rfl⟩ := hr
  have key : ∀ (cs : List Call) (m : StateMQ), m.tasks.length ≤ MAX_TASKS →
      (m.exec cs).tasks.length ≤ MAX_TASKS := by
    intro cs
    induction cs with
    | nil => exact fun m h => h
    | cons c cs ih => exact fun m h => ih (m.step c) (step_task_count m c h)
  exact key cs StateMQ.ctor (by decide)

/-! ## The claims on declaration, lookup and tasks -/

/-- Claim C11. `stateName` is a total lookup: in every engine state `stateName(0)` is
`"OFFLINE"`, `stateName(1)` is `"CONNECTED"`, `stateName(2 + i)` is the `i`-th registry
entry when `i` is below the number of registered states, and `stateName(id)` is
`"CONNECTED"` for every other id. -/
theorem stateName_total (n : StateMQ) :
    n.stateName OFFLINE_ID = OFFLINE_STATE ∧
    n.stateName CONNECTED_ID = CONNECTED_STATE ∧
    (∀ (i : Nat) (k : CStr), n.knownStates[i]? = some k → n.stateName (2 + i) = k) ∧
    (∀ id : Nat, 2 ≤ id → n.knownStates.length ≤ id - 2 →
      n.stateName id = CONNECTED_STATE) := by
  refine ⟨rfl, rfl, ?_, ?_⟩
  · intro i k hk
    exact stateStrForId_entry n i k hk
  · intro id hid hlen
    have h0 : ¬ (id = OFFLINE_ID) := by simp only [OFFLINE_ID]; omega
    have h1 : ¬ (id = CONNECTED_ID) := by simp only [CONNECTED_ID]; omega
    have h2 : n.knownStates[id - 2]? = none := List.getElem?_eq_none hlen
    simp only [StateMQ.stateName, StateMQ.stateStrForId, if_neg h0, if_neg h1,
      List.get?_eq_getElem?, h2]

/-- Witness of `stateName_total`: the engine of the end-to-end scenario, whose registry
holds HELLO and BYE. -/
theorem stateName_total_witness :
    helloNode.stateName OFFLINE_ID = OFFLINE_STATE ∧
    helloNode.stateName CONNECTED_ID = CONNECTED_STATE ∧
    helloNode.knownStates[1]? = some nameBye ∧ helloNode.stateName (2 + 1) = nameBye ∧
    helloNode.knownStates.length ≤ 200 - 2 ∧ helloNode.stateName 200 = CONNECTED_STATE :=
  ⟨(stateName_total helloNode).1, (stateName_total helloNode).2.1, rfl,
    (stateName_total helloNode).2.2.1 1 nameBye rfl, by decide,
    (stateName_total helloNode).2.2.2 200 (by decide) (by decide)⟩

set_option maxRecDepth 100000 in
/-- Counterexample to claim C12: (1) `map("T", "run", "RUNNING")` on the fresh engine
returns 2, and after 31 further `map` calls (the rule table is then full) a later `map`
with the name RUNNING returns `CONNECTED_ID`, not 2; (2) after two declarations of a name
of 16 characters the first name of at most 15 characters receives id 4, neither 2 nor 3. -/
theorem state_ids_counterexample :
    (StateMQ.ctor.map (some topicT) (some payloadRun) (some nameRunning)).1 = 2 ∧
    (((StateMQ.ctor.map (some topicT) (some payloadRun) (some nameRunning)).2.exec
      (List.replicate 31 (Call.map (some topicT) (some payloadRun) (some nameRunning)))).map
        (some topicT) (some payloadRun) (some nameRunning)).1 = CONNECTED_ID ∧
    ((StateMQ.ctor.exec
      [Call.map (some topicT) (some payloadRun) (some nameLong),
       Call.map (some topicT) (some payloadRun) (some nameLong)]).map
        (some topicS) (some payloadHi) (some nameHello)).1 = 4 := by
  refine ⟨by decide, rfl, by decide⟩

/-- Claim C12, amended. State ids are assigned in declaration order and are stable:
(1) starting from a fresh engine, as long as every state name passed to `map` has at most
15 characters, a non-reserved name that is the entry at index `k` of the distinct declared
names (the `(k+1)`-th name) receives id `k + 2` from a successful `map` call; (2) once
`map` has returned an id `i >= 2` for a name `s` in an engine state that the public
interface can produce, after every further sequence of calls `stateName(i) == s`, and a
later `map` with name `s` made while the rule table holds fewer than `MAX_RULES` rules
returns `i`. -/
theorem state_ids_stable :
    (∀ (cs : List Call) (t m s : CStr) (k : Nat), ShortNames cs → s.length ≤ 15 →
      s ≠ OFFLINE_STATE → s ≠ CONNECTED_STATE →
      (StateMQ.ctor.exec cs).ruleCount < MAX_RULES →
      (declaredNames StateMQ.ctor []
        (cs ++ [Call.map (some t) (some m) (some s)]))[k]? = some s →
      ((StateMQ.ctor.exec cs).map (some t) (some m) (some s)).1 = k + 2) ∧
    (∀ (n : StateMQ) (t m : Option CStr) (s : CStr) (i : Nat) (cs : List Call),
      Reachable n → (n.map t m (some s)).1 = i → 2 ≤ i →
      ((n.map t m (some s)).2.exec cs).stateName i = s ∧
      ∀ t2 m2 : CStr, ((n.map t m (some s)).2.exec cs).ruleCount < MAX_RULES →
        (((n.map t m (some s)).2.exec cs).map (some t2) (some m2) (some s)).1 = i) := by
  constructor
  · intro cs t m s k hshort hs h1 h2 hroom hk
    have hinv := inv_exec StateMQ.ctor cs inv_ctor
    have hreg := registry_eq_declared cs StateMQ.ctor inv_ctor hshort
    have hdecl : declares (StateMQ.ctor.exec cs) (Call.map (some t) (some m) (some s))
        = some s := by
      simp only [declares, if_pos (And.intro hroom (And.intro h1 h2))]
    have hd : declaredNames StateMQ.ctor [] (cs ++ [Call.map (some t) (some m) (some s)]) =
        (if s ∈ (StateMQ.ctor.exec cs).knownStates then (StateMQ.ctor.exec cs).knownStates
          else (StateMQ.ctor.exec cs).knownStates ++ [s]) := by
      rw [declaredNames_append, hreg]
      simp only [declaredNames, hdecl]
      rfl
    have hnd : (declaredNames StateMQ.ctor []
        (cs ++ [Call.map (some t) (some m) (some s)])).Nodup :=
      declaredNames_nodup _ _ _ List.nodup_nil
    obtain ⟨j, hmap, hj, _⟩ := map_short _ hinv hroom t m s hs h1 h2
    rw [← hd] at hj
    rw [hmap]
    have hjk : j = k := by
      rcases Nat.lt_trichotomy j k with hlt | heq | hgt
      · have hklt := (List.getElem?_eq_some.1 hk).1
        exact absurd (hj.trans hk.symm)
          (List.nodup_iff_getElem?_ne_getElem?.1 hnd j k hlt hklt)
      · exact heq
      · have hjlt := (List.getElem?_eq_some.1 hj).1
        exact absurd (hk.trans hj.symm)
          (List.nodup_iff_getElem?_ne_getElem?.1 hnd k j hgt hjlt)
    show 2 + j = k + 2
    omega
  · intro n t m s i cs hr hi h2i
    have hinv := reachable_inv n hr
    obtain ⟨t1, m1, s1, rfl, rfl, hs1, hroom, hlen, h1, h2⟩ :=
      map_ge_two n hinv t m (some s) (hi ▸ h2i)
    cases hs1
    obtain ⟨j, hret, hj, hlater⟩ := map_id_stable n hinv hroom t1 m1 s hlen h1 h2 cs
    have hij : i = 2 + j := hi ▸ hret
    refine ⟨?_, ?_⟩
    · rw [hij]
      exact stateStrForId_entry _ j s hj
    · intro t2 m2 hroom2
      rw [hlater t2 m2 hroom2, hij]

/-- Witness of `state_ids_stable`: HELLO and BYE are declared in this order and BYE, at
index 1, receives id 3; and the id 2 of RUNNING survives a connect and a message. -/
theorem state_ids_stable_witness :
    ((StateMQ.ctor.exec [Call.map (some topicS) (some payloadHi) (some nameHello)]).map
      (some topicS) (some payloadBye) (some nameBye)).1 = 1 + 2 ∧
    ((StateMQ.ctor.map (some topicT) (some payloadRun) (some nameRunning)).2.exec
      [Call.setConnected true, Call.applyMessage (some topicT) (some payloadRun)]).stateName 2
        = nameRunning :=
  ⟨state_ids_stable.1 [Call.map (some topicS) (some payloadHi) (some nameHello)]
      topicS payloadBye nameBye 1
      (fun c hc t m s e => by
        simp only [List.mem_singleton] at hc
        subst hc
        cases e
        decide)
      (by decide) (by decide) (by decide) (by decide) (by decide),
    (state_ids_stable.2 StateMQ.ctor (some topicT) (some payloadRun) nameRunning 2
      [Call.setConnected true, Call.applyMessage (some topicT) (some payloadRun)]
      ⟨[], rfl⟩ (by decide) (by decide)).1⟩

set_option maxRecDepth 100000 in
/-- Counterexample to claim C13: (1) after a successful `map` with a name of 16 characters
(the registry then has one entry), a further `map` with the same name adds a second
registry entry, equal to the first, so the entries of a reachable registry are not pairwise
distinct; (2) on the engine on which RUNNING was declared 32 times, each time with id 2, a
further `map` with the name RUNNING returns `CONNECTED_ID`. -/
theorem long_name_reinserted :
    nameLong.length = 16 ∧ Reachable longNode ∧
    longNode = (StateMQ.ctor.map (some topicT) (some payloadRun) (some nameLong)).2 ∧
    longNode.knownStates.length = 1 ∧
    (longNode.map (some topicT) (some payloadRun) (some nameLong)).2.knownStates.length = 2 ∧
    Reachable (longNode.map (some topicT) (some payloadRun) (some nameLong)).2 ∧
    ¬ (longNode.map (some topicT) (some payloadRun) (some nameLong)).2.knownStates.Nodup ∧
    (StateMQ.ctor.map (some topicT) (some payloadRun) (some nameRunning)).1 = 2 ∧
    (fullNode.map (some topicT) (some payloadRun) (some nameRunning)).1 = CONNECTED_ID := by
  refine ⟨by decide, ⟨_, rfl⟩, rfl, by decide, by decide, ?_, by decide, by decide, rfl⟩
  exact ⟨[Call.map (some topicT) (some payloadRun) (some nameLong),
    Call.map (some topicT) (some payloadRun) (some nameLong)], rfl⟩

/-- Claim C13, amended. Duplicate state names within the length limit are not re-inserted:
(1) for every state name `s` of at most 15 characters, if `map` was called successfully
with `s` in an engine state that the public interface can produce, then after any further
calls a `map` call with `s` made while the rule table holds fewer than `MAX_RULES` rules
returns the same id as the earlier call and leaves the registry unchanged; (2) in every
engine state produced from a fresh engine by calls whose state names all have at most 15
characters, the registry entries are pairwise distinct. -/
theorem duplicate_names_not_reinserted :
    (∀ (n : StateMQ) (t m s t2 m2 : CStr) (cs : List Call), Reachable n → s.length ≤ 15 →
      n.ruleCount < MAX_RULES →
      ((n.map (some t) (some m) (some s)).2.exec cs).ruleCount < MAX_RULES →
      (((n.map (some t) (some m) (some s)).2.exec cs).map (some t2) (some m2) (some s)).1 =
        (n.map (some t) (some m) (some s)).1 ∧
      (((n.map (some t) (some m) (some s)).2.exec cs).map
        (some t2) (some m2) (some s)).2.knownStates =
          ((n.map (some t) (some m) (some s)).2.exec cs).knownStates ∧
      (((n.map (some t) (some m) (some s)).2.exec cs).map
        (some t2) (some m2) (some s)).2.knownStates.length =
          ((n.map (some t) (some m) (some s)).2.exec cs).knownStates.length) ∧
    (∀ cs : List Call, ShortNames cs → (StateMQ.ctor.exec cs).knownStates.Nodup) := by
  constructor
  · intro n t m s t2 m2 cs hr hs hroom hroom2
    by_cases h1 : s = OFFLINE_STATE
    · subst h1
      rw [map_offline_room _ t2 m2 hroom2, map_offline_room n t m hroom]
      exact ⟨rfl, rfl, rfl⟩
    by_cases h2 : s = CONNECTED_STATE
    · subst h2
      rw [map_connected_room _ t2 m2 hroom2, map_connected_room n t m hroom]
      exact ⟨rfl, rfl, rfl⟩
    obtain ⟨j, hret, _, hlater⟩ := map_id_stable n (reachable_inv n hr) hroom t m s hs h1 h2 cs
    rw [hlater t2 m2 hroom2, hret]
    exact ⟨rfl, rfl, rfl⟩
  · intro cs hshort
    rw [registry_eq_declared cs StateMQ.ctor inv_ctor hshort]
    exact declaredNames_nodup _ _ _ List.nodup_nil

/-- Witness of `duplicate_names_not_reinserted`: RUNNING is declared, the engine is
connected, and RUNNING is declared again. -/
theorem duplicate_names_not_reinserted_witness :
    (((StateMQ.ctor.map (some topicT) (some payloadRun) (some nameRunning)).2.exec
      [Call.setConnected true]).map (some topicS) (some payloadHi) (some nameRunning)).1 =
        (StateMQ.ctor.map (some topicT) (some payloadRun) (some nameRunning)).1 ∧
    (StateMQ.ctor.exec
      [Call.map (some topicT) (some payloadRun) (some nameRunning),
       Call.map (some topicS) (some payloadHi) (some nameRunning)]).knownStates.Nodup :=
  ⟨(duplicate_names_not_reinserted.1 StateMQ.ctor topicT payloadRun nameRunning topicS
      payloadHi [Call.setConnected true] ⟨[], rfl⟩ (by decide) (by decide) (by decide)).1,
    duplicate_names_not_reinserted.2 _ (fun c hc t m s e => by
      simp only [List.mem_cons, List.mem_singleton, List.not_mem_nil, or_false] at hc
      rcases hc with hc | hc <;> (subst hc; cases e; decide))⟩

/-- Claim C14. Rule-table capacity boundary: on an engine holding `MAX_RULES` rules `map`
returns `CONNECTED_ID` for any arguments (null or not) and leaves the engine, so the rule
count, every rule and the registry, as it was; and `ruleCount() <= MAX_RULES` in every
engine state that the public interface can produce. -/
theorem rule_table_capacity :
    (∀ (n : StateMQ) (t m st : Option CStr), n.ruleCount = MAX_RULES →
      (n.map t m st).1 = CONNECTED_ID ∧ (n.map t m st).2.ruleCount = MAX_RULES ∧
      (n.map t m st).2.rules = n.rules ∧ (n.map t m st).2.knownStates = n.knownStates ∧
      (n.map t m st).2 = n) ∧
    (∀ n : StateMQ, Reachable n → n.ruleCount ≤ MAX_RULES) := by
  constructor
  · intro n t m st hfull
    have hfull2 : n.rules.length ≥ MAX_RULES := Nat.le_of_eq hfull.symm
    have h : n.map t m st = (CONNECTED_ID, n) := by
      unfold StateMQ.map
      cases t with
      | none => rfl
      | some t =>
      cases m with
      | none => rfl
      | some m =>
      cases st with
      | none => rfl
      | some st => simp only [if_pos hfull2]
    rw [h]
    exact ⟨rfl, hfull, rfl, rfl, rfl⟩
  · intro n hr
    exact (reachable_inv n hr).rules_le

set_option maxRecDepth 100000 in
/-- Witness of `rule_table_capacity`: the engine on which 32 rules were declared. -/
theorem rule_table_capacity_witness :
    fullNode.ruleCount = MAX_RULES ∧
    (fullNode.map (some topicS) (some payloadHi) (some nameHello)).1 = CONNECTED_ID ∧
    (fullNode.map (some topicS) (some payloadHi) (some nameHello)).2 = fullNode ∧
    Reachable fullNode ∧ fullNode.ruleCount ≤ MAX_RULES :=
  ⟨rfl,
    (rule_table_capacity.1 fullNode (some topicS) (some payloadHi) (some nameHello) rfl).1,
    (rule_table_capacity.1 fullNode (some topicS) (some payloadHi)
      (some nameHello) rfl).2.2.2.2,
    ⟨_, rfl⟩, rule_table_capacity.2 fullNode ⟨_, rfl⟩⟩

/-- Counterexample to claim C15: on the fresh engine `map("T", "run", name)` with a name of
16 characters, not the literal `"CONNECTED"`, returns `CONNECTED_ID` and yet has stored a
rule (targeting `CONNECTED_ID`) and a registry entry (the first 15 characters). -/
theorem map_long_name_registers :
    nameLong.length = 16 ∧ nameLong ≠ CONNECTED_STATE ∧
    StateMQ.ctor.ruleCount = 0 ∧ StateMQ.ctor.knownStates = [] ∧
    (StateMQ.ctor.map (some topicT) (some payloadRun) (some nameLong)).1 = CONNECTED_ID ∧
    (StateMQ.ctor.map (some topicT) (some payloadRun) (some nameLong)).2.ruleCount = 1 ∧
    (StateMQ.ctor.map (some topicT) (some payloadRun) (some nameLong)).2.rules =
      [{ topic := topicT, message := payloadRun, stateId := CONNECTED_ID }] ∧
    (StateMQ.ctor.map (some topicT) (some payloadRun) (some nameLong)).2.knownStates =
      [nameLong.take 15] := by
  decide

/-- Claim C15, amended. No partial registration on failure for names within the length
limit: in every engine state that the public interface can produce, a `map` call whose
state name is null or has at most 15 characters (the literal `"CONNECTED"` included) and
that returns `CONNECTED_ID` has registered nothing: the rule count, every rule and the
registry, indeed the whole engine, are as before. -/
theorem no_partial_registration (n : StateMQ) (hr : Reachable n) (t m st : Option CStr)
    (hname : ∀ s, st = some s → s.length ≤ 15)
    (hfail : (n.map t m st).1 = CONNECTED_ID) :
    (n.map t m st).2.ruleCount = n.ruleCount ∧ (n.map t m st).2.rules = n.rules ∧
    (n.map t m st).2.knownStates = n.knownStates ∧ (n.map t m st).2 = n := by
  have key : (n.map t m st).2 = n := by
    cases t with
    | none => rfl
    | some t =>
    cases m with
    | none => rfl
    | some m =>
    cases st with
    | none => rfl
    | some s =>
    by_cases hfull : n.rules.length ≥ MAX_RULES
    · simp only [StateMQ.map, if_pos hfull]
    by_cases h1 : s = OFFLINE_STATE
    · simp only [StateMQ.map, if_neg hfull, strncmp_offline_iff, if_pos h1]
    by_cases h2 : s = CONNECTED_STATE
    · simp only [StateMQ.map, if_neg hfull, strncmp_offline_iff, if_neg h1,
        strncmp_connected_iff, if_pos h2]
    · obtain ⟨j, hmap, _, _⟩ := map_short n (reachable_inv n hr) (Nat.not_le.1 hfull) t m s
        (hname s rfl) h1 h2
      rw [hmap] at hfail
      simp only [CONNECTED_ID] at hfail
      omega
  rw [key]
  exact ⟨rfl, rfl, rfl, rfl⟩

set_option maxRecDepth 100000 in
/-- Witness of `no_partial_registration`: a declaration of HELLO refused by the full
rule table. -/
theorem no_partial_registration_witness :
    Reachable fullNode ∧
    (fullNode.map (some topicS) (some payloadHi) (some nameHello)).1 = CONNECTED_ID ∧
    (fullNode.map (some topicS) (some payloadHi) (some nameHello)).2.ruleCount
      = fullNode.ruleCount ∧
    (fullNode.map (some topicS) (some payloadHi) (some nameHello)).2.rules
      = fullNode.rules ∧
    (fullNode.map (some topicS) (some payloadHi) (some nameHello)).2.knownStates
      = fullNode.knownStates ∧
    (fullNode.map (some topicS) (some payloadHi) (some nameHello)).2 = fullNode :=
  ⟨⟨_, rfl⟩, rfl,
    no_partial_registration fullNode ⟨_, rfl⟩ (some topicS) (some payloadHi)
      (some nameHello) (fun s hs => by cases hs; decide) rfl⟩

/-- Claim C16. Successful declaration postcondition: in every engine state that the public
interface can produce and that holds fewer than `MAX_RULES` rules, `map` with non-null
topic and message and a state name of at most 15 characters that is not reserved returns
an id `>= 2` whose `stateName` afterwards is the name, increases `ruleCount()` by exactly
one, stores `(topic, message, id)` at index old `ruleCount()` and leaves every rule at a
lower index unchanged. -/
theorem map_success_postcondition (n : StateMQ) (hr : Reachable n)
    (hroom : n.ruleCount < MAX_RULES) (t m s : CStr) (hs : s.length ≤ 15)
    (h1 : s ≠ OFFLINE_STATE) (h2 : s ≠ CONNECTED_STATE) :
    2 ≤ (n.map (some t) (some m) (some s)).1 ∧
    (n.map (some t) (some m) (some s)).2.stateName (n.map (some t) (some m) (some s)).1
      = s ∧
    (n.map (some t) (some m) (some s)).2.ruleCount = n.ruleCount + 1 ∧
    (n.map (some t) (some m) (some s)).2.rules[n.ruleCount]? =
      some { topic := t, message := m,
             stateId := (n.map (some t) (some m) (some s)).1 } ∧
    ∀ i : Nat, i < n.ruleCount →
      (n.map (some t) (some m) (some s)).2.rules[i]? = n.rules[i]? := by
  obtain ⟨j, hmap, hj, _⟩ := map_short n (reachable_inv n hr) hroom t m s hs h1 h2
  rw [hmap]
  refine ⟨by omega, ?_, ?_, ?_, ?_⟩
  · exact stateStrForId_entry _ j s hj
  · simp [StateMQ.ruleCount]
  · simp [StateMQ.ruleCount]
  · intro i hi
    exact List.getElem?_append_left hi

/-- Witness of `map_success_postcondition`: declaring HELLO on the engine that holds the
one rule for RUNNING. -/
theorem map_success_postcondition_witness :
    Reachable runningNode ∧ runningNode.ruleCount < MAX_RULES ∧
    (runningNode.map (some topicS) (some payloadHi) (some nameHello)).1 = 3 ∧
    2 ≤ (runningNode.map (some topicS) (some payloadHi) (some nameHello)).1 ∧
    (runningNode.map (some topicS) (some payloadHi) (some nameHello)).2.stateName
      (runningNode.map (some topicS) (some payloadHi) (some nameHello)).1 = nameHello :=
  ⟨⟨_, rfl⟩, by decide, by decide,
    (map_success_postcondition runningNode ⟨_, rfl⟩ (by decide) topicS payloadHi nameHello
      (by decide) (by decide) (by decide)).1,
    (map_success_postcondition runningNode ⟨_, rfl⟩ (by decide) topicS payloadHi nameHello
      (by decide) (by decide) (by decide)).2.1⟩

/-- Counterexample to claim C17: on the connected engine of the end-to-end scenario handler
1 is registered in the plain form and then handler 2 in the context form; the transition
caused by `applyMessage("s", "hi")` invokes both, the earlier handler 1 included. -/
theorem both_handlers_invoked :
    (((helloNode.onStateChange (some 1)).onStateChangeEx (some 2) none).applyMessage
      (some topicS) (some payloadHi)).2.calls =
      [CbCall.cb 1 CONNECTED_ID 2, CbCall.cbEx 2 helloCtx] ∧
    (((helloNode.onStateChangeEx (some 2) none).onStateChange (some 1)).applyMessage
      (some topicS) (some payloadHi)).2.calls =
      [CbCall.cb 1 CONNECTED_ID 2, CbCall.cbEx 2 helloCtx] := by
  decide

/-- Claim C17, amended. One notification slot per handler form, last registration wins
within a form: in every engine state, after registering handler `a` in the plain form and
handler `b` in the context form, in either order, every `applyMessage` or `setConnected`
that fires a notification invokes both handlers exactly once, `a` first with the previous
and the new state and then `b` with the context; a handler registered earlier in the same
form (`a0`, `b0`) has been replaced and is not invoked. -/
theorem handler_slots (n : StateMQ) (a a0 b b0 : Nat) (u u0 : Ptr) :
    (((n.onStateChange (some a0)).onStateChangeEx (some b0) u0).onStateChange
      (some a)).onStateChangeEx (some b) u =
      (n.onStateChange (some a)).onStateChangeEx (some b) u ∧
    (n.onStateChangeEx (some b) u).onStateChange (some a) =
      (n.onStateChange (some a)).onStateChangeEx (some b) u ∧
    (∀ (t p : Option CStr) (ctx : StateChangeCtx),
      (((n.onStateChange (some a)).onStateChangeEx (some b) u).applyMessage t p).2.fired
        = [ctx] →
      (((n.onStateChange (some a)).onStateChangeEx (some b) u).applyMessage t p).2.calls
        = [CbCall.cb a ctx.prev ctx.curr, CbCall.cbEx b ctx]) ∧
    (∀ (c : Bool) (ctx : StateChangeCtx),
      (((n.onStateChange (some a)).onStateChangeEx (some b) u).setConnected c).fired
        = [ctx] →
      (((n.onStateChange (some a)).onStateChangeEx (some b) u).setConnected c).calls
        = [CbCall.cb a ctx.prev ctx.curr, CbCall.cbEx b ctx]) := by
  refine ⟨rfl, rfl, ?_, ?_⟩
  · intro t p ctx hf
    unfold StateMQ.applyMessage at hf ⊢
    cases t with
    | none => cases hf
    | some t =>
    cases p with
    | none => cases hf
    | some p =>
    simp only [] at hf ⊢
    cases hm : matchRule t p ((n.onStateChange (some a)).onStateChangeEx (some b) u).rules 0 with
    | none =>
      rw [hm] at hf
      cases hf
    | some mk =>
      rw [hm] at hf
      simp only [] at hf ⊢
      rw [setStateId_calls _ _ _ _ _ _ _ ctx hf]
      rfl
  · intro c ctx hf
    unfold StateMQ.setConnected at hf ⊢
    rw [setStateId_calls _ _ _ _ _ _ _ ctx hf]
    rfl

/-- Witness of `handler_slots`: handlers 1 and 2 on the connected engine of the end-to-end
scenario, and the message `("s", "hi")`. -/
theorem handler_slots_witness :
    (((helloNode.onStateChange (some 1)).onStateChangeEx (some 2) none).applyMessage
      (some topicS) (some payloadHi)).2.fired =
      [helloCtx] ∧
    (((helloNode.onStateChange (some 1)).onStateChangeEx (some 2) none).applyMessage
      (some topicS) (some payloadHi)).2.calls =
      [CbCall.cb 1 CONNECTED_ID 2, CbCall.cbEx 2 helloCtx] :=
  ⟨by decide,
    (handler_slots helloNode 1 5 2 6 none none).2.2.1 (some topicS) (some payloadHi)
      helloCtx (by decide)⟩

/-- Counterexample to claim C18: after `map("T", "run", "")`, `setConnected(true)` and
`applyMessage("T", "run")` the engine is connected in the user state 2 and `state()`
returns the empty string. -/
theorem empty_state_name :
    emptyNameNode.connected = true ∧ emptyNameNode.stateId = 2 ∧
    emptyNameNode.state = [] ∧ emptyNameNode.state.length = 0 := by
  decide

/-- Claim C18, amended. After every sequence of calls of the public interface on a fresh
engine, `state()` returns `"OFFLINE"`, `"CONNECTED"` or a state name that was passed to
`map`; and if every state name passed to `map` is non-empty, the returned string has
length `>= 1`. -/
theorem state_name_nonempty (cs : List Call) :
    ((StateMQ.ctor.exec cs).state = OFFLINE_STATE ∨
      (StateMQ.ctor.exec cs).state = CONNECTED_STATE ∨
      ∃ t m, Call.map t m (some (StateMQ.ctor.exec cs).state) ∈ cs) ∧
    ((∀ c ∈ cs, ∀ (t m : Option CStr) (s : CStr), c = Call.map t m (some s) → s ≠ []) →
      1 ≤ (StateMQ.ctor.exec cs).state.length) := by
  have hinv := inv_exec StateMQ.ctor cs inv_ctor
  have h0 : NamedBy (fun _ => False) StateMQ.ctor := by
    refine ⟨fun r hr => ?_, fun h => ?_, fun h => ?_⟩
    · simp [StateMQ.ctor] at hr
    · simp [StateMQ.ctor, OFFLINE_ID] at h
    · simp [StateMQ.ctor, CONNECTED_ID] at h
  have hnamed := namedBy_exec cs _ StateMQ.ctor inv_ctor h0
  have key : (StateMQ.ctor.exec cs).state = OFFLINE_STATE ∨
      (StateMQ.ctor.exec cs).state = CONNECTED_STATE ∨
      ∃ t m, Call.map t m (some (StateMQ.ctor.exec cs).state) ∈ cs := by
    unfold StateMQ.state
    cases hc : (StateMQ.ctor.exec cs).connected_ with
    | false => left; rfl
    | true =>
      simp only [Bool.not_true, Bool.false_eq_true, if_false]
      by_cases h2 : (StateMQ.ctor.exec cs).stateId_ ≥ 2
      · right; right
        obtain ⟨e, he, hde⟩ := hnamed.2.1 h2
        rcases hde with hde | ⟨t, m, hde⟩
        · exact absurd hde id
        · have hshort := hinv.names_short e (List.getElem?_mem he)
          simp only [if_pos h2, List.get?_eq_getElem?, he, List.take_of_length_le hshort]
          exact ⟨t, m, hde⟩
      · right; left
        simp only [if_neg h2]
        rfl
  refine ⟨key, ?_⟩
  intro hne
  rcases key with hk | hk | ⟨t, m, hk⟩
  · rw [hk]; decide
  · rw [hk]; decide
  · have := hne _ hk t m _ rfl
    exact List.length_pos.2 this

/-- Witness of `state_name_nonempty`: the engine of the restoration scenario in RUNNING. -/
theorem state_name_nonempty_witness :
    runningNodeIn.state = nameRunning ∧ 1 ≤ runningNodeIn.state.length :=
  ⟨by decide,
    (state_name_nonempty
      [Call.map (some topicT) (some payloadRun) (some nameRunning), Call.setConnected true,
       Call.applyMessage (some topicT) (some payloadRun)]).2
      (fun c hc t m s e => by
        simp only [List.mem_cons, List.mem_singleton, List.not_mem_nil, or_false] at hc
        rcases hc with hc | hc | hc <;> subst hc <;> cases e
        decide)⟩

/-- Claim C19. Task table capacity: on an engine with fewer than `MAX_TASKS` tasks,
`taskEvery` with a non-null callback returns the old task count, appends one descriptor
holding the given name, period, stack hint, callback, context and enabled flag (so
`taskCount()` grows by one and the descriptor sits at index old `taskCount()`); with
`MAX_TASKS` tasks registered, or with a null callback, both overloads return
`(TaskId)-1` and leave the engine unchanged. -/
theorem task_table_capacity (n : StateMQ) (name : Option CStr) (period : Nat) (stack : Stack)
    (f : Nat) (user : Ptr) (enabled : Bool) :
    (n.taskCount < MAX_TASKS →
      (n.taskEvery name period stack (some f) enabled).1 = n.taskCount ∧
      (n.taskEvery name period stack (some f) enabled).2 =
        { n with tasks := n.tasks ++ [{ name := name, period_ms := period, stack := stack,
                                        callback := some f, callbackEx := none,
                                        user := none, enabled := enabled }] } ∧
      (n.taskEvery name period stack (some f) enabled).2.taskCount = n.taskCount + 1 ∧
      (n.taskEvery name period stack (some f) enabled).2.tasks[n.taskCount]? =
        some { name := name, period_ms := period, stack := stack, callback := some f,
               callbackEx := none, user := none, enabled := enabled } ∧
      (n.taskEveryEx name period stack (some f) user enabled).1 = n.taskCount ∧
      (n.taskEveryEx name period stack (some f) user enabled).2 =
        { n with tasks := n.tasks ++ [{ name := name, period_ms := period, stack := stack,
                                        callback := none, callbackEx := some f,
                                        user := user, enabled := enabled }] } ∧
      (n.taskEveryEx name period stack (some f) user enabled).2.taskCount
        = n.taskCount + 1 ∧
      (n.taskEveryEx name period stack (some f) user enabled).2.tasks[n.taskCount]? =
        some { name := name, period_ms := period, stack := stack, callback := none,
               callbackEx := some f, user := user, enabled := enabled }) ∧
    (n.taskCount = MAX_TASKS →
      n.taskEvery name period stack (some f) enabled = (SIZE_MAX, n) ∧
      n.taskEveryEx name period stack (some f) user enabled = (SIZE_MAX, n)) ∧
    n.taskEvery name period stack none enabled = (SIZE_MAX, n) ∧
    n.taskEveryEx name period stack none user enabled = (SIZE_MAX, n) := by
  refine ⟨?_, ?_, rfl, rfl⟩
  · intro hroom
    have h1 : ¬ (n.tasks.length ≥ MAX_TASKS) := Nat.not_le.2 hroom
    simp only [StateMQ.taskEvery, StateMQ.taskEveryEx, StateMQ.taskCount, if_neg h1,
      List.length_append, List.length_singleton, true_and]
    simp
  · intro hfull
    have h1 : n.tasks.length ≥ MAX_TASKS := Nat.le_of_eq hfull.symm
    simp only [StateMQ.taskEvery, StateMQ.taskEveryEx, if_pos h1, and_self]

/-- Witness of `task_table_capacity`: the first registration on the engine of the
end-to-end scenario, which has no task. -/
theorem task_table_capacity_witness :
    helloNode.taskCount < MAX_TASKS ∧
    (helloNode.taskEvery (some nameHello) 500 Stack.Small (some 7) true).1 = 0 ∧
    (helloNode.taskEvery (some nameHello) 500 Stack.Small (some 7) true).2.taskCount = 1 ∧
    (helloNode.taskEveryEx (some nameHello) 500 Stack.Small (some 7) (some 9) true).1 = 0 :=
  ⟨by decide,
    ((task_table_capacity helloNode (some nameHello) 500 Stack.Small 7 (some 9) true).1
      (by decide)).1,
    ((task_table_capacity helloNode (some nameHello) 500 Stack.Small 7 (some 9) true).1
      (by decide)).2.2.1,
    ((task_table_capacity helloNode (some nameHello) 500 Stack.Small 7 (some 9) true).1
      (by decide)).2.2.2.2.1⟩

/-- Claim C20. Unknown task ids fail without side effect: in every engine state, for every
`id >= taskCount()` and both values of `b`, `taskEnable(id, b)` returns false and leaves
the whole engine unchanged, `taskEnabled(id)` returns false, and the ESP-IDF wrapper
returns false, leaves the engine unchanged and makes no scheduler request; and in every
engine state that the public interface can produce the sentinel `(TaskId)-1` is such an
id. -/
theorem unknown_task_id :
    (∀ (n : StateMQ) (id : Nat) (b : Bool), n.taskCount ≤ id →
      n.taskEnable id b = (false, n) ∧ n.taskEnabled id = false ∧
      ∀ hs : Option (List Ptr), StateMQEsp.taskEnable n hs id b = (false, n, [])) ∧
    (∀ n : StateMQ, Reachable n → n.taskCount ≤ SIZE_MAX) := by
  constructor
  · intro n id b h
    have h1 : id ≥ n.tasks.length := h
    refine ⟨?_, ?_, ?_⟩
    · simp only [StateMQ.taskEnable, if_pos h1]
    · have h2 : n.tasks[id]? = none := List.getElem?_eq_none h1
      simp only [StateMQ.taskEnabled, List.get?_eq_getElem?, h2]
    · intro hs
      simp only [StateMQEsp.taskEnable, StateMQ.taskCount, if_pos h1]
  · intro n hr
    have h := reachable_task_count n hr
    simp only [MAX_TASKS] at h
    simp only [StateMQ.taskCount, SIZE_MAX]
    omega

/-- Witness of `unknown_task_id`: the sentinel `(TaskId)-1` on an engine without tasks. -/
theorem unknown_task_id_witness :
    (helloNode.taskCount ≤ SIZE_MAX ∧
      helloNode.taskEnable SIZE_MAX true = (false, helloNode) ∧
      helloNode.taskEnabled SIZE_MAX = false ∧
      ∀ hs : Option (List Ptr),
        StateMQEsp.taskEnable helloNode hs SIZE_MAX true = (false, helloNode, [])) ∧
    (Reachable runningNode ∧ runningNode.taskCount ≤ SIZE_MAX) :=
  ⟨⟨by decide, unknown_task_id.1 helloNode SIZE_MAX true (by decide)⟩,
    ⟨⟨_, rfl⟩, unknown_task_id.2 runningNode ⟨_, rfl⟩⟩⟩

/-! ## The backends: what the delivery of notifications leaves alone -/

theorem esp_trampoline_frame (s : StateMQEsp) (ctx : StateChangeCtx) (up : Nat) :
    { (s.on_state_change_trampoline ctx up).1 with
        lastStatePub := 0, hasLastStatePub := false } =
    { s with lastStatePub := 0, hasLastStatePub := false } := by
  simp only [StateMQEsp.on_state_change_trampoline]
  repeat' split
  all_goals rfl

theorem esp_deliver_frame (up : Nat) (cs : List CbCall) :
    ∀ s : StateMQEsp,
      { (StateMQEsp.deliver s up cs).1 with lastStatePub := 0, hasLastStatePub := false } =
      { s with lastStatePub := 0, hasLastStatePub := false } := by
  induction cs with
  | nil => intro s; rfl
  | cons c cs ih =>
    intro s
    cases c with
    | cb fn p n =>
      simp only [StateMQEsp.deliver]
      exact ih s
    | cbEx fn ctx =>
      simp only [StateMQEsp.deliver]
      split_ifs
      · exact (ih _).trans (esp_trampoline_frame s ctx up)
      · exact ih s
      · exact ih s

theorem esp_withCore_frame (s : StateMQEsp) (e : Effect) (up : Nat) :
    { (s.withCore e up).1 with lastStatePub := 0, hasLastStatePub := false } =
    { s with core := e.node, lastStatePub := 0, hasLastStatePub := false } :=
  esp_deliver_frame up e.calls { s with core := e.node }

theorem esp_withCore_raw (s : StateMQEsp) (e : Effect) (up : Nat) :
    (s.withCore e up).1.raw = s.raw := by
  have h := congrArg StateMQEsp.raw (esp_withCore_frame s e up)
  exact h

theorem esp_withCore_qos (s : StateMQEsp) (e : Effect) (up : Nat) :
    (s.withCore e up).1.qos = s.qos := by
  have h := congrArg StateMQEsp.qos (esp_withCore_frame s e up)
  exact h

theorem esp_withCore_core (s : StateMQEsp) (e : Effect) (up : Nat) :
    (s.withCore e up).1.core = e.node := by
  have h := congrArg StateMQEsp.core (esp_withCore_frame s e up)
  exact h

theorem esp32_trampoline_frame (s : StateMQEsp32) (ctx : StateChangeCtx) (up : Nat) :
    { (s.on_state_change_trampoline ctx up).1 with
        lastStatePub := 0, hasLastStatePub := false } =
    { s with lastStatePub := 0, hasLastStatePub := false } := by
  simp only [StateMQEsp32.on_state_change_trampoline]
  repeat' split
  all_goals rfl

theorem esp32_deliver_frame (up : Nat) (cs : List CbCall) :
    ∀ s : StateMQEsp32,
      { (StateMQEsp32.deliver s up cs).1 with
          lastStatePub := 0, hasLastStatePub := false } =
      { s with lastStatePub := 0, hasLastStatePub := false } := by
  induction cs with
  | nil => intro s; rfl
  | cons c cs ih =>
    intro s
    cases c with
    | cb fn p n =>
      simp only [StateMQEsp32.deliver]
      exact ih s
    | cbEx fn ctx =>
      simp only [StateMQEsp32.deliver]
      split_ifs
      · exact (ih _).trans (esp32_trampoline_frame s ctx up)
      · exact ih s
      · exact ih s

theorem esp32_withCore_frame (s : StateMQEsp32) (e : Effect) (up : Nat) :
    { (s.withCore e up).1 with lastStatePub := 0, hasLastStatePub := false } =
    { s with core := e.node, lastStatePub := 0, hasLastStatePub := false } :=
  esp32_deliver_frame up e.calls { s with core := e.node }

/-! ## The QoS override table -/

theorem clamp_qos_range (q : Int) : 0 ≤ clamp_qos q ∧ clamp_qos q ≤ 2 := by
  unfold clamp_qos
  split_ifs <;> omega

theorem toInt8_clamp (q : Int) : toInt8 (clamp_qos q) = clamp_qos q := by
  have h := clamp_qos_range q
  unfold toInt8
  omega

theorem clamp_qos_idem (q : Int) : clamp_qos (clamp_qos q) = clamp_qos q := by
  have h := clamp_qos_range q
  generalize clamp_qos q = c at h
  unfold clamp_qos
  split_ifs <;> omega

theorem qosLookup_eq_find (t : CStr) (tbl : List QosEntry) :
    qosLookup t tbl = (tbl.find? (fun e => e.topic == some t)).map QosEntry.value := by
  induction tbl with
  | nil => rfl
  | cons e es ih =>
    rcases ht : e.topic with _ | x
    · simp [qosLookup, ht, ih, List.find?]
    · by_cases hx : x = t
      · simp [qosLookup, ht, List.find?, hx, (strcmp_eq_zero_iff _ _).2]
      · have h1 : ¬ strcmp x t = 0 := fun h => hx ((strcmp_eq_zero_iff _ _).1 h)
        have hb : (x == t) = false := beq_false_of_ne hx
        simp [qosLookup, ht, List.find?, hx, h1, ih, hb]

theorem qosLookup_none_iff (t : CStr) (tbl : List QosEntry) :
    qosLookup t tbl = none ↔ ∀ e ∈ tbl, e.topic ≠ some t := by
  induction tbl with
  | nil => simp [qosLookup]
  | cons e es ih =>
    rcases ht : e.topic with _ | x
    · simp [qosLookup, ht, ih]
    · by_cases hx : x = t
      · simp [qosLookup, ht, hx, (strcmp_eq_zero_iff _ _).2]
      · have h1 : ¬ strcmp x t = 0 := fun h => hx ((strcmp_eq_zero_iff _ _).1 h)
        simp [qosLookup, ht, hx, h1, ih]

theorem qosUpdate_none_iff (t : CStr) (q : Int) (tbl : List QosEntry) :
    qosUpdate t q tbl = none ↔ ∀ e ∈ tbl, e.topic ≠ some t := by
  induction tbl with
  | nil => simp [qosUpdate]
  | cons e es ih =>
    rcases ht : e.topic with _ | x
    · simp [qosUpdate, ht, ih]
    · by_cases hx : x = t
      · simp [qosUpdate, ht, hx, (strcmp_eq_zero_iff _ _).2]
      · have h1 : ¬ strcmp x t = 0 := fun h => hx ((strcmp_eq_zero_iff _ _).1 h)
        simp [qosUpdate, ht, hx, h1, ih]

theorem qosUpdate_topics (t : CStr) (q : Int) (tbl tbl2 : List QosEntry)
    (h : qosUpdate t q tbl = some tbl2) :
    tbl2.map QosEntry.topic = tbl.map QosEntry.topic := by
  induction tbl generalizing tbl2 with
  | nil => simp [qosUpdate] at h
  | cons e es ih =>
    rcases ht : e.topic with _ | x
    · simp only [qosUpdate, ht, Option.map_eq_some'] at h
      obtain ⟨r, hr, rfl⟩ := h
      simp [ih r hr]
    · by_cases hx : strcmp x t = 0
      · simp only [qosUpdate, ht, hx, if_true, Option.some.injEq] at h
        subst h
        simp [ht]
      · simp only [qosUpdate, ht, hx, if_false, Option.map_eq_some'] at h
        obtain ⟨r, hr, rfl⟩ := h
        simp [ih r hr]

theorem qosLookup_update_self (t : CStr) (q : Int) (tbl tbl2 : List QosEntry)
    (h : qosUpdate t q tbl = some tbl2) : qosLookup t tbl2 = some (toInt8 q) := by
  induction tbl generalizing tbl2 with
  | nil => simp [qosUpdate] at h
  | cons e es ih =>
    rcases ht : e.topic with _ | x
    · simp only [qosUpdate, ht, Option.map_eq_some'] at h
      obtain ⟨r, hr, rfl⟩ := h
      simp only [qosLookup, ht]
      exact ih r hr
    · by_cases hx : strcmp x t = 0
      · simp only [qosUpdate, ht, hx, if_true, Option.some.injEq] at h
        subst h
        simp only [qosLookup, ht, hx, if_true]
      · simp only [qosUpdate, ht, hx, if_false, Option.map_eq_some'] at h
        obtain ⟨r, hr, rfl⟩ := h
        simp only [qosLookup, ht, hx, if_false]
        exact ih r hr

theorem qosLookup_update_other (t u : CStr) (q : Int) (tbl tbl2 : List QosEntry)
    (h : qosUpdate t q tbl = some tbl2) (hu : u ≠ t) :
    qosLookup u tbl2 = qosLookup u tbl := by
  induction tbl generalizing tbl2 with
  | nil => simp [qosUpdate] at h
  | cons e es ih =>
    rcases ht : e.topic with _ | x
    · simp only [qosUpdate, ht, Option.map_eq_some'] at h
      obtain ⟨r, hr, rfl⟩ := h
      simp only [qosLookup, ht]
      exact ih r hr
    · by_cases hx : strcmp x t = 0
      · simp only [qosUpdate, ht, hx, if_true, Option.some.injEq] at h
        subst h
        have hxt : x = t := (strcmp_eq_zero_iff _ _).1 hx
        have hxu : ¬ strcmp x u = 0 := fun h2 =>
          hu (((strcmp_eq_zero_iff _ _).1 h2).symm.trans hxt)
        simp only [qosLookup, ht, hxu, if_false]
      · simp only [qosUpdate, ht, hx, if_false, Option.map_eq_some'] at h
        obtain ⟨r, hr, rfl⟩ := h
        simp only [qosLookup, ht]
        rw [ih r hr]

theorem qosLookup_append (u : CStr) (tbl : List QosEntry) (e : QosEntry) :
    qosLookup u (tbl ++ [e]) =
      match qosLookup u tbl with
      | some v => some v
      | none => qosLookup u [e] := by
  induction tbl with
  | nil => simp only [List.nil_append, qosLookup]
  | cons x xs ih =>
    rcases ht : x.topic with _ | y
    · simp only [List.cons_append, qosLookup, ht]
      exact ih
    · by_cases hy : strcmp y u = 0
      · simp only [List.cons_append, qosLookup, ht, hy, if_true]
      · simp only [List.cons_append, qosLookup, ht, hy, if_false]
        exact ih

theorem qosLookup_single (u t : CStr) (v : Int) :
    qosLookup u [{ topic := some t, value := v }] = if t = u then some v else none := by
  by_cases h : t = u
  · simp [qosLookup, h, (strcmp_eq_zero_iff _ _).2]
  · have h1 : ¬ strcmp t u = 0 := fun h2 => h ((strcmp_eq_zero_iff _ _).1 h2)
    simp [qosLookup, h, h1]

theorem dupstr_some (a : Bool) (t c : CStr) (h : dupstr a (some t) = some c) :
    a = true ∧ c = t := by
  unfold dupstr at h
  split_ifs at h with ha
  · exact ⟨ha, (Option.some.inj h).symm⟩

theorem esp32_qosForTopic_find (s : StateMQEsp32) (t : CStr) :
    s.qosForTopic (some t) =
      match s.qos.find? (fun e => e.topic == some t) with
      | some e => e.value
      | none => s.defaultSubQos := by
  simp only [StateMQEsp32.qosForTopic, qosLookup_eq_find]
  cases s.qos.find? (fun e => e.topic == some t) <;> rfl

theorem esp_qosForTopic_find (s : StateMQEsp) (t : CStr) :
    s.qosForTopic (some t) =
      match s.qos.find? (fun e => e.topic == some t) with
      | some e => e.value
      | none => s.defaultSubQos := by
  simp only [StateMQEsp.qosForTopic, qosLookup_eq_find]
  cases s.qos.find? (fun e => e.topic == some t) <;> rfl

theorem esp32_set_shape (s : StateMQEsp32) (t : Option CStr) (q : Int) (a : Bool) :
    ∃ tbl, s.setSubscribeQos t q a = { s with qos := tbl } := by
  cases t with
  | none => exact ⟨s.qos, rfl⟩
  | some t =>
    unfold StateMQEsp32.setSubscribeQos
    simp only
    rcases hu : qosUpdate t (clamp_qos q) s.qos with _ | tbl
    · simp only
      split_ifs
      · cases a
        · exact ⟨s.qos, rfl⟩
        · exact ⟨_, rfl⟩
      · exact ⟨s.qos, rfl⟩
    · exact ⟨tbl, rfl⟩

theorem esp32_set_frame (s : StateMQEsp32) (t : Option CStr) (q : Int) (a : Bool) :
    { s.setSubscribeQos t q a with qos := s.qos } = s := by
  obtain ⟨tbl, h⟩ := esp32_set_shape s t q a
  rw [h]

theorem esp32_set_default (s : StateMQEsp32) (t : Option CStr) (q : Int) (a : Bool) :
    (s.setSubscribeQos t q a).defaultSubQos = s.defaultSubQos := by
  obtain ⟨tbl, h⟩ := esp32_set_shape s t q a
  rw [h]

theorem esp32_set_lookup_self (s : StateMQEsp32) (t : CStr) (q : Int) (a : Bool)
    (h : (∃ e ∈ s.qos, e.topic = some t) ∨
      (s.qos.length < StateMQEsp32.MAX_QOS_OVERRIDES ∧ a = true)) :
    qosLookup t (s.setSubscribeQos (some t) q a).qos = some (clamp_qos q) := by
  unfold StateMQEsp32.setSubscribeQos
  simp only
  rcases hu : qosUpdate t (clamp_qos q) s.qos with _ | tbl
  · have hno := (qosUpdate_none_iff t (clamp_qos q) s.qos).1 hu
    rcases h with ⟨e, he, het⟩ | ⟨hlen, ha⟩
    · exact absurd het (hno e he)
    · subst ha
      simp only [if_pos hlen, dupstr, if_true]
      rw [qosLookup_append, (qosLookup_none_iff t s.qos).2 hno, qosLookup_single,
        if_pos rfl, toInt8_clamp]
  · simp only
    rw [qosLookup_update_self t _ s.qos tbl hu, toInt8_clamp]

theorem esp32_set_lookup_other (s : StateMQEsp32) (t u : CStr) (q : Int) (a : Bool)
    (hu : u ≠ t) :
    qosLookup u (s.setSubscribeQos (some t) q a).qos = qosLookup u s.qos := by
  unfold StateMQEsp32.setSubscribeQos
  simp only
  rcases hup : qosUpdate t (clamp_qos q) s.qos with _ | tbl
  · simp only
    split_ifs with hlen
    · cases a with
      | false => simp only [dupstr, Bool.false_eq_true, if_false]
      | true =>
        simp only [dupstr, if_true]
        rw [qosLookup_append, qosLookup_single, if_neg (fun h => hu h.symm)]
        cases qosLookup u s.qos <;> rfl
    · rfl
  · simp only
    exact qosLookup_update_other t u _ s.qos tbl hup hu

theorem esp32_set_full_absent (s : StateMQEsp32) (t : CStr) (q : Int) (a : Bool)
    (hlen : ¬ s.qos.length < StateMQEsp32.MAX_QOS_OVERRIDES)
    (hno : ∀ e ∈ s.qos, e.topic ≠ some t) :
    s.setSubscribeQos (some t) q a = s := by
  unfold StateMQEsp32.setSubscribeQos
  simp only [(qosUpdate_none_iff t (clamp_qos q) s.qos).2 hno, if_neg hlen]

theorem esp32_set_topics_present (s : StateMQEsp32) (t : CStr) (q : Int) (a : Bool)
    (h : ∃ e ∈ s.qos, e.topic = some t) :
    (s.setSubscribeQos (some t) q a).qos.map QosEntry.topic =
      s.qos.map QosEntry.topic := by
  unfold StateMQEsp32.setSubscribeQos
  simp only
  rcases hu : qosUpdate t (clamp_qos q) s.qos with _ | tbl
  · have hno := (qosUpdate_none_iff t (clamp_qos q) s.qos).1 hu
    obtain ⟨e, he, het⟩ := h
    exact absurd het (hno e he)
  · simp only
    exact qosUpdate_topics t _ s.qos tbl hu

/-! ## The invariant of the override table -/

theorem qosInv_nil : QosInv [] :=
  ⟨by simp, by simp, by simp, by simp⟩

theorem qosUpdate_mem (t : CStr) (q : Int) (tbl tbl2 : List QosEntry)
    (h : qosUpdate t q tbl = some tbl2) :
    ∀ e ∈ tbl2, e ∈ tbl ∨ e.value = toInt8 q := by
  induction tbl generalizing tbl2 with
  | nil => simp [qosUpdate] at h
  | cons x xs ih =>
    intro e he
    rcases ht : x.topic with _ | y
    · simp only [qosUpdate, ht, Option.map_eq_some'] at h
      obtain ⟨r, hr, rfl⟩ := h
      rcases List.mem_cons.1 he with rfl | he2
      · exact Or.inl (List.mem_cons_self _ _)
      · rcases ih r hr e he2 with h1 | h1
        · exact Or.inl (List.mem_cons_of_mem _ h1)
        · exact Or.inr h1
    · by_cases hy : strcmp y t = 0
      · simp only [qosUpdate, ht, hy, if_true, Option.some.injEq] at h
        subst h
        rcases List.mem_cons.1 he with rfl | he2
        · exact Or.inr rfl
        · exact Or.inl (List.mem_cons_of_mem _ he2)
      · simp only [qosUpdate, ht, hy, if_false, Option.map_eq_some'] at h
        obtain ⟨r, hr, rfl⟩ := h
        rcases List.mem_cons.1 he with rfl | he2
        · exact Or.inl (List.mem_cons_self _ _)
        · rcases ih r hr e he2 with h1 | h1
          · exact Or.inl (List.mem_cons_of_mem _ h1)
          · exact Or.inr h1

theorem qosInv_update (t : CStr) (q : Int) (tbl tbl2 : List QosEntry) (hi : QosInv tbl)
    (h : qosUpdate t (clamp_qos q) tbl = some tbl2) : QosInv tbl2 := by
  have hm := qosUpdate_topics t _ tbl tbl2 h
  have hl : tbl2.length = tbl.length := by
    have := congrArg List.length hm
    simpa using this
  refine ⟨by rw [hl]; exact hi.room, ?_, by rw [hm]; exact hi.distinct, ?_⟩
  · intro e he
    have h1 : e.topic ∈ tbl2.map QosEntry.topic := List.mem_map_of_mem _ he
    rw [hm] at h1
    obtain ⟨x, hx, hxe⟩ := List.mem_map.1 h1
    rw [← hxe]
    exact hi.topics x hx
  · intro e he
    rcases qosUpdate_mem t _ tbl tbl2 h e he with h1 | h1
    · exact hi.levels e h1
    · rw [h1, toInt8_clamp]
      exact clamp_qos_range q

theorem qosInv_append (t : CStr) (q : Int) (tbl : List QosEntry) (hi : QosInv tbl)
    (hlen : tbl.length < 16) (hno : ∀ e ∈ tbl, e.topic ≠ some t) :
    QosInv (tbl ++ [{ topic := some t, value := toInt8 (clamp_qos q) }]) := by
  refine ⟨by simp; omega, ?_, ?_, ?_⟩
  · intro e he
    rcases List.mem_append.1 he with h1 | h1
    · exact hi.topics e h1
    · simp only [List.mem_singleton] at h1
      subst h1
      simp
  · rw [List.map_append, List.nodup_append]
    refine ⟨hi.distinct, by simp, ?_⟩
    intro a ha hb
    simp only [List.map_cons, List.map_nil, List.mem_singleton] at hb
    subst hb
    obtain ⟨x, hx, hxe⟩ := List.mem_map.1 ha
    exact hno x hx hxe
  · intro e he
    rcases List.mem_append.1 he with h1 | h1
    · exact hi.levels e h1
    · simp only [List.mem_singleton] at h1
      subst h1
      simp only [toInt8_clamp]
      exact clamp_qos_range q

theorem qosInv_set32 (s : StateMQEsp32) (t : Option CStr) (q : Int) (a : Bool)
    (hi : QosInv s.qos) : QosInv (s.setSubscribeQos t q a).qos := by
  cases t with
  | none => exact hi
  | some t =>
    unfold StateMQEsp32.setSubscribeQos
    simp only
    rcases hu : qosUpdate t (clamp_qos q) s.qos with _ | tbl
    · have hno := (qosUpdate_none_iff t (clamp_qos q) s.qos).1 hu
      simp only
      split_ifs with hlen
      · cases a
        · exact hi
        · exact qosInv_append t q s.qos hi hlen hno
      · exact hi
    · exact qosInv_update t q s.qos tbl hi hu

/-! ## The raw slot table -/

theorem rawIndexFrom_bounds (t : CStr) (rs : List RawSlot) (b i : Nat)
    (h : rawIndexFrom t rs b = some i) : b ≤ i ∧ i < b + rs.length := by
  induction rs generalizing b with
  | nil => simp [rawIndexFrom] at h
  | cons r rs ih =>
    simp only [rawIndexFrom] at h
    split_ifs at h with hc
    · simp only [Option.some.injEq] at h
      simp only [List.length_cons]
      omega
    · have := ih (b + 1) h
      simp only [List.length_cons]
      omega

theorem rawIndexFrom_shift (t : CStr) (rs : List RawSlot) (b : Nat) :
    rawIndexFrom t rs (b + 1) = (rawIndexFrom t rs b).map (fun i => i + 1) := by
  induction rs generalizing b with
  | nil => rfl
  | cons r rs ih =>
    simp only [rawIndexFrom]
    split_ifs
    · rfl
    · exact ih (b + 1)

theorem rawIndexFrom_none_iff (t : CStr) (rs : List RawSlot) (b : Nat) (ht : t ≠ []) :
    rawIndexFrom t rs b = none ↔ t ∉ rs.map RawSlot.topic := by
  induction rs generalizing b with
  | nil => simp [rawIndexFrom]
  | cons r rs ih =>
    simp only [rawIndexFrom, strcmp_eq_zero_iff]
    by_cases hr : r.topic = t
    · have h1 : r.topic ≠ [] := by rw [hr]; exact ht
      simp [h1, hr, ht]
    · have h2 : ¬ t = r.topic := fun h => hr h.symm
      simp [hr, h2, ih (b + 1)]

theorem rawIndexFrom_get (t : CStr) (rs : List RawSlot) (i : Nat)
    (h : rawIndexFrom t rs 0 = some i) :
    ∃ r, rs[i]? = some r ∧ r.topic = t ∧ t ≠ [] := by
  induction rs generalizing i with
  | nil => simp [rawIndexFrom] at h
  | cons r rs ih =>
    simp only [rawIndexFrom, strcmp_eq_zero_iff] at h
    split_ifs at h with hc
    · simp only [Option.some.injEq] at h
      subst h
      exact ⟨r, by simp, hc.2, by rw [← hc.2]; exact hc.1⟩
    · rw [show (0 : Nat) + 1 = 0 + 1 from rfl, rawIndexFrom_shift] at h
      simp only [Option.map_eq_some'] at h
      obtain ⟨j, hj, rfl⟩ := h
      obtain ⟨x, hx, hxt⟩ := ih j hj
      exact ⟨x, by simpa using hx, hxt⟩

theorem rawIndexFrom_topics (t : CStr) (rs rs2 : List RawSlot) (b : Nat)
    (h : rs2.map RawSlot.topic = rs.map RawSlot.topic) :
    rawIndexFrom t rs2 b = rawIndexFrom t rs b := by
  induction rs generalizing rs2 b with
  | nil =>
    cases rs2 with
    | nil => rfl
    | cons x xs => simp at h
  | cons r rs ih =>
    cases rs2 with
    | nil => simp at h
    | cons x xs =>
      simp only [List.map_cons, List.cons.injEq] at h
      simp only [rawIndexFrom, h.1, ih xs (b + 1) h.2]

theorem modify_topics (rs : List RawSlot) (f : RawSlot → RawSlot) (i : Nat)
    (hf : ∀ r, (f r).topic = r.topic) :
    (rs.modify f i).map RawSlot.topic = rs.map RawSlot.topic := by
  apply List.ext_getElem?
  intro j
  simp only [List.getElem?_map, List.getElem?_modify]
  cases rs[j]? with
  | none => rfl
  | some r =>
    by_cases hij : i = j
    · simp [hij, hf]
    · simp [hij]

theorem rawIndexFrom_append_of_some (t : CStr) (rs : List RawSlot) (x : RawSlot) (b i : Nat)
    (h : rawIndexFrom t rs b = some i) : rawIndexFrom t (rs ++ [x]) b = some i := by
  induction rs generalizing b with
  | nil => simp [rawIndexFrom] at h
  | cons r rs ih =>
    simp only [rawIndexFrom, List.cons_append] at h ⊢
    split_ifs at h ⊢ with hc
    · exact h
    · exact ih (b + 1) h

theorem rawIndexFrom_append_new (t : CStr) (rs : List RawSlot) (x : RawSlot) (b : Nat)
    (h : rawIndexFrom t rs b = none) (hx : x.topic = t) (ht : t ≠ []) :
    rawIndexFrom t (rs ++ [x]) b = some (b + rs.length) := by
  induction rs generalizing b with
  | nil =>
    have h1 : x.topic ≠ [] := by rw [hx]; exact ht
    simp [rawIndexFrom, strcmp_eq_zero_iff, hx, ht]
  | cons r rs ih =>
    simp only [rawIndexFrom, List.cons_append] at h ⊢
    split_ifs at h ⊢ with hc
    have h2 := ih (b + 1) h
    simp only [List.length_cons]
    rw [show b + (rs.length + 1) = b + 1 + rs.length by omega]
    exact h2

/-! ## The invariant of the Arduino backend -/

theorem inv32_of_eq (s t : StateMQEsp32) (h : Inv32 s) (hc : Reachable t.core)
    (hq : t.qos = s.qos) (hr : t.raw = s.raw) (hb : t.backoffMs = s.backoffMs)
    (hn : t.nextTryMs = s.nextTryMs) (hm : t.mqtt = s.mqtt)
    (ht : t.reconnectTask = s.reconnectTask) : Inv32 t :=
  ⟨hc, by rw [hq]; exact h.qos, by rw [hr]; exact h.slots, by rw [hr]; exact h.slot_topics,
    by rw [hr]; exact h.slot_payloads, by rw [hb]; exact h.backoff, by rw [hn]; exact h.nextTry,
    by rw [hm, ht]; exact h.ticker⟩

theorem inv32_ctor : Inv32 (StateMQEsp32.ctor StateMQ.ctor) :=
  ⟨⟨[], rfl⟩, qosInv_nil, by simp [StateMQEsp32.ctor],
    by simp [StateMQEsp32.ctor], by simp [StateMQEsp32.ctor],
    by simp [StateMQEsp32.ctor], by simp [StateMQEsp32.ctor, UINT32_MOD],
    by simp [StateMQEsp32.ctor]⟩

theorem inv32_withCore (s : StateMQEsp32) (e : Effect) (up : Nat) (h : Inv32 s)
    (he : Reachable e.node) : Inv32 (s.withCore e up).1 := by
  have hf := esp32_withCore_frame s e up
  have h1 := congrArg StateMQEsp32.core hf
  have h2 := congrArg StateMQEsp32.qos hf
  have h3 := congrArg StateMQEsp32.raw hf
  have h4 := congrArg StateMQEsp32.backoffMs hf
  have h5 := congrArg StateMQEsp32.nextTryMs hf
  have h6 := congrArg StateMQEsp32.mqtt hf
  have h7 := congrArg StateMQEsp32.reconnectTask hf
  simp only at h1 h2 h3 h4 h5 h6 h7
  exact inv32_of_eq s _ h (by rw [h1]; exact he) h2 h3 h4 h5 h6 h7

theorem inv32_deliver (s : StateMQEsp32) (cs : List CbCall) (up : Nat) (h : Inv32 s) :
    Inv32 (StateMQEsp32.deliver s up cs).1 := by
  have hf := esp32_deliver_frame up cs s
  have h1 := congrArg StateMQEsp32.core hf
  have h2 := congrArg StateMQEsp32.qos hf
  have h3 := congrArg StateMQEsp32.raw hf
  have h4 := congrArg StateMQEsp32.backoffMs hf
  have h5 := congrArg StateMQEsp32.nextTryMs hf
  have h6 := congrArg StateMQEsp32.mqtt hf
  have h7 := congrArg StateMQEsp32.reconnectTask hf
  simp only at h1 h2 h3 h4 h5 h6 h7
  exact inv32_of_eq s _ h (by rw [h1]; exact h.engine) h2 h3 h4 h5 h6 h7

theorem reachable_setConnected (n : StateMQ) (b : Bool) (h : Reachable n) :
    Reachable (n.setConnected b).node :=
  reachable_step n (Call.setConnected b) h

theorem reachable_applyMessage (n : StateMQ) (t p : Option CStr) (h : Reachable n) :
    Reachable (n.applyMessage t p).2.node :=
  reachable_step n (Call.applyMessage t p) h

theorem inv32_set (s : StateMQEsp32) (t : Option CStr) (q : Int) (a : Bool) (h : Inv32 s) :
    Inv32 (s.setSubscribeQos t q a) := by
  have hq := qosInv_set32 s t q a h.qos
  obtain ⟨tbl, he⟩ := esp32_set_shape s t q a
  rw [he] at hq ⊢
  exact ⟨h.engine, hq, h.slots, h.slot_topics, h.slot_payloads, h.backoff, h.nextTry, h.ticker⟩

theorem esp32_subscribe_existing (s : StateMQEsp32) (t : CStr) (q : Int) (a : Bool)
    (i : Nat) (ht : t ≠ []) (hi : s.rawIndex (some t) = some i) :
    (s.subscribe (some t) q a).1 = true ∧
    (s.subscribe (some t) q a).2.1 = s.setSubscribeQos (some t) (clamp_qos q) a := by
  simp only [StateMQEsp32.subscribe, if_neg ht, hi, and_self]

theorem esp32_subscribe_new (s : StateMQEsp32) (t : CStr) (q : Int) (a : Bool)
    (ht : t ≠ []) (hi : s.rawIndex (some t) = none)
    (hlen : ¬ s.raw.length ≥ StateMQEsp32.MAX_RAW_SUBS) :
    (s.subscribe (some t) q a).1 = true ∧
    (s.subscribe (some t) q a).2.1 =
      ({ s with raw := s.raw ++ [({ topic := t.take (StateMQEsp32.RAW_TOPIC_LEN - 1),
                                    payload := [], hasNew := false } : RawSlot)]
        }).setSubscribeQos (some t) (clamp_qos q) a := by
  simp only [StateMQEsp32.subscribe, if_neg ht, hi, if_neg hlen, and_self]

theorem esp32_subscribe_full (s : StateMQEsp32) (t : CStr) (q : Int) (a : Bool)
    (hi : s.rawIndex (some t) = none) (hlen : s.raw.length ≥ StateMQEsp32.MAX_RAW_SUBS) :
    s.subscribe (some t) q a = (false, s, []) := by
  simp only [StateMQEsp32.subscribe, hi, if_pos hlen, ite_self]

theorem mem_modify {α : Type} (l : List α) (f : α → α) (i : Nat) (r : α)
    (h : r ∈ l.modify f i) : r ∈ l ∨ ∃ x ∈ l, r = f x := by
  obtain ⟨j, hj⟩ := List.getElem?_of_mem h
  rw [List.getElem?_modify] at hj
  rcases hx : l[j]? with _ | x
  · simp [hx] at hj
  · have hm := List.getElem?_mem hx
    rw [hx] at hj
    by_cases hij : i = j
    · simp only [hij, if_true, Option.map_eq_map, Option.map_some',
        Option.some.injEq] at hj
      exact Or.inr ⟨x, hm, hj.symm⟩
    · simp only [hij, if_false, Option.map_eq_map, Option.map_some',
        Option.some.injEq] at hj
      exact Or.inl (hj ▸ hm)

theorem take_ne_nil (t : CStr) (k : Nat) (ht : t ≠ []) : t.take (k + 1) ≠ [] := by
  cases t with
  | nil => exact absurd rfl ht
  | cons c cs => simp

theorem inv32_subscribe (s : StateMQEsp32) (t : Option CStr) (q : Int) (a : Bool)
    (h : Inv32 s) : Inv32 (s.subscribe t q a).2.1 := by
  cases t with
  | none => exact h
  | some t =>
    by_cases ht : t = []
    · subst ht
      exact h
    · rcases hi : s.rawIndex (some t) with _ | i
      · by_cases hfull : s.raw.length ≥ StateMQEsp32.MAX_RAW_SUBS
        · rw [esp32_subscribe_full s t q a hi hfull]
          exact h
        · rw [(esp32_subscribe_new s t q a ht hi hfull).2]
          apply inv32_set
          refine ⟨h.engine, h.qos, ?_, ?_, ?_, h.backoff, h.nextTry, h.ticker⟩
          · simp only [List.length_append, List.length_singleton]
            omega
          · intro r hr
            rcases List.mem_append.1 hr with h1 | h1
            · exact h.slot_topics r h1
            · simp only [List.mem_singleton] at h1
              subst h1
              simp only [StateMQEsp32.RAW_TOPIC_LEN, List.length_take]
              exact ⟨take_ne_nil t 62 ht, by omega⟩
          · intro r hr
            rcases List.mem_append.1 hr with h1 | h1
            · exact h.slot_payloads r h1
            · simp only [List.mem_singleton] at h1
              subst h1
              exact Nat.zero_le _
      · rw [(esp32_subscribe_existing s t q a i ht hi).2]
        exact inv32_set s _ _ _ h

theorem inv32_raw_modify (s : StateMQEsp32) (f : RawSlot → RawSlot) (i : Nat) (h : Inv32 s)
    (hf : ∀ r, (f r).topic = r.topic)
    (hp : ∀ r, (f r).payload.length ≤ StateMQEsp32.RAW_PAYLOAD_LEN - 1 ∨
      (f r).payload = r.payload) :
    Inv32 { s with raw := s.raw.modify f i } := by
  refine ⟨h.engine, h.qos, ?_, ?_, ?_, h.backoff, h.nextTry, h.ticker⟩
  · simp only [List.length_modify]; exact h.slots
  · intro r hr
    rcases mem_modify _ _ _ _ hr with h1 | ⟨x, hx, rfl⟩
    · exact h.slot_topics r h1
    · rw [hf]; exact h.slot_topics x hx
  · intro r hr
    rcases mem_modify _ _ _ _ hr with h1 | ⟨x, hx, rfl⟩
    · exact h.slot_payloads r h1
    · rcases hp x with h1 | h1
      · exact h1
      · rw [h1]; exact h.slot_payloads x hx

theorem inv32_msg (s : StateMQEsp32) (t : Option CStr) (h : Inv32 s) :
    Inv32 (s.msg t).2 := by
  unfold StateMQEsp32.msg
  cases t with
  | none => exact h
  | some t =>
    simp only
    split_ifs with ht
    · exact h
    · rcases hi : s.rawIndex (some t) with _ | i
      · exact h
      · simp only
        rcases hg : s.raw.get? i with _ | slot
        · exact h
        · simp only
          split_ifs
          · exact h
          · exact inv32_raw_modify s _ i h (fun _ => rfl) (fun _ => Or.inr rfl)

theorem inv32_cleanup (s : StateMQEsp32) (dw cc : Bool) (up : Nat) (h : Inv32 s) :
    Inv32 (s.cleanup dw cc up).1 := by
  unfold StateMQEsp32.cleanup
  simp only
  have h1 : Inv32 { s with reconnectTask := none, userTasks := [], mqtt := none,
                           mqttConnected := false } :=
    ⟨h.engine, h.qos, h.slots, h.slot_topics, h.slot_payloads, h.backoff, h.nextTry,
      fun hx => absurd rfl hx⟩
  have h2 := inv32_withCore _ (s.core.setConnected false) up h1
    (reachable_setConnected _ _ h.engine)
  cases cc with
  | false =>
    simp only [Bool.false_eq_true, if_false]
    exact ⟨h2.engine, h2.qos, h2.slots, h2.slot_topics, h2.slot_payloads,
      by simp, by simp [UINT32_MOD], h2.ticker⟩
  | true =>
    simp only [if_true, StateMQEsp32.freeQosOverrides]
    exact ⟨h2.engine, qosInv_nil, by simp, by simp, by simp, by simp,
      by simp [UINT32_MOD], h2.ticker⟩

theorem esp32_cleanup_task (s : StateMQEsp32) (dw cc : Bool) (up : Nat) :
    (s.cleanup dw cc up).1.reconnectTask = none ∧ (s.cleanup dw cc up).1.mqtt = none := by
  have hf := esp32_withCore_frame
    { s with reconnectTask := none, userTasks := [], mqtt := none, mqttConnected := false }
    (s.core.setConnected false) up
  have h1 := congrArg StateMQEsp32.reconnectTask hf
  have h2 := congrArg StateMQEsp32.mqtt hf
  simp only at h1 h2
  cases cc with
  | false =>
    simp only [StateMQEsp32.cleanup, Bool.false_eq_true, if_false]
    exact ⟨h1, h2⟩
  | true =>
    simp only [StateMQEsp32.cleanup, if_true, StateMQEsp32.freeQosOverrides]
    exact ⟨h1, h2⟩

theorem inv32_begin (s : StateMQEsp32) (ssid pass uri : Option CStr) (env : BeginEnv32)
    (up : Nat) (h : Inv32 s) : Inv32 (s.begin ssid pass uri env up).2.1 := by
  unfold StateMQEsp32.begin
  have h0 := inv32_cleanup s false false up h
  have hrt := (esp32_cleanup_task s false false up).1
  cases ssid with
  | none => exact h0
  | some ssid =>
    cases uri with
    | none => exact h0
    | some uri =>
      simp only
      have h1 : Inv32 { (s.cleanup false false up).1 with
          wifiSsid := dupstr env.allocSsid (some ssid),
          wifiPass := dupstr env.allocPass (some (match pass with
                                                  | some p => p
                                                  | none => [])),
          brokerUri := dupstr env.allocUri (some uri) } :=
        ⟨h0.engine, h0.qos, h0.slots, h0.slot_topics, h0.slot_payloads, h0.backoff,
          h0.nextTry, h0.ticker⟩
      split_ifs
      · exact inv32_cleanup _ false true up h1
      · exact inv32_withCore _ _ up h1 (reachable_setConnected _ _ h1.engine)
      all_goals
        cases env.mqttInit <;>
          first
          | exact ⟨h1.engine, h1.qos, h1.slots, h1.slot_topics, h1.slot_payloads,
              h1.backoff, h1.nextTry, fun hx => absurd hrt hx⟩
          | exact ⟨h1.engine, h1.qos, h1.slots, h1.slot_topics, h1.slot_payloads,
              h1.backoff, h1.nextTry, fun _ => Option.some_ne_none _⟩

theorem inv32_reconnectLoop (s : StateMQEsp32) (now : Nat) (w : Bool) (h : Inv32 s) :
    Inv32 (s.reconnectLoop now w).1 := by
  simp only [StateMQEsp32.reconnectLoop]
  have hb := h.backoff
  have hm : (0 : Nat) < UINT32_MOD := by simp [UINT32_MOD]
  split_ifs with h1 h2 h3 h4
  · exact ⟨h.engine, h.qos, h.slots, h.slot_topics, h.slot_payloads, h.backoff, h.nextTry, h.ticker⟩
  · exact ⟨h.engine, h.qos, h.slots, h.slot_topics, h.slot_payloads, by simp, hm,
      h.ticker⟩
  · exact ⟨h.engine, h.qos, h.slots, h.slot_topics, h.slot_payloads, by simp,
      Nat.mod_lt _ hm, h.ticker⟩
  · refine ⟨h.engine, h.qos, h.slots, h.slot_topics, h.slot_payloads, ?_, Nat.mod_lt _ hm,
      h.ticker⟩
    simp only [UINT32_MOD] at h4 ⊢
    omega
  · exact ⟨h.engine, h.qos, h.slots, h.slot_topics, h.slot_payloads, h.backoff, h.nextTry, h.ticker⟩

theorem cstr_length_le (l : List Char) : (cstr l).length ≤ l.length := by
  unfold cstr
  induction l with
  | nil => simp
  | cons c cs ih =>
    simp only [List.takeWhile]
    split
    · simp only [List.length_cons]; omega
    · simp

theorem inv32_onMqttEvent (s : StateMQEsp32) (ev : Option MqttEvent) (now : Nat)
    (h : Inv32 s) : Inv32 (s.onMqttEvent ev now).1 := by
  unfold StateMQEsp32.onMqttEvent
  rcases ev with _ | _ | _ | ⟨T, P⟩ | _
  · exact h
  · simp only
    have h1 : Inv32 { s with mqttConnected := true, printedMqtt := false } :=
      ⟨h.engine, h.qos, h.slots, h.slot_topics, h.slot_payloads, h.backoff, h.nextTry, h.ticker⟩
    exact inv32_withCore _ _ now h1 (reachable_setConnected _ _ h.engine)
  · simp only
    have h1 : Inv32 { s with mqttConnected := false } :=
      ⟨h.engine, h.qos, h.slots, h.slot_topics, h.slot_payloads, h.backoff, h.nextTry, h.ticker⟩
    have h2 := inv32_withCore _ (s.core.setConnected false) now h1
      (reachable_setConnected _ _ h.engine)
    exact ⟨h2.engine, h2.qos, h2.slots, h2.slot_topics, h2.slot_payloads, h2.backoff,
      Nat.mod_lt _ (by simp [UINT32_MOD]), h2.ticker⟩
  · simp only
    split_ifs
    · exact h
    · have h2 := inv32_withCore s (s.core.applyMessage
        (some (cstr (T.take (StateMQEsp32.RAW_TOPIC_LEN - 1))))
        (some (cstr (P.take (StateMQEsp32.RAW_PAYLOAD_LEN - 1))))).2 now h
        (reachable_applyMessage _ _ _ h.engine)
      split
      · refine inv32_raw_modify _ (fun sl => { sl with
          payload := (cstr (P.take (StateMQEsp32.RAW_PAYLOAD_LEN - 1))).take
            (StateMQEsp32.RAW_PAYLOAD_LEN - 1), hasNew := true }) _ h2 (fun _ => rfl) ?_
        intro r
        left
        simp only [List.length_take]
        omega
      · exact h2
  · exact h

theorem inv32_step (s : StateMQEsp32) (c : Esp32Call) (h : Inv32 s) : Inv32 (s.step c) := by
  cases c with
  | setKeepAliveSeconds sec =>
    exact ⟨h.engine, h.qos, h.slots, h.slot_topics, h.slot_payloads, h.backoff, h.nextTry, h.ticker⟩
  | setDefaultSubscribeQos q =>
    exact ⟨h.engine, h.qos, h.slots, h.slot_topics, h.slot_payloads, h.backoff, h.nextTry, h.ticker⟩
  | setSubscribeQos t q a => exact inv32_set s t q a h
  | setLastWill t p q r a1 a2 =>
    simp only [StateMQEsp32.step, StateMQEsp32.setLastWill]
    repeat' split
    all_goals
      exact ⟨h.engine, h.qos, h.slots, h.slot_topics, h.slot_payloads, h.backoff, h.nextTry, h.ticker⟩
  | clearLastWill =>
    exact ⟨h.engine, h.qos, h.slots, h.slot_topics, h.slot_payloads, h.backoff, h.nextTry, h.ticker⟩
  | subscribe t q a => exact inv32_subscribe s t q a h
  | msg t => exact inv32_msg s t h
  | StatePublishTopic t q e r a =>
    exact ⟨reachable_step _ (Call.onStateChangeEx _ _) h.engine, h.qos, h.slots,
      h.slot_topics, h.slot_payloads, h.backoff, h.nextTry, h.ticker⟩
  | begin ssid pass uri env up => exact inv32_begin s ssid pass uri env up h
  | end_ dw up => exact inv32_cleanup s dw true up h
  | taskEnable id en =>
    exact ⟨reachable_step _ (Call.taskEnable id en) h.engine, h.qos, h.slots,
      h.slot_topics, h.slot_payloads, h.backoff, h.nextTry, h.ticker⟩
  | reconnectLoop now w => exact inv32_reconnectLoop s now w h
  | onMqttEvent ev now => exact inv32_onMqttEvent s ev now h
  | core c up =>
    apply inv32_deliver
    exact ⟨reachable_step _ c h.engine, h.qos, h.slots, h.slot_topics, h.slot_payloads,
      h.backoff, h.nextTry, h.ticker⟩

theorem inv32_exec (s : StateMQEsp32) (cs : List Esp32Call) (h : Inv32 s) :
    Inv32 (s.exec cs) := by
  induction cs generalizing s with
  | nil => exact h
  | cons c cs ih => exact ih (s.step c) (inv32_step s c h)

/-- Every state of the Arduino backend that its member functions can produce satisfies the
invariant. -/
theorem reachable_inv32 (s : StateMQEsp32) (h : s.Reachable) : Inv32 s := by
  obtain ⟨cs, rfl⟩ := h
  exact inv32_exec _ cs inv32_ctor

theorem reachable32_step (s : StateMQEsp32) (c : Esp32Call) (h : s.Reachable) :
    (s.step c).Reachable := by
  obtain ⟨cs, rfl⟩ := h
  exact ⟨cs ++ [c], by simp [StateMQEsp32.exec, List.foldl_append]⟩

/-! ## The invariant of the ESP-IDF backend -/

theorem invEsp_of_eq (s t : StateMQEsp) (h : InvEsp s) (hc : Reachable t.core)
    (hq : t.qos = s.qos) (hr : t.raw = s.raw) : InvEsp t :=
  ⟨hc, by rw [hq]; exact h.qos, by rw [hr]; exact h.slots, by rw [hr]; exact h.slot_topics,
    by rw [hr]; exact h.slot_payloads⟩

theorem invEsp_ctor : InvEsp (StateMQEsp.ctor StateMQ.ctor) :=
  ⟨⟨[], rfl⟩, qosInv_nil, by simp [StateMQEsp.ctor], by simp [StateMQEsp.ctor],
    by simp [StateMQEsp.ctor]⟩

theorem invEsp_withCore (s : StateMQEsp) (e : Effect) (up : Nat) (h : InvEsp s)
    (he : Reachable e.node) : InvEsp (s.withCore e up).1 :=
  invEsp_of_eq s _ h (by rw [esp_withCore_core]; exact he) (esp_withCore_qos s e up)
    (esp_withCore_raw s e up)

theorem invEsp_deliver (s : StateMQEsp) (cs : List CbCall) (up : Nat) (h : InvEsp s) :
    InvEsp (StateMQEsp.deliver s up cs).1 := by
  have hf := esp_deliver_frame up cs s
  have h1 := congrArg StateMQEsp.core hf
  have h2 := congrArg StateMQEsp.qos hf
  have h3 := congrArg StateMQEsp.raw hf
  simp only at h1 h2 h3
  exact invEsp_of_eq s _ h (by rw [h1]; exact h.engine) h2 h3

theorem esp_subscribe_existing (s : StateMQEsp) (t : CStr) (q : Int) (a : Bool)
    (i : Nat) (ht : t ≠ []) (hi : s.rawIndex (some t) = some i) :
    (s.subscribe (some t) q a).1 = true ∧
    (s.subscribe (some t) q a).2.1.raw = s.raw ∧
    { (s.subscribe (some t) q a).2.1 with qos := s.qos } = s := by
  simp only [StateMQEsp.subscribe, if_neg ht, hi, true_and]
  rcases hu : qosUpdate t (clamp_qos q) s.qos with _ | tbl
  · simp only
    split_ifs
    · cases a
      · exact ⟨rfl, rfl⟩
      · exact ⟨rfl, rfl⟩
    · exact ⟨rfl, rfl⟩
  · exact ⟨rfl, rfl⟩

theorem esp_subscribe_new (s : StateMQEsp) (t : CStr) (q : Int) (a : Bool)
    (ht : t ≠ []) (hi : s.rawIndex (some t) = none)
    (hlen : ¬ s.raw.length ≥ StateMQEsp.MAX_RAW_SUBS) :
    (s.subscribe (some t) q a).1 = true ∧
    (s.subscribe (some t) q a).2.1.raw =
      s.raw ++ [({ topic := t.take (StateMQEsp.RAW_TOPIC_LEN - 1), payload := [],
                   hasNew := false } : RawSlot)] ∧
    { (s.subscribe (some t) q a).2.1 with qos := s.qos, raw := s.raw } = s := by
  simp only [StateMQEsp.subscribe, if_neg ht, hi, if_neg hlen, true_and]
  rcases hu : qosUpdate t (clamp_qos q) s.qos with _ | tbl
  · simp only
    split_ifs
    · cases a
      · exact ⟨rfl, rfl⟩
      · exact ⟨rfl, rfl⟩
    · exact ⟨rfl, rfl⟩
  · exact ⟨rfl, rfl⟩

theorem esp_subscribe_full (s : StateMQEsp) (t : CStr) (q : Int) (a : Bool)
    (hi : s.rawIndex (some t) = none) (hlen : s.raw.length ≥ StateMQEsp.MAX_RAW_SUBS) :
    s.subscribe (some t) q a = (false, s, []) := by
  simp only [StateMQEsp.subscribe, hi, if_pos hlen, ite_self]

/-- The override table after `StateMQEsp::subscribe` on a non-empty topic that gets or has
a slot: the table that the Arduino function `setSubscribeQos` would leave. -/
theorem esp_subscribe_qos (s : StateMQEsp) (t : CStr) (q : Int) (a : Bool) (ht : t ≠ [])
    (h : s.rawIndex (some t) ≠ none ∨ ¬ s.raw.length ≥ StateMQEsp.MAX_RAW_SUBS) :
    (s.subscribe (some t) q a).2.1.qos =
      match qosUpdate t (clamp_qos q) s.qos with
      | some tbl => tbl
      | none =>
        if s.qos.length < StateMQEsp.MAX_QOS_OVERRIDES ∧ a = true then
          s.qos ++ [{ topic := some t, value := toInt8 (clamp_qos q) }]
        else s.qos := by
  rcases hi : s.rawIndex (some t) with _ | i
  · have hlen : ¬ s.raw.length ≥ StateMQEsp.MAX_RAW_SUBS := by
      rcases h with h | h
      · exact absurd hi h
      · exact h
    simp only [StateMQEsp.subscribe, if_neg ht, hi, if_neg hlen]
    rcases hu : qosUpdate t (clamp_qos q) s.qos with _ | tbl
    · simp only
      by_cases hl : s.qos.length < StateMQEsp.MAX_QOS_OVERRIDES
      · cases a <;> simp [hl, dupstr]
      · simp [hl]
    · rfl
  · simp only [StateMQEsp.subscribe, if_neg ht, hi]
    rcases hu : qosUpdate t (clamp_qos q) s.qos with _ | tbl
    · simp only
      by_cases hl : s.qos.length < StateMQEsp.MAX_QOS_OVERRIDES
      · cases a <;> simp [hl, dupstr]
      · simp [hl]
    · rfl

theorem qosInv_esp_subscribe (s : StateMQEsp) (t : CStr) (q : Int) (a : Bool) (ht : t ≠ [])
    (h : s.rawIndex (some t) ≠ none ∨ ¬ s.raw.length ≥ StateMQEsp.MAX_RAW_SUBS)
    (hi : QosInv s.qos) : QosInv (s.subscribe (some t) q a).2.1.qos := by
  rw [esp_subscribe_qos s t q a ht h]
  rcases hu : qosUpdate t (clamp_qos q) s.qos with _ | tbl
  · have hno := (qosUpdate_none_iff t (clamp_qos q) s.qos).1 hu
    simp only
    split_ifs with hc
    · exact qosInv_append t q s.qos hi hc.1 hno
    · exact hi
  · exact qosInv_update t q s.qos tbl hi hu

theorem invEsp_subscribe (s : StateMQEsp) (t : Option CStr) (q : Int) (a : Bool)
    (h : InvEsp s) : InvEsp (s.subscribe t q a).2.1 := by
  cases t with
  | none => exact h
  | some t =>
    by_cases ht : t = []
    · subst ht
      exact h
    · rcases hi : s.rawIndex (some t) with _ | i
      · by_cases hfull : s.raw.length ≥ StateMQEsp.MAX_RAW_SUBS
        · rw [esp_subscribe_full s t q a hi hfull]
          exact h
        · have hq := qosInv_esp_subscribe s t q a ht (Or.inr hfull) h.qos
          obtain ⟨_, hraw, hfr⟩ := esp_subscribe_new s t q a ht hi hfull
          have hcore := congrArg StateMQEsp.core hfr
          simp only at hcore
          refine ⟨by rw [hcore]; exact h.engine, hq, ?_, ?_, ?_⟩
          · rw [hraw]
            simp only [List.length_append, List.length_singleton]
            omega
          · rw [hraw]
            intro r hr
            rcases List.mem_append.1 hr with h1 | h1
            · exact h.slot_topics r h1
            · simp only [List.mem_singleton] at h1
              subst h1
              simp only [StateMQEsp.RAW_TOPIC_LEN, List.length_take]
              exact ⟨take_ne_nil t 94 ht, by omega⟩
          · rw [hraw]
            intro r hr
            rcases List.mem_append.1 hr with h1 | h1
            · exact h.slot_payloads r h1
            · simp only [List.mem_singleton] at h1
              subst h1
              exact Nat.zero_le _
      · have hq := qosInv_esp_subscribe s t q a ht (Or.inl (by rw [hi]; simp)) h.qos
        obtain ⟨_, hraw, hfr⟩ := esp_subscribe_existing s t q a i ht hi
        have hcore := congrArg StateMQEsp.core hfr
        simp only at hcore
        exact ⟨by rw [hcore]; exact h.engine, hq, by rw [hraw]; exact h.slots,
          by rw [hraw]; exact h.slot_topics, by rw [hraw]; exact h.slot_payloads⟩

theorem invEsp_raw_modify (s : StateMQEsp) (f : RawSlot → RawSlot) (i : Nat) (h : InvEsp s)
    (hf : ∀ r, (f r).topic = r.topic)
    (hp : ∀ r, (f r).payload.length ≤ StateMQEsp.RAW_PAYLOAD_LEN - 1 ∨
      (f r).payload = r.payload) :
    InvEsp { s with raw := s.raw.modify f i } := by
  refine ⟨h.engine, h.qos, ?_, ?_, ?_⟩
  · simp only [List.length_modify]; exact h.slots
  · intro r hr
    rcases mem_modify _ _ _ _ hr with h1 | ⟨x, hx, rfl⟩
    · exact h.slot_topics r h1
    · rw [hf]; exact h.slot_topics x hx
  · intro r hr
    rcases mem_modify _ _ _ _ hr with h1 | ⟨x, hx, rfl⟩
    · exact h.slot_payloads r h1
    · rcases hp x with h1 | h1
      · exact h1
      · rw [h1]; exact h.slot_payloads x hx

theorem invEsp_msg (s : StateMQEsp) (t : Option CStr) (h : InvEsp s) :
    InvEsp (s.msg t).2 := by
  unfold StateMQEsp.msg
  cases t with
  | none => exact h
  | some t =>
    simp only
    split_ifs with ht
    · exact h
    · rcases hi : s.rawIndex (some t) with _ | i
      · exact h
      · simp only
        rcases hg : s.raw.get? i with _ | slot
        · exact h
        · simp only
          split_ifs
          · exact h
          · exact invEsp_raw_modify s _ i h (fun _ => rfl) (fun _ => Or.inr rfl)

theorem invEsp_cleanup (s : StateMQEsp) (dw cc a : Bool) (up : Nat) (h : InvEsp s) :
    InvEsp (s.cleanup dw cc a up).1 := by
  unfold StateMQEsp.cleanup
  simp only
  have h1 : InvEsp { s with client := none, wifiHasIp := false, mqttConnected := false } :=
    ⟨h.engine, h.qos, h.slots, h.slot_topics, h.slot_payloads⟩
  have h2 := invEsp_withCore _ (s.core.setConnected false) up h1
    (reachable_setConnected _ _ h.engine)
  cases cc with
  | false =>
    simp only [Bool.false_eq_true, if_false]
    exact ⟨h2.engine, h2.qos, h2.slots, h2.slot_topics, h2.slot_payloads⟩
  | true =>
    simp only [if_true, StateMQEsp.freeQosOverrides, StateMQEsp.clearLastWill,
      StateMQEsp.StatePublishTopic]
    exact ⟨h2.engine, qosInv_nil, by simp, by simp, by simp⟩

theorem invEsp_begin (s : StateMQEsp) (ssid pass uri : Option CStr) (env : BeginEnv)
    (up : Nat) (h : InvEsp s) : InvEsp (s.begin ssid pass uri env up).2.1 := by
  unfold StateMQEsp.begin
  have h0 := invEsp_cleanup s false false env.allocTopic up h
  cases ssid with
  | none => exact h0
  | some ssid =>
    cases uri with
    | none => exact h0
    | some uri =>
      simp only
      have h1 : InvEsp { (s.cleanup false false env.allocTopic up).1 with
          wifiSsid := dupstr env.allocSsid (some ssid),
          wifiPass := dupstr env.allocPass (some (match pass with
                                                  | some p => p
                                                  | none => [])),
          brokerUri := dupstr env.allocUri (some uri) } :=
        ⟨h0.engine, h0.qos, h0.slots, h0.slot_topics, h0.slot_payloads⟩
      have h2 := invEsp_withCore _ _ up h1 (reachable_setConnected _ false h1.engine)
      split_ifs
      · exact invEsp_cleanup _ false true _ up h1
      all_goals
        exact ⟨reachable_step _ (Call.onStateChangeEx _ _) h2.engine, h2.qos, h2.slots,
          h2.slot_topics, h2.slot_payloads⟩

theorem invEsp_onMqttData (s : StateMQEsp) (T P : List Char) (up : Nat) (h : InvEsp s) :
    InvEsp (s.onMqttData T P up).1 := by
  unfold StateMQEsp.onMqttData
  simp only
  split_ifs
  · exact h
  · have h2 := invEsp_withCore s (s.core.applyMessage
      (some (cstr (T.take (StateMQEsp.RAW_TOPIC_LEN - 1))))
      (some (cstr (P.take (StateMQEsp.RAW_PAYLOAD_LEN - 1))))).2 up h
      (reachable_applyMessage _ _ _ h.engine)
    split
    · refine invEsp_raw_modify _ (fun sl => { sl with
        payload := (cstr (P.take (StateMQEsp.RAW_PAYLOAD_LEN - 1))).take
          (StateMQEsp.RAW_PAYLOAD_LEN - 1), hasNew := true }) _ h2 (fun _ => rfl) ?_
      intro r
      left
      simp only [List.length_take]
      omega
    · exact h2

theorem reachable_esp_taskEnable (core : StateMQ) (hs : Option (List Ptr)) (id : Nat)
    (en : Bool) (h : Reachable core) :
    Reachable (StateMQEsp.taskEnable core hs id en).2.1 := by
  unfold StateMQEsp.taskEnable
  have h2 : Reachable (core.taskEnable id en).2 := reachable_step _ (Call.taskEnable id en) h
  repeat' split
  all_goals first | exact h | exact h2

theorem invEsp_step (s : StateMQEsp) (c : EspCall) (h : InvEsp s) : InvEsp (s.step c) := by
  cases c with
  | setKeepAliveSeconds sec => exact ⟨h.engine, h.qos, h.slots, h.slot_topics, h.slot_payloads⟩
  | setDefaultSubscribeQos q =>
    exact ⟨h.engine, h.qos, h.slots, h.slot_topics, h.slot_payloads⟩
  | setDefaultPublishQos q => exact ⟨h.engine, h.qos, h.slots, h.slot_topics, h.slot_payloads⟩
  | setLastWill t p q r a1 a2 =>
    simp only [StateMQEsp.step, StateMQEsp.setLastWill]
    repeat' split
    all_goals exact ⟨h.engine, h.qos, h.slots, h.slot_topics, h.slot_payloads⟩
  | clearLastWill => exact ⟨h.engine, h.qos, h.slots, h.slot_topics, h.slot_payloads⟩
  | subscribe t q a => exact invEsp_subscribe s t q a h
  | msg t => exact invEsp_msg s t h
  | StatePublishTopic t q e r a =>
    exact ⟨h.engine, h.qos, h.slots, h.slot_topics, h.slot_payloads⟩
  | begin ssid pass uri env up => exact invEsp_begin s ssid pass uri env up h
  | end_ dw a up => exact invEsp_cleanup s dw true a up h
  | taskEnable id en =>
    exact ⟨reachable_esp_taskEnable _ _ _ _ h.engine, h.qos, h.slots, h.slot_topics,
      h.slot_payloads⟩
  | onWifiGotIp c ok =>
    simp only [StateMQEsp.step, StateMQEsp.onWifiGotIp, StateMQEsp.startMqttIfNeeded]
    repeat' split
    all_goals exact ⟨h.engine, h.qos, h.slots, h.slot_topics, h.slot_payloads⟩
  | onWifiDisconnected up =>
    have h1 : InvEsp { s with wifiHasIp := false, mqttConnected := false } :=
      ⟨h.engine, h.qos, h.slots, h.slot_topics, h.slot_payloads⟩
    exact invEsp_withCore _ _ up h1 (reachable_setConnected _ false h.engine)
  | onMqttConnected up =>
    have h1 : InvEsp { s with mqttConnected := true } :=
      ⟨h.engine, h.qos, h.slots, h.slot_topics, h.slot_payloads⟩
    exact invEsp_withCore _ _ up h1 (reachable_setConnected _ true h.engine)
  | onMqttDisconnected up =>
    have h1 : InvEsp { s with mqttConnected := false } :=
      ⟨h.engine, h.qos, h.slots, h.slot_topics, h.slot_payloads⟩
    exact invEsp_withCore _ _ up h1 (reachable_setConnected _ false h.engine)
  | onMqttData T P up => exact invEsp_onMqttData s T P up h
  | core c up =>
    apply invEsp_deliver
    exact ⟨reachable_step _ c h.engine, h.qos, h.slots, h.slot_topics, h.slot_payloads⟩

theorem invEsp_exec (s : StateMQEsp) (cs : List EspCall) (h : InvEsp s) :
    InvEsp (s.exec cs) := by
  induction cs generalizing s with
  | nil => exact h
  | cons c cs ih => exact ih (s.step c) (invEsp_step s c h)

/-- Every state of the ESP-IDF backend that its member functions can produce satisfies the
invariant. -/
theorem reachable_invEsp (s : StateMQEsp) (h : s.Reachable) : InvEsp s := by
  obtain ⟨cs, rfl⟩ := h
  exact invEsp_exec _ cs invEsp_ctor

theorem reachableEsp_step (s : StateMQEsp) (c : EspCall) (h : s.Reachable) :
    (s.step c).Reachable := by
  obtain ⟨cs, rfl⟩ := h
  exact ⟨cs ++ [c], by simp [StateMQEsp.exec, List.foldl_append]⟩

/-! ## The claim on task enabling -/

theorem modify_modify_restore (l : List TaskDef) (id : Nat) (b : Bool) (d : TaskDef)
    (hd : l[id]? = some d) :
    (l.modify (fun t => { t with enabled := b }) id).modify
      (fun t => { t with enabled := d.enabled }) id = l := by
  apply List.ext_getElem?
  intro j
  rw [List.getElem?_modify, List.getElem?_modify]
  by_cases hj : id = j
  · subst hj
    simp [hd]
  · simp [hj]

/-- Claim C21. Enabling or disabling a valid task changes only that task's enabled flag:
for every engine, every `id < taskCount()` and every `b`, `taskEnable(id, b)` returns
true; afterwards `taskEnabled(id) == b`; the descriptor of task `id` is the one before
with `enabled` set to `b`, so its name, period, stack, callbacks and context are
unchanged; the descriptor of every other task is unchanged; `taskCount()` is unchanged;
nothing else in the engine changes; and setting the flag back to its former value, as
disabling and re-enabling an enabled task does, restores the engine exactly. -/
theorem taskEnable_frame (n : StateMQ) (id : Nat) (b : Bool) (h : id < n.taskCount) :
    (n.taskEnable id b).1 = true ∧
    (n.taskEnable id b).2.taskEnabled id = b ∧
    (∀ d, n.tasks[id]? = some d →
      (n.taskEnable id b).2.tasks[id]? = some { d with enabled := b }) ∧
    (∀ j, j ≠ id → (n.taskEnable id b).2.tasks[j]? = n.tasks[j]?) ∧
    (n.taskEnable id b).2.taskCount = n.taskCount ∧
    { (n.taskEnable id b).2 with tasks := n.tasks } = n ∧
    (∀ d, n.tasks[id]? = some d →
      ((n.taskEnable id b).2.taskEnable id d.enabled).2 = n) := by
  have h1 : ¬ id ≥ n.tasks.length := by
    simp only [StateMQ.taskCount] at h; omega
  have h2 : id < n.tasks.length := by omega
  obtain ⟨d0, hd0⟩ : ∃ d, n.tasks[id]? = some d := ⟨n.tasks[id], List.getElem?_eq_getElem h2⟩
  refine ⟨?_, ?_, ?_, ?_, ?_, ?_, ?_⟩
  · simp only [StateMQ.taskEnable, if_neg h1]
  · simp only [StateMQ.taskEnable, if_neg h1, StateMQ.taskEnabled, List.get?_eq_getElem?,
      List.getElem?_modify, hd0]
    simp
  · intro d hd
    simp only [StateMQ.taskEnable, if_neg h1, List.getElem?_modify, hd]
    simp
  · intro j hj
    simp only [StateMQ.taskEnable, if_neg h1, List.getElem?_modify]
    have : ¬ id = j := fun e => hj e.symm
    simp [this]
  · simp only [StateMQ.taskEnable, if_neg h1, StateMQ.taskCount, List.length_modify]
  · simp only [StateMQ.taskEnable, if_neg h1]
  · intro d hd
    have h3 : ¬ id ≥ (n.tasks.modify (fun t => { t with enabled := b }) id).length := by
      rw [List.length_modify]; exact h1
    simp only [StateMQ.taskEnable, if_neg h1, if_neg h3]
    rw [modify_modify_restore n.tasks id b d hd]

/-- Witness of `taskEnable_frame`: disabling task 0 of an engine with two tasks, and
enabling it again. -/
theorem taskEnable_frame_witness :
    0 < taskNode.taskCount ∧
    (taskNode.taskEnable 0 false).1 = true ∧
    (taskNode.taskEnable 0 false).2.taskEnabled 0 = false ∧
    (taskNode.taskEnable 0 false).2.taskCount = taskNode.taskCount ∧
    ((taskNode.taskEnable 0 false).2.taskEnable 0 true).2 = taskNode :=
  ⟨by decide, (taskEnable_frame taskNode 0 false (by decide)).1,
    (taskEnable_frame taskNode 0 false (by decide)).2.1,
    (taskEnable_frame taskNode 0 false (by decide)).2.2.2.2.1,
    (taskEnable_frame taskNode 0 false (by decide)).2.2.2.2.2.2
      { name := some ['b', 'l', 'i', 'n', 'k'], period_ms := 500, stack := Stack.Small,
        callback := some 7, callbackEx := none, user := none, enabled := true } (by decide)⟩

/-! ## The claims on the QoS overrides -/

theorem filter_topic_le_one (tbl : List QosEntry) (x : Option CStr)
    (hnd : (tbl.map QosEntry.topic).Nodup) :
    (tbl.filter (fun e => decide (e.topic = x))).length ≤ 1 := by
  induction tbl with
  | nil => simp
  | cons e es ih =>
    simp only [List.map_cons, List.nodup_cons] at hnd
    by_cases he : e.topic = x
    · have hnone : es.filter (fun e => decide (e.topic = x)) = [] := by
        rw [List.filter_eq_nil_iff]
        intro y hy hyx
        simp only [decide_eq_true_eq] at hyx
        exact hnd.1 (List.mem_map.2 ⟨y, hy, hyx.trans he.symm⟩)
      simp [List.filter_cons, he, hnone]
    · simp only [List.filter_cons, he, decide_False, Bool.false_eq_true, if_false]
      exact ih hnd.2

theorem filter_topic_pos (tbl : List QosEntry) (x : Option CStr)
    (h : ∃ e ∈ tbl, e.topic = x) :
    1 ≤ (tbl.filter (fun e => decide (e.topic = x))).length := by
  obtain ⟨e, he, hex⟩ := h
  have hm : e ∈ tbl.filter (fun e => decide (e.topic = x)) :=
    List.mem_filter.2 ⟨he, by simp [hex]⟩
  exact List.length_pos_of_mem hm

/-- Claim C22. QoS resolution with last-writer-wins. In both backends `qosForTopic` of a
null topic is the default subscribe QoS, and `qosForTopic(t)` is the value of the first
stored entry for `t` if there is one and the default otherwise. On the Arduino backend,
after `setSubscribeQos(t, q)` on a table that already has an entry for `t`, or that has
fewer than 16 entries (the copy of the topic being allocated), `qosForTopic(t)` is `q`
clamped into 0..2; `qosForTopic(u)` is unchanged for every other topic `u` and for the
null topic; of two writes for `t` the later one wins; and in every state that the member
functions can produce the table holds exactly one entry for `t` after such a write. -/
theorem qos_resolution :
    (∀ (s : StateMQEsp32) (t : CStr),
      s.qosForTopic none = s.defaultSubQos ∧
      s.qosForTopic (some t) =
        match s.qos.find? (fun e => e.topic == some t) with
        | some e => e.value
        | none => s.defaultSubQos) ∧
    (∀ (s : StateMQEsp) (t : CStr),
      s.qosForTopic none = s.defaultSubQos ∧
      s.qosForTopic (some t) =
        match s.qos.find? (fun e => e.topic == some t) with
        | some e => e.value
        | none => s.defaultSubQos) ∧
    (∀ (s : StateMQEsp32) (t : CStr) (q : Int) (a : Bool),
      ((∃ e ∈ s.qos, e.topic = some t) ∨
        (s.qos.length < StateMQEsp32.MAX_QOS_OVERRIDES ∧ a = true)) →
      (s.setSubscribeQos (some t) q a).qosForTopic (some t) = clamp_qos q ∧
      clamp_qos q = max 0 (min q 2)) ∧
    (∀ (s : StateMQEsp32) (t u : CStr) (q : Int) (a : Bool), u ≠ t →
      (s.setSubscribeQos (some t) q a).qosForTopic (some u) = s.qosForTopic (some u) ∧
      (s.setSubscribeQos (some t) q a).qosForTopic none = s.qosForTopic none) ∧
    (∀ (s : StateMQEsp32) (t : CStr) (q1 q2 : Int) (a1 a2 : Bool),
      ((∃ e ∈ s.qos, e.topic = some t) ∨
        (s.qos.length < StateMQEsp32.MAX_QOS_OVERRIDES ∧ a1 = true)) →
      ((s.setSubscribeQos (some t) q1 a1).setSubscribeQos (some t) q2 a2).qosForTopic
        (some t) = clamp_qos q2) ∧
    (∀ (s : StateMQEsp32), s.Reachable → ∀ (t : CStr) (q : Int) (a : Bool),
      ((∃ e ∈ s.qos, e.topic = some t) ∨
        (s.qos.length < StateMQEsp32.MAX_QOS_OVERRIDES ∧ a = true)) →
      ((s.setSubscribeQos (some t) q a).qos.filter
        (fun e => decide (e.topic = some t))).length = 1) := by
  have hself : ∀ (s : StateMQEsp32) (t : CStr) (q : Int) (a : Bool),
      ((∃ e ∈ s.qos, e.topic = some t) ∨
        (s.qos.length < StateMQEsp32.MAX_QOS_OVERRIDES ∧ a = true)) →
      (s.setSubscribeQos (some t) q a).qosForTopic (some t) = clamp_qos q := by
    intro s t q a h
    simp only [StateMQEsp32.qosForTopic, esp32_set_lookup_self s t q a h]
  have hmem : ∀ (s : StateMQEsp32) (t : CStr) (q : Int) (a : Bool),
      ((∃ e ∈ s.qos, e.topic = some t) ∨
        (s.qos.length < StateMQEsp32.MAX_QOS_OVERRIDES ∧ a = true)) →
      ∃ e ∈ (s.setSubscribeQos (some t) q a).qos, e.topic = some t := by
    intro s t q a h
    by_contra hne
    have h1 : ∀ e ∈ (s.setSubscribeQos (some t) q a).qos, e.topic ≠ some t := by
      intro e he het
      exact hne ⟨e, he, het⟩
    have h2 := (qosLookup_none_iff t _).2 h1
    rw [esp32_set_lookup_self s t q a h] at h2
    exact Option.noConfusion h2
  refine ⟨?_, ?_, ?_, ?_, ?_, ?_⟩
  · intro s t
    exact ⟨rfl, esp32_qosForTopic_find s t⟩
  · intro s t
    exact ⟨rfl, esp_qosForTopic_find s t⟩
  · intro s t q a h
    refine ⟨hself s t q a h, ?_⟩
    unfold clamp_qos
    split_ifs <;> omega
  · intro s t u q a hu
    constructor
    · simp only [StateMQEsp32.qosForTopic, esp32_set_lookup_other s t u q a hu,
        esp32_set_default]
    · simp only [StateMQEsp32.qosForTopic, esp32_set_default]
  · intro s t q1 q2 a1 a2 h
    exact hself _ t q2 a2 (Or.inl (hmem s t q1 a1 h))
  · intro s hr t q a h
    have hi := reachable_inv32 _ (reachable32_step s (Esp32Call.setSubscribeQos (some t) q a) hr)
    have hnd := filter_topic_le_one _ (some t) hi.qos.distinct
    have hge := filter_topic_pos _ (some t) (hmem s t q a h)
    exact Nat.le_antisymm hnd hge

/-- Witness of `qos_resolution`: `setSubscribeQos("a", 5)` on a fresh Arduino backend makes
`qosForTopic("a")` equal to 2, and a second write of 0 makes it 0. -/
theorem qos_resolution_witness :
    ((∃ e ∈ qosNode.qos, e.topic = some topicA) ∨
      (qosNode.qos.length < StateMQEsp32.MAX_QOS_OVERRIDES ∧ true = true)) ∧
    (qosNode.setSubscribeQos (some topicA) 0 true).qosForTopic (some topicA) = 0 ∧
    qosNode.Reachable ∧
    ((qosNode.setSubscribeQos (some topicA) 0 true).qos.filter
      (fun e => decide (e.topic = some topicA))).length = 1 :=
  ⟨Or.inr ⟨by decide, rfl⟩,
    (qos_resolution.2.2.1 qosNode topicA 0 true (Or.inr ⟨by decide, rfl⟩)).1,
    ⟨_, rfl⟩,
    qos_resolution.2.2.2.2.2 qosNode ⟨_, rfl⟩ topicA 0 true (Or.inr ⟨by decide, rfl⟩)⟩

/-- Claim C23. QoS override capacity exhaustion is silent (Arduino backend): when the
override table holds 16 entries, `setSubscribeQos(t, q)` for a topic `t` that is not in
the table leaves the whole backend unchanged, so the 16 entries are as before and
`qosForTopic(t)` is the default subscribe QoS; for a topic that is in the full table the
write takes effect: `qosForTopic(t)` becomes `q` clamped into 0..2, the table keeps its
16 topics in order, and the QoS of every other topic is unchanged. -/
theorem qos_capacity_silent (s : StateMQEsp32) (t : CStr) (q : Int) (a : Bool)
    (hfull : s.qos.length = StateMQEsp32.MAX_QOS_OVERRIDES) :
    ((∀ e ∈ s.qos, e.topic ≠ some t) →
      s.setSubscribeQos (some t) q a = s ∧
      (s.setSubscribeQos (some t) q a).qosForTopic (some t) = s.defaultSubQos) ∧
    ((∃ e ∈ s.qos, e.topic = some t) →
      (s.setSubscribeQos (some t) q a).qosForTopic (some t) = clamp_qos q ∧
      (s.setSubscribeQos (some t) q a).qos.map QosEntry.topic =
        s.qos.map QosEntry.topic ∧
      (s.setSubscribeQos (some t) q a).qos.length = StateMQEsp32.MAX_QOS_OVERRIDES ∧
      ∀ u : CStr, u ≠ t →
        (s.setSubscribeQos (some t) q a).qosForTopic (some u) =
          s.qosForTopic (some u)) := by
  constructor
  · intro hno
    have hlen : ¬ s.qos.length < StateMQEsp32.MAX_QOS_OVERRIDES := by omega
    have h1 := esp32_set_full_absent s t q a hlen hno
    refine ⟨h1, ?_⟩
    rw [h1]
    simp only [StateMQEsp32.qosForTopic, (qosLookup_none_iff t s.qos).2 hno]
  · intro hex
    have htop := esp32_set_topics_present s t q a hex
    refine ⟨?_, htop, ?_, ?_⟩
    · simp only [StateMQEsp32.qosForTopic, esp32_set_lookup_self s t q a (Or.inl hex)]
    · have := congrArg List.length htop
      simp only [List.length_map] at this
      rw [this, hfull]
    · intro u hu
      simp only [StateMQEsp32.qosForTopic, esp32_set_lookup_other s t u q a hu,
        esp32_set_default]

set_option maxRecDepth 100000 in
/-- Witness of `qos_capacity_silent`: on the backend with overrides for the sixteen topics
`"a"` to `"p"`, a write for `"z"` stores nothing and a write for `"a"` takes effect. -/
theorem qos_capacity_silent_witness :
    fullQosNode.qos.length = StateMQEsp32.MAX_QOS_OVERRIDES ∧
    (∀ e ∈ fullQosNode.qos, e.topic ≠ some topicZ) ∧
    fullQosNode.setSubscribeQos (some topicZ) 2 true = fullQosNode ∧
    (∃ e ∈ fullQosNode.qos, e.topic = some topicA) ∧
    (fullQosNode.setSubscribeQos (some topicA) 2 true).qosForTopic (some topicA) =
      clamp_qos 2 :=
  ⟨by decide, by decide,
    ((qos_capacity_silent fullQosNode topicZ 2 true (by decide)).1 (by decide)).1,
    by decide,
    ((qos_capacity_silent fullQosNode topicA 2 true (by decide)).2 (by decide)).1⟩

/-! ## The claims on the raw subscriptions -/

/-- Claim C25. Raw-subscribe failures have no side effect, in both backends: `subscribe`
returns false for a null topic and for an empty topic, and returns false for a topic
without a slot when 16 slots are in use; in each of these cases the whole backend, and so
the raw slot table and the QoS override table, is unchanged and nothing is requested from
the client. In every other case (a non-empty topic that has a slot, or for which a slot is
free) it returns true, and in every state that the member functions can produce the
number of slots is at most 16, before and after the call. -/
theorem subscribe_failures :
    (∀ (s : StateMQEsp) (q : Int) (a : Bool),
      s.subscribe none q a = (false, s, []) ∧ s.subscribe (some []) q a = (false, s, [])) ∧
    (∀ (s : StateMQEsp) (t : CStr) (q : Int) (a : Bool),
      s.rawIndex (some t) = none → StateMQEsp.MAX_RAW_SUBS ≤ s.raw.length →
      s.subscribe (some t) q a = (false, s, [])) ∧
    (∀ (s : StateMQEsp) (t : CStr) (q : Int) (a : Bool), t ≠ [] →
      (s.rawIndex (some t) ≠ none ∨ s.raw.length < StateMQEsp.MAX_RAW_SUBS) →
      (s.subscribe (some t) q a).1 = true) ∧
    (∀ (s : StateMQEsp), s.Reachable → ∀ (t : Option CStr) (q : Int) (a : Bool),
      s.raw.length ≤ StateMQEsp.MAX_RAW_SUBS ∧
      (s.subscribe t q a).2.1.raw.length ≤ StateMQEsp.MAX_RAW_SUBS) ∧
    (∀ (s : StateMQEsp32) (q : Int) (a : Bool),
      s.subscribe none q a = (false, s, []) ∧ s.subscribe (some []) q a = (false, s, [])) ∧
    (∀ (s : StateMQEsp32) (t : CStr) (q : Int) (a : Bool),
      s.rawIndex (some t) = none → StateMQEsp32.MAX_RAW_SUBS ≤ s.raw.length →
      s.subscribe (some t) q a = (false, s, [])) ∧
    (∀ (s : StateMQEsp32) (t : CStr) (q : Int) (a : Bool), t ≠ [] →
      (s.rawIndex (some t) ≠ none ∨ s.raw.length < StateMQEsp32.MAX_RAW_SUBS) →
      (s.subscribe (some t) q a).1 = true) ∧
    (∀ (s : StateMQEsp32), s.Reachable → ∀ (t : Option CStr) (q : Int) (a : Bool),
      s.raw.length ≤ StateMQEsp32.MAX_RAW_SUBS ∧
      (s.subscribe t q a).2.1.raw.length ≤ StateMQEsp32.MAX_RAW_SUBS) := by
  refine ⟨?_, ?_, ?_, ?_, ?_, ?_, ?_, ?_⟩
  · intro s q a
    exact ⟨rfl, rfl⟩
  · intro s t q a hi hlen
    exact esp_subscribe_full s t q a hi hlen
  · intro s t q a ht h
    rcases hi : s.rawIndex (some t) with _ | i
    · rcases h with h | h
      · exact absurd hi h
      · exact (esp_subscribe_new s t q a ht hi (by omega)).1
    · exact (esp_subscribe_existing s t q a i ht hi).1
  · intro s hr t q a
    exact ⟨(reachable_invEsp s hr).slots,
      (reachable_invEsp _ (reachableEsp_step s (EspCall.subscribe t q a) hr)).slots⟩
  · intro s q a
    exact ⟨rfl, rfl⟩
  · intro s t q a hi hlen
    exact esp32_subscribe_full s t q a hi hlen
  · intro s t q a ht h
    rcases hi : s.rawIndex (some t) with _ | i
    · rcases h with h | h
      · exact absurd hi h
      · exact (esp32_subscribe_new s t q a ht hi (by omega)).1
    · exact (esp32_subscribe_existing s t q a i ht hi).1
  · intro s hr t q a
    exact ⟨(reachable_inv32 s hr).slots,
      (reachable_inv32 _ (reachable32_step s (Esp32Call.subscribe t q a) hr)).slots⟩

set_option maxRecDepth 100000 in
/-- Witness of `subscribe_failures`: with sixteen slots in use, `subscribe("z", 1)` fails
and changes nothing in either backend, and `subscribe("a", 1)` succeeds. -/
theorem subscribe_failures_witness :
    (fullRawNode.rawIndex (some topicZ) = none ∧
      StateMQEsp.MAX_RAW_SUBS ≤ fullRawNode.raw.length ∧
      fullRawNode.subscribe (some topicZ) 1 true = (false, fullRawNode, [])) ∧
    (topicA ≠ [] ∧ fullRawNode.rawIndex (some topicA) ≠ none ∧
      (fullRawNode.subscribe (some topicA) 1 true).1 = true) ∧
    (fullRawNode.Reachable ∧ fullRawNode.raw.length ≤ StateMQEsp.MAX_RAW_SUBS) ∧
    (fullRawNode32.rawIndex (some topicZ) = none ∧
      StateMQEsp32.MAX_RAW_SUBS ≤ fullRawNode32.raw.length ∧
      fullRawNode32.subscribe (some topicZ) 1 true = (false, fullRawNode32, [])) ∧
    (fullRawNode32.Reachable ∧ fullRawNode32.raw.length ≤ StateMQEsp32.MAX_RAW_SUBS) :=
  ⟨⟨by decide, by decide,
      subscribe_failures.2.1 fullRawNode topicZ 1 true (by decide) (by decide)⟩,
    ⟨by decide, by decide,
      subscribe_failures.2.2.1 fullRawNode topicA 1 true (by decide)
        (Or.inl (by decide))⟩,
    ⟨⟨_, rfl⟩, (subscribe_failures.2.2.2.1 fullRawNode ⟨_, rfl⟩ none 0 true).1⟩,
    ⟨by decide, by decide,
      subscribe_failures.2.2.2.2.2.1 fullRawNode32 topicZ 1 true (by decide) (by decide)⟩,
    ⟨⟨_, rfl⟩, (subscribe_failures.2.2.2.2.2.2.2 fullRawNode32 ⟨_, rfl⟩ none 0 true).1⟩⟩

/-! ## Arrival and consumption of raw messages -/

theorem cstr_of_nulFree (l : List Char) (h : NulFree l) : cstr l = l := by
  unfold cstr
  rw [List.takeWhile_eq_self_iff]
  intro x hx
  simp only [bne_iff_ne, ne_eq]
  intro hx0
  exact h (hx0 ▸ hx)

theorem nulFree_take (l : List Char) (k : Nat) (h : NulFree l) : NulFree (l.take k) :=
  fun hm => h (List.mem_of_mem_take hm)

theorem esp_rawIndex_topics (s s2 : StateMQEsp) (t : Option CStr)
    (h : s2.raw.map RawSlot.topic = s.raw.map RawSlot.topic) :
    s2.rawIndex t = s.rawIndex t := by
  cases t with
  | none => rfl
  | some t => exact rawIndexFrom_topics t s.raw s2.raw 0 h

theorem esp_onMqttData_raw (s : StateMQEsp) (T P : List Char) (up : Nat) (hT : T ≠ []) :
    (s.onMqttData T P up).1.raw =
      match s.rawIndex (some (cstr (T.take (StateMQEsp.RAW_TOPIC_LEN - 1)))) with
      | some i =>
        s.raw.modify (fun sl => { sl with
          payload := cstr (P.take (StateMQEsp.RAW_PAYLOAD_LEN - 1)), hasNew := true }) i
      | none => s.raw := by
  have hlen : ¬ T.length = 0 := by
    cases T with
    | nil => exact absurd rfl hT
    | cons c cs => simp
  have hp : (cstr (P.take (StateMQEsp.RAW_PAYLOAD_LEN - 1))).take
      (StateMQEsp.RAW_PAYLOAD_LEN - 1) = cstr (P.take (StateMQEsp.RAW_PAYLOAD_LEN - 1)) := by
    apply List.take_of_length_le
    have h1 := cstr_length_le (P.take (StateMQEsp.RAW_PAYLOAD_LEN - 1))
    simp only [List.length_take] at h1
    omega
  simp only [StateMQEsp.onMqttData, if_neg hlen, hp]
  have hr := esp_withCore_raw s (s.core.applyMessage
    (some (cstr (T.take (StateMQEsp.RAW_TOPIC_LEN - 1))))
    (some (cstr (P.take (StateMQEsp.RAW_PAYLOAD_LEN - 1))))).2 up
  have hidx := esp_rawIndex_topics s (s.withCore (s.core.applyMessage
    (some (cstr (T.take (StateMQEsp.RAW_TOPIC_LEN - 1))))
    (some (cstr (P.take (StateMQEsp.RAW_PAYLOAD_LEN - 1))))).2 up).1
    (some (cstr (T.take (StateMQEsp.RAW_TOPIC_LEN - 1)))) (by rw [hr])
  rw [hidx]
  cases s.rawIndex (some (cstr (T.take (StateMQEsp.RAW_TOPIC_LEN - 1)))) with
  | none => exact hr
  | some i =>
    simp only
    rw [hr]

theorem esp_onMqttData_frame (s : StateMQEsp) (T P : List Char) (up : Nat) (hT : T ≠ []) :
    { (s.onMqttData T P up).1 with
        raw := s.raw, lastStatePub := 0, hasLastStatePub := false } =
    { s with
        core := (s.core.applyMessage
          (some (cstr (T.take (StateMQEsp.RAW_TOPIC_LEN - 1))))
          (some (cstr (P.take (StateMQEsp.RAW_PAYLOAD_LEN - 1))))).2.node,
        lastStatePub := 0, hasLastStatePub := false } := by
  have hlen : ¬ T.length = 0 := by
    cases T with
    | nil => exact absurd rfl hT
    | cons c cs => simp
  have hf := esp_withCore_frame s (s.core.applyMessage
    (some (cstr (T.take (StateMQEsp.RAW_TOPIC_LEN - 1))))
    (some (cstr (P.take (StateMQEsp.RAW_PAYLOAD_LEN - 1))))).2 up
  have hr := congrArg (fun x : StateMQEsp => { x with raw := s.raw }) hf
  simp only [StateMQEsp.onMqttData, if_neg hlen]
  split
  · exact hr
  · exact hr

theorem esp_onMqttData_topics (s : StateMQEsp) (T P : List Char) (up : Nat) :
    (s.onMqttData T P up).1.raw.map RawSlot.topic = s.raw.map RawSlot.topic := by
  by_cases hT : T = []
  · subst hT
    rfl
  · rw [esp_onMqttData_raw s T P up hT]
    cases s.rawIndex (some (cstr (T.take (StateMQEsp.RAW_TOPIC_LEN - 1)))) with
    | none => rfl
    | some i => exact modify_topics _ _ _ (fun _ => rfl)

theorem esp_msg_some (s : StateMQEsp) (t : CStr) (i : Nat) (slot : RawSlot) (ht : t ≠ [])
    (hi : s.rawIndex (some t) = some i) (hg : s.raw[i]? = some slot)
    (hn : slot.hasNew = true) :
    s.msg (some t) =
      (some slot.payload,
        { s with raw := s.raw.modify (fun r => { r with hasNew := false }) i }) := by
  simp only [StateMQEsp.msg, if_neg ht, hi, List.get?_eq_getElem?, hg, hn, Bool.not_true,
    Bool.false_eq_true, if_false]

theorem esp_msg_stale (s : StateMQEsp) (t : CStr) (i : Nat) (slot : RawSlot)
    (hi : s.rawIndex (some t) = some i) (hg : s.raw[i]? = some slot)
    (hn : slot.hasNew = false) : s.msg (some t) = (none, s) := by
  simp only [StateMQEsp.msg, hi, List.get?_eq_getElem?, hg, hn, Bool.not_false, if_true,
    ite_self]

theorem esp_msg_noslot (s : StateMQEsp) (t : CStr) (hi : s.rawIndex (some t) = none) :
    s.msg (some t) = (none, s) := by
  simp only [StateMQEsp.msg, hi, ite_self]

/-- A message that arrives on the topic of a slot is returned by the next `msg`, cut to
255 bytes, and by no further `msg`. -/
theorem esp_arrival_then_msg (s : StateMQEsp) (T : CStr) (P : List Char) (up i : Nat)
    (hT : T ≠ []) (hnul : NulFree T) (hlen : T.length ≤ StateMQEsp.RAW_TOPIC_LEN - 1)
    (hi : s.rawIndex (some T) = some i) :
    ((s.onMqttData T P up).1.msg (some T)).1 =
      some (cstr (P.take (StateMQEsp.RAW_PAYLOAD_LEN - 1))) ∧
    (((s.onMqttData T P up).1.msg (some T)).2.msg (some T)) =
      (none, ((s.onMqttData T P up).1.msg (some T)).2) ∧
    ((s.onMqttData T P up).1.msg (some T)).2.raw.map RawSlot.topic =
      s.raw.map RawSlot.topic := by
  have hT2 : cstr (T.take (StateMQEsp.RAW_TOPIC_LEN - 1)) = T := by
    rw [List.take_of_length_le hlen]
    exact cstr_of_nulFree T hnul
  obtain ⟨slot, hslot, _, _⟩ := rawIndexFrom_get T s.raw i hi
  have hraw := esp_onMqttData_raw s T P up hT
  rw [hT2, hi] at hraw
  simp only at hraw
  have htop := esp_onMqttData_topics s T P up
  have hi1 : (s.onMqttData T P up).1.rawIndex (some T) = some i := by
    rw [esp_rawIndex_topics s _ (some T) htop]
    exact hi
  have hg1 : (s.onMqttData T P up).1.raw[i]? =
      some { slot with payload := cstr (P.take (StateMQEsp.RAW_PAYLOAD_LEN - 1)),
                       hasNew := true } := by
    rw [hraw, List.getElem?_modify_eq, hslot]
    rfl
  have hm := esp_msg_some _ T i _ hT hi1 hg1 rfl
  rw [hm]
  refine ⟨rfl, ?_, ?_⟩
  · apply esp_msg_stale _ T i
      { slot with payload := cstr (P.take (StateMQEsp.RAW_PAYLOAD_LEN - 1)),
                  hasNew := false }
    · have : ({ (s.onMqttData T P up).1 with
          raw := (s.onMqttData T P up).1.raw.modify
            (fun r => { r with hasNew := false }) i } : StateMQEsp).rawIndex (some T) =
          (s.onMqttData T P up).1.rawIndex (some T) :=
        esp_rawIndex_topics _ _ (some T) (modify_topics _ _ _ (fun _ => rfl))
      rw [this]
      exact hi1
    · simp only
      rw [List.getElem?_modify_eq, hg1]
      rfl
    · rfl
  · exact (modify_topics (s.onMqttData T P up).1.raw
      (fun r => { r with hasNew := false }) i (fun _ => rfl)).trans htop

/-! ## The slot topics along a run of the ESP-IDF backend -/

theorem rawIndexFrom_none_iff_all (t : CStr) (rs : List RawSlot) (b : Nat) :
    rawIndexFrom t rs b = none ↔ ∀ r ∈ rs, r.topic = [] ∨ r.topic ≠ t := by
  induction rs generalizing b with
  | nil => simp [rawIndexFrom]
  | cons r rs ih =>
    simp only [rawIndexFrom, strcmp_eq_zero_iff, List.mem_cons, forall_eq_or_imp]
    by_cases hc : r.topic ≠ [] ∧ r.topic = t
    · simp only [if_pos hc]
      constructor
      · intro h; exact Option.noConfusion h
      · intro h
        rcases h.1 with h1 | h1
        · exact absurd h1 hc.1
        · exact absurd hc.2 h1
    · simp only [if_neg hc, ih (b + 1)]
      constructor
      · intro h
        refine ⟨?_, h⟩
        by_cases h1 : r.topic = []
        · exact Or.inl h1
        · exact Or.inr (fun h2 => hc ⟨h1, h2⟩)
      · intro h; exact h.2

theorem esp_cleanup_raw (s : StateMQEsp) (dw cc a : Bool) (up : Nat) :
    (s.cleanup dw cc a up).1.raw = if cc then [] else s.raw := by
  have h := esp_withCore_raw
    { s with client := none, wifiHasIp := false, mqttConnected := false }
    (s.core.setConnected false) up
  cases cc with
  | false =>
    simp only [StateMQEsp.cleanup, Bool.false_eq_true, if_false]
    exact h
  | true =>
    simp only [StateMQEsp.cleanup, if_true, StateMQEsp.freeQosOverrides,
      StateMQEsp.clearLastWill, StateMQEsp.StatePublishTopic]

theorem esp_cleanup_qos (s : StateMQEsp) (dw cc a : Bool) (up : Nat) :
    (s.cleanup dw cc a up).1.qos = if cc then [] else s.qos := by
  have h := esp_withCore_qos
    { s with client := none, wifiHasIp := false, mqttConnected := false }
    (s.core.setConnected false) up
  cases cc with
  | false =>
    simp only [StateMQEsp.cleanup, Bool.false_eq_true, if_false]
    exact h
  | true =>
    simp only [StateMQEsp.cleanup, if_true, StateMQEsp.freeQosOverrides,
      StateMQEsp.clearLastWill, StateMQEsp.StatePublishTopic]

theorem esp_begin_raw (s : StateMQEsp) (ssid pass uri : Option CStr) (env : BeginEnv)
    (up : Nat) :
    (s.begin ssid pass uri env up).2.1.raw = s.raw ∨
    (s.begin ssid pass uri env up).2.1.raw = [] := by
  have h0 := esp_cleanup_raw s false false env.allocTopic up
  simp only [Bool.false_eq_true, if_false] at h0
  unfold StateMQEsp.begin
  cases ssid with
  | none => exact Or.inl h0
  | some ssid =>
    cases uri with
    | none => exact Or.inl h0
    | some uri =>
      simp only
      split_ifs
      · right
        simp only [StateMQEsp.end_]
        rw [esp_cleanup_raw]
        rfl
      all_goals
        left
        simp only
        rw [esp_withCore_raw]
        exact h0

/-- What one call does to the slot table of the ESP-IDF backend: it keeps the topics of the
slots, or it empties the table, or it is a `subscribe` for a non-empty topic without a slot
and appends the slot of that topic. -/
theorem esp_step_raw (s : StateMQEsp) (c : EspCall) :
    (s.step c).raw.map RawSlot.topic = s.raw.map RawSlot.topic ∨
    (s.step c).raw = [] ∨
    ∃ (t : CStr) (q : Int) (a : Bool), c = EspCall.subscribe (some t) q a ∧ t ≠ [] ∧
      s.rawIndex (some t) = none ∧
      (s.step c).raw = s.raw ++ [({ topic := t.take (StateMQEsp.RAW_TOPIC_LEN - 1),
                                    payload := [], hasNew := false } : RawSlot)] := by
  cases c with
  | setKeepAliveSeconds sec => exact Or.inl rfl
  | setDefaultSubscribeQos q => exact Or.inl rfl
  | setDefaultPublishQos q => exact Or.inl rfl
  | setLastWill t p q r a1 a2 =>
    left
    simp only [StateMQEsp.step, StateMQEsp.setLastWill]
    repeat' split
    all_goals rfl
  | clearLastWill => exact Or.inl rfl
  | subscribe t q a =>
    cases t with
    | none => exact Or.inl rfl
    | some t =>
      by_cases ht : t = []
      · subst ht
        exact Or.inl rfl
      · rcases hi : s.rawIndex (some t) with _ | i
        · by_cases hfull : s.raw.length ≥ StateMQEsp.MAX_RAW_SUBS
          · left
            simp only [StateMQEsp.step]
            rw [esp_subscribe_full s t q a hi hfull]
          · right; right
            exact ⟨t, q, a, rfl, ht, hi, (esp_subscribe_new s t q a ht hi hfull).2.1⟩
        · left
          simp only [StateMQEsp.step]
          rw [(esp_subscribe_existing s t q a i ht hi).2.1]
  | msg t =>
    left
    simp only [StateMQEsp.step, StateMQEsp.msg]
    cases t with
    | none => rfl
    | some t =>
      simp only
      split_ifs
      · rfl
      · rcases hi : s.rawIndex (some t) with _ | i
        · rfl
        · simp only
          rcases hg : s.raw.get? i with _ | slot
          · rfl
          · simp only
            split_ifs
            · rfl
            · exact modify_topics _ _ _ (fun _ => rfl)
  | StatePublishTopic t q e r a => exact Or.inl rfl
  | begin ssid pass uri env up =>
    rcases esp_begin_raw s ssid pass uri env up with h | h
    · left
      simp only [StateMQEsp.step]
      rw [h]
    · exact Or.inr (Or.inl h)
  | end_ dw a up =>
    right; left
    simp only [StateMQEsp.step, StateMQEsp.end_]
    rw [esp_cleanup_raw]
    rfl
  | taskEnable id en => exact Or.inl rfl
  | onWifiGotIp c ok =>
    left
    simp only [StateMQEsp.step, StateMQEsp.onWifiGotIp, StateMQEsp.startMqttIfNeeded]
    repeat' split
    all_goals rfl
  | onWifiDisconnected up =>
    left
    simp only [StateMQEsp.step, StateMQEsp.onWifiDisconnected]
    rw [esp_withCore_raw]
  | onMqttConnected up =>
    left
    simp only [StateMQEsp.step, StateMQEsp.onMqttConnected]
    rw [esp_withCore_raw]
  | onMqttDisconnected up =>
    left
    simp only [StateMQEsp.step, StateMQEsp.onMqttDisconnected]
    rw [esp_withCore_raw]
  | onMqttData T P up => exact Or.inl (esp_onMqttData_topics s T P up)
  | core c up =>
    left
    have hf := esp_deliver_frame up (s.core.stepCalls c) { s with core := s.core.step c }
    have h3 := congrArg StateMQEsp.raw hf
    simp only at h3
    simp only [StateMQEsp.step]
    rw [h3]

theorem esp_topics_nodup_step (s : StateMQEsp) (c : EspCall)
    (hshort : ∀ (t : CStr) (q : Int) (a : Bool), c = EspCall.subscribe (some t) q a →
      t.length ≤ StateMQEsp.RAW_TOPIC_LEN - 1)
    (h : (s.raw.map RawSlot.topic).Nodup) : ((s.step c).raw.map RawSlot.topic).Nodup := by
  rcases esp_step_raw s c with h1 | h1 | ⟨t, q, a, hc, ht, hi, hraw⟩
  · rw [h1]; exact h
  · rw [h1]; exact List.nodup_nil
  · rw [hraw, List.take_of_length_le (hshort t q a hc), List.map_append, List.nodup_append]
    refine ⟨h, by simp, ?_⟩
    intro x hx hx2
    simp only [List.map_cons, List.map_nil, List.mem_singleton] at hx2
    subst hx2
    exact (rawIndexFrom_none_iff x s.raw 0 ht).1 hi hx

theorem esp_topics_nodup_exec (cs : List EspCall) :
    ∀ s : StateMQEsp, ShortTopics cs → (s.raw.map RawSlot.topic).Nodup →
      ((s.exec cs).raw.map RawSlot.topic).Nodup := by
  induction cs with
  | nil => intro s _ h; exact h
  | cons c cs ih =>
    intro s hs h
    apply ih (s.step c)
    · intro c2 hc2
      exact hs c2 (List.mem_cons_of_mem _ hc2)
    · exact esp_topics_nodup_step s c (hs c (List.mem_cons_self _ _)) h

/-! ## The claims on raw messages -/

set_option maxRecDepth 1000000 in
/-- Counterexample to claim C24 as stated: on the ESP-IDF backend with a slot for `"a"`, a
message with a payload of 256 bytes arrives on `"a"`; `msg("a")` returns the first 255
bytes, which is not the payload that arrived. -/
theorem msg_returns_cut_payload :
    rawNode.rawIndex (some topicA) = some 0 ∧
    ((rawNode.onMqttData topicA payloadLong 0).1.msg (some topicA)).1 =
      some (List.replicate 255 'x') ∧
    ((rawNode.onMqttData topicA payloadLong 0).1.msg (some topicA)).1 ≠
      some payloadLong := by
  decide

theorem esp_slot_topic_short (s : StateMQEsp) (T : CStr) (i : Nat) (hr : s.Reachable)
    (hi : s.rawIndex (some T) = some i) :
    T ≠ [] ∧ T.length ≤ StateMQEsp.RAW_TOPIC_LEN - 1 := by
  obtain ⟨slot, hslot, hst, hne⟩ := rawIndexFrom_get T s.raw i hi
  have h := (reachable_invEsp s hr).slot_topics slot (List.getElem?_mem hslot)
  rw [hst] at h
  exact ⟨hne, h.2⟩

/-- Claim C24, amended. Raw subscription consumption on the ESP-IDF backend: for a topic
`T` with a raw slot, after a message `(T, P)` arrives the first `msg(T)` returns the
payload as decoded, that is the C string held by the first 255 bytes of `P` (`P` itself
when `P` has at most 255 bytes, none of them NUL), and an immediately following `msg(T)`
returns null; after two arrivals `(T, P1)` then `(T, P2)` with no `msg(T)` in between, the
next `msg(T)` returns the decoded `P2` and the one after returns null; and `msg` returns
null, changing nothing, for a null topic, for an empty topic, for a topic with no slot,
and for a slot whose `hasNew` flag is clear. -/
theorem msg_exactly_once (s : StateMQEsp) (T : CStr) (i : Nat) (hr : s.Reachable)
    (hnul : NulFree T) (hi : s.rawIndex (some T) = some i) :
    (∀ (P : List Char) (up : Nat),
      ((s.onMqttData T P up).1.msg (some T)).1 = some (cstr (P.take 255)) ∧
      (NulFree P → P.length ≤ 255 →
        ((s.onMqttData T P up).1.msg (some T)).1 = some P) ∧
      (((s.onMqttData T P up).1.msg (some T)).2.msg (some T)).1 = none) ∧
    (∀ (P1 P2 : List Char) (up1 up2 : Nat),
      (((s.onMqttData T P1 up1).1.onMqttData T P2 up2).1.msg (some T)).1 =
        some (cstr (P2.take 255)) ∧
      ((((s.onMqttData T P1 up1).1.onMqttData T P2 up2).1.msg (some T)).2.msg
        (some T)).1 = none) ∧
    (∀ (s2 : StateMQEsp),
      s2.msg none = (none, s2) ∧ s2.msg (some []) = (none, s2) ∧
      (∀ t : CStr, s2.rawIndex (some t) = none → s2.msg (some t) = (none, s2)) ∧
      (∀ (t : CStr) (j : Nat) (slot : RawSlot), s2.rawIndex (some t) = some j →
        s2.raw[j]? = some slot → slot.hasNew = false → s2.msg (some t) = (none, s2))) := by
  obtain ⟨hT, hlen⟩ := esp_slot_topic_short s T i hr hi
  have hone : ∀ (s1 : StateMQEsp) (P : List Char) (up : Nat),
      s1.rawIndex (some T) = some i →
      ((s1.onMqttData T P up).1.msg (some T)).1 = some (cstr (P.take 255)) ∧
      (((s1.onMqttData T P up).1.msg (some T)).2.msg (some T)).1 = none := by
    intro s1 P up h1
    obtain ⟨ha, hb, _⟩ := esp_arrival_then_msg s1 T P up i hT hnul hlen h1
    exact ⟨ha, by rw [hb]⟩
  refine ⟨?_, ?_, ?_⟩
  · intro P up
    obtain ⟨ha, hb⟩ := hone s P up hi
    refine ⟨ha, ?_, hb⟩
    intro hP hPl
    rw [ha, List.take_of_length_le hPl, cstr_of_nulFree P hP]
  · intro P1 P2 up1 up2
    apply hone
    rw [esp_rawIndex_topics s _ (some T) (esp_onMqttData_topics s T P1 up1)]
    exact hi
  · intro s2
    refine ⟨rfl, rfl, ?_, ?_⟩
    · intro t ht
      exact esp_msg_noslot s2 t ht
    · intro t j slot h1 h2 h3
      exact esp_msg_stale s2 t j slot h1 h2 h3

/-- Witness of `msg_exactly_once`: on the backend with a slot for `"a"`, the message
`("a", "a")` is returned by the next `msg("a")` and not by the one after. -/
theorem msg_exactly_once_witness :
    rawNode.Reachable ∧ NulFree topicA ∧ rawNode.rawIndex (some topicA) = some 0 ∧
    ((rawNode.onMqttData topicA topicA 0).1.msg (some topicA)).1 = some topicA ∧
    (((rawNode.onMqttData topicA topicA 0).1.msg (some topicA)).2.msg (some topicA)).1 =
      none :=
  ⟨⟨_, rfl⟩, by decide, by decide,
    ((msg_exactly_once rawNode topicA 0 ⟨_, rfl⟩ (by decide) (by decide)).1 topicA 0).2.1
      (by decide) (by decide),
    ((msg_exactly_once rawNode topicA 0 ⟨_, rfl⟩ (by decide) (by decide)).1 topicA 0).2.2⟩

set_option maxRecDepth 1000000 in
/-- Counterexample to claim C26 as stated: `subscribe` is called twice with the same topic
of 96 characters on a fresh ESP-IDF backend. Both calls return true, the second call adds
a second slot, the two slots hold the same stored topic (the first 95 characters), and
after a message arrives on the topic `msg` of the topic finds no slot. -/
theorem long_topic_second_slot :
    ((StateMQEsp.ctor StateMQ.ctor).subscribe (some topicLong) 1 true).1 = true ∧
    (((StateMQEsp.ctor StateMQ.ctor).subscribe (some topicLong) 1 true).2.1.subscribe
      (some topicLong) 1 true).1 = true ∧
    longTopicNode.Reachable ∧
    longTopicNode.raw.map RawSlot.topic = [topicLong.take 95, topicLong.take 95] ∧
    ¬ (longTopicNode.raw.map RawSlot.topic).Nodup ∧
    ((longTopicNode.onMqttData topicLong topicA 0).1.msg (some topicLong)).1 = none := by
  refine ⟨by decide, by decide, ⟨_, rfl⟩, by decide, by decide, by decide⟩

/-- Claim C26, amended. One raw slot per distinct topic of at most 95 characters on the
ESP-IDF backend: `subscribe(T, q)` for a topic that has a slot leaves the slot table as it
is, so it adds no slot and keeps the pending payload and the `hasNew` flag; a successful
`subscribe` of a non-empty topic of at most 95 characters leaves a slot for that topic, so
that a second `subscribe` of it adds none; in every state produced by calls whose
`subscribe` topics have at most 95 characters no two slots hold the same stored topic;
and `msg(T)` after an arrival on a topic `T` that has a slot finds the slot. -/
theorem one_slot_per_topic :
    (∀ (s : StateMQEsp) (T : CStr) (q : Int) (a : Bool) (i : Nat),
      s.rawIndex (some T) = some i →
      (s.subscribe (some T) q a).2.1.raw = s.raw ∧
      (s.subscribe (some T) q a).2.1.rawIndex (some T) = some i) ∧
    (∀ (s : StateMQEsp) (T : CStr) (q q2 : Int) (a a2 : Bool), T ≠ [] →
      T.length ≤ 95 → (s.subscribe (some T) q a).1 = true →
      (∃ i, (s.subscribe (some T) q a).2.1.rawIndex (some T) = some i) ∧
      ((s.subscribe (some T) q a).2.1.subscribe (some T) q2 a2).2.1.raw =
        (s.subscribe (some T) q a).2.1.raw) ∧
    (∀ cs : List EspCall, ShortTopics cs →
      (((StateMQEsp.ctor StateMQ.ctor).exec cs).raw.map RawSlot.topic).Nodup) ∧
    (∀ (s : StateMQEsp) (T : CStr) (i : Nat) (P : List Char) (up : Nat), s.Reachable →
      NulFree T → s.rawIndex (some T) = some i →
      ((s.onMqttData T P up).1.msg (some T)).1 = some (cstr (P.take 255))) := by
  have hkeep : ∀ (s : StateMQEsp) (T : CStr) (q : Int) (a : Bool) (i : Nat),
      s.rawIndex (some T) = some i →
      (s.subscribe (some T) q a).2.1.raw = s.raw ∧
      (s.subscribe (some T) q a).2.1.rawIndex (some T) = some i := by
    intro s T q a i hi
    obtain ⟨_, _, _, hne⟩ := rawIndexFrom_get T s.raw i hi
    have h1 := (esp_subscribe_existing s T q a i hne hi).2.1
    exact ⟨h1, by rw [esp_rawIndex_topics s _ (some T) (by rw [h1])]; exact hi⟩
  refine ⟨hkeep, ?_, ?_, ?_⟩
  · intro s T q q2 a a2 hT hlen hok
    have hex : ∃ i, (s.subscribe (some T) q a).2.1.rawIndex (some T) = some i := by
      rcases hi : s.rawIndex (some T) with _ | i
      · by_cases hfull : s.raw.length ≥ StateMQEsp.MAX_RAW_SUBS
        · rw [esp_subscribe_full s T q a hi hfull] at hok
          exact absurd hok (by simp)
        · have hraw := (esp_subscribe_new s T q a hT hi hfull).2.1
          refine ⟨0 + s.raw.length, ?_⟩
          simp only [StateMQEsp.rawIndex]
          rw [hraw]
          apply rawIndexFrom_append_new T s.raw _ 0 hi _ hT
          exact List.take_of_length_le hlen
      · exact ⟨i, (hkeep s T q a i hi).2⟩
    obtain ⟨i, hi⟩ := hex
    exact ⟨⟨i, hi⟩, (hkeep _ T q2 a2 i hi).1⟩
  · intro cs hs
    exact esp_topics_nodup_exec cs _ hs List.nodup_nil
  · intro s T i P up hr hnul hi
    obtain ⟨hT, hlen⟩ := esp_slot_topic_short s T i hr hi
    exact (esp_arrival_then_msg s T P up i hT hnul hlen hi).1

/-- Witness of `one_slot_per_topic`: `subscribe("a", 1)` on the backend that has a slot
for `"a"` keeps the slot table, and the run that made that backend has no two slots with
the same topic. -/
theorem one_slot_per_topic_witness :
    rawNode.rawIndex (some topicA) = some 0 ∧
    (rawNode.subscribe (some topicA) 2 true).2.1.raw = rawNode.raw ∧
    ShortTopics [EspCall.subscribe (some topicA) 1 true] ∧
    (rawNode.raw.map RawSlot.topic).Nodup ∧
    ((rawNode.onMqttData topicA topicB 0).1.msg (some topicA)).1 =
      some (cstr (topicB.take 255)) :=
  ⟨by decide,
    (one_slot_per_topic.1 rawNode topicA 2 true 0 (by decide)).1,
    by simp [ShortTopics, topicA, StateMQEsp.RAW_TOPIC_LEN],
    one_slot_per_topic.2.2.1 [EspCall.subscribe (some topicA) 1 true]
      (by simp [ShortTopics, topicA, StateMQEsp.RAW_TOPIC_LEN]),
    one_slot_per_topic.2.2.2 rawNode topicA 0 topicB 0 ⟨_, rfl⟩ (by decide) (by decide)⟩

/-- Claim C27. Inbound message decoding on the ESP-IDF backend: for every message event
with a topic `T` of length at least 1 and a payload `P`, with `T'` the C string held by
the first min(|T|, 95) bytes of `T` and `P'` the one held by the first min(|P|, 255)
bytes of `P` (these bytes themselves when none is NUL), `onMqttData` has the effect of
`applyMessage(T', P')` through the backend, followed by the raw store: the engine
afterwards, the calls made and all other member variables are those of the
`applyMessage`, and the slot table is the one before with, if a slot whose stored topic
equals `T'` exists, `P'` stored in the first such slot and its `hasNew` flag set. The
message is never rejected for its size, and the store does not depend on whether a rule
matched or on whether the engine is connected. -/
theorem inbound_decoding (s : StateMQEsp) (T P : List Char) (up : Nat)
    (hT : 1 ≤ T.length) :
    ((T.take 95).length = min 95 T.length ∧ (P.take 255).length = min 255 P.length ∧
      (NulFree T → cstr (T.take 95) = T.take 95) ∧
      (NulFree P → cstr (P.take 255) = P.take 255)) ∧
    (s.onMqttData T P up).1.core =
      (s.core.applyMessage (some (cstr (T.take 95))) (some (cstr (P.take 255)))).2.node ∧
    (s.onMqttData T P up).2 =
      (s.withCore (s.core.applyMessage (some (cstr (T.take 95)))
        (some (cstr (P.take 255)))).2 up).2 ∧
    { (s.onMqttData T P up).1 with raw := s.raw } =
      (s.withCore (s.core.applyMessage (some (cstr (T.take 95)))
        (some (cstr (P.take 255)))).2 up).1 ∧
    (∀ i, s.rawIndex (some (cstr (T.take 95))) = some i →
      (∃ slot, s.raw[i]? = some slot ∧ slot.topic = cstr (T.take 95)) ∧
      (s.onMqttData T P up).1.raw =
        s.raw.modify (fun sl => { sl with payload := cstr (P.take 255), hasNew := true })
          i) ∧
    (s.rawIndex (some (cstr (T.take 95))) = none →
      (s.onMqttData T P up).1.raw = s.raw) ∧
    (s.rawIndex (some (cstr (T.take 95))) = none ↔
      ∀ r ∈ s.raw, r.topic = [] ∨ r.topic ≠ cstr (T.take 95)) := by
  have hne : T ≠ [] := by
    intro h
    rw [h] at hT
    simp at hT
  have hlen : ¬ T.length = 0 := by omega
  have hraw := esp_onMqttData_raw s T P up hne
  simp only [StateMQEsp.RAW_TOPIC_LEN, StateMQEsp.RAW_PAYLOAD_LEN, Nat.add_one_sub_one,
    show (96 : Nat) - 1 = 95 from rfl, show (256 : Nat) - 1 = 255 from rfl] at hraw
  have hwr := esp_withCore_raw s (s.core.applyMessage (some (cstr (T.take 95)))
    (some (cstr (P.take 255)))).2 up
  refine ⟨⟨List.length_take _ _, List.length_take _ _,
      fun h => cstr_of_nulFree _ (nulFree_take T 95 h),
      fun h => cstr_of_nulFree _ (nulFree_take P 255 h)⟩, ?_, ?_, ?_, ?_, ?_, ?_⟩
  · have hf := congrArg StateMQEsp.core (esp_onMqttData_frame s T P up hne)
    exact hf
  · simp only [StateMQEsp.onMqttData, if_neg hlen, StateMQEsp.RAW_TOPIC_LEN,
      StateMQEsp.RAW_PAYLOAD_LEN, show (96 : Nat) - 1 = 95 from rfl,
      show (256 : Nat) - 1 = 255 from rfl]
    split <;> rfl
  · simp only [StateMQEsp.onMqttData, if_neg hlen, StateMQEsp.RAW_TOPIC_LEN,
      StateMQEsp.RAW_PAYLOAD_LEN, show (96 : Nat) - 1 = 95 from rfl,
      show (256 : Nat) - 1 = 255 from rfl]
    split
    · rw [← hwr]
    · rw [← hwr]
  · intro i hi
    obtain ⟨slot, hslot, hst, _⟩ := rawIndexFrom_get _ s.raw i hi
    refine ⟨⟨slot, hslot, hst⟩, ?_⟩
    rw [hraw, hi]
  · intro hi
    rw [hraw, hi]
  · exact rawIndexFrom_none_iff_all _ s.raw 0

/-- Witness of `inbound_decoding`: a message of 256 bytes on `"a"` reaches the backend
that has a slot for `"a"`. -/
theorem inbound_decoding_witness :
    1 ≤ topicA.length ∧
    (rawNode.onMqttData topicA payloadLong 7).1.core =
      (rawNode.core.applyMessage (some (cstr (topicA.take 95)))
        (some (cstr (payloadLong.take 255)))).2.node :=
  ⟨by decide, (inbound_decoding rawNode topicA payloadLong 7 (by decide)).2.1⟩

/-! ## Resubscription -/

theorem topic_seen_iff (t : CStr) (seen : List CStr) : topic_seen t seen = true ↔ t ∈ seen := by
  induction seen with
  | nil => simp [topic_seen]
  | cons x xs ih =>
    simp only [topic_seen, strcmp_eq_zero_iff, List.mem_cons]
    by_cases hx : x = t
    · simp [hx]
    · have h2 : ¬ t = x := fun h => hx h.symm
      simp [hx, h2, ih]

theorem mem_firstOccurrences (t : CStr) (l : List CStr) :
    t ∈ firstOccurrences l ↔ t ∈ l := by
  induction l with
  | nil => simp [firstOccurrences]
  | cons x xs ih =>
    simp only [firstOccurrences, List.mem_cons, List.mem_filter, decide_eq_true_eq, ih]
    by_cases h : t = x
    · simp [h]
    · simp [h]

theorem nodup_firstOccurrences (l : List CStr) : (firstOccurrences l).Nodup := by
  induction l with
  | nil => simp [firstOccurrences]
  | cons x xs ih =>
    simp only [firstOccurrences, List.nodup_cons, List.mem_filter, decide_eq_true_eq]
    exact ⟨fun h => h.2 rfl, ih.filter _⟩

theorem length_firstOccurrences_le (l : List CStr) :
    (firstOccurrences l).length ≤ l.length := by
  induction l with
  | nil => simp [firstOccurrences]
  | cons x xs ih =>
    simp only [firstOccurrences, List.length_cons]
    have := List.length_filter_le (fun u => decide (u ≠ x)) (firstOccurrences xs)
    omega

/-- The loop of `subscribeAllUnique` while the array `seen` has room: it appends to `seen`
the topics that are non-empty and not yet seen, each once, and requests a subscription for
each of them. -/
theorem subscribeLoop_spec (s : StateMQEsp) (ts : List CStr) :
    ∀ (seen : List CStr) (out : List ExtCall),
      seen.length + ts.length ≤ StateMQEsp.SEEN_LEN →
      StateMQEsp.subscribeLoop s ts seen out =
        (seen ++ (firstOccurrences (ts.filter (fun t => t ≠ []))).filter
            (fun t => t ∉ seen),
         out ++ ((firstOccurrences (ts.filter (fun t => t ≠ []))).filter
            (fun t => t ∉ seen)).map
              (fun t => ExtCall.subscribe t (s.qosForTopic (some t)))) := by
  induction ts with
  | nil =>
    intro seen out _
    simp [StateMQEsp.subscribeLoop, firstOccurrences]
  | cons t ts ih =>
    intro seen out hcap
    simp only [List.length_cons] at hcap
    by_cases ht : t = []
    · subst ht
      simp only [StateMQEsp.subscribeLoop, if_true]
      rw [ih seen out (by omega)]
      simp
    · by_cases hs : t ∈ seen
      · have hseen : topic_seen t seen = true := (topic_seen_iff t seen).2 hs
        simp only [StateMQEsp.subscribeLoop, if_neg ht, hseen, if_true]
        rw [ih seen out (by omega)]
        have hf : ((firstOccurrences (List.filter (fun t => decide (t ≠ [])) (t :: ts))).filter
            (fun t => decide (t ∉ seen))) =
            (firstOccurrences (List.filter (fun t => decide (t ≠ [])) ts)).filter
              (fun t => decide (t ∉ seen)) := by
          simp only [List.filter_cons, ht, ne_eq, not_false_eq_true, decide_True, if_true,
            firstOccurrences, hs, not_true_eq_false, decide_False, Bool.false_eq_true,
            if_false, List.filter_filter]
          apply List.filter_congr
          intro u _
          by_cases hu : u ∈ seen
          · simp [hu]
          · have : u ≠ t := fun h => hu (h ▸ hs)
            simp [hu, this]
        rw [hf]
      · have hseen : ¬ topic_seen t seen = true := fun h => hs ((topic_seen_iff t seen).1 h)
        have hroom : seen.length < StateMQEsp.SEEN_LEN := by omega
        simp only [StateMQEsp.subscribeLoop, if_neg ht, hseen, if_false, if_pos hroom]
        rw [ih (seen ++ [t]) _ (by simp only [List.length_append, List.length_singleton]; omega)]
        have hf : ((firstOccurrences (List.filter (fun t => decide (t ≠ [])) (t :: ts))).filter
            (fun t => decide (t ∉ seen))) =
            t :: (firstOccurrences (List.filter (fun t => decide (t ≠ [])) ts)).filter
              (fun u => decide (u ∉ seen ++ [t])) := by
          simp only [List.filter_cons, ht, ne_eq, not_false_eq_true, decide_True, if_true,
            firstOccurrences, hs, List.filter_filter]
          congr 1
          apply List.filter_congr
          intro u _
          by_cases h1 : u ∈ seen <;> by_cases h2 : u = t <;> simp [h1, h2]
        rw [hf]
        simp

/-! ## The claims on resubscription -/

/-- Claim C28. Deterministic resubscription on the ESP-IDF backend: with a client, for
every rule table of at most 32 rules and every raw slot table of at most 16 slots, the
subscriptions that `subscribeAllUnique` requests are, in order, the non-empty rule topics
in declaration order, first occurrences only, followed by the non-empty raw slot topics in
slot order that are not rule topics, first occurrences only; no topic is requested twice;
each request carries `qosForTopic` of its topic; and the array `seen` holds exactly the
requested topics at the end, at most 48 of its 64 entries. -/
theorem resubscription_deterministic (s : StateMQEsp) (c : Nat) (hc : s.client = some c)
    (hr : s.core.rules.length ≤ 32) (hw : s.raw.length ≤ 16) :
    s.subscribeAllUnique =
      (firstOccurrences ((s.core.rules.map Rule.topic).filter (fun t => t ≠ [])) ++
        (firstOccurrences ((s.raw.map RawSlot.topic).filter (fun t => t ≠ []))).filter
          (fun t => t ∉ s.core.rules.map Rule.topic)).map
        (fun t => ExtCall.subscribe t (s.qosForTopic (some t))) ∧
    (firstOccurrences ((s.core.rules.map Rule.topic).filter (fun t => t ≠ [])) ++
      (firstOccurrences ((s.raw.map RawSlot.topic).filter (fun t => t ≠ []))).filter
        (fun t => t ∉ s.core.rules.map Rule.topic)).Nodup ∧
    (StateMQEsp.subscribeLoop s (s.raw.map RawSlot.topic)
        (StateMQEsp.subscribeLoop s (s.core.rules.map Rule.topic) [] []).1
        (StateMQEsp.subscribeLoop s (s.core.rules.map Rule.topic) [] []).2).1 =
      firstOccurrences ((s.core.rules.map Rule.topic).filter (fun t => t ≠ [])) ++
        (firstOccurrences ((s.raw.map RawSlot.topic).filter (fun t => t ≠ []))).filter
          (fun t => t ∉ s.core.rules.map Rule.topic) ∧
    (firstOccurrences ((s.core.rules.map Rule.topic).filter (fun t => t ≠ [])) ++
      (firstOccurrences ((s.raw.map RawSlot.topic).filter (fun t => t ≠ []))).filter
        (fun t => t ∉ s.core.rules.map Rule.topic)).length ≤ 48 := by
  have h1 := subscribeLoop_spec s (s.core.rules.map Rule.topic) [] []
    (by simp only [List.length_nil, List.length_map, StateMQEsp.SEEN_LEN]; omega)
  simp only [List.nil_append, List.not_mem_nil, not_false_eq_true, decide_True,
    List.filter_true] at h1
  have hlen1 : (firstOccurrences ((s.core.rules.map Rule.topic).filter
      (fun t => t ≠ []))).length ≤ 32 := by
    have a := length_firstOccurrences_le ((s.core.rules.map Rule.topic).filter
      (fun t => t ≠ []))
    have b : ((s.core.rules.map Rule.topic).filter (fun t => t ≠ [])).length ≤
        (s.core.rules.map Rule.topic).length := List.length_filter_le _ _
    exact le_trans a (le_trans b (by rw [List.length_map]; exact hr))
  have hlen2 : ((firstOccurrences ((s.raw.map RawSlot.topic).filter
      (fun t => t ≠ []))).filter (fun t => t ∉ s.core.rules.map Rule.topic)).length ≤ 16 := by
    have a := length_firstOccurrences_le ((s.raw.map RawSlot.topic).filter
      (fun t => t ≠ []))
    have b : ((s.raw.map RawSlot.topic).filter (fun t => t ≠ [])).length ≤
        (s.raw.map RawSlot.topic).length := List.length_filter_le _ _
    have d : ((firstOccurrences ((s.raw.map RawSlot.topic).filter
        (fun t => t ≠ []))).filter (fun t => t ∉ s.core.rules.map Rule.topic)).length ≤
        (firstOccurrences ((s.raw.map RawSlot.topic).filter (fun t => t ≠ []))).length :=
      List.length_filter_le _ _
    exact le_trans d (le_trans a (le_trans b (by rw [List.length_map]; exact hw)))
  have h2 := subscribeLoop_spec s (s.raw.map RawSlot.topic)
    (firstOccurrences ((s.core.rules.map Rule.topic).filter (fun t => t ≠ [])))
    ((firstOccurrences ((s.core.rules.map Rule.topic).filter (fun t => t ≠ []))).map
      (fun t => ExtCall.subscribe t (s.qosForTopic (some t))))
    (by simp only [List.length_map, StateMQEsp.SEEN_LEN]; omega)
  have hfil : (firstOccurrences ((s.raw.map RawSlot.topic).filter (fun t => t ≠ []))).filter
      (fun t => t ∉ firstOccurrences ((s.core.rules.map Rule.topic).filter
        (fun t => t ≠ []))) =
      (firstOccurrences ((s.raw.map RawSlot.topic).filter (fun t => t ≠ []))).filter
        (fun t => t ∉ s.core.rules.map Rule.topic) := by
    apply List.filter_congr
    intro u hu
    have hune : u ≠ [] := by
      have := (mem_firstOccurrences u _).1 hu
      simp only [List.mem_filter, decide_eq_true_eq] at this
      exact this.2
    simp only [mem_firstOccurrences, List.mem_filter, decide_eq_true_eq, hune, ne_eq,
      not_false_eq_true, and_true]
  rw [hfil] at h2
  refine ⟨?_, ?_, ?_, ?_⟩
  · simp only [StateMQEsp.subscribeAllUnique, hc, h1, h2, List.map_append]
  · rw [List.nodup_append]
    refine ⟨nodup_firstOccurrences _, (nodup_firstOccurrences _).filter _, ?_⟩
    intro x hx hx2
    have a := (mem_firstOccurrences x _).1 hx
    simp only [List.mem_filter, decide_eq_true_eq] at a hx2
    exact hx2.2 a.1
  · rw [h1, h2]
  · simp only [List.length_append]
    omega

set_option maxRecDepth 100000 in
/-- Witness of `resubscription_deterministic`: in the example application, where the state
topic `"s"` is mapped twice and also subscribed raw, and `"a"` is subscribed raw, the
backend requests `"s"` once and then `"a"`. -/
theorem resubscription_deterministic_witness :
    exampleNode.client = some 5 ∧ exampleNode.core.rules.length ≤ 32 ∧
    exampleNode.raw.length ≤ 16 ∧
    exampleNode.subscribeAllUnique =
      [ExtCall.subscribe topicS 1, ExtCall.subscribe topicA 2] :=
  ⟨by decide, by decide, by decide,
    (resubscription_deterministic exampleNode 5 (by decide) (by decide) (by decide)).1.trans
      (by decide)⟩

set_option maxRecDepth 100000 in
/-- Claim C29 fails on the code. In the example application on the Arduino backend, where
the state topic `"s"` is the topic of two rules and is also subscribed raw,
`StateMQEsp32::subscribeAllUnique` requests the topic twice: once from the rule loop and
once more from the raw loop, which does not look at the rule topics. The ESP-IDF backend
requests it once on the same input. -/
theorem arduino_subscribes_twice :
    exampleNode32.Reachable ∧
    exampleNode32.core.rules.map Rule.topic = [topicS, topicS] ∧
    exampleNode32.raw.map RawSlot.topic = [topicS] ∧
    exampleNode32.mqtt = some 5 ∧
    exampleNode32.subscribeAllUnique =
      [ExtCall.subscribe topicS 1, ExtCall.subscribe topicS 1] ∧
    ((StateMQEsp.ctor StateMQ.ctor).exec
      ((exampleSetup.map (fun c => EspCall.core c 0)) ++
       [EspCall.subscribe (some topicS) 1 true,
        EspCall.begin (some topicA) none (some topicB) envOk 0,
        EspCall.onWifiGotIp (some 5) true])).subscribeAllUnique =
      [ExtCall.subscribe topicS 1] := by
  refine ⟨⟨_, rfl⟩, by decide, by decide, by decide, by decide, by decide⟩

/-! ## The claim on the backoff -/

theorem esp32_tick_attempt (s : StateMQEsp32) (now : Nat) (h1 : s.mqtt ≠ none)
    (h2 : s.mqttConnected = false) (h3 : s.nextTryMs ≤ now) :
    s.reconnectLoop now true =
      ({ s with printedWifi := false, printedMqtt := true,
                nextTryMs := (now + s.backoffMs) % UINT32_MOD,
                backoffMs := if s.backoffMs * 2 % UINT32_MOD > 30000 then 30000
                             else s.backoffMs * 2 % UINT32_MOD },
       [ExtCall.reconnect]) := by
  have hc : ¬ (s.mqtt = none ∨ s.mqttConnected = true) := by
    rw [h2]
    simp [h1]
  simp only [StateMQEsp32.reconnectLoop, Bool.not_true, Bool.false_eq_true, if_false, hc,
    ge_iff_le, h3, if_true]

theorem esp32_tick_wait (s : StateMQEsp32) (now : Nat) (h1 : s.mqtt ≠ none)
    (h2 : s.mqttConnected = false) (h3 : now < s.nextTryMs) :
    s.reconnectLoop now true = ({ s with printedWifi := false, printedMqtt := true }, []) := by
  have hc : ¬ (s.mqtt = none ∨ s.mqttConnected = true) := by
    rw [h2]
    simp [h1]
  have h4 : ¬ s.nextTryMs ≤ now := by omega
  simp only [StateMQEsp32.reconnectLoop, Bool.not_true, Bool.false_eq_true, if_false, hc,
    ge_iff_le, h4]

theorem backoff_double (b : Nat) (hb : b ≤ 30000) :
    (if b * 2 % UINT32_MOD > 30000 then 30000 else b * 2 % UINT32_MOD) =
      min (2 * b) 30000 := by
  simp only [UINT32_MOD]
  have h1 : b * 2 % 4294967296 = b * 2 := Nat.mod_eq_of_lt (by omega)
  rw [h1]
  split_ifs <;> omega

theorem retryIntervals_from (nows : List Nat) :
    ∀ (s : StateMQEsp32) (j : Nat), Inv32 s → s.backoffMs = min (2000 * 2 ^ j) 30000 →
      AttemptRun s nows →
      retryIntervals s nows =
        (List.range nows.length).map (fun k => min (2000 * 2 ^ (j + k)) 30000) := by
  induction nows with
  | nil => intro s j _ _ _; rfl
  | cons now rest ih =>
    intro s j hi hb hrun
    obtain ⟨hatt, hrest⟩ := hrun
    have hnext : (s.reconnectLoop now true).1.backoffMs = min (2000 * 2 ^ (j + 1)) 30000 := by
      rw [esp32_tick_attempt s now (hi.ticker hatt.1) hatt.2.1 hatt.2.2]
      simp only
      rw [backoff_double s.backoffMs (by rw [hb]; omega), hb, pow_succ]
      omega
    have h2 := ih (s.reconnectLoop now true).1 (j + 1) (inv32_reconnectLoop s now true hi)
      hnext hrest
    simp only [retryIntervals, List.length_cons, List.range_succ_eq_map, List.map_cons,
      List.map_map]
    rw [h2, hb]
    simp only [Nat.add_zero, List.cons.injEq, true_and]
    apply List.map_congr_left
    intro k _
    simp only [Function.comp, Nat.succ_eq_add_one]
    rw [show j + 1 + k = j + (k + 1) by omega]

/-- Claim C30. Backoff of the Arduino supervisor. The backend is constructed with
`backoffMs` at the floor 2000. In every state that the member functions can produce and
in which the supervisor task exists, a tick with the link up, the session down and
`now >= nextTryMs` requests the reconnect, schedules the next retry at `now + backoffMs`
(in `uint32_t` arithmetic, so the sum itself whenever it is below 2^32) and sets
`backoffMs` to `min(2 * backoffMs, 30000)`; the intervals of consecutive attempts starting
from the floor are 2000, 4000, 8000, 16000, 30000, 30000, ..., the `k`-th being
`min(2000 * 2^k, 30000)`; `2000 <= backoffMs <= 30000` in every such state; and a tick
with the link down, or with the session down before the deadline, makes no attempt and
does not change `backoffMs`. -/
theorem backoff_schedule :
    (StateMQEsp32.ctor StateMQ.ctor).backoffMs = 2000 ∧
    (∀ (s : StateMQEsp32) (now : Nat), s.Reachable → Attempts s now →
      (s.reconnectLoop now true).2 = [ExtCall.reconnect] ∧
      (s.reconnectLoop now true).1.nextTryMs = (now + s.backoffMs) % 4294967296 ∧
      (now + s.backoffMs < 4294967296 →
        (s.reconnectLoop now true).1.nextTryMs = now + s.backoffMs) ∧
      (s.reconnectLoop now true).1.backoffMs = min (2 * s.backoffMs) 30000) ∧
    (∀ (s : StateMQEsp32) (nows : List Nat), s.Reachable → s.backoffMs = 2000 →
      AttemptRun s nows →
      retryIntervals s nows =
        (List.range nows.length).map (fun k => min (2000 * 2 ^ k) 30000)) ∧
    (List.range 6).map (fun k => min (2000 * 2 ^ k) 30000) =
      [2000, 4000, 8000, 16000, 30000, 30000] ∧
    (∀ k : Nat, 4 ≤ k → min (2000 * 2 ^ k) 30000 = 30000) ∧
    (∀ s : StateMQEsp32, s.Reachable → 2000 ≤ s.backoffMs ∧ s.backoffMs ≤ 30000) ∧
    (∀ (s : StateMQEsp32) (now : Nat),
      (s.reconnectLoop now false).1.backoffMs = s.backoffMs ∧
      (s.reconnectLoop now false).2 = []) ∧
    (∀ (s : StateMQEsp32) (now : Nat), s.Reachable → s.reconnectTask ≠ none →
      s.mqttConnected = false → now < s.nextTryMs →
      (s.reconnectLoop now true).1.backoffMs = s.backoffMs ∧
      (s.reconnectLoop now true).2 = []) := by
  refine ⟨rfl, ?_, ?_, by decide, ?_, ?_, ?_, ?_⟩
  · intro s now hr hatt
    have hb := (reachable_inv32 s hr).backoff
    rw [esp32_tick_attempt s now ((reachable_inv32 s hr).ticker hatt.1) hatt.2.1 hatt.2.2]
    refine ⟨rfl, rfl, ?_, ?_⟩
    · intro hlt
      exact Nat.mod_eq_of_lt hlt
    · exact backoff_double s.backoffMs hb.2
  · intro s nows hr hb hrun
    have h := retryIntervals_from nows s 0 (reachable_inv32 s hr) (by rw [hb]; rfl) hrun
    simpa using h
  · intro k hk
    have h1 : 2 ^ 4 ≤ 2 ^ k := Nat.pow_le_pow_right (by omega) hk
    have h2 : (2 : Nat) ^ 4 = 16 := by norm_num
    omega
  · intro s hr
    exact (reachable_inv32 s hr).backoff
  · intro s now
    exact ⟨rfl, rfl⟩
  · intro s now hr h1 h2 h3
    rw [esp32_tick_wait s now ((reachable_inv32 s hr).ticker h1) h2 h3]
    exact ⟨rfl, rfl⟩

set_option maxRecDepth 100000 in
/-- Witness of `backoff_schedule`: in the example application after `begin`, the tick at
time 100 attempts a reconnect, schedules the next retry at 2100 and doubles the backoff to
4000; and two consecutive attempts from there use 2000 and 4000. -/
theorem backoff_schedule_witness :
    exampleNode32.Reachable ∧ Attempts exampleNode32 100 ∧
    (exampleNode32.reconnectLoop 100 true).1.nextTryMs = 100 + exampleNode32.backoffMs ∧
    (exampleNode32.reconnectLoop 100 true).1.backoffMs =
      min (2 * exampleNode32.backoffMs) 30000 ∧
    exampleNode32.backoffMs = 2000 ∧ AttemptRun exampleNode32 [100, 2100] ∧
    retryIntervals exampleNode32 [100, 2100] =
      (List.range 2).map (fun k => min (2000 * 2 ^ k) 30000) :=
  ⟨⟨_, rfl⟩, by decide,
    (backoff_schedule.2.1 exampleNode32 100 ⟨_, rfl⟩ (by decide)).2.2.1 (by decide),
    (backoff_schedule.2.1 exampleNode32 100 ⟨_, rfl⟩ (by decide)).2.2.2,
    by decide, by simp only [AttemptRun]; decide,
    backoff_schedule.2.2.1 exampleNode32 [100, 2100] ⟨_, rfl⟩ (by decide)
      (by simp only [AttemptRun]; decide)⟩

/-! ## The coupling of connectivity and state -/

/-- Under the invariant a stored name survives the copy of `state()` unchanged. -/
theorem take_known (n : StateMQ) (h : Inv n) (i : Nat) (k : CStr)
    (hk : n.knownStates.get? i = some k) : k.take (STATE_LEN - 1) = k := by
  have hm : k ∈ n.knownStates := List.get?_mem hk
  exact List.take_of_length_le (h.names_short k hm)

/-- Under the invariant `state()` is the name that `stateName` gives for `stateId()`. -/
theorem state_eq_stateName_of_inv (n : StateMQ) (h : Inv n) :
    n.state = n.stateName n.stateId := by
  have hid := stateId_eq_of_inv n h
  unfold StateMQ.stateName StateMQ.stateStrForId
  rw [hid]
  unfold StateMQ.state
  cases hc : n.connected_ with
  | false =>
    have h0 : n.stateId_ = OFFLINE_ID := (h.offline_iff).2 hc
    simp only [Bool.not_false, if_true, h0]
    rfl
  | true =>
    have h0 : n.stateId_ ≠ OFFLINE_ID := fun e => by
      have := (h.offline_iff).1 e
      rw [hc] at this
      cases this
    simp only [Bool.not_true, Bool.false_eq_true, if_false, if_neg h0]
    by_cases h2 : n.stateId_ ≥ 2
    · have h1 : n.stateId_ ≠ CONNECTED_ID := by simp only [CONNECTED_ID]; omega
      simp only [if_pos h2, if_neg h1]
      cases hk : n.knownStates.get? (n.stateId_ - 2) with
      | none => rfl
      | some k => exact take_known n h _ k hk
    · have h1 : n.stateId_ = CONNECTED_ID := by
        simp only [OFFLINE_ID, CONNECTED_ID] at *
        omega
      simp only [if_neg h2, if_pos h1]
      rfl

/-- Under the invariant a connected engine does not report the name OFFLINE. -/
theorem state_ne_offline_of_inv (n : StateMQ) (h : Inv n) (hc : n.connected_ = true) :
    n.state ≠ OFFLINE_STATE := by
  unfold StateMQ.state
  simp only [hc, Bool.not_true, Bool.false_eq_true, if_false]
  by_cases h2 : n.stateId_ ≥ 2
  · simp only [if_pos h2]
    cases hk : n.knownStates.get? (n.stateId_ - 2) with
    | none => decide
    | some k =>
      simp only [take_known n h _ k hk]
      intro e
      exact h.reserved.1 (e ▸ List.get?_mem hk)
  · simp only [if_neg h2]
    decide

/-- The connected engine in RUNNING arises from the constructor. -/
theorem reachable_runningNodeIn : Reachable runningNodeIn :=
  ⟨[Call.map (some topicT) (some payloadRun) (some nameRunning), Call.setConnected true,
    Call.applyMessage (some topicT) (some payloadRun)], rfl⟩

/-! ## The claims on the engine invariants -/

/-- Claim C35. Connectivity and state are coupled: in every engine state that the public
interface can produce, the stored state id is `OFFLINE_ID` exactly when `connected()` is
false; hence `stateId()` is the stored id, and a connected engine reports neither
`OFFLINE_ID` nor the name OFFLINE. -/
theorem connectivity_coupled (n : StateMQ) (hr : Reachable n) :
    (n.stateId_ = OFFLINE_ID ↔ n.connected = false) ∧
    n.stateId = n.stateId_ ∧
    (n.connected = true → n.stateId ≠ OFFLINE_ID ∧ n.state ≠ OFFLINE_STATE) := by
  have h := reachable_inv n hr
  refine ⟨h.offline_iff, stateId_eq_of_inv n h, fun hc => ⟨?_, state_ne_offline_of_inv n h hc⟩⟩
  rw [stateId_eq_of_inv n h]
  intro e
  have := (h.offline_iff).1 e
  unfold StateMQ.connected at hc
  rw [hc] at this
  cases this

/-- Witness of `connectivity_coupled`: the connected engine in RUNNING. -/
theorem connectivity_coupled_witness :
    Reachable runningNodeIn ∧
    (runningNodeIn.stateId_ = OFFLINE_ID ↔ runningNodeIn.connected = false) ∧
    runningNodeIn.stateId = runningNodeIn.stateId_ ∧
    (runningNodeIn.connected = true →
      runningNodeIn.stateId ≠ OFFLINE_ID ∧ runningNodeIn.state ≠ OFFLINE_STATE) :=
  ⟨reachable_runningNodeIn, connectivity_coupled runningNodeIn reachable_runningNodeIn⟩

/-- Claim C36. Stored identifiers are valid: in every engine state that the public
interface can produce, the number of registered states is at most `ruleCount()`, which is
at most 32; the target of every rule is `CONNECTED_ID` or the id of a registered state and
never `OFFLINE_ID`; the stored current id is `OFFLINE_ID`, `CONNECTED_ID` or the id of a
registered state; the last user id is `CONNECTED_ID` or the id of a registered state and
never `OFFLINE_ID`; therefore on the connected engine `setStateId`, asked for the target of
a rule or for the last user id, makes exactly that id current and does not put
`CONNECTED_ID` in its place. -/
theorem stored_ids_valid (n : StateMQ) (hr : Reachable n) :
    n.knownStates.length ≤ n.ruleCount ∧ n.ruleCount ≤ 32 ∧
    (∀ r ∈ n.rules, r.stateId ≠ OFFLINE_ID ∧
      (r.stateId = CONNECTED_ID ∨ (2 ≤ r.stateId ∧ r.stateId < 2 + n.knownStates.length))) ∧
    (n.stateId_ = OFFLINE_ID ∨ n.stateId_ = CONNECTED_ID ∨
      (2 ≤ n.stateId_ ∧ n.stateId_ < 2 + n.knownStates.length)) ∧
    (n.lastUserStateId_ ≠ OFFLINE_ID ∧
      (n.lastUserStateId_ = CONNECTED_ID ∨
        (2 ≤ n.lastUserStateId_ ∧ n.lastUserStateId_ < 2 + n.knownStates.length))) ∧
    (n.connected_ = true → ∀ (u : Bool) (c : StateChangeCause) (t p : Option CStr) (ri : Int),
      (∀ r ∈ n.rules, (n.setStateId r.stateId u c t p ri).node.stateId_ = r.stateId) ∧
      (n.setStateId n.lastUserStateId_ u c t p ri).node.stateId_ = n.lastUserStateId_) := by
  have h := reachable_inv n hr
  refine ⟨h.known_le_rules, h.rules_le, ?_, h.state_id, ⟨?_, h.last_id⟩, ?_⟩
  · intro r hm
    have hv := h.rule_ids r hm
    refine ⟨?_, hv⟩
    simp only [OFFLINE_ID, CONNECTED_ID] at *
    omega
  · have hv := h.last_id
    simp only [OFFLINE_ID, CONNECTED_ID] at *
    omega
  · intro hc u c t p ri
    exact ⟨fun r hm => (setStateId_connected n _ u c t p ri hc (h.rule_ids r hm)).1,
      (setStateId_connected n _ u c t p ri hc h.last_id).1⟩

/-- Witness of `stored_ids_valid`: the connected engine in RUNNING. -/
theorem stored_ids_valid_witness :
    Reachable runningNodeIn ∧ runningNodeIn.knownStates.length ≤ runningNodeIn.ruleCount ∧
    runningNodeIn.ruleCount ≤ 32 :=
  ⟨reachable_runningNodeIn, (stored_ids_valid runningNodeIn reachable_runningNodeIn).1,
    (stored_ids_valid runningNodeIn reachable_runningNodeIn).2.1⟩

/-- Claim C37. The two state queries agree: in every engine state that the public
interface can produce, the string of `state()` is the string of `stateName(stateId())`;
stored names have at most 15 characters, so the copy of `state()` cuts nothing. -/
theorem state_queries_agree (n : StateMQ) (hr : Reachable n) :
    n.state = n.stateName n.stateId ∧ (∀ k ∈ n.knownStates, k.length ≤ 15) :=
  ⟨state_eq_stateName_of_inv n (reachable_inv n hr), (reachable_inv n hr).names_short⟩

/-- Witness of `state_queries_agree`: the connected engine in RUNNING. -/
theorem state_queries_agree_witness :
    Reachable runningNodeIn ∧ runningNodeIn.state = nameRunning ∧
    runningNodeIn.state = runningNodeIn.stateName runningNodeIn.stateId :=
  ⟨reachable_runningNodeIn, by decide, (state_queries_agree runningNodeIn reachable_runningNodeIn).1⟩

/-! ## The context of a notification -/

/-- What a notification fired by `setStateId` carries. -/
theorem setStateId_fired_mem (n : StateMQ) (d : Nat) (u : Bool) (c : StateChangeCause)
    (t p : Option CStr) (ri : Int) (ctx : StateChangeCtx)
    (hm : ctx ∈ (n.setStateId d u c t p ri).fired) :
    ctx.curr = (n.setStateId d u c t p ri).node.stateId_ ∧ ctx.desired = d ∧ ctx.cause = c ∧
    ctx.ruleIndex = ri ∧ ctx.topic = t ∧ ctx.payload = p := by
  obtain ⟨e1, e2⟩ := setStateId_edge n d u c t p ri
  by_cases hs : (n.setStateId d u c t p ri).node.stateId_ = n.stateId_
  · rw [(e1 hs).1] at hm
    cases hm
  · obtain ⟨ctx2, hf, _, h2, h3, h4, h5, h6, h7, _⟩ := e2 hs
    rw [hf, List.mem_singleton] at hm
    subst hm
    exact ⟨h2, h3, h4, h5, h6, h7⟩

/-- An extended handler is invoked by `setStateId` only with a context that was fired. -/
theorem setStateId_cbEx_mem (n : StateMQ) (d : Nat) (u : Bool) (c : StateChangeCause)
    (t p : Option CStr) (ri : Int) (f : Nat) (ctx : StateChangeCtx)
    (hm : CbCall.cbEx f ctx ∈ (n.setStateId d u c t p ri).calls) :
    ctx ∈ (n.setStateId d u c t p ri).fired := by
  obtain ⟨e1, e2⟩ := setStateId_edge n d u c t p ri
  by_cases hs : (n.setStateId d u c t p ri).node.stateId_ = n.stateId_
  · rw [(e1 hs).2] at hm
    cases hm
  · obtain ⟨ctx2, hf, _, _, _, _, _, _, _, hc⟩ := e2 hs
    rw [hc] at hm
    rw [hf, List.mem_singleton]
    unfold StateMQ.notify at hm
    simp only [List.mem_append] at hm
    rcases hm with hm | hm
    · cases hcb : (n.setStateId d u c t p ri).node.stateCb with
      | none => rw [hcb] at hm; cases hm
      | some g => rw [hcb] at hm; simp at hm
    · cases hcb : (n.setStateId d u c t p ri).node.stateCbEx with
      | none => rw [hcb] at hm; cases hm
      | some g =>
        rw [hcb] at hm
        simp only [List.mem_singleton, CbCall.cbEx.injEq] at hm
        exact hm.2

/-- A notification of `applyMessage` under the invariant: the engine was connected, the
state requested is the state reached, the cause is the rule, and the index, topic and
payload of the rule are present. -/
theorem applyMessage_fired_ctx (n : StateMQ) (h : Inv n) (t p : Option CStr)
    (ctx : StateChangeCtx) (hm : ctx ∈ (n.applyMessage t p).2.fired) :
    n.connected_ = true ∧ ctx.desired = ctx.curr ∧ ctx.cause = StateChangeCause.RuleMatch ∧
    0 ≤ ctx.ruleIndex ∧ ctx.ruleIndex < 32 ∧ ctx.topic = t ∧ ctx.payload = p ∧
    t ≠ none ∧ p ≠ none := by
  cases hc : n.connected_ with
  | false =>
    rw [applyMessage_disconnected n t p hc ((h.offline_iff).2 hc)] at hm
    cases hm
  | true =>
  unfold StateMQ.applyMessage at hm
  cases t with
  | none => cases hm
  | some t =>
  cases p with
  | none => cases hm
  | some p =>
  simp only [] at hm
  cases hr : matchRule t p n.rules 0 with
  | none => rw [hr] at hm; cases hm
  | some v =>
    obtain ⟨id, i⟩ := v
    rw [hr] at hm
    simp only [] at hm
    obtain ⟨r, hrm, hid, _, _, _, hi⟩ := matchRule_some_mem t p n.rules 0 id i hr
    have hv := h.rule_ids r hrm
    rw [hid] at hv
    obtain ⟨g1, g2, g3, g4, g5, g6⟩ := setStateId_fired_mem n id true _ _ _ _ ctx hm
    have hnode := (setStateId_connected n id true StateChangeCause.RuleMatch (some t) (some p)
      (toInt16 i) hc hv).1
    have hlen := h.rules_le
    simp only [MAX_RULES] at hlen
    have hi2 : i < 32768 := by omega
    rw [toInt16_small i hi2] at g4
    refine ⟨rfl, ?_, g3, ?_, ?_, g5, g6, by simp, by simp⟩
    · rw [g1, g2, hnode]
    · rw [g4]; exact Int.natCast_nonneg i
    · rw [g4]; omega

/-- A notification of `setConnected` under the invariant: the state requested is the state
reached, the cause is the connectivity change, and no rule, topic or payload is attached. -/
theorem setConnected_fired_ctx (n : StateMQ) (h : Inv n) (b : Bool)
    (ctx : StateChangeCtx) (hm : ctx ∈ (n.setConnected b).fired) :
    ctx.desired = ctx.curr ∧
    ctx.cause = (if b then StateChangeCause.Connected else StateChangeCause.Disconn) ∧
    ctx.ruleIndex = -1 ∧ ctx.topic = none ∧ ctx.payload = none := by
  unfold StateMQ.setConnected at hm
  simp only [] at hm
  obtain ⟨g1, g2, g3, g4, g5, g6⟩ := setStateId_fired_mem _ _ _ _ _ _ _ ctx hm
  refine ⟨?_, g3, g4, g5, g6⟩
  rw [g1, g2]
  cases b with
  | false =>
    exact ((setStateId_disconnected _ _ _ _ _ _ _ rfl).1).symm
  | true =>
    refine ((setStateId_connected _ _ _ _ _ _ _ rfl ?_).1).symm
    have hv := h.last_id
    simp only [Bool.not_true, Bool.false_eq_true, if_false]
    by_cases h2 : n.lastUserStateId_ ≥ 2
    · simp only [if_pos h2]
      right
      simp only [CONNECTED_ID] at hv
      omega
    · simp only [if_neg h2]
      left
      trivial

/-! ## The claim on the notification context -/

/-- Claim C38. Consistency of the notification context: in every notification that a call
of the public interface fires from an engine state that the interface can produce, and in
every context handed to the extended handler, `ctx.desired` equals `ctx.curr`; the cause is
`RuleMatch` exactly when `ruleIndex` is at least 0 and topic and payload are present; the
cause is `Connected` or `Disconn` exactly when `ruleIndex` is -1 and topic and payload are
null; and `applyMessage` on the disconnected engine fires no notification and invokes no
handler at all. -/
theorem notification_context_consistent (n : StateMQ) (hr : Reachable n) (c : Call) :
    (∀ ctx ∈ n.stepFired c,
      ctx.desired = ctx.curr ∧
      (ctx.cause = StateChangeCause.RuleMatch ↔
        (0 ≤ ctx.ruleIndex ∧ ctx.topic ≠ none ∧ ctx.payload ≠ none)) ∧
      ((ctx.cause = StateChangeCause.Connected ∨ ctx.cause = StateChangeCause.Disconn) ↔
        (ctx.ruleIndex = -1 ∧ ctx.topic = none ∧ ctx.payload = none))) ∧
    (∀ f ctx, CbCall.cbEx f ctx ∈ n.stepCalls c → ctx ∈ n.stepFired c) ∧
    (∀ t p, n.connected = false →
      (n.applyMessage t p).2.fired = [] ∧ (n.applyMessage t p).2.calls = []) := by
  have h := reachable_inv n hr
  refine ⟨?_, ?_, ?_⟩
  · intro ctx hm
    cases c with
    | applyMessage t p =>
      obtain ⟨_, g1, g2, g3, _, g5, g6, g7, g8⟩ := applyMessage_fired_ctx n h t p ctx hm
      refine ⟨g1, ⟨fun _ => ⟨g3, g5 ▸ g7, g6 ▸ g8⟩, fun _ => g2⟩, ?_⟩
      constructor
      · intro hc
        rw [g2] at hc
        rcases hc with hc | hc <;> cases hc
      · intro hc
        rw [hc.1] at g3
        omega
    | setConnected b =>
      obtain ⟨g1, g2, g3, g4, g5⟩ := setConnected_fired_ctx n h b ctx hm
      refine ⟨g1, ?_, ⟨fun _ => ⟨g3, g4, g5⟩, fun _ => ?_⟩⟩
      · constructor
        · intro hc
          rw [g2] at hc
          cases b <;> cases hc
        · intro hc
          rw [g3] at hc
          omega
      · rw [g2]
        cases b
        · right; rfl
        · left; rfl
    | map t m st => cases hm
    | taskEvery nm per stk cb en => cases hm
    | taskEveryEx nm per stk cb us en => cases hm
    | taskEnable id en => cases hm
    | onStateChange cb => cases hm
    | onStateChangeEx cb us => cases hm
  · intro f ctx hm
    cases c with
    | applyMessage t p =>
      simp only [StateMQ.stepCalls, StateMQ.stepFired] at *
      unfold StateMQ.applyMessage at *
      cases t with
      | none => cases hm
      | some t =>
      cases p with
      | none => cases hm
      | some p =>
      simp only [] at *
      cases hmr : matchRule t p n.rules 0 with
      | none => rw [hmr] at hm; cases hm
      | some v =>
        rw [hmr] at hm
        exact setStateId_cbEx_mem _ _ _ _ _ _ _ f ctx hm
    | setConnected b => exact setStateId_cbEx_mem _ _ _ _ _ _ _ f ctx hm
    | map t m st => cases hm
    | taskEvery nm per stk cb en => cases hm
    | taskEveryEx nm per stk cb us en => cases hm
    | taskEnable id en => cases hm
    | onStateChange cb => cases hm
    | onStateChangeEx cb us => cases hm
  · intro t p hc
    rw [applyMessage_disconnected n t p hc ((h.offline_iff).2 hc)]
    exact ⟨rfl, rfl⟩

/-- Witness of `notification_context_consistent`: a message on the connected engine in
RUNNING, and the notification of its disconnection. -/
theorem notification_context_consistent_witness :
    Reachable runningNodeIn ∧
    (runningNodeIn.stepFired (Call.setConnected false)).length = 1 ∧
    (∀ ctx ∈ runningNodeIn.stepFired (Call.setConnected false),
      ctx.desired = ctx.curr ∧
      (ctx.cause = StateChangeCause.RuleMatch ↔
        (0 ≤ ctx.ruleIndex ∧ ctx.topic ≠ none ∧ ctx.payload ≠ none)) ∧
      ((ctx.cause = StateChangeCause.Connected ∨ ctx.cause = StateChangeCause.Disconn) ↔
        (ctx.ruleIndex = -1 ∧ ctx.topic = none ∧ ctx.payload = none))) :=
  ⟨reachable_runningNodeIn, by decide,
    (notification_context_consistent runningNodeIn reachable_runningNodeIn
      (Call.setConnected false)).1⟩

/-! ## Telemetry while the session is down -/

/-- The handler of the ESP-IDF backend returns at once, publishing nothing and changing
nothing, when the session flag is clear, when there is no client, when telemetry is
disabled and when the publish topic is null or empty. -/
theorem esp_trampoline_silent (s : StateMQEsp) (ctx : StateChangeCtx) (up : Nat)
    (h : s.mqttConnected = false ∨ s.client = none ∨ s.statePubEnabled = false ∨
      s.stateTopic = none ∨ s.stateTopic = some []) :
    s.on_state_change_trampoline ctx up = (s, []) := by
  simp only [StateMQEsp.on_state_change_trampoline]
  cases ctx.user with
  | none => rfl
  | some u =>
    simp only []
    by_cases he : s.statePubEnabled = false
    · simp [he]
    · have he2 : s.statePubEnabled = true := by
        cases hx : s.statePubEnabled
        · exact absurd hx he
        · rfl
      simp only [he2, Bool.not_true, Bool.false_eq_true, if_false]
      cases ht : s.stateTopic with
      | none => rfl
      | some st =>
        simp only []
        by_cases hst : st = []
        · simp [hst]
        · simp only [if_neg hst]
          have hg : s.client = none ∨ s.mqttConnected = false := by
            rcases h with h | h | h | h | h
            · exact Or.inr h
            · exact Or.inl h
            · exact absurd h he
            · rw [ht] at h; cases h
            · rw [ht] at h
              simp only [Option.some.injEq] at h
              exact absurd h hst
          simp only [if_pos hg]

/-- While the session flag is clear the delivery of handler invocations leaves the backend
as it is and publishes no telemetry. -/
theorem esp_deliver_down (up : Nat) (cs : List CbCall) (s : StateMQEsp)
    (h : s.mqttConnected = false) :
    (StateMQEsp.deliver s up cs).1 = s ∧
    ∀ c ∈ (StateMQEsp.deliver s up cs).2, c.isTelemetry = false := by
  induction cs with
  | nil => exact ⟨rfl, fun c hc => by cases hc⟩
  | cons c cs ih =>
    cases c with
    | cb fn p n =>
      simp only [StateMQEsp.deliver]
      refine ⟨ih.1, fun c hc => ?_⟩
      rcases List.mem_cons.1 hc with hc | hc
      · subst hc; rfl
      · exact ih.2 c hc
    | cbEx fn ctx =>
      simp only [StateMQEsp.deliver]
      split_ifs
      · rw [esp_trampoline_silent s ctx up (Or.inl h)]
        simp only [List.nil_append]
        exact ih
      · exact ih
      · refine ⟨ih.1, fun c hc => ?_⟩
        rcases List.mem_cons.1 hc with hc | hc
        · subst hc; rfl
        · exact ih.2 c hc

/-- A notifying call on the engine made while the session flag is clear replaces the
engine and publishes no telemetry. -/
theorem esp_withCore_down (s : StateMQEsp) (e : Effect) (up : Nat)
    (h : s.mqttConnected = false) :
    (s.withCore e up).1 = { s with core := e.node } ∧
    ∀ c ∈ (s.withCore e up).2, c.isTelemetry = false :=
  esp_deliver_down up e.calls { s with core := e.node } h

/-! ## The claim on suppressed telemetry -/

/-- Claim C33. Telemetry is suppressed while the session is down (ESP-IDF backend): a
notification handled while the session flag is false, or without a client, or with
telemetry disabled, or with a null or empty publish topic, publishes nothing and leaves the
backend, and so the pair `(hasLastStatePub, lastStatePub)`, unchanged; in particular the
session-lost event and the link-down event, which take the engine to OFFLINE, publish no
telemetry message and leave that pair unchanged. -/
theorem telemetry_suppressed (s : StateMQEsp) (ctx : StateChangeCtx) (up : Nat) :
    ((s.mqttConnected = false ∨ s.client = none ∨ s.statePubEnabled = false ∨
        s.stateTopic = none ∨ s.stateTopic = some []) →
      s.on_state_change_trampoline ctx up = (s, [])) ∧
    ((∀ c ∈ (s.onMqttDisconnected up).2, c.isTelemetry = false) ∧
      (s.onMqttDisconnected up).1.hasLastStatePub = s.hasLastStatePub ∧
      (s.onMqttDisconnected up).1.lastStatePub = s.lastStatePub ∧
      (s.onMqttDisconnected up).1.core.stateId = OFFLINE_ID) ∧
    ((∀ c ∈ (s.onWifiDisconnected up).2, c.isTelemetry = false) ∧
      (s.onWifiDisconnected up).1.hasLastStatePub = s.hasLastStatePub ∧
      (s.onWifiDisconnected up).1.lastStatePub = s.lastStatePub ∧
      (s.onWifiDisconnected up).1.core.stateId = OFFLINE_ID) := by
  refine ⟨esp_trampoline_silent s ctx up, ?_, ?_⟩
  · obtain ⟨h1, h2⟩ := esp_withCore_down { s with mqttConnected := false }
      (s.core.setConnected false) up rfl
    simp only [StateMQEsp.onMqttDisconnected]
    refine ⟨h2, ?_, ?_, ?_⟩
    · rw [h1]
    · rw [h1]
    · rw [h1]
      simp only [setConnected_false_node]
      rfl
  · obtain ⟨h1, h2⟩ := esp_withCore_down { s with wifiHasIp := false, mqttConnected := false }
      (s.core.setConnected false) up rfl
    simp only [StateMQEsp.onWifiDisconnected]
    refine ⟨h2, ?_, ?_, ?_⟩
    · rw [h1]
    · rw [h1]
    · rw [h1]
      simp only [setConnected_false_node]
      rfl

/-- Witness of `telemetry_suppressed`: on the backend with telemetry on the topic `"s"`
whose session is not yet up, the handler publishes nothing. -/
theorem telemetry_suppressed_witness :
    retainOffNode.mqttConnected = false ∧
    retainOffNode.on_state_change_trampoline noticeConnected.ctx 10 = (retainOffNode, []) :=
  ⟨by decide,
    (telemetry_suppressed retainOffNode noticeConnected.ctx 10).1 (Or.inl (by decide))⟩

/-! ## The telemetry chain -/

/-- One notification handled by the ESP-IDF backend with telemetry enabled on the topic
`st`: with the session up the message is published and the marker set, else nothing
happens. -/
theorem esp_handle_one (s : StateMQEsp) (m : Notice) (st : CStr)
    (he : s.statePubEnabled = true) (ht : s.stateTopic = some st) (hst : st ≠ [])
    (hu : m.ctx.user ≠ none) :
    ({ s with client := m.client, mqttConnected := m.mqttConnected }
      ).on_state_change_trampoline m.ctx m.uptime =
    if m.client ≠ none ∧ m.mqttConnected = true then
      ({ s with client := m.client, mqttConnected := m.mqttConnected,
                lastStatePub := m.ctx.curr, hasLastStatePub := true },
        [ExtCall.publishState st
          (s.core.stateName (if s.hasLastStatePub then s.lastStatePub else m.ctx.prev))
          (s.core.stateName m.ctx.curr) m.uptime
          (clamp_qos (if s.statePubQos < 0 then s.defaultPubQos else s.statePubQos))
          s.retainState])
    else ({ s with client := m.client, mqttConnected := m.mqttConnected }, []) := by
  simp only [StateMQEsp.on_state_change_trampoline]
  cases hx : m.ctx.user with
  | none => exact absurd hx hu
  | some u =>
    simp only [he, ht, Bool.not_true, Bool.false_eq_true, if_false, if_neg hst]
    by_cases hup : m.client ≠ none ∧ m.mqttConnected = true
    · have hg : ¬ (m.client = none ∨ m.mqttConnected = false) := by
        intro h
        rcases h with h | h
        · exact hup.1 h
        · rw [hup.2] at h; cases h
      simp only [if_neg hg, if_pos hup]
    · have hg : m.client = none ∨ m.mqttConnected = false := by
        by_cases hc : m.client = none
        · exact Or.inl hc
        · right
          cases hm : m.mqttConnected
          · rfl
          · exact absurd ⟨hc, hm⟩ hup
      simp only [if_pos hg, if_neg hup]

/-- The messages that the ESP-IDF backend publishes for a sequence of notifications are
those of the telemetry chain that starts at its marker. -/
theorem esp_handleAll_chain (st : CStr) (hst : st ≠ []) (core : StateMQ) (q : Int) (r : Bool)
    (ms : List Notice) (hu : ∀ m ∈ ms, m.ctx.user ≠ none) :
    ∀ s : StateMQEsp, s.statePubEnabled = true → s.stateTopic = some st → s.core = core →
      clamp_qos (if s.statePubQos < 0 then s.defaultPubQos else s.statePubQos) = q →
      s.retainState = r →
      (s.handleAll ms).2 =
        (telemetryChain (if s.hasLastStatePub then some s.lastStatePub else none) ms).map
          (fun x => ExtCall.publishState st (core.stateName x.1) (core.stateName x.2.1)
            x.2.2 q r) := by
  induction ms with
  | nil => intro s _ _ _ _ _; rfl
  | cons m ms ih =>
    intro s he ht hc hq hr
    have hu2 : ∀ x ∈ ms, x.ctx.user ≠ none := fun x hx => hu x (List.mem_cons_of_mem _ hx)
    have h1 := esp_handle_one s m st he ht hst (hu m (List.mem_cons_self _ _))
    simp only [StateMQEsp.handleAll, telemetryChain]
    rw [h1]
    by_cases hup : m.client ≠ none ∧ m.mqttConnected = true
    · simp only [if_pos hup, List.map_cons, List.singleton_append]
      have h2 := ih hu2
        { s with client := m.client, mqttConnected := m.mqttConnected,
                 lastStatePub := m.ctx.curr, hasLastStatePub := true }
        he ht hc hq hr
      simp only [if_true] at h2
      rw [h2, hc, hq, hr]
      cases hl : s.hasLastStatePub <;> simp
    · simp only [if_neg hup, List.nil_append]
      exact ih hu2 { s with client := m.client, mqttConnected := m.mqttConnected } he ht hc hq hr

/-- One notification handled by the Arduino backend with telemetry enabled on the topic
`st`. -/
theorem esp32_handle_one (s : StateMQEsp32) (m : Notice) (st : CStr)
    (he : s.statePubEnabled = true) (ht : s.stateTopic = some st) (hst : st ≠ [])
    (hu : m.ctx.user ≠ none) :
    ({ s with mqtt := m.client, mqttConnected := m.mqttConnected }
      ).on_state_change_trampoline m.ctx m.uptime =
    if m.client ≠ none ∧ m.mqttConnected = true then
      ({ s with mqtt := m.client, mqttConnected := m.mqttConnected,
                lastStatePub := m.ctx.curr, hasLastStatePub := true },
        [ExtCall.publishState st
          (s.core.stateName (if s.hasLastStatePub then s.lastStatePub else m.ctx.prev))
          (s.core.stateName m.ctx.curr) m.uptime
          (if (if s.statePubQos < 0 then 1 else s.statePubQos) > 2 then 2
           else (if s.statePubQos < 0 then 1 else s.statePubQos))
          s.statePubRetain])
    else ({ s with mqtt := m.client, mqttConnected := m.mqttConnected }, []) := by
  simp only [StateMQEsp32.on_state_change_trampoline]
  cases hx : m.ctx.user with
  | none => exact absurd hx hu
  | some u =>
    simp only [he, ht, Bool.not_true, Bool.false_eq_true, if_false, if_neg hst]
    by_cases hup : m.client ≠ none ∧ m.mqttConnected = true
    · have hg : ¬ (m.client = none ∨ m.mqttConnected = false) := by
        intro h
        rcases h with h | h
        · exact hup.1 h
        · rw [hup.2] at h; cases h
      simp only [if_neg hg, if_pos hup]
    · have hg : m.client = none ∨ m.mqttConnected = false := by
        by_cases hc : m.client = none
        · exact Or.inl hc
        · right
          cases hm : m.mqttConnected
          · rfl
          · exact absurd ⟨hc, hm⟩ hup
      simp only [if_pos hg, if_neg hup]

/-- The messages that the Arduino backend publishes for a sequence of notifications are
those of the telemetry chain that starts at its marker. -/
theorem esp32_handleAll_chain (st : CStr) (hst : st ≠ []) (core : StateMQ) (q : Int)
    (r : Bool) (ms : List Notice) (hu : ∀ m ∈ ms, m.ctx.user ≠ none) :
    ∀ s : StateMQEsp32, s.statePubEnabled = true → s.stateTopic = some st → s.core = core →
      (if (if s.statePubQos < 0 then 1 else s.statePubQos) > 2 then 2
       else (if s.statePubQos < 0 then 1 else s.statePubQos)) = q →
      s.statePubRetain = r →
      (s.handleAll ms).2 =
        (telemetryChain (if s.hasLastStatePub then some s.lastStatePub else none) ms).map
          (fun x => ExtCall.publishState st (core.stateName x.1) (core.stateName x.2.1)
            x.2.2 q r) := by
  induction ms with
  | nil => intro s _ _ _ _ _; rfl
  | cons m ms ih =>
    intro s he ht hc hq hr
    have hu2 : ∀ x ∈ ms, x.ctx.user ≠ none := fun x hx => hu x (List.mem_cons_of_mem _ hx)
    have h1 := esp32_handle_one s m st he ht hst (hu m (List.mem_cons_self _ _))
    simp only [StateMQEsp32.handleAll, telemetryChain]
    rw [h1]
    by_cases hup : m.client ≠ none ∧ m.mqttConnected = true
    · simp only [if_pos hup, List.map_cons, List.singleton_append]
      have h2 := ih hu2
        { s with mqtt := m.client, mqttConnected := m.mqttConnected,
                 lastStatePub := m.ctx.curr, hasLastStatePub := true }
        he ht hc hq hr
      simp only [if_true] at h2
      rw [h2, hc, hq, hr]
      cases hl : s.hasLastStatePub <;> simp
    · simp only [if_neg hup, List.nil_append]
      exact ih hu2 { s with mqtt := m.client, mqttConnected := m.mqttConnected } he ht hc hq hr

/-! ## Properties of the telemetry chain -/

/-- Notifications handled with the session down do not enter the chain. -/
theorem telemetryChain_skip (last : Option Nat) (pre ms : List Notice)
    (hp : ∀ y ∈ pre, ¬ y.up) : telemetryChain last (pre ++ ms) = telemetryChain last ms := by
  induction pre with
  | nil => rfl
  | cons y ys ih =>
    have hy : ¬ (y.client ≠ none ∧ y.mqttConnected = true) := hp y (List.mem_cons_self _ _)
    simp only [List.cons_append, telemetryChain, if_neg hy]
    exact ih (fun z hz => hp z (List.mem_cons_of_mem _ hz))

/-- The chain is linked: each `prev` is the `curr` before it, and the first `prev` is the
marker if there is one. -/
theorem telemetryChain_linked (ms : List Notice) :
    ∀ last : Option Nat,
      List.Chain' (fun a b : Nat × Nat × Nat => b.1 = a.2.1) (telemetryChain last ms) ∧
      ∀ p, last = some p → ∀ x ∈ (telemetryChain last ms).head?, x.1 = p := by
  induction ms with
  | nil =>
    intro last
    exact ⟨List.chain'_nil, fun p _ x hx => by cases hx⟩
  | cons m ms ih =>
    intro last
    by_cases hup : m.client ≠ none ∧ m.mqttConnected = true
    · simp only [telemetryChain, if_pos hup]
      refine ⟨?_, ?_⟩
      · rw [List.chain'_cons']
        exact ⟨fun y hy => (ih (some m.ctx.curr)).2 m.ctx.curr rfl y hy,
          (ih (some m.ctx.curr)).1⟩
      · intro p hp x hx
        subst hp
        simp only [List.head?_cons, Option.mem_def, Option.some.injEq] at hx
        subst hx
        rfl
    · simp only [telemetryChain, if_neg hup]
      exact ih last

/-- The `curr` and the clock reading of the chain are those of the notifications handled
with the session up. -/
theorem telemetryChain_currs (ms : List Notice) :
    ∀ last : Option Nat,
      (telemetryChain last ms).map (fun x => (x.2.1, x.2.2)) =
        (ms.filter (fun m => decide m.up)).map (fun m => (m.ctx.curr, m.uptime)) := by
  induction ms with
  | nil => intro last; rfl
  | cons m ms ih =>
    intro last
    by_cases hup : m.client ≠ none ∧ m.mqttConnected = true
    · have hd : decide m.up = true := decide_eq_true hup
      simp only [telemetryChain, if_pos hup, List.map_cons, List.filter_cons, hd, if_true]
      rw [ih]
    · have hd : decide m.up = false := decide_eq_false hup
      simp only [telemetryChain, if_neg hup, List.filter_cons, hd, Bool.false_eq_true,
        if_false]
      exact ih last

/-! ## The claim on the telemetry chain -/

/-- Claim C32. Continuity of the telemetry chain: after `StatePublishTopic(topic, qos,
true, retain)` with a non-empty topic, for every sequence of notifications delivered to the
state-change handler of the backend, with the session up or down at each of them, the
messages published (by the ESP-IDF backend and by the Arduino backend) are those of the
telemetry chain, one for each notification handled with the session up and none for the
others; the first message has `prev` equal to `ctx.prev` of its notification, every later
message has `prev` equal to the `curr` of the message published before it, and each message
has `curr` equal to `ctx.curr` of its notification. -/
theorem telemetry_chain_continuity (s0 : StateMQEsp) (t0 : StateMQEsp32) (st : CStr)
    (qos : Int) (retain : Bool) (ms : List Notice) (hst : st ≠ [])
    (hu : ∀ m ∈ ms, m.ctx.user ≠ none) :
    ((s0.StatePublishTopic (some st) qos true retain true).handleAll ms).2 =
      (telemetryChain none ms).map
        (fun x => ExtCall.publishState st (s0.core.stateName x.1) (s0.core.stateName x.2.1)
          x.2.2 (clamp_qos (if qos < 0 then s0.defaultPubQos else qos)) s0.retainState) ∧
    ((t0.StatePublishTopic (some st) qos true retain true).handleAll ms).2 =
      (telemetryChain none ms).map
        (fun x => ExtCall.publishState st (t0.core.stateName x.1) (t0.core.stateName x.2.1)
          x.2.2 (if (if qos < 0 then 1 else qos) > 2 then 2 else (if qos < 0 then 1 else qos))
          retain) ∧
    (∀ pre m post, ms = pre ++ m :: post → (∀ y ∈ pre, ¬ y.up) → m.up →
      telemetryChain none ms =
        (m.ctx.prev, m.ctx.curr, m.uptime) :: telemetryChain (some m.ctx.curr) post) ∧
    List.Chain' (fun a b : Nat × Nat × Nat => b.1 = a.2.1) (telemetryChain none ms) ∧
    (telemetryChain none ms).map (fun x => (x.2.1, x.2.2)) =
      (ms.filter (fun m => decide m.up)).map (fun m => (m.ctx.curr, m.uptime)) := by
  have hne : (st != []) = true := by
    cases st with
    | nil => exact absurd rfl hst
    | cons c cs => rfl
  refine ⟨?_, ?_, ?_, (telemetryChain_linked ms none).1, telemetryChain_currs ms none⟩
  · exact esp_handleAll_chain st hst s0.core _ _ ms hu
      (s0.StatePublishTopic (some st) qos true retain true)
      (by simp only [StateMQEsp.StatePublishTopic, dupstr, if_true, hne, Bool.and_self])
      rfl rfl rfl rfl
  · exact esp32_handleAll_chain st hst
      (t0.StatePublishTopic (some st) qos true retain true).core _ _ ms hu
      (t0.StatePublishTopic (some st) qos true retain true)
      (by simp only [StateMQEsp32.StatePublishTopic, dupstr, if_true, hne, Bool.and_self])
      rfl rfl rfl rfl
  · intro pre m post hms hpre hm
    rw [hms, telemetryChain_skip none pre (m :: post) hpre]
    have hm2 : m.client ≠ none ∧ m.mqttConnected = true := hm
    simp only [telemetryChain, if_pos hm2]

/-- Witness of `telemetry_chain_continuity`: the example backends with telemetry on the
topic `"s"`; of the four notifications (connected, HELLO entered, session lost, HELLO
restored) the third is handled with the session down, and the message of the fourth has the
`curr` of the second as its `prev`. -/
theorem telemetry_chain_continuity_witness :
    topicS ≠ [] ∧
    ((exampleNode.StatePublishTopic (some topicS) 1 true true true).handleAll
      [noticeConnected, noticeHello, noticeOffline, noticeRestored]).2 =
      [ExtCall.publishState topicS OFFLINE_STATE CONNECTED_STATE 10 1 true,
       ExtCall.publishState topicS CONNECTED_STATE nameHello 20 1 true,
       ExtCall.publishState topicS nameHello nameHello 40 1 true] :=
  ⟨by decide,
    (telemetry_chain_continuity exampleNode exampleNode32 topicS 1 true
      [noticeConnected, noticeHello, noticeOffline, noticeRestored] (by decide)
      (by decide)).1⟩

/-! ## Agreement of the backend and the engine on connectivity -/

theorem setConnected_connected (n : StateMQ) (b : Bool) :
    (n.setConnected b).node.connected_ = b := by
  unfold StateMQ.setConnected
  exact (setStateId_frame _ _ _ _ _ _ _).2.2.2.1

theorem setConnected_rules (n : StateMQ) (b : Bool) :
    (n.setConnected b).node.rules = n.rules := by
  unfold StateMQ.setConnected
  exact (setStateId_frame _ _ _ _ _ _ _).1

theorem applyMessage_frame (n : StateMQ) (t p : Option CStr) :
    (n.applyMessage t p).2.node.rules = n.rules ∧
    (n.applyMessage t p).2.node.connected_ = n.connected_ := by
  unfold StateMQ.applyMessage
  cases t with
  | none => exact ⟨rfl, rfl⟩
  | some t =>
  cases p with
  | none => exact ⟨rfl, rfl⟩
  | some p =>
  simp only []
  cases matchRule t p n.rules 0 with
  | none => exact ⟨rfl, rfl⟩
  | some v =>
    exact ⟨(setStateId_frame _ _ _ _ _ _ _).1, (setStateId_frame _ _ _ _ _ _ _).2.2.2.1⟩

/-- Only `setConnected` changes the connectivity flag of the engine. -/
theorem step_connected_frame (n : StateMQ) (c : Call)
    (h : ∀ b, c ≠ Call.setConnected b) : (n.step c).connected_ = n.connected_ := by
  cases c with
  | map t m st =>
    simp only [StateMQ.step, StateMQ.map, StateMQ.addKnownState, StateMQ.isKnownState]
    repeat' split
    all_goals rfl
  | taskEvery nm per stk cb en =>
    simp only [StateMQ.step, StateMQ.taskEvery]
    repeat' split
    all_goals rfl
  | taskEveryEx nm per stk cb us en =>
    simp only [StateMQ.step, StateMQ.taskEveryEx]
    repeat' split
    all_goals rfl
  | taskEnable id en =>
    simp only [StateMQ.step, StateMQ.taskEnable]
    repeat' split
    all_goals rfl
  | onStateChange cb => rfl
  | onStateChangeEx cb us => rfl
  | applyMessage t p => exact (applyMessage_frame n t p).2
  | setConnected b => exact absurd rfl (h b)

theorem esp_taskEnable_connected (core : StateMQ) (hs : Option (List Ptr)) (id : Nat)
    (en : Bool) : (StateMQEsp.taskEnable core hs id en).2.1.connected_ = core.connected_ := by
  have h2 : (core.taskEnable id en).2.connected_ = core.connected_ := by
    simp only [StateMQ.taskEnable]
    split <;> rfl
  unfold StateMQEsp.taskEnable
  repeat' split
  all_goals first | rfl | exact h2

theorem esp_deliver_session (up : Nat) (cs : List CbCall) (s : StateMQEsp) :
    (StateMQEsp.deliver s up cs).1.mqttConnected = s.mqttConnected ∧
    (StateMQEsp.deliver s up cs).1.core = s.core := by
  have h1 := congrArg StateMQEsp.mqttConnected (esp_deliver_frame up cs s)
  have h2 := congrArg StateMQEsp.core (esp_deliver_frame up cs s)
  exact ⟨h1, h2⟩

theorem esp_withCore_session (s : StateMQEsp) (e : Effect) (up : Nat) :
    (s.withCore e up).1.mqttConnected = s.mqttConnected := by
  have h := congrArg StateMQEsp.mqttConnected (esp_withCore_frame s e up)
  exact h

/-- After `cleanup` the session flag of the backend and the flag of the engine are both
clear. -/
theorem esp_cleanup_session (s : StateMQEsp) (dw cc a : Bool) (up : Nat) :
    (s.cleanup dw cc a up).1.mqttConnected = false ∧
    (s.cleanup dw cc a up).1.core.connected_ = false := by
  have h1 := esp_withCore_session
    { s with client := none, wifiHasIp := false, mqttConnected := false }
    (s.core.setConnected false) up
  have h2 := esp_withCore_core
    { s with client := none, wifiHasIp := false, mqttConnected := false }
    (s.core.setConnected false) up
  have h3 := setConnected_connected s.core false
  cases cc with
  | false =>
    simp only [StateMQEsp.cleanup, Bool.false_eq_true, if_false]
    exact ⟨h1, by rw [h2]; exact h3⟩
  | true =>
    simp only [StateMQEsp.cleanup, if_true, StateMQEsp.freeQosOverrides,
      StateMQEsp.clearLastWill, StateMQEsp.StatePublishTopic]
    exact ⟨h1, by rw [h2]; exact h3⟩

/-- After `begin` the session flag of the backend and the flag of the engine are both
clear. -/
theorem esp_begin_session (s : StateMQEsp) (ssid pass uri : Option CStr) (env : BeginEnv)
    (up : Nat) :
    (s.begin ssid pass uri env up).2.1.mqttConnected = false ∧
    (s.begin ssid pass uri env up).2.1.core.connected_ = false := by
  have h0 := esp_cleanup_session s false false env.allocTopic up
  unfold StateMQEsp.begin
  cases ssid with
  | none => exact h0
  | some ssid =>
    cases uri with
    | none => exact h0
    | some uri =>
      simp only
      split_ifs
      · exact esp_cleanup_session _ false true _ up
      all_goals
        refine ⟨?_, ?_⟩
        · simp only [esp_withCore_session]
          exact h0.1
        · simp only [esp_withCore_core, StateMQ.onStateChangeEx]
          exact setConnected_connected _ false

/-- The calls that configure the backend leave the engine and the session flag alone. -/
theorem esp_subscribe_session (s : StateMQEsp) (t : Option CStr) (q : Int) (a : Bool) :
    (s.subscribe t q a).2.1.core = s.core ∧
    (s.subscribe t q a).2.1.mqttConnected = s.mqttConnected := by
  cases t with
  | none => exact ⟨rfl, rfl⟩
  | some t =>
    by_cases ht : t = []
    · subst ht
      exact ⟨rfl, rfl⟩
    · rcases hi : s.rawIndex (some t) with _ | i
      · by_cases hfull : s.raw.length ≥ StateMQEsp.MAX_RAW_SUBS
        · rw [esp_subscribe_full s t q a hi hfull]
          exact ⟨rfl, rfl⟩
        · obtain ⟨_, _, hfr⟩ := esp_subscribe_new s t q a ht hi hfull
          have h1 := congrArg StateMQEsp.core hfr
          have h2 := congrArg StateMQEsp.mqttConnected hfr
          exact ⟨h1, h2⟩
      · obtain ⟨_, _, hfr⟩ := esp_subscribe_existing s t q a i ht hi
        have h1 := congrArg StateMQEsp.core hfr
        have h2 := congrArg StateMQEsp.mqttConnected hfr
        exact ⟨h1, h2⟩

theorem esp_msg_session (s : StateMQEsp) (t : Option CStr) :
    (s.msg t).2.core = s.core ∧ (s.msg t).2.mqttConnected = s.mqttConnected := by
  unfold StateMQEsp.msg
  repeat' split
  all_goals exact ⟨rfl, rfl⟩

/-- A call other than `core.setConnected` by the application keeps the session flag of the
backend and the connectivity flag of the engine equal. -/
theorem esp_agree_step (s : StateMQEsp) (c : EspCall) (hc : c.overridesConnectivity = false)
    (h : s.core.connected_ = s.mqttConnected) :
    (s.step c).core.connected_ = (s.step c).mqttConnected := by
  cases c with
  | setKeepAliveSeconds sec => exact h
  | setDefaultSubscribeQos q => exact h
  | setDefaultPublishQos q => exact h
  | setLastWill t p q r a1 a2 =>
    simp only [StateMQEsp.step, StateMQEsp.setLastWill]
    repeat' split
    all_goals exact h
  | clearLastWill => exact h
  | subscribe t q a =>
    simp only [StateMQEsp.step]
    rw [(esp_subscribe_session s t q a).1, (esp_subscribe_session s t q a).2]
    exact h
  | msg t =>
    simp only [StateMQEsp.step]
    rw [(esp_msg_session s t).1, (esp_msg_session s t).2]
    exact h
  | StatePublishTopic t q e r a => exact h
  | begin ssid pass uri env up =>
    simp only [StateMQEsp.step]
    rw [(esp_begin_session s ssid pass uri env up).1, (esp_begin_session s ssid pass uri env up).2]
  | end_ dw a up =>
    simp only [StateMQEsp.step, StateMQEsp.end_]
    rw [(esp_cleanup_session s dw true a up).1, (esp_cleanup_session s dw true a up).2]
  | taskEnable id en =>
    simp only [StateMQEsp.step]
    rw [esp_taskEnable_connected]
    exact h
  | onWifiGotIp c ok =>
    simp only [StateMQEsp.step, StateMQEsp.onWifiGotIp, StateMQEsp.startMqttIfNeeded]
    repeat' split
    all_goals exact h
  | onWifiDisconnected up =>
    simp only [StateMQEsp.step, StateMQEsp.onWifiDisconnected, esp_withCore_core,
      esp_withCore_session, setConnected_connected]
  | onMqttConnected up =>
    simp only [StateMQEsp.step, StateMQEsp.onMqttConnected, esp_withCore_core,
      esp_withCore_session, setConnected_connected]
  | onMqttDisconnected up =>
    simp only [StateMQEsp.step, StateMQEsp.onMqttDisconnected, esp_withCore_core,
      esp_withCore_session, setConnected_connected]
  | onMqttData T P up =>
    simp only [StateMQEsp.step, StateMQEsp.onMqttData]
    split_ifs
    · exact h
    · split
      all_goals
        simp only [esp_withCore_core, esp_withCore_session]
        rw [(applyMessage_frame _ _ _).2]
        exact h
  | core c up =>
    simp only [StateMQEsp.step]
    rw [(esp_deliver_session up _ _).1, (esp_deliver_session up _ _).2]
    simp only
    rw [step_connected_frame s.core c]
    · exact h
    · intro b hb
      subst hb
      simp [EspCall.overridesConnectivity] at hc

theorem esp_agree_exec (cs : List EspCall) :
    ∀ s : StateMQEsp, (∀ c ∈ cs, c.overridesConnectivity = false) →
      s.core.connected_ = s.mqttConnected →
      (s.exec cs).core.connected_ = (s.exec cs).mqttConnected := by
  induction cs with
  | nil => intro s _ h; exact h
  | cons c cs ih =>
    intro s hcs h
    exact ih (s.step c) (fun x hx => hcs x (List.mem_cons_of_mem _ hx))
      (esp_agree_step s c (hcs c (List.mem_cons_self _ _)) h)

/-- The five events of the platform leave the rule table, the topics of the raw slots and
the QoS overrides as they are. -/
theorem esp_event_frame (s : StateMQEsp) (c : EspCall) (hc : c.isEvent = true) :
    (s.step c).core.rules = s.core.rules ∧
    (s.step c).raw.map RawSlot.topic = s.raw.map RawSlot.topic ∧
    (s.step c).qos = s.qos := by
  cases c with
  | onWifiGotIp c ok =>
    simp only [StateMQEsp.step, StateMQEsp.onWifiGotIp, StateMQEsp.startMqttIfNeeded]
    repeat' split
    all_goals exact ⟨rfl, rfl, rfl⟩
  | onWifiDisconnected up =>
    simp only [StateMQEsp.step, StateMQEsp.onWifiDisconnected, esp_withCore_core,
      esp_withCore_raw, esp_withCore_qos, setConnected_rules]
    exact ⟨trivial, trivial, trivial⟩
  | onMqttConnected up =>
    simp only [StateMQEsp.step, StateMQEsp.onMqttConnected, esp_withCore_core,
      esp_withCore_raw, esp_withCore_qos, setConnected_rules]
    exact ⟨trivial, trivial, trivial⟩
  | onMqttDisconnected up =>
    simp only [StateMQEsp.step, StateMQEsp.onMqttDisconnected, esp_withCore_core,
      esp_withCore_raw, esp_withCore_qos, setConnected_rules]
    exact ⟨trivial, trivial, trivial⟩
  | onMqttData T P up =>
    refine ⟨?_, esp_onMqttData_topics s T P up, ?_⟩
    · simp only [StateMQEsp.step, StateMQEsp.onMqttData]
      split_ifs
      · rfl
      · split
        all_goals
          simp only [esp_withCore_core]
          exact (applyMessage_frame _ _ _).1
    · simp only [StateMQEsp.step, StateMQEsp.onMqttData]
      split_ifs
      · rfl
      · split
        all_goals
          simp only [esp_withCore_qos]
  | setKeepAliveSeconds sec => cases hc
  | setDefaultSubscribeQos q => cases hc
  | setDefaultPublishQos q => cases hc
  | setLastWill t p q r a1 a2 => cases hc
  | clearLastWill => cases hc
  | subscribe t q a => cases hc
  | msg t => cases hc
  | StatePublishTopic t q e r a => cases hc
  | begin ssid pass uri env up => cases hc
  | end_ dw a up => cases hc
  | taskEnable id en => cases hc
  | core c up => cases hc

/-- Under the agreement of the two flags, on an engine that the interface can produce, the
backend is disconnected exactly when the engine reports `OFFLINE_ID`. -/
theorem esp_agree_offline (s : StateMQEsp) (hr : Reachable s.core)
    (h : s.core.connected_ = s.mqttConnected) :
    (s.connected = false → s.core.stateId = OFFLINE_ID) ∧
    (s.connected = true → s.core.stateId ≠ OFFLINE_ID) := by
  have hi := reachable_inv _ hr
  rw [stateId_eq_of_inv _ hi]
  unfold StateMQEsp.connected
  rw [← h]
  refine ⟨fun hc => (hi.offline_iff).2 hc, fun hc e => ?_⟩
  have := (hi.offline_iff).1 e
  rw [hc] at this
  cases this

/-! ## The claim on the agreement of backend and engine -/

/-- Claim C34. The backend and the engine agree on connectivity (ESP-IDF backend): from a
freshly constructed backend on a freshly constructed engine, after every sequence of calls
of the backend and events of the platform (got-address, link down, session established,
session lost, message arrived) in which the application does not call `core.setConnected`
itself, the engine's `connected()` equals the backend's `connected()`, and the engine
reports `OFFLINE_ID` exactly when they are false; after a link-down or a session-lost event
both are false and `stateId()` is `OFFLINE_ID`; after a session-established event both are
true and `stateId()` is not `OFFLINE_ID`; and none of the five events changes the rule
table, the topics of the raw slots or the QoS overrides. -/
theorem supervisor_engine_agree (s : StateMQEsp) (cs : List EspCall)
    (hs : (StateMQEsp.ctor StateMQ.ctor).exec cs = s)
    (hcs : ∀ c ∈ cs, c.overridesConnectivity = false) :
    s.core.connected = s.connected ∧
    (s.connected = false → s.core.stateId = OFFLINE_ID) ∧
    (s.connected = true → s.core.stateId ≠ OFFLINE_ID) ∧
    (∀ up, (s.step (EspCall.onWifiDisconnected up)).connected = false ∧
      (s.step (EspCall.onWifiDisconnected up)).core.connected = false ∧
      (s.step (EspCall.onWifiDisconnected up)).core.stateId = OFFLINE_ID) ∧
    (∀ up, (s.step (EspCall.onMqttDisconnected up)).connected = false ∧
      (s.step (EspCall.onMqttDisconnected up)).core.connected = false ∧
      (s.step (EspCall.onMqttDisconnected up)).core.stateId = OFFLINE_ID) ∧
    (∀ up, (s.step (EspCall.onMqttConnected up)).connected = true ∧
      (s.step (EspCall.onMqttConnected up)).core.connected = true ∧
      (s.step (EspCall.onMqttConnected up)).core.stateId ≠ OFFLINE_ID) ∧
    (∀ c, c.isEvent = true →
      (s.step c).core.connected = (s.step c).connected ∧
      (s.step c).core.rules = s.core.rules ∧
      (s.step c).raw.map RawSlot.topic = s.raw.map RawSlot.topic ∧
      (s.step c).qos = s.qos) := by
  have hr : s.Reachable := ⟨cs, hs⟩
  have hag : s.core.connected_ = s.mqttConnected := by
    rw [← hs]
    exact esp_agree_exec cs _ hcs rfl
  have hoff := esp_agree_offline s (reachable_invEsp s hr).engine hag
  have hstep : ∀ c : EspCall, c.overridesConnectivity = false →
      (s.step c).core.connected_ = (s.step c).mqttConnected ∧
      ((s.step c).connected = false → (s.step c).core.stateId = OFFLINE_ID) ∧
      ((s.step c).connected = true → (s.step c).core.stateId ≠ OFFLINE_ID) := by
    intro c hc
    have h1 := esp_agree_step s c hc hag
    exact ⟨h1, esp_agree_offline _ (reachable_invEsp _ (reachableEsp_step s c hr)).engine h1⟩
  refine ⟨hag, hoff.1, hoff.2, ?_, ?_, ?_, ?_⟩
  · intro up
    obtain ⟨h1, h2, _⟩ := hstep (EspCall.onWifiDisconnected up) rfl
    have hf : (s.step (EspCall.onWifiDisconnected up)).connected = false := by
      simp only [StateMQEsp.step, StateMQEsp.onWifiDisconnected, StateMQEsp.connected,
        esp_withCore_session]
    refine ⟨hf, ?_, h2 hf⟩
    unfold StateMQ.connected
    rw [h1]
    exact hf
  · intro up
    obtain ⟨h1, h2, _⟩ := hstep (EspCall.onMqttDisconnected up) rfl
    have hf : (s.step (EspCall.onMqttDisconnected up)).connected = false := by
      simp only [StateMQEsp.step, StateMQEsp.onMqttDisconnected, StateMQEsp.connected,
        esp_withCore_session]
    refine ⟨hf, ?_, h2 hf⟩
    unfold StateMQ.connected
    rw [h1]
    exact hf
  · intro up
    obtain ⟨h1, _, h3⟩ := hstep (EspCall.onMqttConnected up) rfl
    have hf : (s.step (EspCall.onMqttConnected up)).connected = true := by
      simp only [StateMQEsp.step, StateMQEsp.onMqttConnected, StateMQEsp.connected,
        esp_withCore_session]
    refine ⟨hf, ?_, h3 hf⟩
    unfold StateMQ.connected
    rw [h1]
    exact hf
  · intro c hc
    have hnc : c.overridesConnectivity = false := by
      cases c <;> first | rfl | cases hc
    exact ⟨(hstep c hnc).1, esp_event_frame s c hc⟩

/-- Witness of `supervisor_engine_agree`: the backend of the example application once the
client exists. -/
theorem supervisor_engine_agree_witness :
    exampleNode.core.connected = exampleNode.connected ∧
    (exampleNode.step (EspCall.onMqttConnected 7)).connected = true ∧
    (exampleNode.step (EspCall.onMqttConnected 7)).core.stateId ≠ OFFLINE_ID :=
  ⟨(supervisor_engine_agree exampleNode
      ((exampleSetup.map (fun c => EspCall.core c 0)) ++
       [EspCall.subscribe (some topicS) 1 true,
        EspCall.subscribe (some topicA) 2 true,
        EspCall.begin (some topicA) none (some topicB) envOk 0,
        EspCall.onWifiGotIp (some 5) true]) rfl (by decide)).1,
   ((supervisor_engine_agree exampleNode
      ((exampleSetup.map (fun c => EspCall.core c 0)) ++
       [EspCall.subscribe (some topicS) 1 true,
        EspCall.subscribe (some topicA) 2 true,
        EspCall.begin (some topicA) none (some topicB) envOk 0,
        EspCall.onWifiGotIp (some 5) true]) rfl (by decide)).2.2.2.2.2.1 7).1,
   ((supervisor_engine_agree exampleNode
      ((exampleSetup.map (fun c => EspCall.core c 0)) ++
       [EspCall.subscribe (some topicS) 1 true,
        EspCall.subscribe (some topicA) 2 true,
        EspCall.begin (some topicA) none (some topicB) envOk 0,
        EspCall.onWifiGotIp (some 5) true]) rfl (by decide)).2.2.2.2.2.1 7).2.2⟩

/-! ## The claim on the reset of the backoff -/

theorem esp32_withCore_fields (s : StateMQEsp32) (e : Effect) (up : Nat) :
    (s.withCore e up).1.backoffMs = s.backoffMs ∧
    (s.withCore e up).1.mqttConnected = s.mqttConnected ∧
    (s.withCore e up).1.mqtt = s.mqtt := by
  have h1 := congrArg StateMQEsp32.backoffMs (esp32_withCore_frame s e up)
  have h2 := congrArg StateMQEsp32.mqttConnected (esp32_withCore_frame s e up)
  have h3 := congrArg StateMQEsp32.mqtt (esp32_withCore_frame s e up)
  exact ⟨h1, h2, h3⟩

set_option maxRecDepth 100000 in
/-- Counterexample to claim C31: on the Arduino backend of the example application, after
one reconnect attempt (the tick at 100 ms, which doubles `backoffMs` to 4000) and the
session-established event at 200 ms, the session flag is set and `backoffMs` is still 4000,
not 2000; the session-lost event that arrives next, at 300 ms and before any tick, sets
`nextTryMs` to 4300, not to 2300. -/
theorem backoff_not_reset_by_event :
    exampleNode32.backoffMs = 2000 ∧
    (exampleNode32.reconnectLoop 100 true).1.backoffMs = 4000 ∧
    flappingNode32.mqttConnected = true ∧ flappingNode32.backoffMs = 4000 ∧
    (flappingNode32.onMqttEvent (some MqttEvent.disconnected) 300).1.nextTryMs = 4300 := by
  decide

/-- Claim C31, amended. On the Arduino backend, in every state, the session-established
event leaves `backoffMs` as it is; the first supervisor tick with the link up that follows
the event sets `backoffMs` to 2000 and `nextTryMs` to 0; a session-lost event that arrives
before any tick schedules the retry at `now` plus the unchanged `backoffMs`, and one that
arrives after that tick at `now + 2000` (on 32 bits). -/
theorem backoff_reset_by_tick (s : StateMQEsp32) (now now2 now3 : Nat) :
    (s.onMqttEvent (some MqttEvent.connected) now).1.backoffMs = s.backoffMs ∧
    ((s.onMqttEvent (some MqttEvent.connected) now).1.reconnectLoop now2 true).1.backoffMs
      = 2000 ∧
    ((s.onMqttEvent (some MqttEvent.connected) now).1.reconnectLoop now2 true).1.nextTryMs
      = 0 ∧
    ((s.onMqttEvent (some MqttEvent.connected) now).1.onMqttEvent
      (some MqttEvent.disconnected) now3).1.nextTryMs = (now3 + s.backoffMs) % UINT32_MOD ∧
    (((s.onMqttEvent (some MqttEvent.connected) now).1.reconnectLoop now2 true).1.onMqttEvent
      (some MqttEvent.disconnected) now3).1.nextTryMs = (now3 + 2000) % UINT32_MOD := by
  have hb : (s.onMqttEvent (some MqttEvent.connected) now).1.backoffMs = s.backoffMs := by
    simp only [StateMQEsp32.onMqttEvent, (esp32_withCore_fields _ _ _).1]
  have hc : (s.onMqttEvent (some MqttEvent.connected) now).1.mqttConnected = true := by
    simp only [StateMQEsp32.onMqttEvent, (esp32_withCore_fields _ _ _).2.1]
  have hd : ∀ t : StateMQEsp32,
      (t.onMqttEvent (some MqttEvent.disconnected) now3).1.nextTryMs =
        (now3 + t.backoffMs) % UINT32_MOD := by
    intro t
    simp only [StateMQEsp32.onMqttEvent, (esp32_withCore_fields _ _ _).1]
  have ht : ∀ t : StateMQEsp32, t.mqttConnected = true →
      (t.reconnectLoop now2 true).1.backoffMs = 2000 ∧
      (t.reconnectLoop now2 true).1.nextTryMs = 0 := by
    intro t h
    simp only [StateMQEsp32.reconnectLoop, h, or_true, Bool.not_true, Bool.false_eq_true,
      if_false, if_true, and_self]
  refine ⟨hb, (ht _ hc).1, (ht _ hc).2, ?_, ?_⟩
  · rw [hd, hb]
  · rw [hd, (ht _ hc).1]

/-! ## The claim on the retain flag of telemetry -/

/-- Every message that the handler of the ESP-IDF backend publishes carries the member
`retainState` as its retain flag. -/
theorem esp_trampoline_retain (u : StateMQEsp) (ctx : StateChangeCtx) (up : Nat) :
    ∀ c ∈ (u.on_state_change_trampoline ctx up).2,
      ∃ st p n, c = ExtCall.publishState st p n up
        (clamp_qos (if u.statePubQos < 0 then u.defaultPubQos else u.statePubQos))
        u.retainState := by
  intro c hc
  simp only [StateMQEsp.on_state_change_trampoline] at hc
  cases hu : ctx.user with
  | none => rw [hu] at hc; cases hc
  | some v =>
    rw [hu] at hc
    simp only [] at hc
    cases he : u.statePubEnabled with
    | false => simp [he] at hc
    | true =>
      simp only [he, Bool.not_true, Bool.false_eq_true, if_false] at hc
      cases ht : u.stateTopic with
      | none => rw [ht] at hc; cases hc
      | some st =>
        rw [ht] at hc
        simp only [] at hc
        by_cases hst : st = []
        · simp [hst] at hc
        · simp only [if_neg hst] at hc
          by_cases hg : u.client = none ∨ u.mqttConnected = false
          · simp only [if_pos hg] at hc
            cases hc
          · simp only [if_neg hg, List.mem_singleton] at hc
            exact ⟨_, _, _, hc⟩

set_option maxRecDepth 100000 in
/-- Claim C39 fails on the code. On the ESP-IDF backend on which
`StatePublishTopic("s", 1, true, false)` was called, with `retain` false, the telemetry
message of the first connection is published with QoS 1 and with `retain` true, while the
Arduino backend publishes the same message with `retain` false; and in every state the
handler of the ESP-IDF backend publishes with the member `retainState`, which
`StatePublishTopic` does not write, whatever the stored argument `statePubRetain` is. -/
theorem esp_retain_ignored :
    retainOffNode.statePubRetain = false ∧
    (retainOffNode.onMqttConnected 7).2 =
      [ExtCall.publishState topicS OFFLINE_STATE CONNECTED_STATE 7 1 true] ∧
    (retainOffNode32.onMqttEvent (some MqttEvent.connected) 7).2 =
      [ExtCall.publishState topicS OFFLINE_STATE CONNECTED_STATE 7 1 false] ∧
    (∀ (s : StateMQEsp) (t : Option CStr) (q : Int) (e r a : Bool) (ctx : StateChangeCtx)
        (up : Nat),
      (s.StatePublishTopic t q e r a).retainState = s.retainState ∧
      (s.StatePublishTopic t q e r a).statePubRetain = r ∧
      ∀ c ∈ ((s.StatePublishTopic t q e r a).on_state_change_trampoline ctx up).2,
        ∃ st p n, c = ExtCall.publishState st p n up
          (clamp_qos (if q < 0 then s.defaultPubQos else q)) s.retainState) := by
  refine ⟨by decide, by decide, by decide, ?_⟩
  intro s t q e r a ctx up
  refine ⟨rfl, rfl, ?_⟩
  exact esp_trampoline_retain (s.StatePublishTopic t q e r a) ctx up

end statemq
